import Mathlib

/-!
# Mesh collision core of ubODE-OpenSim: embedding and verified properties

Shallow embedding of the OPCODE no-leaf AABB tree (`OPC_OptimizedTree.cpp`),
the ray/triangle test (`OPC_RayTriOverlap.h`), the tree-vs-tree query on
no-leaf trees (`OPC_TreeCollider.cpp`) and the contact-buffer control flow of
the box, capsule and ray mesh colliders (`collision_trimesh_box.cpp`,
`collision_trimesh_capsule.cpp`, `collision_trimesh_ray.cpp`), of the
quadtree space (`collision_quadtreespace.cpp`), of the separating-axis test
and the clipping of the box collider, of the edge clipping of the capsule
collider, and of the point distance helpers of `odemath.h`.

Conventions
* `float` / `dReal` values are idealised as exact rationals (`ℚ`); the ray/triangle test
  is embedded a second time in binary32 arithmetic (`F32`), where rounding, infinities and
  NaN are kept.
* `udword` values are naturals reduced modulo `2 ^ 32` where the source
  computes in 32 bits.
* Failing assertions, null or dangling dereferences and out-of-bounds accesses
  are reported as `none`.
* Node pointers are addresses: element `i` of an array at address `base` with
  elements of `sz` bytes has address `base + sz * i`.
* Recursion over node pointers is bounded by a `fuel` argument; the results
  are proved to be reached with enough fuel on arrays with forward references.
* Floating-point geometry that the control-flow properties do not depend on
  (overlap tests, normalisation, clipping) enters as oracle arguments; the
  separating-axis test and the clipping are embedded in exact arithmetic for
  the properties that are about them.
* Functions and constants that the sources use but do not define (`dEpsilon`,
  `dRecipSqrt`, `dNormalize3`, `testCollideAABBs`, the size of `dVector3`) are
  parameters.
* Block pointers of the quadtree space are indices into its block array and
  geom pointers are indices into a list of geoms; a local list is the chain of
  `next_ex` links from `mFirst`.
-/

namespace Opcode

/-! ## Part I. Definitions -/

/-! ### Points (IcePoint.h operators used by the embedded code) -/

/-- Point of three exact coordinates. -/
structure Point where
  x : ℚ
  y : ℚ
  z : ℚ
deriving DecidableEq

namespace Point

/-- Operator `a - b` on points. -/
def sub (a b : Point) : Point := ⟨a.x - b.x, a.y - b.y, a.z - b.z⟩

/-- Operator `a + b` on points. -/
def add (a b : Point) : Point := ⟨a.x + b.x, a.y + b.y, a.z + b.z⟩

/-- Operator `a * s` (scaling by a scalar). -/
def scale (a : Point) (s : ℚ) : Point := ⟨a.x * s, a.y * s, a.z * s⟩

/-- Operator `a ^ b` (cross product). -/
def cross (a b : Point) : Point :=
  ⟨a.y * b.z - a.z * b.y, a.z * b.x - a.x * b.z, a.x * b.y - a.y * b.x⟩

/-- Operator `a | b` (dot product). -/
def dot (a b : Point) : ℚ := a.x * b.x + a.y * b.y + a.z * b.z

/-- Squared length `SquareMagnitude()`. -/
def SquareMagnitude (a : Point) : ℚ := a.x * a.x + a.y * a.y + a.z * a.z

end Point

/-- Two-argument minimum `FCMin2` of IceFPU.h. -/
def FCMin2 (a b : ℚ) : ℚ := if a < b then a else b

/-! ### Boxes (OPC_Common.h) -/

/-- Center/extents box `CollisionAABB`. -/
structure CollisionAABB where
  mCenter : Point
  mExtents : Point
deriving DecidableEq

/-- Method `CollisionAABB::GetMin(Point&)`. -/
def CollisionAABB.GetMin (b : CollisionAABB) : Point := b.mCenter.sub b.mExtents

/-- Method `CollisionAABB::GetMax(Point&)`. -/
def CollisionAABB.GetMax (b : CollisionAABB) : Point := b.mCenter.add b.mExtents

/-- Method `CollisionAABB::SetMinMax`: the box it leaves in `*this`. -/
def CollisionAABB.SetMinMax (min max : Point) : CollisionAABB :=
  { mCenter := (max.add min).scale (1 / 2), mExtents := (max.sub min).scale (1 / 2) }

/-- Three-argument `MinMax` of IceFPU.h: the pair `(min, max)` it stores. -/
def MinMax (a b c : ℚ) : ℚ × ℚ :=
  if a > b then
    if b > c then (c, a)
    else (b, if a > c then a else c)
  else
    if c > b then (a, c)
    else (if a < c then a else c, b)

/-! ### Generic AABB tree (input of the builder) -/

/-- Modelled from the spec: the generic box `AABB` read through `GetCenter` / `GetExtents`
(IceAABB.h is not among the sources): "axis-aligned bounding box, stored as center +
half-extents". -/
structure AABB where
  mCenter : Point
  mExtents : Point
deriving DecidableEq

/-- Modelled from the spec: node of the generic AABB binary tree (`AABBTreeNode`, declared in
OPC_AABBTree.h which is not among the sources): a node has either no child (a leaf) or a
positive and a negative child; every node carries a box and the primitive indices below it. -/
inductive AABBTreeNode where
  | leaf (mBV : AABB) (mNodePrimitives : List Nat)
  | node (mBV : AABB) (mNodePrimitives : List Nat) (pos neg : AABBTreeNode)
deriving DecidableEq

namespace AABBTreeNode

/-- Accessor `GetAABB()`. -/
def GetAABB : AABBTreeNode → AABB
  | leaf b _ => b
  | node b _ _ _ => b

/-- Accessor `IsLeaf()`: no positive child. -/
def IsLeaf : AABBTreeNode → Bool
  | leaf _ _ => true
  | node _ _ _ _ => false

/-- Accessor `GetPrimitives()`. -/
def GetPrimitives : AABBTreeNode → List Nat
  | leaf _ ps => ps
  | node _ ps _ _ => ps

/-- Accessor `GetNbPrimitives()`. -/
def GetNbPrimitives (n : AABBTreeNode) : Nat := n.GetPrimitives.length

/-- Number of nodes of the subtree. -/
def nodeCount : AABBTreeNode → Nat
  | leaf _ _ => 1
  | node _ _ p n => 1 + p.nodeCount + n.nodeCount

/-- Number of leaves of the subtree. -/
def leafCount : AABBTreeNode → Nat
  | leaf _ _ => 1
  | node _ _ p n => p.leafCount + n.leafCount

/-- Number of internal (non-leaf) nodes of the subtree. -/
def internalCount : AABBTreeNode → Nat
  | leaf _ _ => 0
  | node _ _ p n => 1 + p.internalCount + n.internalCount

/-- Every leaf carries exactly one primitive index ("the input tree must be complete"). -/
def OnePrimPerLeaf : AABBTreeNode → Prop
  | leaf _ ps => ps.length = 1
  | node _ _ p n => p.OnePrimPerLeaf ∧ n.OnePrimPerLeaf

/-- Primitive indices carried by the leaves, positive side first. -/
def leafPrims : AABBTreeNode → List Nat
  | leaf _ ps => ps
  | node _ _ p n => p.leafPrims ++ n.leafPrims

/-- Boxes of the internal nodes in depth-first pre-order (node, positive subtree, negative
subtree). -/
def preorderBoxes : AABBTreeNode → List AABB
  | leaf _ _ => []
  | node b _ p n => b :: (p.preorderBoxes ++ n.preorderBoxes)

end AABBTreeNode

/-- Modelled from the spec: the generic tree `AABBTree` (OPC_AABBTree.h is not among the
sources): its root node (whose primitive count is the mesh's primitive count) and the stored
total number of nodes. -/
structure AABBTree where
  root : AABBTreeNode
  mTotalNbNodes : Nat
deriving DecidableEq

/-- Accessor `GetNbPrimitives()` of the tree (the root node's count). -/
def AABBTree.GetNbPrimitives (t : AABBTree) : Nat := t.root.GetNbPrimitives

/-- Accessor `GetNbNodes()`. -/
def AABBTree.GetNbNodes (t : AABBTree) : Nat := t.mTotalNbNodes

/-! ### No-leaf tree (OPC_OptimizedTree.cpp) -/

/-- Modelled from the spec: `AABBNoLeafNode` (declared in OPC_OptimizedTree.h, which is not
among the sources): a center/extents box and two tagged child references; "bit 0 = 1: remaining
bits are a triangle (primitive) index; bit 0 = 0: remaining bits identify another internal node
in the same array" (the node's address, written unshifted). -/
structure AABBNoLeafNode where
  mAABB : CollisionAABB
  mPosData : Nat
  mNegData : Nat
deriving DecidableEq

namespace AABBNoLeafNode

/-- Accessor `HasPosLeaf()`: `mPosData & 1`. -/
def HasPosLeaf (n : AABBNoLeafNode) : Bool := n.mPosData &&& 1 != 0

/-- Accessor `HasNegLeaf()`: `mNegData & 1`. -/
def HasNegLeaf (n : AABBNoLeafNode) : Bool := n.mNegData &&& 1 != 0

/-- Accessor `GetPosPrimitive()`: `udword(mPosData >> 1)`. -/
def GetPosPrimitive (n : AABBNoLeafNode) : Nat := (n.mPosData >>> 1) % 2 ^ 32

/-- Accessor `GetNegPrimitive()`: `udword(mNegData >> 1)`. -/
def GetNegPrimitive (n : AABBNoLeafNode) : Nat := (n.mNegData >>> 1) % 2 ^ 32

/-- Accessor `GetPos()`: the word read as a node pointer. -/
def GetPos (n : AABBNoLeafNode) : Nat := n.mPosData

/-- Accessor `GetNeg()`: the word read as a node pointer. -/
def GetNeg (n : AABBNoLeafNode) : Nat := n.mNegData

/-- Element left by `new AABBNoLeafNode[n]` (null references; box coordinates taken as 0). -/
def fresh : AABBNoLeafNode := ⟨⟨⟨0, 0, 0⟩, ⟨0, 0, 0⟩⟩, 0, 0⟩

end AABBNoLeafNode

/-- An allocated array of nodes: the address of element 0 and the elements. -/
structure NodeArray where
  base : Nat
  cells : List AABBNoLeafNode
deriving DecidableEq

/-- Address `(size_t)&linear[i]` for elements of `sz` bytes. -/
def NodeArray.addr (sz : Nat) (a : NodeArray) (i : Nat) : Nat := a.base + sz * i

/-- Index of the element a node pointer designates; `none` for a pointer that is not the
address of an element of the array. -/
def NodeArray.index? (sz : Nat) (a : NodeArray) (p : Nat) : Option Nat :=
  if a.base ≤ p ∧ 0 < sz ∧ (p - a.base) % sz = 0 ∧ (p - a.base) / sz < a.cells.length then
    some ((p - a.base) / sz)
  else none

/-- Dereference of a node pointer. -/
def NodeArray.deref (sz : Nat) (a : NodeArray) (p : Nat) : Option AABBNoLeafNode :=
  match a.index? sz p with
  | none => none
  | some i => a.cells[i]?

/-- Running state of `_BuildNoLeafTree`: the destination array `linear`, the running index
`current_id` (passed by reference) and, as a record of the run, the destination slot of every
call in order. -/
structure BuildState where
  linear : NodeArray
  current_id : Nat
  written : List Nat
deriving DecidableEq

/-- Store into `linear[box_id]`; `none` when the slot is outside the array. -/
def BuildState.store (s : BuildState) (box_id : Nat) (f : AABBNoLeafNode → AABBNoLeafNode) :
    Option BuildState :=
  match s.linear.cells[box_id]? with
  | none => none
  | some c => some { s with linear := { s.linear with cells := s.linear.cells.set box_id (f c) } }

/-- Function `_BuildNoLeafTree(linear, box_id, current_id, current_node)`; `none` when an
assertion fails or a store leaves the array. -/
def _BuildNoLeafTree (sz : Nat) : AABBTreeNode → Nat → BuildState → Option BuildState
  | .leaf _ _, _, _ => none
  | .node bv _ P N, box_id, s0 =>
    match s0.store box_id (fun c => { c with mAABB := ⟨bv.mCenter, bv.mExtents⟩ }) with
    | none => none
    | some s1 =>
      let s1 := { s1 with written := s1.written ++ [box_id] }
      let afterPos : Option BuildState :=
        if P.IsLeaf then
          if P.GetNbPrimitives ≠ 1 then none
          else
            match P.GetPrimitives[0]? with
            | none => none
            | some PrimitiveIndex =>
              s1.store box_id (fun c => { c with mPosData := ((PrimitiveIndex <<< 1) % 2 ^ 32) ||| 1 })
        else
          let PosID := s1.current_id
          let s2 := { s1 with current_id := (s1.current_id + 1) % 2 ^ 32 }
          match s2.store box_id (fun c => { c with mPosData := s2.linear.addr sz PosID }) with
          | none => none
          | some s3 =>
            if s3.linear.addr sz PosID &&& 1 ≠ 0 then none
            else _BuildNoLeafTree sz P PosID s3
      match afterPos with
      | none => none
      | some s4 =>
        if N.IsLeaf then
          if N.GetNbPrimitives ≠ 1 then none
          else
            match N.GetPrimitives[0]? with
            | none => none
            | some PrimitiveIndex =>
              s4.store box_id (fun c => { c with mNegData := ((PrimitiveIndex <<< 1) % 2 ^ 32) ||| 1 })
        else
          let NegID := s4.current_id
          let s5 := { s4 with current_id := (s4.current_id + 1) % 2 ^ 32 }
          match s5.store box_id (fun c => { c with mNegData := s5.linear.addr sz NegID }) with
          | none => none
          | some s6 =>
            if s6.linear.addr sz NegID &&& 1 ≠ 0 then none
            else _BuildNoLeafTree sz N NegID s6

/-- The members of `AABBNoLeafTree`: `mNbNodes` and the pointer `mNodes` (`none` = null). -/
structure AABBNoLeafTree where
  mNbNodes : Nat
  mNodes : Option NodeArray
deriving DecidableEq

/-- Lines 322-327 of `AABBNoLeafTree::Build`: run `_BuildNoLeafTree(mNodes, 0, CurID, tree)`
with `CurID = 1`, check `ASSERT(CurID==mNbNodes)` and return true. -/
def AABBNoLeafTree.buildNodes (sz : Nat) (t : AABBNoLeafTree) (tree : AABBTree) :
    Option (Bool × AABBNoLeafTree) :=
  match t.mNodes with
  | none => none
  | some linear =>
    match _BuildNoLeafTree sz tree.root 0 ⟨linear, 1, []⟩ with
    | none => none
    | some s =>
      if s.current_id ≠ t.mNbNodes then none
      else some (true, { t with mNodes := some s.linear })

/-- Method `AABBNoLeafTree::Build(tree)`. `tree = none` is the null pointer; `alloc` is what
`new AABBNoLeafNode[mNbNodes]` returns if it is reached (the address of the new array, or
`none` when the allocation fails). The result is `none` when an assertion fails or memory
outside the array is accessed. -/
def AABBNoLeafTree.Build (sz : Nat) (t : AABBNoLeafTree) (tree : Option AABBTree)
    (alloc : Option Nat) : Option (Bool × AABBNoLeafTree) :=
  match tree with
  | none => some (false, t)
  | some tree =>
    let NbTriangles := tree.GetNbPrimitives
    let NbNodes := tree.GetNbNodes
    if NbNodes ≠ (NbTriangles * 2 + (2 ^ 32 - 1)) % 2 ^ 32 then some (false, t)
    else
      if t.mNbNodes ≠ (NbTriangles + (2 ^ 32 - 1)) % 2 ^ 32 then
        let mNbNodes := (NbTriangles + (2 ^ 32 - 1)) % 2 ^ 32
        match alloc with
        | none => some (false, { mNbNodes := mNbNodes, mNodes := none })
        | some base =>
          AABBNoLeafTree.buildNodes sz
            { mNbNodes := mNbNodes,
              mNodes := some ⟨base, List.replicate mNbNodes AABBNoLeafNode.fresh⟩ } tree
      else AABBNoLeafTree.buildNodes sz t tree

/-- Local function `_Walk` of `AABBNoLeafTree::Walk`, with a callback that accepts every node:
the indices of the nodes handed to the callback, in order. `fuel` bounds the recursion depth;
the result is `none` when the fuel runs out or a pointer does not designate a node. -/
def AABBNoLeafTree._Walk (sz : Nat) (a : NodeArray) : Nat → Nat → Option (List Nat)
  | 0, _ => none
  | fuel + 1, current_node =>
    if current_node = 0 then some []
    else
      match a.index? sz current_node with
      | none => none
      | some i =>
        match a.cells[i]? with
        | none => none
        | some c =>
          match (if !c.HasPosLeaf then AABBNoLeafTree._Walk sz a fuel c.GetPos else some []) with
          | none => none
          | some l1 =>
            match (if !c.HasNegLeaf then AABBNoLeafTree._Walk sz a fuel c.GetNeg else some []) with
            | none => none
            | some l2 => some (i :: (l1 ++ l2))

/-- Method `AABBNoLeafTree::Walk` with a non-null callback that accepts every node. -/
def AABBNoLeafTree.Walk (sz : Nat) (t : AABBNoLeafTree) (fuel : Nat) : Option (List Nat) :=
  match t.mNodes with
  | none => some []
  | some a => AABBNoLeafTree._Walk sz a fuel a.base

/-- Primitive indices held by the leaf-tagged references (LSB = 1) of a node, read with
`GetPosPrimitive` / `GetNegPrimitive`. -/
def AABBNoLeafNode.leafPayloads (c : AABBNoLeafNode) : List Nat :=
  (if c.HasPosLeaf then [c.GetPosPrimitive] else []) ++
  (if c.HasNegLeaf then [c.GetNegPrimitive] else [])

/-- Primitive indices met at the nodes of a walk. -/
def NodeArray.walkedPrims (a : NodeArray) (visited : List Nat) : List Nat :=
  visited.flatMap (fun i => match a.cells[i]? with
    | none => []
    | some c => c.leafPayloads)

/-! ### Proof devices for the builder -/

/-- Tagged word the builder stores for a child placed (if internal) at `slot`. -/
def childRef (sz base : Nat) (c : AABBTreeNode) (slot : Nat) : Nat :=
  match c with
  | .leaf _ ps => ((ps.headD 0 <<< 1) % 2 ^ 32) ||| 1
  | .node _ _ _ _ => base + sz * slot

/-- Pre-order image of a subtree whose root is placed at slot `b` of an array at `base`. -/
def flatten (sz base : Nat) : AABBTreeNode → Nat → List AABBNoLeafNode
  | .leaf _ _, _ => []
  | .node bv _ P N, b =>
    { mAABB := ⟨bv.mCenter, bv.mExtents⟩,
      mPosData := childRef sz base P (b + 1),
      mNegData := childRef sz base N (b + 1 + P.internalCount) } ::
      (flatten sz base P (b + 1) ++ flatten sz base N (b + 1 + P.internalCount))

/-- The treatment of one child in `_BuildNoLeafTree` (the `if(P->IsLeaf()) ... else ...` block),
with `setData` the store into `mPosData` or `mNegData`. -/
def childStep (sz : Nat) (setData : Nat → AABBNoLeafNode → AABBNoLeafNode)
    (C : AABBTreeNode) (box_id : Nat) (s1 : BuildState) : Option BuildState :=
  if C.IsLeaf then
    if C.GetNbPrimitives ≠ 1 then none
    else
      match C.GetPrimitives[0]? with
      | none => none
      | some PrimitiveIndex =>
        s1.store box_id (setData (((PrimitiveIndex <<< 1) % 2 ^ 32) ||| 1))
  else
    let PosID := s1.current_id
    let s2 := { s1 with current_id := (s1.current_id + 1) % 2 ^ 32 }
    match s2.store box_id (setData (s2.linear.addr sz PosID)) with
    | none => none
    | some s3 =>
      if s3.linear.addr sz PosID &&& 1 ≠ 0 then none
      else _BuildNoLeafTree sz C PosID s3

/-- State after a store into an existing slot. -/
def BuildState.put (s : BuildState) (b : Nat) (f : AABBNoLeafNode → AABBNoLeafNode) :
    BuildState :=
  { s with linear := { s.linear with
      cells := s.linear.cells.set b (f (s.linear.cells.getD b AABBNoLeafNode.fresh)) } }

/-- What a run of `_BuildNoLeafTree` on an internal node does. -/
structure BuildsTo (sz : Nat) (n : AABBTreeNode) (b : Nat) (s s' : BuildState) : Prop where
  cur : s'.current_id = b + n.internalCount
  log : s'.written = s.written ++ List.range' b n.internalCount
  base : s'.linear.base = s.linear.base
  len : s'.linear.cells.length = s.linear.cells.length
  frame : ∀ j, j < b ∨ b + n.internalCount ≤ j → s'.linear.cells[j]? = s.linear.cells[j]?
  image : ∀ j, j < n.internalCount → s'.linear.cells[b + j]? = (flatten sz s.linear.base n b)[j]?

/-- Hypothesis on which `_BuildNoLeafTree` succeeds on `n`. -/
def BuildHyp (sz : Nat) (n : AABBTreeNode) : Prop :=
  ∀ (b : Nat) (s : BuildState), n.IsLeaf = false →
    s.current_id = b + 1 → b + n.internalCount ≤ s.linear.cells.length →
    b + n.internalCount < 2 ^ 32 → s.linear.base % 2 = 0 →
    ∃ s', _BuildNoLeafTree sz n b s = some s' ∧ BuildsTo sz n b s s'

/-- What the treatment of one child does. -/
structure ChildTo (sz : Nat) (setData : Nat → AABBNoLeafNode → AABBNoLeafNode)
    (C : AABBTreeNode) (box_id c : Nat) (s s' : BuildState) : Prop where
  cur : s'.current_id = c + C.internalCount
  log : s'.written = s.written ++ List.range' c C.internalCount
  base : s'.linear.base = s.linear.base
  len : s'.linear.cells.length = s.linear.cells.length
  frame : ∀ j, j ≠ box_id → (j < c ∨ c + C.internalCount ≤ j) →
    s'.linear.cells[j]? = s.linear.cells[j]?
  parent : s'.linear.cells[box_id]? =
    (s.linear.cells[box_id]?).map (setData (childRef sz s.linear.base C c))
  image : ∀ j, j < C.internalCount → s'.linear.cells[c + j]? = (flatten sz s.linear.base C c)[j]?

/-! ### Refit -/

/-- Triangle handed out by the mesh interface (`VertexPointers`). -/
structure VertexPointers where
  Vertex0 : Point
  Vertex1 : Point
  Vertex2 : Point
deriving DecidableEq

/-- Function `lComputeMinMax`: the pair `(min, max)`. -/
def lComputeMinMax (vp : VertexPointers) : Point × Point :=
  let mx := MinMax vp.Vertex0.x vp.Vertex1.x vp.Vertex2.x
  let my := MinMax vp.Vertex0.y vp.Vertex1.y vp.Vertex2.y
  let mz := MinMax vp.Vertex0.z vp.Vertex1.z vp.Vertex2.z
  (⟨mx.1, my.1, mz.1⟩, ⟨mx.2, my.2, mz.2⟩)

/-- Body of the `while(Index--)` loop of `AABBNoLeafTree::Refit` for one value of `Index`,
with `GetTriangle` given by `mesh_interface`. -/
def AABBNoLeafTree.refitNode (sz : Nat) (mesh_interface : Nat → VertexPointers)
    (a : NodeArray) (Index : Nat) : Option NodeArray :=
  match a.cells[Index]? with
  | none => none
  | some Current =>
    let side1 : Option (Point × Point) :=
      if Current.HasPosLeaf then some (lComputeMinMax (mesh_interface Current.GetPosPrimitive))
      else
        (a.deref sz Current.GetPos).map (fun child => (child.mAABB.GetMin, child.mAABB.GetMax))
    let side2 : Option (Point × Point) :=
      if Current.HasNegLeaf then some (lComputeMinMax (mesh_interface Current.GetNegPrimitive))
      else
        (a.deref sz Current.GetNeg).map (fun child => (child.mAABB.GetMin, child.mAABB.GetMax))
    match side1, side2 with
    | some (Min, Max), some (Min_, Max_) =>
      let Min : Point :=
        ⟨if Min_.x < Min.x then Min_.x else Min.x,
         if Min_.y < Min.y then Min_.y else Min.y,
         if Min_.z < Min.z then Min_.z else Min.z⟩
      let Max : Point :=
        ⟨if Max_.x > Max.x then Max_.x else Max.x,
         if Max_.y > Max.y then Max_.y else Max.y,
         if Max_.z > Max.z then Max_.z else Max.z⟩
      some { a with cells := a.cells.set Index { Current with mAABB := CollisionAABB.SetMinMax Min Max } }
    | _, _ => none

/-- The loop `while(Index--)` of `Refit` started with `Index` (it handles `Index-1`, ..., `0`). -/
def AABBNoLeafTree.refitLoop (sz : Nat) (mesh_interface : Nat → VertexPointers) :
    Nat → NodeArray → Option NodeArray
  | 0, a => some a
  | Index + 1, a =>
    match AABBNoLeafTree.refitNode sz mesh_interface a Index with
    | none => none
    | some a1 => AABBNoLeafTree.refitLoop sz mesh_interface Index a1

/-- Method `AABBNoLeafTree::Refit(mesh_interface)`; `mesh_interface = none` is the null
pointer. The result is `none` when a pointer that does not designate a node is dereferenced. -/
def AABBNoLeafTree.Refit (sz : Nat) (t : AABBNoLeafTree)
    (mesh_interface : Option (Nat → VertexPointers)) : Option (Bool × AABBNoLeafTree) :=
  match mesh_interface with
  | none => some (false, t)
  | some mi =>
    match t.mNodes with
    | none => if t.mNbNodes = 0 then some (true, t) else none
    | some a =>
      match AABBNoLeafTree.refitLoop sz mi t.mNbNodes a with
      | none => none
      | some a1 => some (true, { t with mNodes := some a1 })

/-! ### Ray / triangle overlap (OPC_RayTriOverlap.h) -/

/-- Constant `LOCAL_EPSILON` (0.000001f). -/
def LOCAL_EPSILON : ℚ := 1 / 1000000

/-- Record `CollisionFace` of OPC_RayCollider.h. -/
structure CollisionFace where
  mFaceID : Nat
  mDistance : ℚ
  mU : ℚ
  mV : ℚ
deriving DecidableEq

/-- The members of `RayCollider` that `RayTriOverlap` reads or writes. -/
structure RayCollider where
  mOrigin : Point
  mDir : Point
  mCulling : Bool
  mNbRayPrimTests : Nat
  mStabbedFace : CollisionFace
deriving DecidableEq

/-- The determinant test of `RayTriOverlap` (both branches of `if (mCulling)`):
`true` when the function returns FALSE before computing `1.0f / det`. -/
def detRejects (mCulling : Bool) (det : ℚ) (edge1 edge2 : Point) : Bool :=
  if mCulling then
    decide (det ≤ LOCAL_EPSILON * FCMin2 edge1.SquareMagnitude edge2.SquareMagnitude)
  else
    decide (|det| ≤ LOCAL_EPSILON * FCMin2 edge1.SquareMagnitude edge2.SquareMagnitude)

/-- Method `RayCollider::RayTriOverlap` in exact arithmetic (`float` values as exact
rationals): the BOOL result and the collider after the call. The same method with every
operation rounded to `float` is `RayColliderF.RayTriOverlap`. -/
def RayCollider.RayTriOverlap (rc : RayCollider) (vert0 vert1 vert2 : Point) :
    Bool × RayCollider :=
  let rc := { rc with mNbRayPrimTests := (rc.mNbRayPrimTests + 1) % 2 ^ 32 }
  let edge1 := vert1.sub vert0
  let edge2 := vert2.sub vert0
  let pvec := rc.mDir.cross edge2
  let det := edge1.dot pvec
  if detRejects rc.mCulling det edge1 edge2 then (false, rc)
  else
    let OneOverDet := 1 / det
    let tvec := rc.mOrigin.sub vert0
    let rc := { rc with mStabbedFace := { rc.mStabbedFace with mU := tvec.dot pvec * OneOverDet } }
    if rc.mStabbedFace.mU < 0 ∨ rc.mStabbedFace.mU > 1 then (false, rc)
    else
      let qvec := tvec.cross edge1
      let rc := { rc with mStabbedFace :=
                    { rc.mStabbedFace with mV := rc.mDir.dot qvec * OneOverDet } }
      if rc.mStabbedFace.mV < 0 ∨ rc.mStabbedFace.mU + rc.mStabbedFace.mV > 1 then (false, rc)
      else
        let rc := { rc with mStabbedFace :=
                      { rc.mStabbedFace with mDistance := edge2.dot qvec * OneOverDet } }
        if rc.mStabbedFace.mDistance < 0 then (false, rc)
        else (true, rc)

/-! #### The ray/triangle test as the specification states it -/

/-- Determinant `det = e1 . (dir x e2)` as the specification writes it. -/
def specDet (dir v0 v1 v2 : Point) : ℚ := (v1.sub v0).dot (dir.cross (v2.sub v0))

/-- Barycentric `u = (tvec . p) / det` as the specification writes it. -/
def specU (origin dir v0 v1 v2 : Point) : ℚ :=
  (origin.sub v0).dot (dir.cross (v2.sub v0)) / specDet dir v0 v1 v2

/-- Barycentric `v = (dir . q) / det` as the specification writes it. -/
def specV (origin dir v0 v1 v2 : Point) : ℚ :=
  dir.dot ((origin.sub v0).cross (v1.sub v0)) / specDet dir v0 v1 v2

/-- Distance `t = (e2 . q) / det` as the specification writes it. -/
def specT (origin dir v0 v1 v2 : Point) : ℚ :=
  (v2.sub v0).dot ((origin.sub v0).cross (v1.sub v0)) / specDet dir v0 v1 v2

/-- Acceptance condition of the ray/triangle test as the specification writes it:
determinant above `1e-6 * min(|e1|^2, |e2|^2)` (absolute value without culling),
`0 <= u <= 1`, `v >= 0`, `u + v <= 1`, `t >= 0`. -/
def specAccepts (culling : Bool) (origin dir v0 v1 v2 : Point) : Prop :=
  (if culling = true then
      specDet dir v0 v1 v2 >
        1 / 1000000 * min (v1.sub v0).SquareMagnitude (v2.sub v0).SquareMagnitude
    else
      |specDet dir v0 v1 v2| >
        1 / 1000000 * min (v1.sub v0).SquareMagnitude (v2.sub v0).SquareMagnitude) ∧
  0 ≤ specU origin dir v0 v1 v2 ∧ specU origin dir v0 v1 v2 ≤ 1 ∧
  0 ≤ specV origin dir v0 v1 v2 ∧
  specU origin dir v0 v1 v2 + specV origin dir v0 v1 v2 ≤ 1 ∧
  0 ≤ specT origin dir v0 v1 v2

/-- Sample ray: origin (0,0,2), direction (0,0,-1), culling on. -/
def sampleRay : RayCollider :=
  { mOrigin := ⟨0, 0, 2⟩, mDir := ⟨0, 0, -1⟩, mCulling := true, mNbRayPrimTests := 0,
    mStabbedFace := ⟨7, 0, 0, 0⟩ }

/-- Sample triangle in the plane z = 0: first vertex. -/
def sampleV0 : Point := ⟨-1, -1, 0⟩

/-- Sample triangle in the plane z = 0: second vertex. -/
def sampleV1 : Point := ⟨1, -1, 0⟩

/-- Sample triangle in the plane z = 0: third vertex. -/
def sampleV2 : Point := ⟨0, 1, 0⟩

/-! ### Predicates and samples for the builder and the walk -/

/-- Every non-leaf child reference designates a node at a later index of the array. -/
def NodeArray.ForwardRefs (sz : Nat) (a : NodeArray) : Prop :=
  ∀ i c, a.cells[i]? = some c →
    (c.HasPosLeaf = false → ∃ j, a.index? sz c.GetPos = some j ∧ i < j) ∧
    (c.HasNegLeaf = false → ∃ j, a.index? sz c.GetNeg = some j ∧ i < j)

/-- Primitive index a leaf child contributes to its parent node (none for an internal child). -/
def childPayload (C : AABBTreeNode) : List Nat :=
  if C.IsLeaf then C.leafPrims else []

/-- Consistent members of a no-leaf tree: a null array with node count 0, or a non-null,
even-aligned array of `mNbNodes` elements. -/
def AABBNoLeafTree.WellFormed (t : AABBNoLeafTree) : Prop :=
  match t.mNodes with
  | none => t.mNbNodes = 0
  | some a => a.cells.length = t.mNbNodes ∧ 0 < a.base ∧ a.base % 2 = 0

/-- Complete generic tree with `T = root.leafCount` leaves: one primitive index per leaf,
stored primitive count `T` and stored node count `2T - 1` (a 32-bit value). -/
def AABBTree.Complete (tree : AABBTree) : Prop :=
  tree.root.OnePrimPerLeaf ∧ tree.GetNbPrimitives = tree.root.leafCount ∧
  tree.GetNbNodes = 2 * tree.root.leafCount - 1 ∧ tree.GetNbNodes < 2 ^ 32

/-- Sample generic tree with three leaves carrying the primitive indices 5, 6, 7. -/
def sampleTree : AABBTree :=
  ⟨.node ⟨⟨0, 0, 0⟩, ⟨2, 2, 2⟩⟩ [5, 6, 7]
      (.node ⟨⟨1, 0, 0⟩, ⟨1, 1, 1⟩⟩ [5, 6]
        (.leaf ⟨⟨1, 1, 0⟩, ⟨1, 1, 1⟩⟩ [5]) (.leaf ⟨⟨1, 0, 1⟩, ⟨1, 1, 1⟩⟩ [6]))
      (.leaf ⟨⟨0, 1, 1⟩, ⟨1, 1, 1⟩⟩ [7]), 5⟩

/-- Sample generic tree made of a single leaf (one primitive, one node). -/
def singleLeafTree : AABBTree := ⟨.leaf ⟨⟨0, 0, 0⟩, ⟨1, 1, 1⟩⟩ [0], 1⟩

/-! ### Refit as the specification states it -/

/-- Component-wise minimum of two points. -/
def Point.inf (a b : Point) : Point := ⟨min a.x b.x, min a.y b.y, min a.z b.z⟩

/-- Component-wise maximum of two points. -/
def Point.sup (a b : Point) : Point := ⟨max a.x b.x, max a.y b.y, max a.z b.z⟩

/-- Bounds of a primitive as the specification states them: the component-wise min / max of
the three vertices the mesh interface returns. -/
def specTriBounds (vp : VertexPointers) : Point × Point :=
  (vp.Vertex0.inf (vp.Vertex1.inf vp.Vertex2), vp.Vertex0.sup (vp.Vertex1.sup vp.Vertex2))

/-- Bounds of one side of a node as the specification states them: the bounds of the
primitive for a leaf-tagged reference, the box (min, max) of the child node otherwise. -/
def specSideBounds (sz : Nat) (mi : Nat → VertexPointers) (a : NodeArray)
    (isLeaf : Bool) (prim ptr : Nat) : Option (Point × Point) :=
  if isLeaf then some (specTriBounds (mi prim))
  else (a.deref sz ptr).map (fun child => (child.mAABB.GetMin, child.mAABB.GetMax))

/-- A node is tight in an array: its box (min = center - extents, max = center + extents)
is the component-wise union of the bounds of its two sides. -/
def NodeArray.TightAt (sz : Nat) (mi : Nat → VertexPointers) (a : NodeArray)
    (c : AABBNoLeafNode) : Prop :=
  ∃ p n : Point × Point,
    specSideBounds sz mi a c.HasPosLeaf c.GetPosPrimitive c.GetPos = some p ∧
    specSideBounds sz mi a c.HasNegLeaf c.GetNegPrimitive c.GetNeg = some n ∧
    c.mAABB.GetMin = p.1.inf n.1 ∧ c.mAABB.GetMax = p.2.sup n.2

/-- Every node of the array is tight. -/
def NodeArray.Tight (sz : Nat) (mi : Nat → VertexPointers) (a : NodeArray) : Prop :=
  ∀ (i : Nat) (c : AABBNoLeafNode), a.cells[i]? = some c → a.TightAt sz mi c

/-- Every non-leaf child reference designates a node of the array. -/
def NodeArray.ValidRefs (sz : Nat) (a : NodeArray) : Prop :=
  ∀ (i : Nat) (c : AABBNoLeafNode), a.cells[i]? = some c →
    (c.HasPosLeaf = false → ∃ j, a.index? sz c.GetPos = some j) ∧
    (c.HasNegLeaf = false → ∃ j, a.index? sz c.GetNeg = some j)

/-- The topology of an array: its address and the two tagged references of every node. -/
def NodeArray.topology (a : NodeArray) : Nat × List (Nat × Nat) :=
  (a.base, a.cells.map (fun c => (c.mPosData, c.mNegData)))

/-- Sample node array: the image of the sample tree at address 4096 with 40-byte nodes. -/
def sampleArray : NodeArray := ⟨4096, flatten 40 4096 sampleTree.root 0⟩

/-- Sample mesh interface: triangle `i` has the vertices (i,0,0), (0,i,0), (0,0,i). -/
def sampleMesh (i : Nat) : VertexPointers := ⟨⟨i, 0, 0⟩, ⟨0, i, 0⟩, ⟨0, 0, i⟩⟩

/-! ### Box / mesh collider (collision_trimesh_box.cpp): contact buffer control flow -/

/-- Modelled from the spec: the mask `NUMC_MASK` of the flags word ("low bits = contact cap
N"); the defining header is not among the sources, the value is ODE's `0xffff`. -/
def NUMC_MASK : Nat := 0xffff

/-- Modelled from the spec: the flag `CONTACTS_UNIMPORTANT` of the flags word ("one bit =
contacts unimportant"); the defining header is not among the sources, the value is ODE's
`0x80000000`. -/
def CONTACTS_UNIMPORTANT : Nat := 0x80000000

/-- Vector `dVector3` (exact coordinates). -/
abbrev dVector3 := Point

/-- Record `dContactGeom`: position, normal, depth, the two geoms and the two sides. -/
structure dContactGeom where
  pos : dVector3
  normal : dVector3
  depth : ℚ
  g1 : Nat
  g2 : Nat
  side1 : Int
  side2 : Int
deriving DecidableEq

/-- Modelled from the spec: the accessor `SAFECONTACT(Flags, Contacts, Index, Stride)` of the
contact array view ("base pointer, count limit, stride"; its header is not among the
sources): element `Index` of the caller's array, defined only for an index below the count
limit `Flags & NUMC_MASK` that lies inside the array. -/
def SAFECONTACT (Flags : Nat) (Contacts : List dContactGeom) (Index : Nat) :
    Option dContactGeom :=
  if Index < Flags &&& NUMC_MASK then Contacts[Index]? else none

/-- Store through `SAFECONTACT(Flags, Contacts, Index, Stride)`: the array after the store,
`none` when the access is not defined. -/
def SAFECONTACT_store (Flags : Nat) (Contacts : List dContactGeom) (Index : Nat)
    (f : dContactGeom → dContactGeom) : Option (List dContactGeom) :=
  match SAFECONTACT Flags Contacts Index with
  | none => none
  | some c => some (Contacts.set Index (f c))

/-- The loop `for (int i = 0; i < OutTriCount; i++)` of `GenerateContact`, with `k` iterations
left starting at index `i`: the array with replaced depths and the flag `duplicate`. -/
def GenerateContact_scan (dEpsilon : ℚ) (in_Flags : Nat) (in_ContactPos in_Normal : dVector3)
    (in_Depth : ℚ) : Nat → Nat → List dContactGeom → Bool → Option (List dContactGeom × Bool)
  | 0, _, in_Contacts, duplicate => some (in_Contacts, duplicate)
  | k + 1, i, in_Contacts, duplicate =>
    match SAFECONTACT in_Flags in_Contacts i with
    | none => none
    | some Contact =>
      let diff := in_ContactPos.sub Contact.pos
      if diff.SquareMagnitude < dEpsilon ∧ 1 - |in_Normal.dot Contact.normal| < dEpsilon then
        GenerateContact_scan dEpsilon in_Flags in_ContactPos in_Normal in_Depth k (i + 1)
          (in_Contacts.set i
            (if in_Depth > Contact.depth then { Contact with depth := in_Depth } else Contact))
          true
      else
        GenerateContact_scan dEpsilon in_Flags in_ContactPos in_Normal in_Depth k (i + 1)
          in_Contacts duplicate

/-- Function `GenerateContact` of collision_trimesh_box.cpp: the contact array and
`OutTriCount` after the call; `none` when `dIASSERT(OutTriCount < (in_Flags & NUMC_MASK))`
fails or a contact outside the array view is accessed. -/
def GenerateContact (dEpsilon : ℚ) (in_Flags : Nat) (in_Contacts : List dContactGeom)
    (in_g1 in_g2 : Nat) (TriIndex : Int) (in_ContactPos in_Normal : dVector3) (in_Depth : ℚ)
    (OutTriCount : Nat) : Option (List dContactGeom × Nat) :=
  let add (Contacts : List dContactGeom) : Option (List dContactGeom × Nat) :=
    match SAFECONTACT_store in_Flags Contacts OutTriCount (fun _ =>
        { pos := in_ContactPos, normal := in_Normal, depth := in_Depth, g1 := in_g1,
          g2 := in_g2, side1 := TriIndex, side2 := -1 }) with
    | none => none
    | some Contacts1 => some (Contacts1, OutTriCount + 1)
  if in_Flags &&& CONTACTS_UNIMPORTANT = 0 then
    match GenerateContact_scan dEpsilon in_Flags in_ContactPos in_Normal in_Depth
        OutTriCount 0 in_Contacts false with
    | none => none
    | some (Contacts1, duplicate) =>
      if duplicate ∨ OutTriCount = in_Flags &&& NUMC_MASK then some (Contacts1, OutTriCount)
      else add Contacts1
  else
    if OutTriCount < in_Flags &&& NUMC_MASK then add in_Contacts
    else none

/-- The members of `sTrimeshBoxColliderData` used for contact creation. -/
structure sTrimeshBoxColliderData where
  m_iFlags : Nat
  m_ContactGeoms : List dContactGeom
  m_Geom1 : Nat
  m_Geom2 : Nat
  m_ctContacts : Nat
deriving DecidableEq

/-- What the floating-point geometry of the box collider yields for one candidate triangle:
the triangle index, the result of the user callback, the result of `_cldTestSeparatingAxes`
with the best axis, normal and depth it leaves, the contact point of the edge-edge branch, the
clipped polygons (contact point and clamped depth per vertex) of the two face branches, and
the value found in the uninitialised local `bFinishSearching` of `dCollideBTL`. -/
structure BoxCandidate where
  Triint : Int
  callbackResult : Bool
  separatingAxes : Bool
  m_iBestAxis : Int
  m_vBestNormal : dVector3
  m_fBestDepth : ℚ
  edgePoint : dVector3
  clippedOnTriangle : List (dVector3 × ℚ)
  clippedOnBox : List (dVector3 × ℚ)
  indeterminate : Bool
deriving DecidableEq

/-- The loop condition `(m_ctContacts | CONTACTS_UNIMPORTANT) == (m_iFlags & (NUMC_MASK |
CONTACTS_UNIMPORTANT))` used after each generated contact and after each triangle. -/
def sTrimeshBoxColliderData.capReached (d : sTrimeshBoxColliderData) : Bool :=
  (d.m_ctContacts ||| CONTACTS_UNIMPORTANT) ==
    (d.m_iFlags &&& (NUMC_MASK ||| CONTACTS_UNIMPORTANT))

/-- The loops `for (int i = 0; i < iTempCnt; i++)` of `_cldClipping` over the vertices of a
clipped polygon: one `GenerateContact` per vertex, leaving the loop when the cap test holds. -/
def sTrimeshBoxColliderData.clipLoop (dEpsilon : ℚ) (TriIndex : Int) (m_vBestNormal : dVector3) :
    List (dVector3 × ℚ) → sTrimeshBoxColliderData → Option sTrimeshBoxColliderData
  | [], d => some d
  | (vPntTmp, fTempDepth) :: rest, d =>
    match GenerateContact dEpsilon d.m_iFlags d.m_ContactGeoms d.m_Geom1 d.m_Geom2 TriIndex
        vPntTmp m_vBestNormal fTempDepth d.m_ctContacts with
    | none => none
    | some (Contacts, count) =>
      let d1 := { d with m_ContactGeoms := Contacts, m_ctContacts := count }
      if d1.capReached then some d1
      else sTrimeshBoxColliderData.clipLoop dEpsilon TriIndex m_vBestNormal rest d1

/-- Method `_cldClipping`: `none` when its `dIASSERT` or one inside `GenerateContact` fails. -/
def sTrimeshBoxColliderData._cldClipping (dEpsilon : ℚ) (d : sTrimeshBoxColliderData)
    (tri : BoxCandidate) : Option sTrimeshBoxColliderData :=
  if ¬ (d.m_iFlags &&& CONTACTS_UNIMPORTANT = 0 ∨ d.m_ctContacts < d.m_iFlags &&& NUMC_MASK) then
    none
  else if tri.m_iBestAxis > 4 then
    match GenerateContact dEpsilon d.m_iFlags d.m_ContactGeoms d.m_Geom1 d.m_Geom2 tri.Triint
        tri.edgePoint tri.m_vBestNormal tri.m_fBestDepth d.m_ctContacts with
    | none => none
    | some (Contacts, count) => some { d with m_ContactGeoms := Contacts, m_ctContacts := count }
  else if tri.m_iBestAxis = 1 then
    d.clipLoop dEpsilon tri.Triint tri.m_vBestNormal tri.clippedOnTriangle
  else
    d.clipLoop dEpsilon tri.Triint tri.m_vBestNormal tri.clippedOnBox

/-- Method `_cldTestOneTriangle`: the BOOL result and the collider data after the call. -/
def sTrimeshBoxColliderData._cldTestOneTriangle (dEpsilon : ℚ) (d : sTrimeshBoxColliderData)
    (tri : BoxCandidate) : Option (Bool × sTrimeshBoxColliderData) :=
  if tri.separatingAxes then
    if tri.m_iBestAxis > 0 then
      match d._cldClipping dEpsilon tri with
      | none => none
      | some d1 => some (true, d1)
    else some (false, d)
  else some (false, d)

/-- The loop `for (; ctContacts0 < m_ctContacts; ctContacts0++)` of
`TestCollisionForSingleTriangle` with `k` iterations left. -/
def sTrimeshBoxColliderData.fillSides (Flags : Nat) (Triint : Int) :
    Nat → Nat → List dContactGeom → Option (List dContactGeom)
  | 0, _, Contacts => some Contacts
  | k + 1, ctContacts0, Contacts =>
    match SAFECONTACT_store Flags Contacts ctContacts0
        (fun pContact => { pContact with side1 := Triint, side2 := -1 }) with
    | none => none
    | some Contacts1 =>
      sTrimeshBoxColliderData.fillSides Flags Triint k (ctContacts0 + 1) Contacts1

/-- Method `TestCollisionForSingleTriangle`: the returned `ctContacts0`, the value stored
into `bOutFinishSearching` (`none` when nothing is stored) and the collider data. -/
def sTrimeshBoxColliderData.TestCollisionForSingleTriangle (dEpsilon : ℚ)
    (d : sTrimeshBoxColliderData) (ctContacts0 : Nat) (tri : BoxCandidate) :
    Option (Nat × Option Bool × sTrimeshBoxColliderData) :=
  match d._cldTestOneTriangle dEpsilon tri with
  | none => none
  | some (false, d1) => some (ctContacts0, none, d1)
  | some (true, d1) =>
    match sTrimeshBoxColliderData.fillSides d1.m_iFlags tri.Triint
        (d1.m_ctContacts - ctContacts0) ctContacts0 d1.m_ContactGeoms with
    | none => none
    | some Contacts =>
      let d2 := { d1 with m_ContactGeoms := Contacts }
      some (max ctContacts0 d1.m_ctContacts, some d2.capReached, d2)

/-- The loop over the candidate triangles of `dCollideBTL`. -/
def dCollideBTL_loop (dEpsilon : ℚ) :
    List BoxCandidate → Nat → sTrimeshBoxColliderData → Option sTrimeshBoxColliderData
  | [], _, cData => some cData
  | tri :: rest, ctContacts0, cData =>
    if ¬ tri.callbackResult then dCollideBTL_loop dEpsilon rest ctContacts0 cData
    else
      match cData.TestCollisionForSingleTriangle dEpsilon ctContacts0 tri with
      | none => none
      | some (ctContacts1, stored, cData1) =>
        let bFinishSearching := stored.getD tri.indeterminate
        if bFinishSearching then some cData1
        else dCollideBTL_loop dEpsilon rest ctContacts1 cData1

/-- Function `dCollideBTL`: the returned contact count and the caller's contact array;
`GetContactStatus` and the touched primitives of the OBB query are given by `contactStatus`
and `Triangles`. `none` when an assertion fails or a contact outside the array view is
accessed. -/
def dCollideBTL (dEpsilon : ℚ) (g1 BoxGeom : Nat) (Flags : Nat) (Contacts : List dContactGeom)
    (contactStatus : Bool) (Triangles : List BoxCandidate) :
    Option (Nat × List dContactGeom) :=
  if ¬ (Flags &&& NUMC_MASK ≥ 1) then none
  else
    let cData : sTrimeshBoxColliderData :=
      { m_iFlags := Flags, m_ContactGeoms := Contacts, m_Geom1 := g1, m_Geom2 := BoxGeom,
        m_ctContacts := 0 }
    if ¬ contactStatus then some (0, Contacts)
    else
      match dCollideBTL_loop dEpsilon Triangles 0 cData with
      | none => none
      | some cData1 => some (cData1.m_ctContacts, cData1.m_ContactGeoms)

/-- Ready for a triangle test: the contact array has room for the cap, the contact count is
within the cap, and strictly below it when contacts are unimportant. -/
def sTrimeshBoxColliderData.Ready (d : sTrimeshBoxColliderData) : Prop :=
  d.m_iFlags &&& NUMC_MASK ≤ d.m_ContactGeoms.length ∧
  d.m_ctContacts ≤ d.m_iFlags &&& NUMC_MASK ∧
  (d.m_iFlags &&& CONTACTS_UNIMPORTANT ≠ 0 → d.m_ctContacts < d.m_iFlags &&& NUMC_MASK)

/-- Within the cap: the contact array has room for the cap and the contact count does not
exceed it. -/
def sTrimeshBoxColliderData.Within (d : sTrimeshBoxColliderData) : Prop :=
  d.m_iFlags &&& NUMC_MASK ≤ d.m_ContactGeoms.length ∧
  d.m_ctContacts ≤ d.m_iFlags &&& NUMC_MASK

/-- Sample flags word: cap 2 with the contacts-unimportant bit set. -/
def sampleFlags : Nat := 0x80000002

/-- Sample contact record. -/
def sampleContact : dContactGeom := ⟨⟨0, 0, 0⟩, ⟨0, 0, 1⟩, 0, 0, 0, 0, 0⟩

/-- Sample candidate triangle of the box collider: the triangle normal is the best axis and
the clipped polygon has three vertices. -/
def sampleBoxCandidate : BoxCandidate :=
  { Triint := 3, callbackResult := true, separatingAxes := true, m_iBestAxis := 1,
    m_vBestNormal := ⟨0, 0, 1⟩, m_fBestDepth := 1, edgePoint := ⟨0, 0, 0⟩,
    clippedOnTriangle := [(⟨0, 0, 0⟩, 1), (⟨1, 0, 0⟩, 1), (⟨0, 1, 0⟩, 1)],
    clippedOnBox := [], indeterminate := false }

/-! ### Capsule / mesh collider (collision_trimesh_capsule.cpp): contact buffer control flow -/

/-- Record `sLocalContactData` of collision_trimesh_capsule.cpp. -/
structure sLocalContactData where
  vPos : dVector3
  vNormal : dVector3
  fDepth : ℚ
  triIndex : Int
  nFlags : Int
deriving DecidableEq

/-- Constant `fSameContactPositionEpsilon` (1e-4). -/
def fSameContactPositionEpsilon : ℚ := 1 / 10000

/-- Constant `fSameContactNormalEpsilon` (1e-4). -/
def fSameContactNormalEpsilon : ℚ := 1 / 10000

/-- Function `_IsNearContacts`. -/
def _IsNearContacts (c1 c2 : sLocalContactData) : Bool :=
  let vDiff := c1.vPos.sub c2.vPos
  let bPosNear : Bool :=
    decide (|vDiff.x| < fSameContactPositionEpsilon ∧ |vDiff.y| < fSameContactPositionEpsilon ∧
      |vDiff.z| < fSameContactPositionEpsilon)
  let vDiff := c1.vNormal.sub c2.vNormal
  let bSameDir : Bool :=
    decide (|vDiff.x| < fSameContactNormalEpsilon ∧ |vDiff.y| < fSameContactNormalEpsilon ∧
      |vDiff.z| < fSameContactNormalEpsilon)
  bPosNear && bSameDir

/-- Function `_IsBetter`. -/
def _IsBetter (c1 c2 : sLocalContactData) : Bool := decide (c1.fDepth > c2.fDepth)

/-- The members of `sTrimeshCapsuleColliderData` used for contact creation: the local
contact buffer, the contact count and the flags. -/
structure sTrimeshCapsuleColliderData where
  m_gLocalContacts : List sLocalContactData
  m_ctContacts : Nat
  m_iFlags : Nat
deriving DecidableEq

/-- Inner loop `for (int j = i+1; j < nContacts; j++)` of `_OptimizeLocalContacts` with `k`
iterations left; `none` when an element outside the buffer is accessed. -/
def _OptimizeLocalContacts_inner (i : Nat) :
    Nat → Nat → List sLocalContactData → Option (List sLocalContactData)
  | 0, _, cs => some cs
  | k + 1, j, cs =>
    match cs[i]?, cs[j]? with
    | some ci, some cj =>
      _OptimizeLocalContacts_inner i k (j + 1)
        (if _IsNearContacts ci cj then
          (if _IsBetter cj ci then cs.set i { ci with nFlags := 0 }
           else cs.set j { cj with nFlags := 0 })
         else cs)
    | _, _ => none

/-- Outer loop `for (int i = 0; i < nContacts-1; i++)` of `_OptimizeLocalContacts` with `k`
iterations left. -/
def _OptimizeLocalContacts_outer (nContacts : Nat) :
    Nat → Nat → List sLocalContactData → Option (List sLocalContactData)
  | 0, _, cs => some cs
  | k + 1, i, cs =>
    match _OptimizeLocalContacts_inner i (nContacts - (i + 1)) (i + 1) cs with
    | none => none
    | some cs1 => _OptimizeLocalContacts_outer nContacts k (i + 1) cs1

/-- Method `_OptimizeLocalContacts`. -/
def sTrimeshCapsuleColliderData._OptimizeLocalContacts (d : sTrimeshCapsuleColliderData) :
    Option sTrimeshCapsuleColliderData :=
  match _OptimizeLocalContacts_outer d.m_ctContacts (d.m_ctContacts - 1) 0
      d.m_gLocalContacts with
  | none => none
  | some cs => some { d with m_gLocalContacts := cs }

/-- The loop `for (iContact = 0; iContact < m_ctContacts; iContact++)` of
`_ProcessLocalContacts` with `k` iterations left: the caller's array and `nFinalContact`. -/
def _ProcessLocalContacts_loop (d : sTrimeshCapsuleColliderData) (TriMesh Capsule : Nat) :
    Nat → Nat → Nat → List dContactGeom → Option (List dContactGeom × Nat)
  | 0, _, nFinalContact, contact => some (contact, nFinalContact)
  | k + 1, iContact, nFinalContact, contact =>
    if nFinalContact ≥ d.m_iFlags &&& NUMC_MASK then some (contact, nFinalContact)
    else
      match d.m_gLocalContacts[iContact]? with
      | none => none
      | some lc =>
        if lc.nFlags = 1 then
          match SAFECONTACT_store d.m_iFlags contact nFinalContact (fun _ =>
              { pos := lc.vPos, normal := lc.vNormal, depth := lc.fDepth, g1 := TriMesh,
                g2 := Capsule, side1 := lc.triIndex, side2 := -1 }) with
          | none => none
          | some contact1 =>
            _ProcessLocalContacts_loop d TriMesh Capsule k (iContact + 1) (nFinalContact + 1)
              contact1
        else
          _ProcessLocalContacts_loop d TriMesh Capsule k (iContact + 1) nFinalContact contact

/-- Method `_ProcessLocalContacts`: the caller's contact array and the returned count. -/
def sTrimeshCapsuleColliderData._ProcessLocalContacts (d : sTrimeshCapsuleColliderData)
    (contact : List dContactGeom) (TriMesh Capsule : Nat) :
    Option (List dContactGeom × Nat) :=
  let optimized : Option sTrimeshCapsuleColliderData :=
    if d.m_ctContacts > 1 ∧ d.m_iFlags &&& CONTACTS_UNIMPORTANT = 0 then
      d._OptimizeLocalContacts
    else some d
  match optimized with
  | none => none
  | some d1 => _ProcessLocalContacts_loop d1 TriMesh Capsule d1.m_ctContacts 0 0 contact

/-- What the floating-point geometry of the capsule collider yields for one candidate
triangle: the triangle index, whether `_cldTestOneTriangleVSCapsule` reaches the point where
it caches contacts (no early return), the contact normal, and the two clipped capsule edge
points with their clamped depths. -/
structure CapsuleCandidate where
  Triint : Int
  reachesContacts : Bool
  m_vNormal : dVector3
  vCEdgePoint0 : dVector3
  fDepth0 : ℚ
  vCEdgePoint1 : dVector3
  fDepth1 : ℚ
deriving DecidableEq

/-- Store into `m_gLocalContacts[m_ctContacts]`; `none` when the element lies outside the
buffer. -/
def sTrimeshCapsuleColliderData.storeLocal (d : sTrimeshCapsuleColliderData)
    (f : sLocalContactData → sLocalContactData) : Option sTrimeshCapsuleColliderData :=
  match d.m_gLocalContacts[d.m_ctContacts]? with
  | none => none
  | some c => some { d with m_gLocalContacts := d.m_gLocalContacts.set d.m_ctContacts (f c) }

/-- Method `_cldTestOneTriangleVSCapsule`, from "Cached contacts's data" on when that point
is reached. -/
def sTrimeshCapsuleColliderData._cldTestOneTriangleVSCapsule (d : sTrimeshCapsuleColliderData)
    (tri : CapsuleCandidate) : Option sTrimeshCapsuleColliderData :=
  if ¬ tri.reachesContacts then some d
  else
    match d.storeLocal
        (fun c => ⟨tri.vCEdgePoint0, tri.m_vNormal, tri.fDepth0, c.triIndex, 1⟩) with
    | none => none
    | some d1 =>
      let d2 := { d1 with m_ctContacts := (d1.m_ctContacts + 1) % 2 ^ 32 }
      if d2.m_ctContacts < d2.m_iFlags &&& NUMC_MASK then
        match d2.storeLocal
            (fun c => ⟨tri.vCEdgePoint1, tri.m_vNormal, tri.fDepth1, c.triIndex, 1⟩) with
        | none => none
        | some d3 => some { d3 with m_ctContacts := (d3.m_ctContacts + 1) % 2 ^ 32 }
      else some d2

/-- The loop `for (; ctContacts0 < (int)m_ctContacts; ctContacts0++)` of the capsule
`TestCollisionForSingleTriangle` with `k` iterations left. -/
def sTrimeshCapsuleColliderData.fillTriIndex (Triint : Int) :
    Nat → Nat → List sLocalContactData → Option (List sLocalContactData)
  | 0, _, cs => some cs
  | k + 1, ctContacts0, cs =>
    match cs[ctContacts0]? with
    | none => none
    | some c =>
      sTrimeshCapsuleColliderData.fillTriIndex Triint k (ctContacts0 + 1)
        (cs.set ctContacts0 { c with triIndex := Triint })

/-- Method `TestCollisionForSingleTriangle` of the capsule collider: the returned
`ctContacts0`, the value stored into `bOutFinishSearching` and the collider data. -/
def sTrimeshCapsuleColliderData.TestCollisionForSingleTriangle
    (d : sTrimeshCapsuleColliderData) (ctContacts0 : Nat) (tri : CapsuleCandidate) :
    Option (Nat × Bool × sTrimeshCapsuleColliderData) :=
  match d._cldTestOneTriangleVSCapsule tri with
  | none => none
  | some d1 =>
    match sTrimeshCapsuleColliderData.fillTriIndex tri.Triint (d1.m_ctContacts - ctContacts0)
        ctContacts0 d1.m_gLocalContacts with
    | none => none
    | some cs =>
      some (max ctContacts0 d1.m_ctContacts,
        decide (d1.m_ctContacts ≥ d1.m_iFlags &&& NUMC_MASK),
        { d1 with m_gLocalContacts := cs })

/-- The loop over the candidate triangles of `dCollideCCTL` (both the `UseFlags` and the
`kUseAll` variant). -/
def dCollideCCTL_loop :
    List CapsuleCandidate → Nat → sTrimeshCapsuleColliderData →
      Option sTrimeshCapsuleColliderData
  | [], _, cData => some cData
  | tri :: rest, ctContacts0, cData =>
    match cData.TestCollisionForSingleTriangle ctContacts0 tri with
    | none => none
    | some (ctContacts1, bFinishSearching, cData1) =>
      if bFinishSearching then some cData1
      else dCollideCCTL_loop rest ctContacts1 cData1

/-- Element of the local buffer left by `dALLOCA16` (contents taken as zeros). -/
def sLocalContactData.fresh : sLocalContactData := ⟨⟨0, 0, 0⟩, ⟨0, 0, 0⟩, 0, 0, 0⟩

/-- Function `dCollideCCTL`: the returned contact count and the caller's contact array;
`GetContactStatus` and the touched primitives of the OBB query are given by `contactStatus`
and `Triangles`. `none` when an assertion fails or an element outside the local buffer or
outside the caller's array view is accessed. -/
def dCollideCCTL (o1 o2 : Nat) (flags : Nat) (contact : List dContactGeom)
    (contactStatus : Bool) (Triangles : List CapsuleCandidate) :
    Option (Nat × List dContactGeom) :=
  if ¬ (flags &&& NUMC_MASK ≥ 1) then none
  else
    let cData : sTrimeshCapsuleColliderData :=
      { m_gLocalContacts := [], m_ctContacts := 0, m_iFlags := flags }
    if contactStatus ∧ Triangles.length ≠ 0 then
      let m_gLocalContacts :=
        List.replicate (cData.m_iFlags &&& NUMC_MASK) sLocalContactData.fresh
      let cData := { cData with m_gLocalContacts := m_gLocalContacts }
      match dCollideCCTL_loop Triangles cData.m_ctContacts cData with
      | none => none
      | some cData1 =>
        if cData1.m_ctContacts ≠ 0 then
          match cData1._ProcessLocalContacts contact o1 o2 with
          | none => none
          | some (contact1, nContactCount) => some (nContactCount, contact1)
        else some (0, contact)
    else some (0, contact)

/-- Capsule collider within the cap: the local buffer has exactly `N = m_iFlags & NUMC_MASK`
entries and the contact count does not exceed `N`. -/
def sTrimeshCapsuleColliderData.Within (d : sTrimeshCapsuleColliderData) : Prop :=
  d.m_gLocalContacts.length = d.m_iFlags &&& NUMC_MASK ∧
  d.m_ctContacts ≤ d.m_iFlags &&& NUMC_MASK

/-- Capsule collider ready for a triangle test: the local buffer has exactly `N` entries and
the contact count is strictly below `N`. -/
def sTrimeshCapsuleColliderData.Ready (d : sTrimeshCapsuleColliderData) : Prop :=
  d.m_gLocalContacts.length = d.m_iFlags &&& NUMC_MASK ∧
  d.m_ctContacts < d.m_iFlags &&& NUMC_MASK

/-- Sample candidate triangle of the capsule collider yielding two contacts. -/
def sampleCapsuleCandidate : CapsuleCandidate :=
  { Triint := 4, reachesContacts := true, m_vNormal := ⟨0, 1, 0⟩,
    vCEdgePoint0 := ⟨0, 0, 1⟩, fDepth0 := 1 / 8, vCEdgePoint1 := ⟨0, 0, -1⟩, fDepth1 := 1 / 8 }

/-! ### Box / mesh collider: finish flag -/

/-- Sample candidate triangle of the box collider that a separating axis rejects, met while
the uninitialised local `bFinishSearching` holds `true`. -/
def separatedBoxCandidate : BoxCandidate :=
  { Triint := 1, callbackResult := true, separatingAxes := false, m_iBestAxis := -1,
    m_vBestNormal := ⟨0, 0, 0⟩, m_fBestDepth := 0, edgePoint := ⟨0, 0, 0⟩,
    clippedOnTriangle := [], clippedOnBox := [], indeterminate := true }

/-! ### Capsule / mesh collider: single-sided test -/

/-- The computation of the local `singleSide` in `dCollideCCTL`; the bit
`dxTriMeshData::closedSurface` is a parameter, `ext` is `TriMesh->Data->AABBExtents`. -/
def dCollideCCTL_singleSide (closedSurface meshflags : Nat) (m_fCapsuleRadius : ℚ)
    (ext : dVector3) : Bool :=
  if meshflags &&& closedSurface = 0 then
    let size := 3 / 2 * m_fCapsuleRadius
    if size < ext.x then false
    else if size < ext.y then false
    else if size < ext.z then false
    else true
  else true

/-- The triangle that `_cldTestOneTriangleVSCapsule` hands to
`_cldTestSeparatingAxesOfCapsule`: the three points, the edges, the normal and the flags. -/
structure CapsuleTriangle where
  vPnt0 : dVector3
  vPnt1 : dVector3
  vPnt2 : dVector3
  m_vE0 : dVector3
  m_vE1 : dVector3
  m_vE2 : dVector3
  m_vN : dVector3
  flags : Nat
deriving DecidableEq

/-- The part of `_cldTestOneTriangleVSCapsule` that precedes the separating-axis test.
`normalize` stands for `dSafeNormalize3` (`none` when it returns 0), `kUseAll` for
`dxTriMeshData::kUseAll`. The result is `none` when the method returns without a contact. -/
def _cldTestOneTriangleVSCapsule_side (normalize : dVector3 → Option dVector3) (kUseAll : Nat)
    (m_vCapsulePosition : dVector3) (m_fCapsuleSize : ℚ) (v0 v1 v2 : dVector3) (flags : Nat)
    (singleSide : Bool) : Option CapsuleTriangle :=
  let m_vE0 := v1.sub v0
  let m_vE1 := v2.sub v1
  let m_vE2 := v0.sub v2
  match normalize (m_vE0.cross m_vE1) with
  | none => none
  | some m_vN =>
    let fDistanceCapsuleCenterToPlane := m_vCapsulePosition.dot m_vN - v0.dot m_vN
    if fDistanceCapsuleCenterToPlane < 0 ∧ singleSide = true then none
    else if fDistanceCapsuleCenterToPlane > m_fCapsuleSize then none
    else if fDistanceCapsuleCenterToPlane < 0 then
      if fDistanceCapsuleCenterToPlane < -m_fCapsuleSize then none
      else some ⟨v0, v2, v1, v2.sub v0, v1.sub v2, v0.sub v1, m_vN.scale (-1), kUseAll⟩
    else some ⟨v0, v1, v2, m_vE0, m_vE1, m_vE2, m_vN, flags⟩

/-- Method `_cldTestOneTriangleVSCapsule` as a whole: the part before the separating-axis
test, then the rest as given by the candidate record. -/
def sTrimeshCapsuleColliderData._cldTestOneTriangleVSCapsule_sided
    (d : sTrimeshCapsuleColliderData) (normalize : dVector3 → Option dVector3) (kUseAll : Nat)
    (m_vCapsulePosition : dVector3) (m_fCapsuleSize : ℚ) (v0 v1 v2 : dVector3) (flags : Nat)
    (singleSide : Bool) (tri : CapsuleCandidate) : Option sTrimeshCapsuleColliderData :=
  match _cldTestOneTriangleVSCapsule_side normalize kUseAll m_vCapsulePosition m_fCapsuleSize
      v0 v1 v2 flags singleSide with
  | none => some d
  | some _ => d._cldTestOneTriangleVSCapsule tri

/-- Sample normalisation for triangles of the plane `z = 0` wound counter-clockwise. -/
def sampleNormalize : dVector3 → Option dVector3 := fun _ => some ⟨0, 0, 1⟩

/-! ### Tree collider (OPC_TreeCollider.cpp): no-leaf traversal -/

/-- Record of one overlap test performed during a query, in the place of the statistics
counters (`mNbBVBVTests`, `mNbBVPrimTests`, `mNbPrimPrimTests`) that the tests increment: a
box-box test of two node pointers, a triangle-box test of a node pointer, or a
triangle-triangle test of a tree-0 primitive and a tree-1 primitive with its outcome. -/
inductive OverlapTest where
  | BoxBox (a b : Nat)
  | TriBox (b : Nat)
  | TriTri (id0 id1 : Nat) (hit : Bool)
deriving DecidableEq

/-- Whether the record is a triangle-triangle test that succeeded. -/
def OverlapTest.isHit : OverlapTest → Bool
  | .TriTri _ _ hit => hit
  | _ => false

/-- Outcomes of the floating-point overlap tests of one query (the transforms are fixed by
`InitQuery`): `BoxBoxOverlap(ea, ca, eb, cb)`, `TriBoxOverlap(center, extents)` on the
triangle held in `mLeafVerts` (given by the mesh it was fetched from and its index),
`TriTriOverlap` as called by `PrimTest(id0, id1)`, and `TriTriOverlap` as called on
`mLeafVerts` and a triangle index of the other mesh. -/
structure OverlapOracle where
  BoxBoxOverlap : Point → Point → Point → Point → Bool
  TriBoxOverlap : Bool → Nat → Point → Point → Bool
  TriTriOverlap : Nat → Nat → Bool
  LeafTriOverlap : Bool → Nat → Nat → Bool

/-- Modelled from the spec: the members of `AABBTreeCollider` and of its base `Collider`
(OPC_Collider.h and OPC_TreeCollider.h are not among the sources) that the query control flow
uses. The bits `OPC_FIRST_CONTACT`, `OPC_TEMPORAL_COHERENCE` and `OPC_CONTACT` of `mFlags`
are the three Booleans ("first contact" mode, temporal coherence, "contact flag");
`mPairs` is the container of primitive indices; `mLeafIndex` and `mLeafMesh1` identify the
triangle held in `mLeafVerts` (its index, and whether it was fetched from `mIMesh1`);
`tests` records the overlap tests performed since `InitQuery`. -/
structure AABBTreeCollider where
  mFirstContact : Bool
  mTemporalCoherence : Bool
  mContact : Bool
  mPairs : List Nat
  mLeafIndex : Nat
  mLeafMesh1 : Bool
  tests : List OverlapTest
deriving DecidableEq

namespace AABBTreeCollider

/-- Modelled from the spec: accessor `FirstContactEnabled()`. -/
def FirstContactEnabled (c : AABBTreeCollider) : Bool := c.mFirstContact

/-- Modelled from the spec: accessor `TemporalCoherenceEnabled()`. -/
def TemporalCoherenceEnabled (c : AABBTreeCollider) : Bool := c.mTemporalCoherence

/-- Modelled from the spec: accessor `GetContactStatus()`. -/
def GetContactStatus (c : AABBTreeCollider) : Bool := c.mContact

/-- Modelled from the spec: accessor `ContactFound()` ("a contact has been found and the
caller enabled first contact mode"). -/
def ContactFound (c : AABBTreeCollider) : Bool := c.mFirstContact && c.mContact

/-- Method `ValidateSettings`: `none` is the null pointer. -/
def ValidateSettings (c : AABBTreeCollider) : Option String :=
  if c.TemporalCoherenceEnabled && !c.FirstContactEnabled then
    some "Temporal coherence only works with First contact mode!"
  else none

/-- Method `InitQuery`: contact status, statistics and pairs are reset (the matrices are part
of the overlap oracle). -/
def InitQuery (c : AABBTreeCollider) : AABBTreeCollider :=
  { c with mContact := false, mPairs := [], tests := [] }

/-- Method `PrimTest(id0, id1)`. -/
def PrimTest (g : OverlapOracle) (c : AABBTreeCollider) (id0 id1 : Nat) : AABBTreeCollider :=
  if g.TriTriOverlap id0 id1 then
    { c with mPairs := c.mPairs ++ [id0, id1], mContact := true,
             tests := c.tests ++ [.TriTri id0 id1 true] }
  else { c with tests := c.tests ++ [.TriTri id0 id1 false] }

/-- Method `PrimTestTriIndex(id1)`. -/
def PrimTestTriIndex (g : OverlapOracle) (c : AABBTreeCollider) (id1 : Nat) :
    AABBTreeCollider :=
  if g.LeafTriOverlap c.mLeafMesh1 c.mLeafIndex id1 then
    { c with mPairs := c.mPairs ++ [c.mLeafIndex, id1], mContact := true,
             tests := c.tests ++ [.TriTri c.mLeafIndex id1 true] }
  else { c with tests := c.tests ++ [.TriTri c.mLeafIndex id1 false] }

/-- Method `PrimTestIndexTri(id0)`. -/
def PrimTestIndexTri (g : OverlapOracle) (c : AABBTreeCollider) (id0 : Nat) :
    AABBTreeCollider :=
  if g.LeafTriOverlap c.mLeafMesh1 c.mLeafIndex id0 then
    { c with mPairs := c.mPairs ++ [id0, c.mLeafIndex], mContact := true,
             tests := c.tests ++ [.TriTri id0 c.mLeafIndex true] }
  else { c with tests := c.tests ++ [.TriTri id0 c.mLeafIndex false] }

/-- Macro `FETCH_LEAF(prim_index, imesh, rot, trans)`; `mesh1` tells whether `imesh` is
`mIMesh1`. -/
def FETCH_LEAF (c : AABBTreeCollider) (prim_index : Nat) (mesh1 : Bool) : AABBTreeCollider :=
  { c with mLeafIndex := prim_index, mLeafMesh1 := mesh1 }

/-- Method `_CollideTriBox(b)` on the node array of the second tree. `fuel` bounds the
recursion depth; the result is `none` when the fuel runs out or a pointer does not designate
a node. -/
def _CollideTriBox (g : OverlapOracle) (sz : Nat) (tree1 : NodeArray) :
    Nat → Nat → AABBTreeCollider → Option AABBTreeCollider
  | 0, _, _ => none
  | fuel + 1, b, c =>
    (tree1.deref sz b).bind fun nb =>
      let c := { c with tests := c.tests ++ [.TriBox b] }
      if !g.TriBoxOverlap c.mLeafMesh1 c.mLeafIndex nb.mAABB.mCenter nb.mAABB.mExtents then
        some c
      else
        (if nb.HasPosLeaf then some (c.PrimTestTriIndex g nb.GetPosPrimitive)
         else _CollideTriBox g sz tree1 fuel nb.GetPos c).bind fun c =>
          if c.ContactFound then some c
          else if nb.HasNegLeaf then some (c.PrimTestTriIndex g nb.GetNegPrimitive)
          else _CollideTriBox g sz tree1 fuel nb.GetNeg c

/-- Method `_CollideBoxTri(b)` on the node array of the first tree. `fuel` bounds the
recursion depth; the result is `none` when the fuel runs out or a pointer does not designate
a node. -/
def _CollideBoxTri (g : OverlapOracle) (sz : Nat) (tree0 : NodeArray) :
    Nat → Nat → AABBTreeCollider → Option AABBTreeCollider
  | 0, _, _ => none
  | fuel + 1, b, c =>
    (tree0.deref sz b).bind fun nb =>
      let c := { c with tests := c.tests ++ [.TriBox b] }
      if !g.TriBoxOverlap c.mLeafMesh1 c.mLeafIndex nb.mAABB.mCenter nb.mAABB.mExtents then
        some c
      else
        (if nb.HasPosLeaf then some (c.PrimTestIndexTri g nb.GetPosPrimitive)
         else _CollideBoxTri g sz tree0 fuel nb.GetPos c).bind fun c =>
          if c.ContactFound then some c
          else if nb.HasNegLeaf then some (c.PrimTestIndexTri g nb.GetNegPrimitive)
          else _CollideBoxTri g sz tree0 fuel nb.GetNeg c

/-- Method `_Collide(a, b)` for no-leaf trees on the node arrays of the two trees. `fuel`
bounds the recursion depth; the result is `none` when the fuel runs out or a pointer does not
designate a node. Every `some c` that ends a branch before the last statement is a
`return`. -/
def _Collide (g : OverlapOracle) (sz : Nat) (tree0 tree1 : NodeArray) :
    Nat → Nat → Nat → AABBTreeCollider → Option AABBTreeCollider
  | 0, _, _, _ => none
  | fuel + 1, a, b, c =>
    (tree0.deref sz a).bind fun na =>
    (tree1.deref sz b).bind fun nb =>
      let c := { c with tests := c.tests ++ [.BoxBox a b] }
      if !g.BoxBoxOverlap na.mAABB.mExtents na.mAABB.mCenter nb.mAABB.mExtents
          nb.mAABB.mCenter then some c
      else
        let BHasPosLeaf := nb.HasPosLeaf
        let BHasNegLeaf := nb.HasNegLeaf
        let negHalf : AABBTreeCollider → Option AABBTreeCollider := fun c =>
          if na.HasNegLeaf then
            let c := c.FETCH_LEAF na.GetNegPrimitive false
            (if BHasPosLeaf then some (c.PrimTestTriIndex g nb.GetPosPrimitive)
             else _CollideTriBox g sz tree1 fuel nb.GetPos c).bind fun c =>
              if c.ContactFound then some c
              else if BHasNegLeaf then some (c.PrimTestTriIndex g nb.GetNegPrimitive)
              else _CollideTriBox g sz tree1 fuel nb.GetNeg c
          else
            (if BHasPosLeaf then
              _CollideBoxTri g sz tree0 fuel na.GetNeg (c.FETCH_LEAF nb.GetPosPrimitive true)
             else _Collide g sz tree0 tree1 fuel na.GetNeg nb.GetPos c).bind fun c =>
              if c.ContactFound then some c
              else if BHasNegLeaf then
                _CollideBoxTri g sz tree0 fuel na.GetNeg (c.FETCH_LEAF nb.GetNegPrimitive true)
              else _Collide g sz tree0 tree1 fuel na.GetNeg nb.GetNeg c
        if na.HasPosLeaf then
          let c := c.FETCH_LEAF na.GetPosPrimitive false
          (if BHasPosLeaf then some (c.PrimTestTriIndex g nb.GetPosPrimitive)
           else _CollideTriBox g sz tree1 fuel nb.GetPos c).bind fun c =>
            if c.ContactFound then some c
            else
              (if BHasNegLeaf then some (c.PrimTestTriIndex g nb.GetNegPrimitive)
               else _CollideTriBox g sz tree1 fuel nb.GetNeg c).bind fun c =>
                if c.ContactFound then some c else negHalf c
        else
          (if BHasPosLeaf then
            _CollideBoxTri g sz tree0 fuel na.GetPos (c.FETCH_LEAF nb.GetPosPrimitive true)
           else _Collide g sz tree0 tree1 fuel na.GetPos nb.GetPos c).bind fun c =>
            if c.ContactFound then some c
            else
              (if BHasNegLeaf then
                _CollideBoxTri g sz tree0 fuel na.GetPos (c.FETCH_LEAF nb.GetNegPrimitive true)
               else _Collide g sz tree0 tree1 fuel na.GetPos nb.GetNeg c).bind fun c =>
                if c.ContactFound then some c else negHalf c

end AABBTreeCollider

/-- The cached pair of primitive indices (`Pair`). -/
structure Pair where
  id0 : Nat
  id1 : Nat
deriving DecidableEq

namespace AABBTreeCollider

/-- Method `CheckTemporalCoherence(cache)`; `cache = none` is the null pointer. -/
def CheckTemporalCoherence (g : OverlapOracle) (c : AABBTreeCollider) (cache : Option Pair) :
    Bool × AABBTreeCollider :=
  match cache with
  | none => (false, c)
  | some p =>
    if c.TemporalCoherenceEnabled && c.FirstContactEnabled then
      let c := c.PrimTest g p.id0 p.id1
      if c.GetContactStatus then (true, c) else (false, c)
    else (false, c)

/-- Macro `UPDATE_CACHE`; `none` when an entry outside `mPairs` is read. -/
def UPDATE_CACHE (c : AABBTreeCollider) (cache : Option Pair) : Option (Option Pair) :=
  match cache with
  | none => some none
  | some p =>
    if c.GetContactStatus then
      match c.mPairs[0]?, c.mPairs[1]? with
      | some e0, some e1 => some (some ⟨e0, e1⟩)
      | _, _ => none
    else some (some p)

/-- Method `Collide(tree0, tree1, world0, world1, cache)` for no-leaf trees: the returned
status, the collider and the cache. `none` when the fuel runs out, a pointer does not
designate a node or an entry outside `mPairs` is read. -/
def Collide (g : OverlapOracle) (sz : Nat) (c : AABBTreeCollider)
    (tree0 tree1 : AABBNoLeafTree) (cache : Option Pair) (fuel : Nat) :
    Option (Bool × AABBTreeCollider × Option Pair) :=
  let c := c.InitQuery
  let r := c.CheckTemporalCoherence g cache
  if r.1 then some (true, r.2, cache)
  else
    match tree0.mNodes, tree1.mNodes with
    | some a0, some a1 =>
      (_Collide g sz a0 a1 fuel a0.base a1.base r.2).bind fun c =>
        (c.UPDATE_CACHE cache).bind fun cache => some (true, c, cache)
    | _, _ => none

end AABBTreeCollider

/-! ### Proof devices and samples for the tree collider -/

/-- Two steps of a traversal in sequence with the test `if(ContactFound()) return;` between
them. -/
def AABBTreeCollider.andThen (f h : AABBTreeCollider → Option AABBTreeCollider) :
    AABBTreeCollider → Option AABBTreeCollider :=
  fun c => (f c).bind fun c => if c.ContactFound then some c else h c

/-- State of a first-contact query: no triangle-triangle test has succeeded and no pair is
recorded while the contact flag is clear; once it is set, the recorded tests end with the one
successful triangle-triangle test and exactly its pair is recorded. -/
def AABBTreeCollider.AtMostOne (c : AABBTreeCollider) : Prop :=
  c.mFirstContact = true ∧
  (c.mContact = false → c.mPairs = [] ∧ ∀ e ∈ c.tests, e.isHit = false) ∧
  (c.mContact = true → ∃ l id0 id1, c.tests = l ++ [OverlapTest.TriTri id0 id1 true] ∧
    c.mPairs = [id0, id1] ∧ ∀ e ∈ l, e.isHit = false)

/-- A traversal step keeps the first-contact state when entered with no contact found. -/
def AABBTreeCollider.Keeps (f : AABBTreeCollider → Option AABBTreeCollider) : Prop :=
  ∀ c c1, c.AtMostOne → c.mContact = false → f c = some c1 → c1.AtMostOne

/-- A traversal step returns from every state. -/
def AABBTreeCollider.Returns (f : AABBTreeCollider → Option AABBTreeCollider) : Prop :=
  ∀ c, ∃ c1, f c = some c1

/-- Sample overlap oracle: every box-box and triangle-box test passes, and a triangle pair
overlaps exactly when both indices are 6. -/
def sampleOracle : OverlapOracle :=
  { BoxBoxOverlap := fun _ _ _ _ => true,
    TriBoxOverlap := fun _ _ _ _ => true,
    TriTriOverlap := fun id0 id1 => id0 == 6 && id1 == 6,
    LeafTriOverlap := fun _ leaf id => leaf == 6 && id == 6 }

/-- Sample collider: first-contact mode enabled, temporal coherence disabled. -/
def sampleCollider : AABBTreeCollider :=
  { mFirstContact := true, mTemporalCoherence := false, mContact := false, mPairs := [],
    mLeafIndex := 0, mLeafMesh1 := false, tests := [] }

/-! ### Ray / mesh collider (collision_trimesh_ray.cpp) -/

/-- Function `dAddScaledVector3(res, a, b, b_scale)`. -/
def dAddScaledVector3 (a b : dVector3) (b_scale : ℚ) : dVector3 :=
  ⟨a.x + b_scale * b.x, a.y + b_scale * b.y, a.z + b_scale * b.z⟩

/-- The conversion of a `udword` to `int` in `TriIndex = face.mFaceID` (two's complement). -/
def udwordToInt (n : Nat) : Int :=
  if n % 2 ^ 32 < 2 ^ 31 then ((n % 2 ^ 32 : Nat) : Int) else ((n % 2 ^ 32 : Nat) : Int) - 2 ^ 32

/-- Whether the loop in force reaches the contact code for a face: always in the loop
without callback (`RayCallback = none`), when the callback returns true in the other. -/
def rayCallbackPasses (RayCallback : Option (Int → ℚ → ℚ → Bool)) (TriIndex : Int)
    (mU mV : ℚ) : Bool :=
  match RayCallback with
  | none => true
  | some cb => cb TriIndex mU mV

/-- The two loops over the reported faces of `dCollideRTL` (`RayCallback = none` is the loop
without callback): the returned `OutTriCount` and the caller's contact array.
`FetchTriangle` gives the three transformed vertices of a triangle and `dSafeNormalize3` the
returned flag and the vector left in place (neither is among the sources). `none` when a
contact outside the caller's array view is accessed. -/
def dCollideRTL_loop (FetchTriangle : Int → dVector3 × dVector3 × dVector3)
    (dSafeNormalize3 : dVector3 → Bool × dVector3) (TriGeom RayGeom Flags : Nat)
    (Origin Direction : dVector3) (RayCallback : Option (Int → ℚ → ℚ → Bool)) :
    List CollisionFace → Nat → List dContactGeom → Option (Nat × List dContactGeom)
  | [], OutTriCount, Contacts => some (OutTriCount, Contacts)
  | face :: rest, OutTriCount, Contacts =>
    let TriIndex := udwordToInt face.mFaceID
    if rayCallbackPasses RayCallback TriIndex face.mU face.mV then
      match SAFECONTACT Flags Contacts OutTriCount with
      | none => none
      | some Contact =>
        let dv := FetchTriangle TriIndex
        let dv1 := dv.2.1.sub dv.1
        let dv2 := dv.2.2.sub dv.1
        let n := dSafeNormalize3 (dv2.cross dv1)
        if n.1 then
          let T := face.mDistance
          let Contacts := Contacts.set OutTriCount
            { pos := dAddScaledVector3 Origin Direction T, normal := n.2, depth := T,
              g1 := TriGeom, g2 := RayGeom, side1 := TriIndex, side2 := -1 }
          if OutTriCount + 1 ≥ Flags &&& NUMC_MASK then some (OutTriCount + 1, Contacts)
          else
            dCollideRTL_loop FetchTriangle dSafeNormalize3 TriGeom RayGeom Flags Origin Direction
              RayCallback rest (OutTriCount + 1) Contacts
        else
          dCollideRTL_loop FetchTriangle dSafeNormalize3 TriGeom RayGeom Flags Origin Direction
            RayCallback rest OutTriCount (Contacts.set OutTriCount { Contact with normal := n.2 })
    else
      dCollideRTL_loop FetchTriangle dSafeNormalize3 TriGeom RayGeom Flags Origin Direction
        RayCallback rest OutTriCount Contacts

/-- Function `dCollideRTL`: the returned contact count and the caller's contact array.
`collided` is what `Collider.Collide` returns and `Faces` the faces it reported. `none` when
the assertion on the flags fails or a contact outside the caller's array view is accessed. -/
def dCollideRTL (FetchTriangle : Int → dVector3 × dVector3 × dVector3)
    (dSafeNormalize3 : dVector3 → Bool × dVector3) (TriGeom RayGeom Flags : Nat)
    (Contacts : List dContactGeom) (Origin Direction : dVector3)
    (RayCallback : Option (Int → ℚ → ℚ → Bool)) (collided : Bool)
    (Faces : List CollisionFace) : Option (Nat × List dContactGeom) :=
  if ¬ (Flags &&& NUMC_MASK ≥ 1) then none
  else
    let TriCount := if collided then Faces.length else 0
    if TriCount = 0 then some (0, Contacts)
    else
      dCollideRTL_loop FetchTriangle dSafeNormalize3 TriGeom RayGeom Flags Origin Direction
        RayCallback Faces 0 Contacts

/-- A contact as `dCollideRTL` emits it for a reported face. -/
def RayContactOf (Origin Direction : dVector3) (RayCallback : Option (Int → ℚ → ℚ → Bool))
    (face : CollisionFace) (c : dContactGeom) : Prop :=
  c.depth = face.mDistance ∧
  c.pos = ⟨Origin.x + face.mDistance * Direction.x, Origin.y + face.mDistance * Direction.y,
    Origin.z + face.mDistance * Direction.z⟩ ∧
  c.side1 = udwordToInt face.mFaceID ∧ c.side2 = -1 ∧
  ∀ cb, RayCallback = some cb → cb (udwordToInt face.mFaceID) face.mU face.mV = true

/-! ### Box / mesh collider: duplicate scan -/

/-- The test of the scan in `GenerateContact` on a stored contact: "same position?"
(`dCalcVectorLengthSquare3(diff) < dEpsilon`) and "same normal?"
(`1 - dFabs(dCalcVectorDot3(in_Normal, Contact->normal)) < dEpsilon`). -/
def GenerateContact_same (dEpsilon : ℚ) (in_ContactPos in_Normal : dVector3)
    (Contact : dContactGeom) : Bool :=
  decide ((in_ContactPos.sub Contact.pos).SquareMagnitude < dEpsilon ∧
    1 - |in_Normal.dot Contact.normal| < dEpsilon)

/-- What the scan of `GenerateContact` leaves in the place of a stored contact. -/
def GenerateContact_scanned (dEpsilon : ℚ) (in_ContactPos in_Normal : dVector3) (in_Depth : ℚ)
    (Contact : dContactGeom) : dContactGeom :=
  if GenerateContact_same dEpsilon in_ContactPos in_Normal Contact then
    (if in_Depth > Contact.depth then { Contact with depth := in_Depth } else Contact)
  else Contact

/-- The arguments of one call of `GenerateContact` that vary between calls on the same
contact array. -/
structure ContactCall where
  in_g1 : Nat
  in_g2 : Nat
  TriIndex : Int
  in_ContactPos : dVector3
  in_Normal : dVector3
  in_Depth : ℚ
deriving DecidableEq

/-- A sequence of calls of `GenerateContact` on the same contact array and counter
`OutTriCount`. -/
def GenerateContact_calls (dEpsilon : ℚ) (in_Flags : Nat) :
    List ContactCall → List dContactGeom → Nat → Option (List dContactGeom × Nat)
  | [], in_Contacts, OutTriCount => some (in_Contacts, OutTriCount)
  | call :: rest, in_Contacts, OutTriCount =>
    match GenerateContact dEpsilon in_Flags in_Contacts call.in_g1 call.in_g2 call.TriIndex
        call.in_ContactPos call.in_Normal call.in_Depth OutTriCount with
    | none => none
    | some (Contacts1, OutTriCount1) =>
      GenerateContact_calls dEpsilon in_Flags rest Contacts1 OutTriCount1

/-- No stored contact passes the test of the scan against a contact stored before it. -/
def GenerateContact_distinct (dEpsilon : ℚ) (Contacts : List dContactGeom) (n : Nat) : Prop :=
  ∀ (i j : Nat) (ci cj : dContactGeom), i < j → j < n → Contacts[i]? = some ci →
    Contacts[j]? = some cj → GenerateContact_same dEpsilon cj.pos cj.normal ci = false

/-! ### Capsule / mesh collider: duplicate filter -/

/-- Relation between the local buffer before and after filtering steps: same length, every
contact keeps its data, and its flag is kept or cleared. -/
def Dimmed (cs cs1 : List sLocalContactData) : Prop :=
  cs1.length = cs.length ∧
  ∀ (k : Nat) (c : sLocalContactData), cs[k]? = some c →
    ∃ c1, cs1[k]? = some c1 ∧ c1.vPos = c.vPos ∧ c1.vNormal = c.vNormal ∧
      c1.fDepth = c.fDepth ∧ c1.triIndex = c.triIndex ∧ (c1.nFlags = c.nFlags ∨ c1.nFlags = 0)

/-- The pair of local contacts `a`, `b` is filtered: when the two are near, one of them is
flagged 0. -/
def FilteredPair (cs : List sLocalContactData) (a b : Nat) : Prop :=
  ∀ (ca cb : sLocalContactData), cs[a]? = some ca → cs[b]? = some cb →
    _IsNearContacts ca cb = true → ca.nFlags = 0 ∨ cb.nFlags = 0

/-- The contact that `_ProcessLocalContacts` writes into the caller's array for a local
contact. -/
def sLocalContactData.toContact (lc : sLocalContactData) (TriMesh Capsule : Nat) :
    dContactGeom :=
  { pos := lc.vPos, normal := lc.vNormal, depth := lc.fDepth, g1 := TriMesh, g2 := Capsule,
    side1 := lc.triIndex, side2 := -1 }

/-- The position, normal, depth and triangle index of an emitted contact as a local contact
(flagged as kept), to compare emitted contacts with `_IsNearContacts`. -/
def localContactOf (c : dContactGeom) : sLocalContactData :=
  ⟨c.pos, c.normal, c.depth, c.side1, 1⟩

/-! ### Box containment (OPC_Common.h) -/

/-- Function `avxBoxesOverlap` (the `__AVX__` build): per lane the absolute difference of the
centers is compared with the sum of the extents; the result is true when none of the lanes
0, 1, 2 has `|acenter - bcenter| > aext + bext`. -/
def avxBoxesOverlap (acenter bcenter aext bext : Point) : Bool :=
  let ma := acenter.sub bcenter
  let mb := aext.add bext
  let lane0 : Bool := decide (|ma.x| > mb.x)
  let lane1 : Bool := decide (|ma.y| > mb.y)
  let lane2 : Bool := decide (|ma.z| > mb.z)
  !(lane0 || lane1 || lane2)

/-- Method `CollisionAABB::IsInside(box)`, the branch compiled without `__AVX__`. -/
def CollisionAABB.IsInside (b box : CollisionAABB) : Bool :=
  if box.GetMin.x > b.GetMin.x then false
  else if box.GetMin.y > b.GetMin.y then false
  else if box.GetMin.z > b.GetMin.z then false
  else if box.GetMax.x < b.GetMax.x then false
  else if box.GetMax.y < b.GetMax.y then false
  else if box.GetMax.z < b.GetMax.z then false
  else true

/-- Method `CollisionAABB::IsInside(box)`, the branch compiled with `__AVX__`. -/
def CollisionAABB.IsInside_avx (b box : CollisionAABB) : Bool :=
  avxBoxesOverlap box.mCenter b.mCenter box.mExtents b.mExtents

/-- The current box is inside the input box: on each axis `box.min ≤ this.min` and
`this.max ≤ box.max`. -/
def CollisionAABB.InsideSpec (b box : CollisionAABB) : Prop :=
  box.GetMin.x ≤ b.GetMin.x ∧ box.GetMin.y ≤ b.GetMin.y ∧ box.GetMin.z ≤ b.GetMin.z ∧
  b.GetMax.x ≤ box.GetMax.x ∧ b.GetMax.y ≤ box.GetMax.y ∧ b.GetMax.z ≤ box.GetMax.z

/-! ### Box / mesh collider: separating axes and closest points -/

/-- The members of `sTrimeshBoxColliderData` that the separating-axis tests read and write:
the best normal, the best depth and the best axis. -/
structure sTrimeshBoxColliderAxes where
  m_vBestNormal : dVector3
  m_fBestDepth : ℚ
  m_iBestAxis : Int
deriving DecidableEq

/-- Method `sTrimeshBoxColliderData::_cldTestFace`: the returned flag and the members after
the call. -/
def sTrimeshBoxColliderAxes._cldTestFace (d : sTrimeshBoxColliderAxes) (fp0 fp1 fp2 fR : ℚ)
    (vNormal : dVector3) (iAxis : Int) : Bool × sTrimeshBoxColliderAxes :=
  let update (fDepth fDepthMax : ℚ) : Bool × sTrimeshBoxColliderAxes :=
    if fDepth > fDepthMax then
      if fDepthMax < d.m_fBestDepth then
        (true, { m_vBestNormal := vNormal.scale (-1), m_iBestAxis := iAxis,
                 m_fBestDepth := fDepthMax })
      else (true, d)
    else if fDepth < d.m_fBestDepth then
      (true, { m_vBestNormal := vNormal, m_iBestAxis := iAxis, m_fBestDepth := fDepth })
    else (true, d)
  if fp0 < fp1 then
    let fDepth := fR - (if fp0 < fp2 then fp0 else fp2)
    if fDepth < 0 then (false, d)
    else
      let fDepthMax := fR + (if fp1 > fp2 then fp1 else fp2)
      if fDepthMax < 0 then (false, d)
      else update fDepth fDepthMax
  else
    let fDepth := fR - (if fp1 < fp2 then fp1 else fp2)
    if fDepth < 0 then (false, d)
    else
      let fDepthMax := fR + (if fp0 > fp2 then fp0 else fp2)
      if fDepthMax < 0 then (false, d)
      else update fDepth fDepthMax

/-- Function `_cldClosestPointOnTwoLines`: the returned flag, `fvalue1` and `fvalue2`. -/
def _cldClosestPointOnTwoLines (dEpsilon : ℚ) (vPoint1 vLenVec1 vPoint2 vLenVec2 : dVector3) :
    Bool × ℚ × ℚ :=
  let fuaub := vLenVec1.dot vLenVec2
  let fd := 1 - fuaub * fuaub
  if fd > dEpsilon then
    let fd := 1 / fd
    let vp := vPoint2.sub vPoint1
    let fq1 := vLenVec1.dot vp
    let fq2 := -(vLenVec2.dot vp)
    (true, (fq1 + fuaub * fq2) * fd, (fuaub * fq1 + fq2) * fd)
  else (false, 0, 0)

/-! ### Tree collider: primitive pairs of a query -/

/-- The pair of primitive indices of a recorded triangle-triangle test. -/
def OverlapTest.primPair? : OverlapTest → Option (Nat × Nat)
  | .TriTri id0 id1 _ => some (id0, id1)
  | _ => none

/-- The two indices that a recorded, successful triangle-triangle test added to `mPairs`. -/
def OverlapTest.hitIds : OverlapTest → List Nat
  | .TriTri id0 id1 true => [id0, id1]
  | _ => []

/-- The primitive pairs of the triangle-triangle tests of a record, in order. -/
def primTests (tests : List OverlapTest) : List (Nat × Nat) :=
  tests.filterMap OverlapTest.primPair?

/-- The primitive indices of the leaf references below a node pointer, positive side first.
`fuel` bounds the recursion depth; `none` when the fuel runs out or a pointer does not
designate a node. -/
def NodeArray.primsUnder (sz : Nat) (a : NodeArray) : Nat → Nat → Option (List Nat)
  | 0, _ => none
  | fuel + 1, p =>
    (a.deref sz p).bind fun n =>
      (if n.HasPosLeaf then some [n.GetPosPrimitive]
       else NodeArray.primsUnder sz a fuel n.GetPos).bind fun l1 =>
        (if n.HasNegLeaf then some [n.GetNegPrimitive]
         else NodeArray.primsUnder sz a fuel n.GetNeg).bind fun l2 => some (l1 ++ l2)

/-- A traversal step run from `c` outside first-contact mode returns having performed
triangle-triangle tests on a permutation of the pairs `L`, with the pairs of the successful
ones appended to `mPairs`. -/
def AABBTreeCollider.Run (f : AABBTreeCollider → Option AABBTreeCollider)
    (c : AABBTreeCollider) (L : List (Nat × Nat)) : Prop :=
  ∃ c1 new, f c = some c1 ∧ c1.tests = c.tests ++ new ∧ (primTests new).Perm L ∧
    c1.mPairs = c.mPairs ++ new.flatMap OverlapTest.hitIds ∧
    c1.mFirstContact = c.mFirstContact

/-- A traversal step run from `c` returns having performed triangle-triangle tests on
exactly the pairs `L` in order, keeping the fetched leaf. -/
def AABBTreeCollider.RunLeaf (f : AABBTreeCollider → Option AABBTreeCollider)
    (c : AABBTreeCollider) (L : List (Nat × Nat)) : Prop :=
  ∃ c1 new, f c = some c1 ∧ c1.tests = c.tests ++ new ∧ primTests new = L ∧
    c1.mPairs = c.mPairs ++ new.flatMap OverlapTest.hitIds ∧
    c1.mFirstContact = c.mFirstContact ∧ c1.mLeafIndex = c.mLeafIndex ∧
    c1.mLeafMesh1 = c.mLeafMesh1

/-! ### Quadtree space (collision_quadtreespace.cpp): blocks -/

/-- The members of `Block` (collision_quadtreespace.cpp). Block pointers are indices into the
array `Blocks` of the space (`none` is the null pointer), geom pointers are indices into the
geoms of the space. -/
structure Block where
  mMinX : ℚ
  mMaxX : ℚ
  mMinZ : ℚ
  mMaxZ : ℚ
  mFirst : Option Nat
  mGeomCount : Int
  mParent : Option Nat
  mChildren : Option Nat
deriving DecidableEq

/-- Element of the block array as `dAlloc` leaves it (contents taken as zeros). -/
def Block.fresh : Block := ⟨0, 0, 0, 0, none, 0, none, none⟩

/-- Running state of `Block::Create`: the block array, the running pointer `Blocks` (passed
by reference) and, as a record of the run, the index of the block every call initialised. -/
structure CreateState where
  blocks : List Block
  Blocks : Nat
  written : List Nat
deriving DecidableEq

/-- Method `Block::Create` called on the block of index `self`; `none` when an assertion
fails or a block outside the array is written. -/
def Block.Create (MinX MaxX MinY MaxY : ℚ) (Parent : Option Nat) :
    Nat → Nat → CreateState → Option CreateState
  | Depth, self, s =>
    if ¬ (MinX ≤ MaxX) then none
    else if ¬ (MinY ≤ MaxY) then none
    else if ¬ (self < s.blocks.length) then none
    else
      match Depth with
      | 0 =>
        some { s with
          blocks := s.blocks.set self ⟨MinX, MaxX, MinY, MaxY, none, 0, Parent, none⟩,
          written := s.written ++ [self] }
      | ChildDepth + 1 =>
        let mChildren := s.Blocks
        let s1 : CreateState :=
          { blocks := s.blocks.set self ⟨MinX, MaxX, MinY, MaxY, none, 0, Parent, some mChildren⟩,
            Blocks := s.Blocks + 4, written := s.written ++ [self] }
        let ChildExtentX := (MaxX - MinX) * (1 / 2)
        let ChildExtentY := (MaxY - MinY) * (1 / 2)
        let ChildMidX := MinX + ChildExtentX
        let ChildMidY := MinY + ChildExtentY
        (Block.Create MinX ChildMidX MinY ChildMidY (some self) ChildDepth mChildren s1).bind
          fun s2 =>
        (Block.Create MinX ChildMidX ChildMidY MaxY (some self) ChildDepth (mChildren + 1)
          s2).bind fun s3 =>
        (Block.Create ChildMidX MaxX MinY ChildMidY (some self) ChildDepth (mChildren + 2)
          s3).bind fun s4 =>
        Block.Create ChildMidX MaxX ChildMidY MaxY (some self) ChildDepth (mChildren + 3) s4

/-- Function `numNodes(depth)` for a `size_t` of `w` bits; `none` when the shift count is not
below the width of the type. -/
def numNodes (w : Nat) (depth : Nat) : Option Nat :=
  let k := depth + 1
  if 2 * k < w then
    let fourToNthPlusOne := (1 <<< (2 * k)) % 2 ^ w
    some ((fourToNthPlusOne - 1) / 3)
  else none

/-- Number of blocks strictly below the root of a complete 4-ary tree of the given depth. -/
def quadBelow : Nat → Nat
  | 0 => 0
  | d + 1 => 4 * quadBelow d + 4

/-- The fields of a block that `Block::Create` fixes for the life of the space: the rectangle,
`mParent` and `mChildren`. -/
def Block.shape (b : Block) : ℚ × ℚ × ℚ × ℚ × Option Nat × Option Nat :=
  (b.mMinX, b.mMaxX, b.mMinZ, b.mMaxZ, b.mParent, b.mChildren)

/-- The block of index `self` is the root of a complete 4-ary tree of the given depth over the
rectangle `[MinX, MaxX] × [MinZ, MaxZ]`: a block of depth zero has no children, and a block of
greater depth has its four children at `ptr .. ptr + 3`, over the four equal quadrants of the
rectangle, each the root of a complete tree one level shallower whose further blocks are laid
out one subtree after the other from `ptr + 4` on. -/
def Block.IsQuadTree (blocks : List Block) :
    Nat → ℚ → ℚ → ℚ → ℚ → Option Nat → Nat → Nat → Prop
  | 0, MinX, MaxX, MinZ, MaxZ, Parent, self, _ =>
    (blocks[self]?).map Block.shape = some (MinX, MaxX, MinZ, MaxZ, Parent, none)
  | d + 1, MinX, MaxX, MinZ, MaxZ, Parent, self, ptr =>
    (blocks[self]?).map Block.shape = some (MinX, MaxX, MinZ, MaxZ, Parent, some ptr) ∧
    Block.IsQuadTree blocks d MinX ((MinX + MaxX) / 2) MinZ ((MinZ + MaxZ) / 2) (some self)
      ptr (ptr + 4) ∧
    Block.IsQuadTree blocks d MinX ((MinX + MaxX) / 2) ((MinZ + MaxZ) / 2) MaxZ (some self)
      (ptr + 1) (ptr + 4 + quadBelow d) ∧
    Block.IsQuadTree blocks d ((MinX + MaxX) / 2) MaxX MinZ ((MinZ + MaxZ) / 2) (some self)
      (ptr + 2) (ptr + 4 + 2 * quadBelow d) ∧
    Block.IsQuadTree blocks d ((MinX + MaxX) / 2) MaxX ((MinZ + MaxZ) / 2) MaxZ (some self)
      (ptr + 3) (ptr + 4 + 3 * quadBelow d)

/-- Index set of the tree rooted at `self` whose further blocks start at `ptr`. -/
def Block.InSub (d self ptr j : Nat) : Prop := j = self ∨ (ptr ≤ j ∧ j < ptr + quadBelow d)

/-- What a run of `Block::Create` on the block `self` leaves: the running pointer has moved past
the blocks of the subtree, the array has kept its length, the blocks initialised are the block
itself and those from the running pointer on, each once, every other block is untouched, the
subtree is a complete tree and its blocks are empty. -/
def Block.Created (d : Nat) (MinX MaxX MinZ MaxZ : ℚ) (Parent : Option Nat) (self : Nat)
    (s s2 : CreateState) : Prop :=
  s2.Blocks = s.Blocks + quadBelow d ∧ s2.blocks.length = s.blocks.length ∧
  (∃ W, s2.written = s.written ++ W ∧ W.Perm (self :: List.range' s.Blocks (quadBelow d))) ∧
  (∀ j, ¬ Block.InSub d self s.Blocks j → s2.blocks[j]? = s.blocks[j]?) ∧
  Block.IsQuadTree s2.blocks d MinX MaxX MinZ MaxZ Parent self s.Blocks ∧
  (∀ j, Block.InSub d self s.Blocks j →
    ∃ b, s2.blocks[j]? = some b ∧ b.mGeomCount = 0 ∧ b.mFirst = none)

/-- The bounding box `aabb[6]` of a geom: the members `aabb[0]` to `aabb[5]`. -/
structure dAABB where
  a0 : ℚ
  a1 : ℚ
  a2 : ℚ
  a3 : ℚ
  a4 : ℚ
  a5 : ℚ
deriving DecidableEq

/-- Method `Block::Inside`. -/
def Block.Inside (b : Block) (AABB : dAABB) : Bool :=
  decide (AABB.a0 > b.mMinX) && decide (AABB.a1 < b.mMaxX) && decide (AABB.a2 > b.mMinZ) &&
    decide (AABB.a3 < b.mMaxZ)

/-- Method `Block::GetBlockChild` called on the block of index `self`, with fuel for the
recursion; `none` without fuel or when a block outside the array is read. -/
def Block.GetBlockChild (blocks : List Block) (AABB : dAABB) : Nat → Nat → Option Nat
  | 0, _ => none
  | fuel + 1, self =>
    match blocks[self]? with
    | none => none
    | some b =>
      match b.mChildren with
      | none => some self
      | some mChildren =>
        match blocks[mChildren]?, blocks[mChildren + 1]?, blocks[mChildren + 2]?,
            blocks[mChildren + 3]? with
        | some c0, some c1, some c2, some c3 =>
          if c0.Inside AABB then Block.GetBlockChild blocks AABB fuel mChildren
          else if c1.Inside AABB then Block.GetBlockChild blocks AABB fuel (mChildren + 1)
          else if c2.Inside AABB then Block.GetBlockChild blocks AABB fuel (mChildren + 2)
          else if c3.Inside AABB then Block.GetBlockChild blocks AABB fuel (mChildren + 3)
          else some self
        | _, _, _, _ => none

/-- Method `Block::GetBlock` called on the block of index `self`, with fuel for the
recursion. -/
def Block.GetBlock (blocks : List Block) (AABB : dAABB) : Nat → Nat → Option Nat
  | 0, _ => none
  | fuel + 1, self =>
    match blocks[self]? with
    | none => none
    | some b =>
      if b.Inside AABB then Block.GetBlockChild blocks AABB (fuel + 1) self
      else
        match b.mParent with
        | some mParent => Block.GetBlock blocks AABB fuel mParent
        | none => some self

/-- The rectangle of `c` is quadrant `k` of the rectangle of `b`, in the order of
`Block::Create`. -/
def Block.IsQuadrant (b c : Block) (k : Nat) : Prop :=
  c.mMinX = (if k < 2 then b.mMinX else (b.mMinX + b.mMaxX) / 2) ∧
  c.mMaxX = (if k < 2 then (b.mMinX + b.mMaxX) / 2 else b.mMaxX) ∧
  c.mMinZ = (if k % 2 = 0 then b.mMinZ else (b.mMinZ + b.mMaxZ) / 2) ∧
  c.mMaxZ = (if k % 2 = 0 then (b.mMinZ + b.mMaxZ) / 2 else b.mMaxZ)

/-- The block array of a space: a complete 4-ary tree rooted at block 0 that fills the
array, as `Block::Create` builds it. -/
def Block.WellFormed (blocks : List Block) : Prop :=
  ∃ (D : Nat) (MinX MaxX MinZ MaxZ : ℚ), MinX ≤ MaxX ∧ MinZ ≤ MaxZ ∧
    blocks.length = quadBelow D + 1 ∧ Block.IsQuadTree blocks D MinX MaxX MinZ MaxZ none 0 1

/-- Sample block array: the tree of depth 1 that `Block::Create` builds over the square from 0
to 8. -/
def sampleBlocks : List Block :=
  match Block.Create 0 8 0 8 none 1 0 ⟨List.replicate 5 Block.fresh, 1, []⟩ with
  | some s => s.blocks
  | none => []

/-! ### Quadtree space: geoms, local lists and counts -/

/-- The members of `dxGeom` that the quadtree space uses: the box `aabb`, the link `next_ex`
to the next geom of the local list of its block (`none` is the null pointer), the block
`tome_ex` that hosts it, and the value of `GEOM_ENABLED(g)`. -/
structure dxGeom where
  aabb : dAABB
  next_ex : Option Nat
  tome_ex : Option Nat
  enabled : Bool
deriving DecidableEq

/-- State of a `dxQuadTreeSpace`: the block array, the geoms it can point to (a geom pointer
is an index into `geoms`) and the dirty list. -/
structure dxQuadTreeSpace where
  Blocks : List Block
  geoms : List dxGeom
  DirtyList : List Nat
deriving DecidableEq

/-- The loop `do { Block->mGeomCount += delta; Block = Block->mParent; } while (Block)` of
`Block::AddObject` (`delta = 1`) and `Block::DelObject` (`delta = -1`), with fuel; the count
is taken as an unbounded integer. -/
def Block.countLoop (delta : Int) : Nat → Nat → List Block → Option (List Block)
  | 0, _, _ => none
  | fuel + 1, blk, blocks =>
    match blocks[blk]? with
    | none => none
    | some b =>
      let blocks1 := blocks.set blk { b with mGeomCount := b.mGeomCount + delta }
      match b.mParent with
      | some mParent => Block.countLoop delta fuel mParent blocks1
      | none => some blocks1

/-- Method `Block::AddObject` called on the block of index `self`. -/
def Block.AddObject (s : dxQuadTreeSpace) (fuel self Object : Nat) : Option dxQuadTreeSpace :=
  match s.Blocks[self]?, s.geoms[Object]? with
  | some b, some G =>
    let geoms1 := s.geoms.set Object { G with next_ex := b.mFirst, tome_ex := some self }
    let blocks1 := s.Blocks.set self { b with mFirst := some Object }
    (Block.countLoop 1 fuel self blocks1).map fun blocks2 =>
      { s with Blocks := blocks2, geoms := geoms1 }
  | _, _ => none

/-- The loop `while (g)` of `Block::DelObject`, from the geom `g` with predecessor `Last`. -/
def Block.DelObject_loop (self Object : Nat) :
    Nat → Option Nat → Option Nat → dxQuadTreeSpace → Option dxQuadTreeSpace
  | 0, _, _, _ => none
  | _ + 1, none, _, s => some s
  | fuel + 1, some g, Last, s =>
    match s.geoms[g]? with
    | none => none
    | some G =>
      if g = Object then
        match Last with
        | some l =>
          match s.geoms[l]? with
          | some L => some { s with geoms := s.geoms.set l { L with next_ex := G.next_ex } }
          | none => none
        | none =>
          match s.Blocks[self]? with
          | some b => some { s with Blocks := s.Blocks.set self { b with mFirst := G.next_ex } }
          | none => none
      else Block.DelObject_loop self Object fuel G.next_ex (some g) s

/-- Method `Block::DelObject` called on the block of index `self`. -/
def Block.DelObject (s : dxQuadTreeSpace) (fuel self Object : Nat) : Option dxQuadTreeSpace :=
  match s.Blocks[self]? with
  | none => none
  | some b =>
    (Block.DelObject_loop self Object fuel b.mFirst none s).bind fun s1 =>
      match s1.geoms[Object]? with
      | none => none
      | some G =>
        (Block.countLoop (-1) fuel self s1.Blocks).map fun blocks2 =>
          { s1 with Blocks := blocks2, geoms := s1.geoms.set Object { G with tome_ex := none } }

/-- Method `Block::Traverse` called on the block of index `self`. -/
def Block.Traverse (s : dxQuadTreeSpace) (fuel self Object : Nat) : Option dxQuadTreeSpace :=
  match s.geoms[Object]? with
  | none => none
  | some G =>
    (Block.GetBlock s.Blocks G.aabb fuel self).bind fun NewBlock =>
      if NewBlock ≠ self then
        (Block.DelObject s fuel self Object).bind fun s1 => Block.AddObject s1 fuel NewBlock Object
      else some s

/-- Method `dxQuadTreeSpace::add` on a space that is not locked; `none` when an assertion
fails. The call of `dxSpace::add` that ends it touches none of the members kept here. -/
def dxQuadTreeSpace.add (s : dxQuadTreeSpace) (fuel g : Nat) : Option dxQuadTreeSpace :=
  match s.geoms[g]? with
  | none => none
  | some G =>
    if G.tome_ex = none ∧ G.next_ex = none then
      let s1 := { s with DirtyList := s.DirtyList ++ [g] }
      (Block.GetBlock s1.Blocks G.aabb fuel 0).bind fun best => Block.AddObject s1 fuel best g
    else none

/-- The loop over the dirty list of `dxQuadTreeSpace::cleanGeoms`; `recomputeAABB g G` is the
box that `g->recomputeAABB()` stores for the geom `g` whose members are `G` (after the
`cleanGeoms` of `g` itself when `g` is a space). The dirty flags are not kept. -/
def dxQuadTreeSpace.cleanGeoms_loop (recomputeAABB : Nat → dxGeom → dAABB) (fuel : Nat) :
    List Nat → dxQuadTreeSpace → Option dxQuadTreeSpace
  | [], s => some s
  | g :: rest, s =>
    match s.geoms[g]? with
    | none => none
    | some G =>
      let s1 := { s with geoms := s.geoms.set g { G with aabb := recomputeAABB g G } }
      match G.tome_ex with
      | none => none
      | some host =>
        (Block.Traverse s1 fuel host g).bind fun s2 =>
          dxQuadTreeSpace.cleanGeoms_loop recomputeAABB fuel rest s2

/-- Method `dxQuadTreeSpace::cleanGeoms`. -/
def dxQuadTreeSpace.cleanGeoms (recomputeAABB : Nat → dxGeom → dAABB) (s : dxQuadTreeSpace)
    (fuel : Nat) : Option dxQuadTreeSpace :=
  (dxQuadTreeSpace.cleanGeoms_loop recomputeAABB fuel s.DirtyList s).map fun s1 =>
    { s1 with DirtyList := [] }

/-! ### Quadtree space: collide query -/

/-- Record of a collide query: the pairs submitted to `testCollideAABBs` and the pairs passed
to the callback, in order. -/
structure CollideLog where
  tests : List (Nat × Nat)
  calls : List (Nat × Nat)
deriving DecidableEq

/-- The loop `while (g2)` of `Block::Collide(g1, g2, UserData, Callback)`; `testCollideAABBs`
is the result of the function of that name on two geoms. -/
def Block.Collide_list (testCollideAABBs : Nat → Nat → Bool) (geoms : List dxGeom) (g1 : Nat) :
    Nat → Option Nat → CollideLog → Option CollideLog
  | 0, _, _ => none
  | _ + 1, none, log => some log
  | fuel + 1, some g2, log =>
    match geoms[g2]? with
    | none => none
    | some G2 =>
      let log1 : CollideLog :=
        if G2.enabled then
          if testCollideAABBs g1 g2 then
            ⟨log.tests ++ [(g1, g2)], log.calls ++ [(g1, g2)]⟩
          else ⟨log.tests ++ [(g1, g2)], log.calls⟩
        else log
      Block.Collide_list testCollideAABBs geoms g1 fuel G2.next_ex log1

/-- Body of the loop over the children of `Block::Collide(g1, g2, UserData, Callback)`, for
the child `mChildren[i]`; `G1` holds the members of `g1` and `recurse` is the call
`CurrentChild.Collide(g1, CurrentChild.mFirst, UserData, Callback)`. -/
def Block.Collide_geom_child (s : dxQuadTreeSpace) (G1 : dxGeom)
    (recurse : Nat → Option Nat → CollideLog → Option CollideLog) (mChildren : Nat)
    (log : CollideLog) (i : Nat) : Option CollideLog :=
  match s.Blocks[mChildren + i]? with
  | none => none
  | some CurrentChild =>
    if CurrentChild.mGeomCount = 0 then some log
    else if CurrentChild.mGeomCount > 1 ∧
        (G1.aabb.a0 > CurrentChild.mMaxX ∨ G1.aabb.a1 < CurrentChild.mMinX ∨
         G1.aabb.a2 > CurrentChild.mMaxZ ∨ G1.aabb.a3 < CurrentChild.mMinZ) then
      some log
    else recurse (mChildren + i) CurrentChild.mFirst log

/-- Method `Block::Collide(g1, g2, UserData, Callback)` called on the block of index `self`. -/
def Block.Collide_geom (testCollideAABBs : Nat → Nat → Bool) (s : dxQuadTreeSpace) (g1 : Nat) :
    Nat → Nat → Option Nat → CollideLog → Option CollideLog
  | 0, _, _, _ => none
  | fuel + 1, self, g2, log =>
    match s.Blocks[self]?, s.geoms[g1]? with
    | some b, some G1 =>
      (Block.Collide_list testCollideAABBs s.geoms g1 (fuel + 1) g2 log).bind fun log1 =>
        match b.mChildren with
        | none => some log1
        | some mChildren =>
          [0, 1, 2, 3].foldlM
            (Block.Collide_geom_child s G1 (Block.Collide_geom testCollideAABBs s g1 fuel)
              mChildren) log1
    | _, _ => none

/-- The loop `while (g)` of `Block::Collide(UserData, Callback)` on the block `self`. -/
def Block.Collide_local (testCollideAABBs : Nat → Nat → Bool) (s : dxQuadTreeSpace)
    (self inner : Nat) : Nat → Option Nat → CollideLog → Option CollideLog
  | 0, _, _ => none
  | _ + 1, none, log => some log
  | fuel + 1, some g, log =>
    match s.geoms[g]? with
    | none => none
    | some G =>
      (if G.enabled then Block.Collide_geom testCollideAABBs s g inner self G.next_ex log
        else some log).bind fun log1 =>
        Block.Collide_local testCollideAABBs s self inner fuel G.next_ex log1

/-- Body of the loop over the children of `Block::Collide(UserData, Callback)`, for the child
`mChildren[i]`; `recurse` is the call `CurrentChild.Collide(UserData, Callback)`. -/
def Block.Collide_child (s : dxQuadTreeSpace) (recurse : Nat → CollideLog → Option CollideLog)
    (mChildren : Nat) (log : CollideLog) (i : Nat) : Option CollideLog :=
  match s.Blocks[mChildren + i]? with
  | none => none
  | some CurrentChild =>
    if CurrentChild.mGeomCount ≤ 1 then some log
    else recurse (mChildren + i) log

/-- Method `Block::Collide(UserData, Callback)` called on the block of index `self`. The
callback is taken to leave the space as it is (the space is locked during the query). -/
def Block.Collide (testCollideAABBs : Nat → Nat → Bool) (s : dxQuadTreeSpace) :
    Nat → Nat → CollideLog → Option CollideLog
  | 0, _, _ => none
  | fuel + 1, self, log =>
    match s.Blocks[self]? with
    | none => none
    | some b =>
      (Block.Collide_local testCollideAABBs s self (fuel + 1) (fuel + 1) b.mFirst log).bind
        fun log1 =>
        match b.mChildren with
        | none => some log1
        | some mChildren =>
          [0, 1, 2, 3].foldlM
            (Block.Collide_child s (Block.Collide testCollideAABBs s fuel) mChildren) log1

/-! ### Quadtree space: invariants, proof devices and samples -/

/-- The geoms from `first` on along `next_ex` are the geoms of `l`, in order, and the last
one has a null `next_ex`. -/
def Chain (geoms : List dxGeom) : Option Nat → List Nat → Prop
  | first, [] => first = none
  | first, g :: t => first = some g ∧ ∃ G, geoms[g]? = some G ∧ Chain geoms G.next_ex t

/-- The local list of every block `i` of the space is `lists i`, and `tome_ex` of every geom
of a local list names the block of that list. -/
def dxQuadTreeSpace.Hosts (s : dxQuadTreeSpace) (lists : Nat → List Nat) : Prop :=
  (∀ i b, s.Blocks[i]? = some b → Chain s.geoms b.mFirst (lists i)) ∧
  (∀ i g, g ∈ lists i → i < s.Blocks.length ∧ ∃ G, s.geoms[g]? = some G ∧ G.tome_ex = some i)

/-- Sum of `mGeomCount` over the four children of a block (zero without children). -/
def Block.childCount (blocks : List Block) (b : Block) : Int :=
  match b.mChildren with
  | none => 0
  | some ch =>
    (((blocks[ch]?).map Block.mGeomCount).getD 0) +
    (((blocks[ch + 1]?).map Block.mGeomCount).getD 0) +
    (((blocks[ch + 2]?).map Block.mGeomCount).getD 0) +
    (((blocks[ch + 3]?).map Block.mGeomCount).getD 0)

/-- The count invariant of the quadtree: `mGeomCount` of every block is the sum of
`mGeomCount` over its children plus the length of its local list. -/
def CountInvariant (blocks : List Block) (lists : Nat → List Nat) : Prop :=
  ∀ i b, blocks[i]? = some b → b.mGeomCount = Block.childCount blocks b + (lists i).length

/-- The second array differs from the first in the counts of its blocks only. -/
def Block.CountsOnly (blocks blocks2 : List Block) : Prop :=
  blocks2.length = blocks.length ∧
  ∀ (j : Nat) (b : Block), blocks[j]? = some b →
    ∃ n, blocks2[j]? = some { b with mGeomCount := n }

/-- The second list of geoms differs from the first in the links `next_ex` and `tome_ex` of
its geoms only. -/
def LinksOnly (geoms geoms2 : List dxGeom) : Prop :=
  geoms2.length = geoms.length ∧
  ∀ (g : Nat) (G : dxGeom), geoms[g]? = some G →
    ∃ G2, geoms2[g]? = some G2 ∧ G2.aabb = G.aabb ∧ G2.enabled = G.enabled

/-- The rectangle of block `i` strictly contains the box of geom `g`. -/
def dxQuadTreeSpace.Inside (s : dxQuadTreeSpace) (i g : Nat) : Prop :=
  ∃ b G, s.Blocks[i]? = some b ∧ s.geoms[g]? = some G ∧ b.Inside G.aabb = true

/-- Sample space over the sample block array: geom 0 is hosted in block 1, geom 1, which
lies across the middle lines, in block 0, and geom 2, which reaches beyond the rectangle of
block 0, is not yet in the space; geom 0 is dirty. -/
def sampleSpace : dxQuadTreeSpace :=
  ⟨[⟨0, 8, 0, 8, some 1, 2, none, some 1⟩, ⟨0, 4, 0, 4, some 0, 1, some 0, none⟩,
    ⟨0, 4, 4, 8, none, 0, some 0, none⟩, ⟨4, 8, 0, 4, none, 0, some 0, none⟩,
    ⟨4, 8, 4, 8, none, 0, some 0, none⟩],
   [⟨⟨1, 3, 1, 3, 0, 1⟩, none, some 1, true⟩, ⟨⟨2, 5, 2, 5, 0, 1⟩, none, some 0, true⟩,
    ⟨⟨7, 9, 1, 2, 0, 1⟩, none, none, true⟩],
   [0]⟩

/-- Local lists of the sample space. -/
def sampleLists : Nat → List Nat := fun i => if i = 0 then [1] else if i = 1 then [0] else []

/-- The log after the pairs of `T` have been submitted in order: every pair is recorded as a
test, and the pairs that `testCollideAABBs` accepts are recorded as calls of the callback. -/
def CollideLog.after (testCollideAABBs : Nat → Nat → Bool) (log : CollideLog)
    (T : List (Nat × Nat)) : CollideLog :=
  ⟨log.tests ++ T, log.calls ++ T.filter fun p => testCollideAABBs p.1 p.2⟩

/-- Value of `GEOM_ENABLED(g)` for the geom of index `g`. -/
def enabledAt (geoms : List dxGeom) (g : Nat) : Bool :=
  ((geoms[g]?).map dxGeom.enabled).getD false

/-- The X and Z extents of the boxes of two geoms overlap. -/
def overlapXZ (geoms : List dxGeom) (g h : Nat) : Prop :=
  ∃ G H, geoms[g]? = some G ∧ geoms[h]? = some H ∧
    G.aabb.a0 ≤ H.aabb.a1 ∧ H.aabb.a0 ≤ G.aabb.a1 ∧
    G.aabb.a2 ≤ H.aabb.a3 ∧ H.aabb.a2 ≤ G.aabb.a3

/-- The geoms hosted strictly below a block of a complete tree of the given depth whose
children start at `ptr`, in the order of the layout. -/
def belowGeoms (lists : Nat → List Nat) : Nat → Nat → List Nat
  | 0, _ => []
  | d + 1, ptr =>
    (lists ptr ++ belowGeoms lists d (ptr + 4)) ++
    ((lists (ptr + 1) ++ belowGeoms lists d (ptr + 4 + quadBelow d)) ++
    ((lists (ptr + 2) ++ belowGeoms lists d (ptr + 4 + 2 * quadBelow d)) ++
    (lists (ptr + 3) ++ belowGeoms lists d (ptr + 4 + 3 * quadBelow d))))

/-- The box of the geom `g` is strictly inside the rectangle. -/
def InRect (geoms : List dxGeom) (MinX MaxX MinZ MaxZ : ℚ) (g : Nat) : Prop :=
  ∃ G, geoms[g]? = some G ∧ MinX < G.aabb.a0 ∧ G.aabb.a1 < MaxX ∧ MinZ < G.aabb.a2 ∧
    G.aabb.a3 < MaxZ

/-- The pairs of `T` pair `g1` with enabled geoms of `B`, none twice, and every enabled geom
of `B` whose box overlaps that of `g1` in X and Z is paired. -/
def OneVsMany (geoms : List dxGeom) (T : List (Nat × Nat)) (g1 : Nat) (B : List Nat) : Prop :=
  (∀ p, p ∈ T → p.1 = g1 ∧ p.2 ∈ B ∧ enabledAt geoms p.2 = true) ∧ T.Nodup ∧
  (∀ h, h ∈ B → enabledAt geoms h = true → overlapXZ geoms g1 h → (g1, h) ∈ T)

/-- The pairs of `T` pair an enabled geom of `A` with another enabled geom of `A` or `B`, no
pair twice or in both orders, and every two distinct enabled geoms, one of `A` and one of `A`
or `B`, whose boxes overlap in X and Z, are paired in one order or the other. -/
def AllPairs (geoms : List dxGeom) (T : List (Nat × Nat)) (A B : List Nat) : Prop :=
  (∀ a b, (a, b) ∈ T → a ∈ A ∧ b ∈ A ++ B ∧ a ≠ b ∧ enabledAt geoms a = true ∧
    enabledAt geoms b = true) ∧
  T.Nodup ∧ (∀ a b, (a, b) ∈ T → (b, a) ∉ T) ∧
  (∀ a b, a ∈ A → b ∈ A ++ B → a ≠ b → enabledAt geoms a = true → enabledAt geoms b = true →
    overlapXZ geoms a b → (a, b) ∈ T ∨ (b, a) ∈ T)

/-- Sample result of `testCollideAABBs`: geoms 0 and 1 are accepted, in both orders. -/
def sampleTest : Nat → Nat → Bool := fun g h => (g == 0 && h == 1) || (g == 1 && h == 0)

/-! ### Point distance, scalar and AVX variants (odemath.h) -/

/-- Register `__m128` of the `__AVX__` build: four lanes of exact values. The same record
stands for the four `dReal` that a `const dReal*` argument of the point helpers points to. -/
structure m128 where
  f0 : ℚ
  f1 : ℚ
  f2 : ℚ
  f3 : ℚ
deriving DecidableEq

/-- Intrinsic `_mm_loadu_ps(p)`: the four values at `p`, lane by lane. -/
def _mm_loadu_ps (p : m128) : m128 := p

/-- Intrinsic `_mm_sub_ps(a, b)`: lane-wise difference. -/
def _mm_sub_ps (a b : m128) : m128 := ⟨a.f0 - b.f0, a.f1 - b.f1, a.f2 - b.f2, a.f3 - b.f3⟩

/-- Intrinsic `_mm_dp_ps(a, b, imm8)`: the products of the lanes selected by bits 4 to 7 of
`imm8` are summed, and the sum is stored in the lanes selected by bits 0 to 3, the other
lanes being zero. -/
def _mm_dp_ps (a b : m128) (imm8 : Nat) : m128 :=
  let t0 := if imm8.testBit 4 then a.f0 * b.f0 else 0
  let t1 := if imm8.testBit 5 then a.f1 * b.f1 else 0
  let t2 := if imm8.testBit 6 then a.f2 * b.f2 else 0
  let t3 := if imm8.testBit 7 then a.f3 * b.f3 else 0
  let sum := t0 + t1 + t2 + t3
  ⟨if imm8.testBit 0 then sum else 0, if imm8.testBit 1 then sum else 0,
    if imm8.testBit 2 then sum else 0, if imm8.testBit 3 then sum else 0⟩

/-- Intrinsic `_mm_cvtss_f32(a)`: lane 0. -/
def _mm_cvtss_f32 (a : m128) : ℚ := a.f0

/-- Function `dCalcPointsDistanceSquare3` of odemath.h, the variant compiled with
`__AVX__`. -/
def dCalcPointsDistanceSquare3_avx (a b : m128) : ℚ :=
  let ma := _mm_loadu_ps a
  let mb := _mm_loadu_ps b
  let ma := _mm_sub_ps ma mb
  let ma := _mm_dp_ps ma mb 0x71
  _mm_cvtss_f32 ma

/-- Function `dCalcPointsDistance3` of odemath.h, the variant compiled with `__AVX__`;
`dSqrt` is the square root of the build. -/
def dCalcPointsDistance3_avx (dSqrt : ℚ → ℚ) (a b : m128) : ℚ :=
  let ma := _mm_loadu_ps a
  let mb := _mm_loadu_ps b
  let ma := _mm_sub_ps ma mb
  let ma := _mm_dp_ps ma mb 0x71
  dSqrt (_mm_cvtss_f32 ma)

/-- Function `dSubtractVectors3(res, a, b)`, scalar variant: the three components written to
`res`. -/
def dSubtractVectors3 (a b : m128) : dVector3 := ⟨a.f0 - b.f0, a.f1 - b.f1, a.f2 - b.f2⟩

/-- Function `dCalcVectorLengthSquare3(a)`, scalar variant. -/
def dCalcVectorLengthSquare3 (a : dVector3) : ℚ := a.x * a.x + a.y * a.y + a.z * a.z

/-- Function `dCalcVectorLength3(a)`, scalar variant. -/
def dCalcVectorLength3 (dSqrt : ℚ → ℚ) (a : dVector3) : ℚ :=
  dSqrt (a.x * a.x + a.y * a.y + a.z * a.z)

/-- Function `dCalcPointsDistanceSquare3` of odemath.h, the variant compiled without
`__AVX__`. -/
def dCalcPointsDistanceSquare3 (a b : m128) : ℚ :=
  let tmp := dSubtractVectors3 a b
  dCalcVectorLengthSquare3 tmp

/-- Function `dCalcPointsDistance3` of odemath.h, the variant compiled without `__AVX__`. -/
def dCalcPointsDistance3 (dSqrt : ℚ → ℚ) (a b : m128) : ℚ :=
  let tmp := dSubtractVectors3 a b
  dCalcVectorLength3 dSqrt tmp

/-! ### Box collider: clipping a polygon to a plane (collision_trimesh_box.cpp) -/

/-- Function `dCalcLerpVectors3r4(res, a, b, t)`: the vector `a + (b - a) * t` written to
`res`. -/
def dCalcLerpVectors3r4 (a b : dVector3) (t : ℚ) : dVector3 :=
  ⟨a.x + (b.x - a.x) * t, a.y + (b.y - a.y) * t, a.z + (b.z - a.z) * t⟩

/-- The statements `dCopyVector3r4(avArrayOut[ctOut], v); ctOut++` for an output array of
`cap` elements, `out` being the elements stored so far; `none` when the element lies outside
the array. -/
def clipEmit (cap : Nat) (out : List dVector3) (v : dVector3) : Option (List dVector3) :=
  if out.length < cap then some (out ++ [v]) else none

/-- The statements `fd = fDistance0 / (fDistance0 - fDistance1); dCalcLerpVectors3r4(
avArrayOut[ctOut], *v0, *v1, fd); ctOut++`; `none` when the divisor is zero or the element
lies outside the array. -/
def clipEmitLerp (cap : Nat) (out : List dVector3) (v0 v1 : dVector3)
    (fDistance0 fDistance1 : ℚ) : Option (List dVector3) :=
  if fDistance0 - fDistance1 = 0 then none
  else clipEmit cap out (dCalcLerpVectors3r4 v0 v1 (fDistance0 / (fDistance0 - fDistance1)))

/-- The loop `for (int i1 = 0; i1 < ctIn; i1++)` of `_cldClipPolyToPlane`,
`_cldClipPolyToNegativePlane` and `_cldClipPolyToPlaneAtOrigin`, which differ only in the
expression `fDistance` of the signed distance: the vertices still to visit, the current `v0`
and `fDistance0`, and the output so far. -/
def clipPoly_loop (cap : Nat) (fDistance : dVector3 → ℚ) :
    List dVector3 → dVector3 → ℚ → List dVector3 → Option (List dVector3)
  | [], _, _, out => some out
  | v1 :: rest, v0, fDistance0, out =>
    let fDistance1 := fDistance v1
    let out1 : Option (List dVector3) :=
      if fDistance0 = 0 then clipEmit cap out v0
      else if fDistance0 > 0 then
        (clipEmit cap out v0).bind fun out0 =>
          if fDistance1 < 0 then clipEmitLerp cap out0 v0 v1 fDistance0 fDistance1
          else some out0
      else if fDistance1 > 0 then clipEmitLerp cap out v0 v1 fDistance0 fDistance1
      else some out
    out1.bind fun out2 => clipPoly_loop cap fDistance rest v1 fDistance1 out2

/-- The body shared by the three clip functions: `ctOut = 0`, `v0 = &avArrayIn[ctIn - 1]`,
`fDistance0`, then the loop. For `ctIn = 0` the source reads the element before the array
into `fDistance0`; no iteration follows, so the value is not used and the output is empty. -/
def clipPoly (cap : Nat) (fDistance : dVector3 → ℚ) (avArrayIn : List dVector3) :
    Option (List dVector3) :=
  match avArrayIn.getLast? with
  | none => some []
  | some v0 => clipPoly_loop cap fDistance avArrayIn v0 (fDistance v0) []

/-- Function `_cldClipPolyToPlane` of collision_trimesh_box.cpp for an output array of `cap`
elements: the `ctOut` vertices written to `avArrayOut`; `none` when a vertex is stored
outside the array or a division by zero occurs. -/
def _cldClipPolyToPlane (cap : Nat) (avArrayIn : List dVector3) (plPlaneNorm : dVector3)
    (plPlaneOffset : ℚ) : Option (List dVector3) :=
  clipPoly cap (fun v => v.dot plPlaneNorm + plPlaneOffset) avArrayIn

/-- Function `_cldClipPolyToNegativePlane` of collision_trimesh_box.cpp. -/
def _cldClipPolyToNegativePlane (cap : Nat) (avArrayIn : List dVector3)
    (plPlaneNorm : dVector3) (plPlaneOffset : ℚ) : Option (List dVector3) :=
  clipPoly cap (fun v => -(v.dot plPlaneNorm) + plPlaneOffset) avArrayIn

/-- Function `_cldClipPolyToPlaneAtOrigin` of collision_trimesh_box.cpp. -/
def _cldClipPolyToPlaneAtOrigin (cap : Nat) (avArrayIn : List dVector3)
    (plPlaneNorm : dVector3) : Option (List dVector3) :=
  clipPoly cap (fun v => v.dot plPlaneNorm) avArrayIn

/-- What one edge `(v0, v1)` of the input polygon contributes to the clipped polygon: `v0`
when its signed distance is not negative, then the point of the edge on the plane when the
signed distances of `v0` and `v1` have strictly opposite signs. -/
def clipEdge (fDistance : dVector3 → ℚ) (e : dVector3 × dVector3) : List dVector3 :=
  (if 0 ≤ fDistance e.1 then [e.1] else []) ++
  (if (0 < fDistance e.1 ∧ fDistance e.2 < 0) ∨ (fDistance e.1 < 0 ∧ 0 < fDistance e.2) then
    [dCalcLerpVectors3r4 e.1 e.2 (fDistance e.1 / (fDistance e.1 - fDistance e.2))]
   else [])

/-- The contributions of the edges met from `v0` on along the vertices `l`. -/
def clipEdges (fDistance : dVector3 → ℚ) : dVector3 → List dVector3 → List dVector3
  | _, [] => []
  | v0, v1 :: rest => clipEdge fDistance (v0, v1) ++ clipEdges fDistance v1 rest

/-- The signed distance is affine along segments. -/
def AffineOn (g : dVector3 → ℚ) : Prop :=
  ∀ (a b : dVector3) (t : ℚ), g (dCalcLerpVectors3r4 a b t) = g a + (g b - g a) * t

/-- Sample triangle across the plane `x = 1`. -/
def sampleTriangle : List dVector3 := [⟨0, 0, 0⟩, ⟨2, 0, 0⟩, ⟨2, 2, 0⟩]

/-! ### Capsule collider: clipping an edge to a plane (collision_trimesh_capsule.cpp) -/

/-- The part shared by `_cldClipEdgeToPlaneNorm` and `_cldClipEdgeToPlaneNormNoOffset` of
collision_trimesh_capsule.cpp once the two distances are computed: the returned BOOL and the
edge points `vEpnt0`, `vEpnt1` after the call; `none` when the divisor is zero. -/
def clipEdgeToPlane (dEpsilon : ℚ) (vEpnt0 vEpnt1 : dVector3) (fDistance0 fDistance1 : ℚ) :
    Option (Bool × dVector3 × dVector3) :=
  if fDistance0 < dEpsilon ∧ fDistance1 < dEpsilon then some (false, vEpnt0, vEpnt1)
  else if fDistance0 ≥ 0 ∧ fDistance1 ≥ 0 then some (true, vEpnt0, vEpnt1)
  else if fDistance0 - fDistance1 = 0 then none
  else
    let factor := fDistance0 / (fDistance0 - fDistance1)
    if fDistance0 < 0 then some (true, dCalcLerpVectors3r4 vEpnt0 vEpnt1 factor, vEpnt1)
    else some (true, vEpnt0, dCalcLerpVectors3r4 vEpnt0 vEpnt1 factor)

/-- Method `_cldClipEdgeToPlaneNorm`. -/
def _cldClipEdgeToPlaneNorm (dEpsilon : ℚ) (vEpnt0 vEpnt1 plPlane : dVector3) (offset : ℚ) :
    Option (Bool × dVector3 × dVector3) :=
  let fDistance0 := vEpnt0.dot plPlane + offset
  let fDistance1 := vEpnt1.dot plPlane + offset
  clipEdgeToPlane dEpsilon vEpnt0 vEpnt1 fDistance0 fDistance1

/-- Method `_cldClipEdgeToPlaneNormNoOffset`. -/
def _cldClipEdgeToPlaneNormNoOffset (dEpsilon : ℚ) (vEpnt0 vEpnt1 plPlane : dVector3) :
    Option (Bool × dVector3 × dVector3) :=
  let fDistance0 := vEpnt0.dot plPlane
  let fDistance1 := vEpnt1.dot plPlane
  clipEdgeToPlane dEpsilon vEpnt0 vEpnt1 fDistance0 fDistance1

/-! ### Quadtree space: collide2 (collision_quadtreespace.cpp) -/

/-- Function `swap_callback(data, g1, g2)`: the pair of geoms with which it invokes
`dc->callback`. -/
def swap_callback (p : Nat × Nat) : Nat × Nat := (p.2, p.1)

/-- Method `Block::CollideLocal(g2, UserData, Callback)`: the loop `while (g1)` from the geom
`g1` of the local list on. -/
def Block.CollideLocal (testCollideAABBs : Nat → Nat → Bool) (geoms : List dxGeom) (g2 : Nat) :
    Nat → Option Nat → CollideLog → Option CollideLog
  | 0, _, _ => none
  | _ + 1, none, log => some log
  | fuel + 1, some g1, log =>
    match geoms[g1]? with
    | none => none
    | some G1 =>
      let log1 : CollideLog :=
        if G1.enabled then
          if testCollideAABBs g1 g2 then
            ⟨log.tests ++ [(g1, g2)], log.calls ++ [(g1, g2)]⟩
          else ⟨log.tests ++ [(g1, g2)], log.calls⟩
        else log
      Block.CollideLocal testCollideAABBs geoms g2 fuel G1.next_ex log1

/-- The loop `while ((CurrentBlock = CurrentBlock->mParent)) CurrentBlock->CollideLocal(g2,
UserData, Callback)` of `dxQuadTreeSpace::collide2`, `mParent` being the parent of the
current block. -/
def dxQuadTreeSpace.collide2_parents (testCollideAABBs : Nat → Nat → Bool)
    (s : dxQuadTreeSpace) (g2 : Nat) : Nat → Option Nat → CollideLog → Option CollideLog
  | 0, _, _ => none
  | _ + 1, none, log => some log
  | fuel + 1, some CurrentBlock, log =>
    match s.Blocks[CurrentBlock]? with
    | none => none
    | some b =>
      (Block.CollideLocal testCollideAABBs s.geoms g2 (fuel + 1) b.mFirst log).bind fun log1 =>
        dxQuadTreeSpace.collide2_parents testCollideAABBs s g2 fuel b.mParent log1

/-- Method `dxQuadTreeSpace::collide2(UserData, g2, Callback)`: the space after the call and
the record of the pairs submitted to `testCollideAABBs` and of the pairs with which the
callback of the caller is invoked. `parent_space_is_this` is the value of
`g2->parent_space == this`; `recomputeAABB` is as in `cleanGeoms`. -/
def dxQuadTreeSpace.collide2 (testCollideAABBs : Nat → Nat → Bool)
    (recomputeAABB : Nat → dxGeom → dAABB) (parent_space_is_this : Bool)
    (s : dxQuadTreeSpace) (fuel g2 : Nat) : Option (dxQuadTreeSpace × CollideLog) :=
  (s.cleanGeoms recomputeAABB fuel).bind fun s1 =>
    match s1.geoms[g2]? with
    | none => none
    | some G2 =>
      let s2 : dxQuadTreeSpace :=
        ⟨s1.Blocks, s1.geoms.set g2 { G2 with aabb := recomputeAABB g2 G2 }, s1.DirtyList⟩
      if parent_space_is_this then
        match G2.tome_ex with
        | none => none
        | some CurrentBlock =>
          match s2.Blocks[CurrentBlock]? with
          | none => none
          | some b =>
            (Block.Collide_geom testCollideAABBs s2 g2 fuel CurrentBlock b.mFirst
              ⟨[], []⟩).bind fun dc =>
              (dxQuadTreeSpace.collide2_parents testCollideAABBs s2 g2 fuel b.mParent
                ⟨dc.tests, dc.calls.map swap_callback⟩).map fun log => (s2, log)
      else
        match s2.Blocks[0]? with
        | none => none
        | some b =>
          (Block.Collide_geom testCollideAABBs s2 g2 fuel 0 b.mFirst ⟨[], []⟩).map fun dc =>
            (s2, ⟨dc.tests, dc.calls.map swap_callback⟩)

/-! ### Capsule collider: the deepest local contact -/

/-- Among the first `n` local contacts the one of index `m` is flagged 1, no contact is deeper
and no earlier contact is as deep. -/
def DeepestKept (n m : Nat) (cs : List sLocalContactData) : Prop :=
  m < n ∧ n ≤ cs.length ∧ ∃ cm, cs[m]? = some cm ∧ cm.nFlags = 1 ∧
    (∀ k c, k < n → cs[k]? = some c → c.fDepth ≤ cm.fDepth) ∧
    (∀ k c, k < m → cs[k]? = some c → c.fDepth < cm.fDepth)

/-- Sample capsule collider data with two near local contacts of depths 1 and 2. -/
def sampleLocalContacts : sTrimeshCapsuleColliderData :=
  ⟨[⟨⟨0, 0, 0⟩, ⟨0, 0, 1⟩, 1, 0, 1⟩, ⟨⟨0, 0, 0⟩, ⟨0, 0, 1⟩, 2, 0, 1⟩], 2, 2⟩

/-! ### Box collider: separating axes and the geometry of the clipping -/

/-- Function `dAddScaledVector3r4(res, a, scale)`: the vector `res + scale * a` left in
`res`. -/
def dAddScaledVector3r4 (res a : dVector3) (scale : ℚ) : dVector3 :=
  ⟨res.x + scale * a.x, res.y + scale * a.y, res.z + scale * a.z⟩

/-- Function `dAddScaledVectors3r4(res, a, b, a_scale, b_scale)`: the vector
`a_scale * a + b_scale * b` written to `res`. -/
def dAddScaledVectors3r4 (a b : dVector3) (a_scale b_scale : ℚ) : dVector3 :=
  ⟨a_scale * a.x + b_scale * b.x, a_scale * a.y + b_scale * b.y, a_scale * a.z + b_scale * b.z⟩

/-- Element `v[i]` of a `dVector3` for the indices 0, 1 and 2 of its three coordinates. -/
def Point.at (v : Point) (i : Nat) : ℚ :=
  match i with
  | 0 => v.x
  | 1 => v.y
  | _ => v.z

/-- The members of `sTrimeshBoxColliderData` under "box data". `m_BoxRotTransposed off` is
the `dVector3` found at the address `m_BoxRotTransposed + off`, the offset being counted in
`dReal`: the rows of the matrix, the axes of the box, are at the offsets 0, 4 and 8, and an
offset of 12 or more lies behind the 12 `dReal` of the matrix. -/
structure sTrimeshBoxColliderBox where
  m_vHullBoxPos : dVector3
  m_vBoxHalfSize : dVector3
  m_BoxRotTransposed : Nat → dVector3

/-- The members `m_vE0`, `m_vE1`, `m_vE2` and `m_vNnorm` of `sTrimeshBoxColliderData`. -/
structure sTrimeshBoxColliderEdges where
  m_vE0 : dVector3
  m_vE1 : dVector3
  m_vE2 : dVector3
  m_vNnorm : dVector3
deriving DecidableEq

/-- Method `sTrimeshBoxColliderData::_cldTestNormal`: the returned flag and the members after
the call. -/
def sTrimeshBoxColliderAxes._cldTestNormal (dEpsilon : ℚ) (d : sTrimeshBoxColliderAxes)
    (depth : ℚ) (vNormal : dVector3) : Bool × sTrimeshBoxColliderAxes :=
  if depth < dEpsilon then (false, d)
  else if depth < d.m_fBestDepth then
    (true, { m_vBestNormal := vNormal.scale (-1), m_iBestAxis := 1, m_fBestDepth := depth })
  else (true, d)

/-- Method `sTrimeshBoxColliderData::_cldTestEdge`: the returned flag and the members after
the call; `dRecipSqrt` is the reciprocal square root of the build. -/
def sTrimeshBoxColliderAxes._cldTestEdge (dEpsilon : ℚ) (dRecipSqrt : ℚ → ℚ)
    (d : sTrimeshBoxColliderAxes) (fp0 fp1 fR : ℚ) (vNormal : dVector3) (iAxis : Int) :
    Bool × sTrimeshBoxColliderAxes :=
  let update (fDepthMin fDepthMax : ℚ) : Bool × sTrimeshBoxColliderAxes :=
    let fLength := dCalcVectorLengthSquare3 vNormal
    if fLength ≤ dEpsilon then (true, d)
    else
      let fOneOverLength := dRecipSqrt fLength
      if fDepthMin > fDepthMax then
        let fDepth := fDepthMax * fOneOverLength
        if fDepth * (3 / 2) < d.m_fBestDepth then
          (true, { m_vBestNormal := vNormal.scale (-fOneOverLength), m_iBestAxis := iAxis,
                   m_fBestDepth := fDepth })
        else (true, d)
      else
        let fDepth := fDepthMin * fOneOverLength
        if fDepth * (3 / 2) < d.m_fBestDepth then
          (true, { m_vBestNormal := vNormal.scale fOneOverLength, m_iBestAxis := iAxis,
                   m_fBestDepth := fDepth })
        else (true, d)
  if fp0 < fp1 then
    let fDepthMin := fR - fp0
    if fDepthMin < 0 then (false, d)
    else
      let fDepthMax := fR + fp1
      if fDepthMax < 0 then (false, d)
      else update fDepthMin fDepthMax
  else
    let fDepthMin := fR - fp1
    if fDepthMin < 0 then (false, d)
    else
      let fDepthMax := fR + fp0
      if fDepthMax < 0 then (false, d)
      else update fDepthMin fDepthMax

/-- The statement `if (!test) { m_iBestAxis = -k; return false; }` of
`_cldTestSeparatingAxes`, `r` being the result of the test and `next` the rest of the
method. -/
def sepStep (r : Bool × sTrimeshBoxColliderAxes) (k : Int) (e : sTrimeshBoxColliderEdges)
    (next : sTrimeshBoxColliderAxes →
      Bool × sTrimeshBoxColliderAxes × sTrimeshBoxColliderEdges) :
    Bool × sTrimeshBoxColliderAxes × sTrimeshBoxColliderEdges :=
  if r.1 then next r.2 else (false, { r.2 with m_iBestAxis := -k }, e)

/-- Method `sTrimeshBoxColliderData::_cldTestSeparatingAxes`: the returned flag and the
members after the call. `MAXVALUE` is the macro of that name (`FLT_MAX` or `DBL_MAX`). -/
def sTrimeshBoxColliderBox._cldTestSeparatingAxes (dEpsilon MAXVALUE : ℚ)
    (dRecipSqrt : ℚ → ℚ) (b : sTrimeshBoxColliderBox) (a : sTrimeshBoxColliderAxes)
    (e : sTrimeshBoxColliderEdges) (v0 v1 v2 : dVector3) :
    Bool × sTrimeshBoxColliderAxes × sTrimeshBoxColliderEdges :=
  let a : sTrimeshBoxColliderAxes :=
    { m_vBestNormal := a.m_vBestNormal, m_iBestAxis := 0, m_fBestDepth := MAXVALUE }
  let m_vE0 := v1.sub v0
  let m_vE1 := v2.sub v0
  let e : sTrimeshBoxColliderEdges := ⟨m_vE0, m_vE1, e.m_vE2, e.m_vNnorm⟩
  let vN := m_vE0.cross m_vE1
  let fNLen := dCalcVectorLengthSquare3 vN
  if fNLen < dEpsilon then (false, a, e)
  else
    let invfNLen := dRecipSqrt fNLen
    let m_vNnorm := vN.scale invfNLen
    let e : sTrimeshBoxColliderEdges := ⟨m_vE0, m_vE1, e.m_vE2, m_vNnorm⟩
    let vA0 := b.m_BoxRotTransposed 0
    let vA1 := b.m_BoxRotTransposed 4
    let vA2 := b.m_BoxRotTransposed 8
    let fa0 := b.m_vBoxHalfSize.at 0
    let fa1 := b.m_vBoxHalfSize.at 1
    let fa2 := b.m_vBoxHalfSize.at 2
    let v0D := v0.sub b.m_vHullBoxPos
    let fp0 := m_vNnorm.dot v0D
    let fR := fa0 * |m_vNnorm.dot vA0| + fa1 * |m_vNnorm.dot vA1| + fa2 * |m_vNnorm.dot vA2|
    sepStep (a._cldTestNormal dEpsilon (fp0 + fR) m_vNnorm) 1 e fun a =>
    let vA0DotvE0 := vA0.dot m_vE0
    let vA0DotvE1 := vA0.dot m_vE1
    let fp0 := vA0.dot v0D
    let fp1 := fp0 + vA0DotvE0
    let fp2 := fp0 + vA0DotvE1
    let fR := fa0
    sepStep (a._cldTestFace fp0 fp1 fp2 fR vA0 2) 2 e fun a =>
    let vA1DotvE0 := vA1.dot m_vE0
    let vA1DotvE1 := vA1.dot m_vE1
    let fp0 := vA1.dot v0D
    let fp1 := fp0 + vA1DotvE0
    let fp2 := fp0 + vA1DotvE1
    let fR := fa1
    sepStep (a._cldTestFace fp0 fp1 fp2 fR vA1 3) 3 e fun a =>
    let vA2DotvE0 := vA2.dot m_vE0
    let vA2DotvE1 := vA2.dot m_vE1
    let fp0 := vA2.dot v0D
    let fp1 := fp0 + vA2DotvE0
    let fp2 := fp0 + vA2DotvE1
    let fR := fa2
    sepStep (a._cldTestFace fp0 fp1 fp2 fR vA2 4) 4 e fun a =>
    let vA0DotvN := vA0.dot vN
    let vL := vA0.cross m_vE0
    let fp0 := vL.dot v0D
    let fp2 := fp0 + vA0DotvN
    let fR := fa1 * |vA2DotvE0| + fa2 * |vA1DotvE0|
    sepStep (a._cldTestEdge dEpsilon dRecipSqrt fp0 fp2 fR vL 5) 5 e fun a =>
    let vL := vA0.cross m_vE1
    let fp0 := vL.dot v0D
    let fp1 := fp0 - vA0DotvN
    let fR := fa1 * |vA2DotvE1| + fa2 * |vA1DotvE1|
    sepStep (a._cldTestEdge dEpsilon dRecipSqrt fp0 fp1 fR vL 6) 6 e fun a =>
    let m_vE2 := m_vE1.sub m_vE0
    let e : sTrimeshBoxColliderEdges := ⟨m_vE0, m_vE1, m_vE2, m_vNnorm⟩
    let fAbsvA1DotvE2 := |vA1.dot m_vE2|
    let fAbsvA2DotvE2 := |vA2.dot m_vE2|
    let vL := vA0.cross m_vE2
    let fp0 := vL.dot v0D
    let fp1 := fp0 - vA0DotvN
    let fR := fa1 * fAbsvA2DotvE2 + fa2 * fAbsvA1DotvE2
    sepStep (a._cldTestEdge dEpsilon dRecipSqrt fp0 fp1 fR vL 7) 7 e fun a =>
    let vA1DotvN := vA1.dot vN
    let vL := vA1.cross m_vE0
    let fp0 := vL.dot v0D
    let fp2 := fp0 + vA1DotvN
    let fR := fa0 * |vA2DotvE0| + fa2 * |vA0DotvE0|
    sepStep (a._cldTestEdge dEpsilon dRecipSqrt fp0 fp2 fR vL 8) 8 e fun a =>
    let vL := vA1.cross m_vE1
    let fp0 := vL.dot v0D
    let fp1 := fp0 - vA1DotvN
    let fR := fa0 * |vA2DotvE1| + fa2 * |vA0DotvE1|
    sepStep (a._cldTestEdge dEpsilon dRecipSqrt fp0 fp1 fR vL 9) 9 e fun a =>
    let fAbsvA0Dotm_vE2 := |vA0.dot m_vE2|
    let vL := vA1.cross m_vE2
    let fp0 := vL.dot v0D
    let fp1 := fp0 - vA1DotvN
    let fR := fa0 * fAbsvA2DotvE2 + fa2 * fAbsvA0Dotm_vE2
    sepStep (a._cldTestEdge dEpsilon dRecipSqrt fp0 fp1 fR vL 10) 10 e fun a =>
    let vA2DotvN := vA2.dot vN
    let vL := vA2.cross m_vE0
    let fp0 := vL.dot v0D
    let fp2 := fp0 + vA2DotvN
    let fR := fa0 * |vA1DotvE0| + fa1 * |vA0DotvE0|
    sepStep (a._cldTestEdge dEpsilon dRecipSqrt fp0 fp2 fR vL 11) 11 e fun a =>
    let vL := vA2.cross m_vE1
    let fp0 := vL.dot v0D
    let fp1 := fp0 - vA2DotvN
    let fR := fa0 * |vA1DotvE1| + fa1 * |vA0DotvE1|
    sepStep (a._cldTestEdge dEpsilon dRecipSqrt fp0 fp1 fR vL 12) 12 e fun a =>
    let vL := vA2.cross m_vE2
    let fp0 := vL.dot v0D
    let fp1 := fp0 - vA2DotvN
    let fR := fa0 * fAbsvA1DotvE2 + fa1 * fAbsvA0Dotm_vE2
    sepStep (a._cldTestEdge dEpsilon dRecipSqrt fp0 fp1 fR vL 13) 13 e fun a =>
    (true, a, e)

/-- The edge-edge branch of `_cldClipping`, "calculate point on box edge": the point `vPa`
after the first two of the three offsets. The pointer `rot` is a `dVector3*` set to
`m_BoxRotTransposed`, so `*rot` is the vector at the offset `dV3E * rot` and `rot += 4` moves
it on by four `dVector3`, `dV3E` being the number of `dReal` in a `dVector3` (the type is
declared outside these sources; the `r4` helpers store four `dReal` into one). -/
def sTrimeshBoxColliderBox._cldClipping_vPa01 (dV3E : Nat) (b : sTrimeshBoxColliderBox)
    (m_vBestNormal : dVector3) : dVector3 :=
  let vPa := b.m_vHullBoxPos
  let rot := 0
  let vPa :=
    if m_vBestNormal.dot (b.m_BoxRotTransposed (dV3E * rot)) > 0 then
      dAddScaledVector3r4 vPa (b.m_BoxRotTransposed (dV3E * rot)) (b.m_vBoxHalfSize.at 0)
    else dAddScaledVector3r4 vPa (b.m_BoxRotTransposed (dV3E * rot)) (-(b.m_vBoxHalfSize.at 0))
  let rot := rot + 4
  if m_vBestNormal.dot (b.m_BoxRotTransposed (dV3E * rot)) > 0 then
    dAddScaledVector3r4 vPa (b.m_BoxRotTransposed (dV3E * rot)) (b.m_vBoxHalfSize.at 1)
  else dAddScaledVector3r4 vPa (b.m_BoxRotTransposed (dV3E * rot)) (-(b.m_vBoxHalfSize.at 1))

/-- The edge-edge branch of `_cldClipping`, "calculate point on box edge": the point `vPa`
after the third offset, whose test is `if (dCalcVectorDot3(m_vBestNormal, *rot))`, with `rot`
moved on by `rot += 4` twice. -/
def sTrimeshBoxColliderBox._cldClipping_vPa (dV3E : Nat) (b : sTrimeshBoxColliderBox)
    (m_vBestNormal : dVector3) : dVector3 :=
  let vPa := b._cldClipping_vPa01 dV3E m_vBestNormal
  let rot := 0 + 4 + 4
  if m_vBestNormal.dot (b.m_BoxRotTransposed (dV3E * rot)) ≠ 0 then
    dAddScaledVector3r4 vPa (b.m_BoxRotTransposed (dV3E * rot)) (b.m_vBoxHalfSize.at 2)
  else dAddScaledVector3r4 vPa (b.m_BoxRotTransposed (dV3E * rot)) (-(b.m_vBoxHalfSize.at 2))

/-- The edge-edge branch of `_cldClipping` from `int iEdge = (m_iBestAxis - 5) % 3` to the
call of `_cldClosestPointOnTwoLines`: the arguments `vPa`, `vua`, `vPb`, `vub` of that call.
`dNormalize3` is the function of that name (`none` when it asserts). -/
def sTrimeshBoxColliderBox._cldClipping_lines (dV3E : Nat)
    (dNormalize3 : dVector3 → Option dVector3) (b : sTrimeshBoxColliderBox)
    (a : sTrimeshBoxColliderAxes) (e : sTrimeshBoxColliderEdges) (v0 v1 v2 : dVector3) :
    Option (dVector3 × dVector3 × dVector3 × dVector3) :=
  let vPa := b._cldClipping_vPa dV3E a.m_vBestNormal
  let iEdge := (a.m_iBestAxis - 5) % 3
  let vua := b.m_BoxRotTransposed (4 * iEdge.toNat)
  let (vPb, vub) : dVector3 × dVector3 :=
    if iEdge = 0 then (v0, e.m_vE0)
    else if iEdge = 1 then (v2, e.m_vE1)
    else (v1, e.m_vE2)
  (dNormalize3 vub).map fun vub => (vPa, vua, vPb, vub)

/-- The edge-edge branch of `_cldClipping`: the contact point `vPntTmp` passed to
`GenerateContact` (with the normal `m_vBestNormal` and the depth `m_fBestDepth`). -/
def sTrimeshBoxColliderBox._cldClipping_edge (dV3E : Nat) (dEpsilon : ℚ)
    (dNormalize3 : dVector3 → Option dVector3) (b : sTrimeshBoxColliderBox)
    (a : sTrimeshBoxColliderAxes) (e : sTrimeshBoxColliderEdges) (v0 v1 v2 : dVector3) :
    Option dVector3 :=
  (b._cldClipping_lines dV3E dNormalize3 a e v0 v1 v2).map fun (vPa, vua, vPb, vub) =>
    let r := _cldClosestPointOnTwoLines dEpsilon vPa vua vPb vub
    let fParam1 := r.2.1
    let fParam2 := r.2.2
    let vPa := dAddScaledVector3r4 vPa vua fParam1
    let vPb := dAddScaledVector3r4 vPb vub fParam2
    (vPa.add vPb).scale (1 / 2)

/-- The branch of `_cldClipping` for the triangle normal as best axis, up to "Here find 4
corner points of box": the four points `avPoints`. -/
def sTrimeshBoxColliderBox._cldClipping_face (b : sTrimeshBoxColliderBox)
    (m_vBestNormal v0 : dVector3) : List dVector3 :=
  let vNr : dVector3 :=
    ⟨-((b.m_BoxRotTransposed 0).dot m_vBestNormal), -((b.m_BoxRotTransposed 4).dot m_vBestNormal),
      -((b.m_BoxRotTransposed 8).dot m_vBestNormal)⟩
  let vAbsNormal : dVector3 := ⟨|vNr.x|, |vNr.y|, |vNr.z|⟩
  let iB : Nat × Nat × Nat :=
    if vAbsNormal.at 1 > vAbsNormal.at 0 then
      if vAbsNormal.at 1 > vAbsNormal.at 2 then (1, 0, 2) else (2, 0, 1)
    else
      if vAbsNormal.at 0 > vAbsNormal.at 2 then (0, 1, 2) else (2, 0, 1)
  let iB0 := iB.1
  let iB1 := iB.2.1
  let iB2 := iB.2.2
  let vCenter := b.m_vHullBoxPos.sub v0
  let vRotCol0 := b.m_BoxRotTransposed (4 * iB0)
  let vCenter :=
    if vNr.at iB0 > 0 then dAddScaledVector3r4 vCenter vRotCol0 (-(b.m_vBoxHalfSize.at iB0))
    else dAddScaledVector3r4 vCenter vRotCol0 (b.m_vBoxHalfSize.at iB0)
  let vRotCol1 := b.m_BoxRotTransposed (4 * iB1)
  let vRotCol2 := b.m_BoxRotTransposed (4 * iB2)
  let m_vBoxHalfSizeiB1 := b.m_vBoxHalfSize.at iB1
  let m_vBoxHalfSizeiB2 := b.m_vBoxHalfSize.at iB2
  [(dAddScaledVectors3r4 vRotCol1 vRotCol2 m_vBoxHalfSizeiB1 (-m_vBoxHalfSizeiB2)).add vCenter,
   (dAddScaledVectors3r4 vRotCol1 vRotCol2 (-m_vBoxHalfSizeiB1) (-m_vBoxHalfSizeiB2)).add vCenter,
   (dAddScaledVectors3r4 vRotCol1 vRotCol2 (-m_vBoxHalfSizeiB1) m_vBoxHalfSizeiB2).add vCenter,
   (dAddScaledVectors3r4 vRotCol1 vRotCol2 m_vBoxHalfSizeiB1 m_vBoxHalfSizeiB2).add vCenter]

/-- The branch of `_cldClipping` for the triangle normal as best axis, from "clip Box face
with 4 planes of triangle" to "END of clipping polygons": the contents of the temporary
arrays of 9 elements after each of the four clips (`avTempArray1`, `avTempArray2`,
`avTempArray1`, `avTempArray2`); `none` when a clip stores outside its array or
`dNormalize3` asserts. -/
def _cldClipping_faceClips (dNormalize3 : dVector3 → Option dVector3)
    (avPoints : List dVector3) (m_vNnorm v0 v1 v2 : dVector3) :
    Option (List dVector3 × List dVector3 × List dVector3 × List dVector3) :=
  let vTemp := m_vNnorm.scale (-1)
  (_cldClipPolyToPlaneAtOrigin 9 avPoints vTemp).bind fun c1 =>
  let vTemp2 := v1.sub v0
  (dNormalize3 (m_vNnorm.cross vTemp2)).bind fun vTemp =>
  (_cldClipPolyToPlaneAtOrigin 9 c1 vTemp).bind fun c2 =>
  let vTemp2 := v2.sub v1
  (dNormalize3 (m_vNnorm.cross vTemp2)).bind fun vTemp =>
  let vTemp2 := v0.sub v2
  (_cldClipPolyToPlane 9 c2 vTemp (vTemp2.dot vTemp)).bind fun c3 =>
  (dNormalize3 (m_vNnorm.cross vTemp2)).bind fun vTemp =>
  (_cldClipPolyToPlaneAtOrigin 9 c3 vTemp).bind fun c4 =>
  some (c1, c2, c3, c4)

/-- The branch of `_cldClipping` for the triangle normal as best axis: for every vertex of
the clipped polygon, in order, the point `vPntTmp` and the depth `fTempDepth` of the call of
`GenerateContact` in the loop over the vertices. -/
def sTrimeshBoxColliderBox._cldClipping_triangle (dNormalize3 : dVector3 → Option dVector3)
    (b : sTrimeshBoxColliderBox) (a : sTrimeshBoxColliderAxes) (e : sTrimeshBoxColliderEdges)
    (v0 v1 v2 : dVector3) : Option (List (dVector3 × ℚ)) :=
  (_cldClipping_faceClips dNormalize3 (b._cldClipping_face a.m_vBestNormal v0) e.m_vNnorm
    v0 v1 v2).map fun c =>
    c.2.2.2.map fun p =>
      let fTempDepth := a.m_vBestNormal.dot p
      let fTempDepth := if fTempDepth < 0 then 0 else fTempDepth
      (p.add v0, fTempDepth)

/-- The branch of `_cldClipping` for a box face as best axis, from "clip triangle with 5 box
planes": the contents of the temporary arrays of 9 elements after each of the five clips;
`none` when a clip stores outside its array. -/
def _cldClipping_boxClips (avPoints : List dVector3) (vNormal2 rotA1 rotA2 : dVector3)
    (h0 h1 h2 : ℚ) :
    Option (List dVector3 × List dVector3 × List dVector3 × List dVector3 × List dVector3) :=
  let vTemp := vNormal2.scale (-1)
  (_cldClipPolyToPlane 9 avPoints vTemp h0).bind fun c1 =>
  (_cldClipPolyToPlane 9 c1 rotA1 h1).bind fun c2 =>
  (_cldClipPolyToNegativePlane 9 c2 rotA1 h1).bind fun c3 =>
  (_cldClipPolyToPlane 9 c3 rotA2 h2).bind fun c4 =>
  (_cldClipPolyToNegativePlane 9 c4 rotA2 h2).bind fun c5 =>
  some (c1, c2, c3, c4, c5)

/-- The branch of `_cldClipping` for a box face as best axis: for every vertex of the clipped
polygon, in order, the point `vPntTmp` and the depth `-fTempDepth` of the call of
`GenerateContact`; `none` when `m_vBoxHalfSize[iA0]` lies outside the three coordinates or a
clip stores outside its array. -/
def sTrimeshBoxColliderBox._cldClipping_box (b : sTrimeshBoxColliderBox)
    (a : sTrimeshBoxColliderAxes) (v0 v1 v2 : dVector3) : Option (List (dVector3 × ℚ)) :=
  let vNormal2 := a.m_vBestNormal
  let iA0 := a.m_iBestAxis - 2
  if iA0 < 0 ∨ 2 < iA0 then none
  else
    let iA : Nat × Nat := if iA0 = 0 then (1, 2) else if iA0 = 1 then (0, 2) else (0, 1)
    let iA1 := iA.1
    let iA2 := iA.2
    let avPoints := [v0.sub b.m_vHullBoxPos, v1.sub b.m_vHullBoxPos, v2.sub b.m_vHullBoxPos]
    let rotA1 := b.m_BoxRotTransposed (4 * iA1)
    let rotA2 := b.m_BoxRotTransposed (4 * iA2)
    (_cldClipping_boxClips avPoints vNormal2 rotA1 rotA2 (b.m_vBoxHalfSize.at iA0.toNat)
      (b.m_vBoxHalfSize.at iA1) (b.m_vBoxHalfSize.at iA2)).map fun c =>
      c.2.2.2.2.map fun p =>
        let fTempDepth := vNormal2.dot p - b.m_vBoxHalfSize.at iA0.toNat
        let fTempDepth := if fTempDepth > 0 then 0 else fTempDepth
        (p.add b.m_vHullBoxPos, -fTempDepth)

/-- What `_cldTestSeparatingAxes` and the geometry of `_cldClipping` yield for one candidate
triangle, as the record that the contact creation reads: the result of the separating-axis
test with the best axis, normal and depth and, for the branch of `_cldClipping` that the best
axis selects, the contact point of the edge-edge branch or the vertices of the clipped polygon
with their depths. `none` when that branch fails. -/
def sTrimeshBoxColliderBox.candidate (dV3E : Nat) (dEpsilon MAXVALUE : ℚ)
    (dRecipSqrt : ℚ → ℚ) (dNormalize3 : dVector3 → Option dVector3)
    (b : sTrimeshBoxColliderBox) (a : sTrimeshBoxColliderAxes) (e : sTrimeshBoxColliderEdges)
    (Triint : Int) (callbackResult indeterminate : Bool) (v0 v1 v2 : dVector3) :
    Option BoxCandidate :=
  let r := b._cldTestSeparatingAxes dEpsilon MAXVALUE dRecipSqrt a e v0 v1 v2
  let a1 := r.2.1
  let e1 := r.2.2
  let tri : BoxCandidate :=
    { Triint := Triint, callbackResult := callbackResult, separatingAxes := r.1,
      m_iBestAxis := a1.m_iBestAxis, m_vBestNormal := a1.m_vBestNormal,
      m_fBestDepth := a1.m_fBestDepth, edgePoint := ⟨0, 0, 0⟩, clippedOnTriangle := [],
      clippedOnBox := [], indeterminate := indeterminate }
  if ¬ (r.1 = true ∧ a1.m_iBestAxis > 0) then some tri
  else if a1.m_iBestAxis > 4 then
    (b._cldClipping_edge dV3E dEpsilon dNormalize3 a1 e1 v0 v1 v2).map fun p =>
      { tri with edgePoint := p }
  else if a1.m_iBestAxis = 1 then
    (b._cldClipping_triangle dNormalize3 a1 e1 v0 v1 v2).map fun l =>
      { tri with clippedOnTriangle := l }
  else
    (b._cldClipping_box a1 v0 v1 v2).map fun l => { tri with clippedOnBox := l }

/-- Sample reciprocal square root: exact at 9, 16, 25 and 144. -/
def sampleRecipSqrt (x : ℚ) : ℚ :=
  if x = 144 then 1 / 12 else if x = 25 then 1 / 5 else if x = 16 then 1 / 4
  else if x = 9 then 1 / 3 else 1

/-- Sample box: centre at the origin, half sizes 1, axes along the coordinate axes; zeros are
found behind the matrix. -/
def sampleBox : sTrimeshBoxColliderBox :=
  ⟨⟨0, 0, 0⟩, ⟨1, 1, 1⟩, fun off =>
    if off = 0 then ⟨1, 0, 0⟩ else if off = 4 then ⟨0, 1, 0⟩ else if off = 8 then ⟨0, 0, 1⟩
    else ⟨0, 0, 0⟩⟩

/-- Sample triangle in the plane `x = 0` with sides 3, 4, 5 whose edge from `v0` to `v2`
enters the box across its edge `y = z = 1` by one tenth. -/
def sampleEdgeTriangle : dVector3 × dVector3 × dVector3 :=
  (⟨0, 139 / 50, -23 / 50⟩, ⟨0, 139 / 50, 127 / 50⟩, ⟨0, -61 / 50, 127 / 50⟩)

/-! ### Convex polygons by sign changes of affine functions -/

/-- The part of `_cldTestOneTriangleVSCapsule` from "calculate caps centers in absolute
space" to "clamp depths to zero", reached when the separating-axis test has found a best
axis: the clipped capsule edge points and the clamped depths as the record that the contact
creation reads, `reachesContacts` being false when one of the four edge clips returns FALSE.
`none` when a clip divides by zero. -/
def _cldTestOneTriangleVSCapsule_clip (dEpsilon : ℚ) (m_vCapsulePosition m_vNormal : dVector3)
    (m_fCapsuleRadius : ℚ) (m_vSizeOnAxis : dVector3) (m_fBestCenterrt : ℚ)
    (t : CapsuleTriangle) (Triint : Int) : Option CapsuleCandidate :=
  let vCposTrans := dAddScaledVector3r4 m_vCapsulePosition m_vNormal m_fCapsuleRadius
  let vCEdgePoint0 := (vCposTrans.add m_vSizeOnAxis).sub t.vPnt0
  let vCEdgePoint1 := (vCposTrans.sub m_vSizeOnAxis).sub t.vPnt0
  let _minus_vN := t.m_vN.scale (-1)
  let stop : CapsuleCandidate := ⟨Triint, false, m_vNormal, ⟨0, 0, 0⟩, 0, ⟨0, 0, 0⟩, 0⟩
  (_cldClipEdgeToPlaneNormNoOffset dEpsilon vCEdgePoint0 vCEdgePoint1 _minus_vN).bind fun r1 =>
  if ¬ r1.1 then some stop
  else
    let vTemp := t.m_vN.cross t.m_vE0
    (_cldClipEdgeToPlaneNormNoOffset dEpsilon r1.2.1 r1.2.2 vTemp).bind fun r2 =>
    if ¬ r2.1 then some stop
    else
      let vTemp := t.m_vN.cross t.m_vE1
      (_cldClipEdgeToPlaneNorm dEpsilon r2.2.1 r2.2.2 vTemp (-(t.m_vE0.dot vTemp))).bind
        fun r3 =>
      if ¬ r3.1 then some stop
      else
        let vTemp := t.m_vN.cross t.m_vE2
        (_cldClipEdgeToPlaneNormNoOffset dEpsilon r3.2.1 r3.2.2 vTemp).bind fun r4 =>
        if ¬ r4.1 then some stop
        else
          let vCEdgePoint0 := r4.2.1.add t.vPnt0
          let vTemp := vCEdgePoint0.sub m_vCapsulePosition
          let fDepth0 := vTemp.dot m_vNormal - m_fBestCenterrt
          let vCEdgePoint1 := r4.2.2.add t.vPnt0
          let vTemp := vCEdgePoint1.sub m_vCapsulePosition
          let fDepth1 := vTemp.dot m_vNormal - m_fBestCenterrt
          let fDepth0 := if fDepth0 < 0 then 0 else fDepth0
          let fDepth1 := if fDepth1 < 0 then 0 else fDepth1
          some ⟨Triint, true, m_vNormal, vCEdgePoint0, fDepth0, vCEdgePoint1, fDepth1⟩

/-- The first `n` contacts of the array have depths that are not negative. -/
def NonNegDepths (Contacts : List dContactGeom) (n : Nat) : Prop :=
  ∀ i c, i < n → Contacts[i]? = some c → 0 ≤ c.depth

/-- The first `n` local contacts of the buffer have depths that are not negative. -/
def NonNegLocalDepths (cs : List sLocalContactData) (n : Nat) : Prop :=
  ∀ i c, i < n → cs[i]? = some c → 0 ≤ c.fDepth

/-- The best axis is none or the triangle normal, or the best depth is not negative. -/
def sTrimeshBoxColliderAxes.DepthOk (a : sTrimeshBoxColliderAxes) : Prop :=
  a.m_iBestAxis ≤ 1 ∨ 0 ≤ a.m_fBestDepth

/-- Sample capsule triangle in the plane `z = 0`. -/
def sampleCapsuleTriangle : CapsuleTriangle :=
  ⟨⟨0, 0, 0⟩, ⟨4, 0, 0⟩, ⟨0, 4, 0⟩, ⟨4, 0, 0⟩, ⟨-4, 4, 0⟩, ⟨0, -4, 0⟩, ⟨0, 0, 1⟩, 0⟩

/-! ### Binary32 arithmetic (the type `float` of the OPCODE sources)

Every operation on `float` rounds its exact result to the binary32 format, to nearest with
ties to even; no operation is fused with another and none is carried out in a wider format. -/

/-- Value of the C type `float` in the IEEE 754 binary32 format: the finite value
`(-1)^neg * m * 2^e`, an infinity, or a NaN. Zero keeps its sign. -/
inductive F32 where
  | fin (neg : Bool) (m : Nat) (e : Int)
  | inf (neg : Bool)
  | nan
deriving DecidableEq

namespace F32

/-- The number of binary digits of `n`, counted with `fuel` halvings at most. -/
def bitLen : Nat → Nat → Nat
  | 0, _ => 0
  | fuel + 1, n => if n = 0 then 0 else bitLen fuel (n / 2) + 1

/-- The exponent of the leading binary digit of `n`, for `n` above zero. -/
def log2 (n : Nat) : Nat := bitLen n n - 1

/-- Rounding of the exact value `(-1)^neg * m * 2^e` to binary32, to nearest with ties to
even: 24 significant binary digits, the last digit at exponent -149 or above, overflow to an
infinity beyond `(2^24 - 1) * 2^104`. The result has its significand in `2^23 .. 2^24 - 1`,
or below `2^23` with exponent -149. -/
def round (neg : Bool) (m : Nat) (e : Int) : F32 :=
  if m = 0 then fin neg 0 (-149)
  else
    let E : Int := e + (log2 m : Int)
    let q : Int := max (E - 23) (-149)
    let r : Nat × Int :=
      if q ≤ e then (m * 2 ^ (e - q).toNat, q)
      else
        let s := (q - e).toNat
        let m1 := m / 2 ^ s
        let rest := m % 2 ^ s
        let half := 2 ^ (s - 1)
        let m2 := if rest > half ∨ (rest = half ∧ m1 % 2 = 1) then m1 + 1 else m1
        if m2 = 2 ^ 24 then (2 ^ 23, q + 1) else (m2, q)
    if r.2 > 104 then inf neg else fin neg r.1 r.2

/-- The binary32 value of the integer multiple `n * 2^e` of a power of two. -/
def ofScaled (n : Int) (e : Int) : F32 := round (decide (n < 0)) n.natAbs e

/-- The binary32 value of an integer. -/
def ofInt (n : Int) : F32 := ofScaled n 0

/-- The exact value of a finite binary32 value. -/
def toRat : F32 → Option ℚ
  | fin neg m e => some ((if neg then -1 else 1) * (m : ℚ) * (2 : ℚ) ^ e)
  | _ => none

/-- The integer `(-1)^s * m * 2^(e - g)` for an exponent `g` of at most `e`. -/
def aligned (s : Bool) (m : Nat) (e g : Int) : Int :=
  (if s then -1 else 1) * ((m * 2 ^ (e - g).toNat : Nat) : Int)

/-- Unary minus. -/
def neg : F32 → F32
  | fin s m e => fin (!s) m e
  | inf s => inf (!s)
  | nan => nan

/-- Function `fabsf`. -/
def fabsf : F32 → F32
  | fin _ m e => fin false m e
  | inf _ => inf false
  | nan => nan

/-- Operator `*` on `float`. -/
def mul : F32 → F32 → F32
  | nan, _ => nan
  | _, nan => nan
  | inf s, inf t => inf (s != t)
  | inf s, fin t m _ => if m = 0 then nan else inf (s != t)
  | fin s m _, inf t => if m = 0 then nan else inf (s != t)
  | fin s m e, fin t n f => round (s != t) (m * n) (e + f)

/-- Operator `+` on `float`. -/
def add : F32 → F32 → F32
  | nan, _ => nan
  | _, nan => nan
  | inf s, inf t => if s = t then inf s else nan
  | inf s, fin _ _ _ => inf s
  | fin _ _ _, inf t => inf t
  | fin s m e, fin t n f =>
    let g := min e f
    let z := aligned s m e g + aligned t n f g
    if z = 0 then fin (s && t) 0 (-149) else round (decide (z < 0)) z.natAbs g

/-- Operator `-` on `float`. -/
def sub (a b : F32) : F32 := add a (neg b)

/-- Operator `/` on `float`: the quotient of the significands is taken with at least 26
binary digits and one more digit that records a remainder, then rounded. -/
def div : F32 → F32 → F32
  | nan, _ => nan
  | _, nan => nan
  | inf _, inf _ => nan
  | inf s, fin t _ _ => inf (s != t)
  | fin s _ _, inf t => fin (s != t) 0 (-149)
  | fin s m e, fin t n f =>
    if n = 0 then (if m = 0 then nan else inf (s != t))
    else if m = 0 then fin (s != t) 0 (-149)
    else
      let k := 27 + log2 n
      let Q := (m * 2 ^ k) / n
      let R := (m * 2 ^ k) % n
      round (s != t) (2 * Q + (if R = 0 then 0 else 1)) (e - f - (k : Int) - 1)

/-- Operator `<` on `float`: false when an operand is a NaN. -/
def lt : F32 → F32 → Bool
  | nan, _ => false
  | _, nan => false
  | inf s, inf t => s && !t
  | inf s, fin _ _ _ => s
  | fin _ _ _, inf t => !t
  | fin s m e, fin t n f => decide (aligned s m e (min e f) < aligned t n f (min e f))

/-- Operator `<=` on `float`: false when an operand is a NaN. -/
def le : F32 → F32 → Bool
  | nan, _ => false
  | _, nan => false
  | a, b => !(lt b a)

end F32

/-! ### Ray / triangle overlap (OPC_RayTriOverlap.h) in binary32 arithmetic -/

/-- Point of three `float` coordinates (class `Point` of IcePoint.h, which is not among the
sources; the operators combine the coordinates as those of the exact `Point`, from left to
right). -/
structure PointF where
  x : F32
  y : F32
  z : F32
deriving DecidableEq

namespace PointF

/-- Operator `a - b` on points. -/
def sub (a b : PointF) : PointF := ⟨a.x.sub b.x, a.y.sub b.y, a.z.sub b.z⟩

/-- Operator `a ^ b` (cross product), each coordinate as `y * b.z - z * b.y`. -/
def cross (a b : PointF) : PointF :=
  ⟨(a.y.mul b.z).sub (a.z.mul b.y), (a.z.mul b.x).sub (a.x.mul b.z),
    (a.x.mul b.y).sub (a.y.mul b.x)⟩

/-- Operator `a | b` (dot product), `x * b.x + y * b.y + z * b.z` from left to right. -/
def dot (a b : PointF) : F32 := ((a.x.mul b.x).add (a.y.mul b.y)).add (a.z.mul b.z)

/-- Squared length `SquareMagnitude()`, `x * x + y * y + z * z` from left to right. -/
def SquareMagnitude (a : PointF) : F32 := ((a.x.mul a.x).add (a.y.mul a.y)).add (a.z.mul a.z)

/-- The point of the exact values of the coordinates, when all three are finite. -/
def toPoint (a : PointF) : Option Point :=
  a.x.toRat.bind fun x => a.y.toRat.bind fun y => a.z.toRat.bind fun z => some ⟨x, y, z⟩

/-- The point with the given integer coordinates. -/
def ofInts (x y z : Int) : PointF := ⟨F32.ofInt x, F32.ofInt y, F32.ofInt z⟩

end PointF

/-- Two-argument minimum `FCMin2` of IceFPU.h on `float`. -/
def FCMin2F (a b : F32) : F32 := if a.lt b then a else b

/-- Constant `LOCAL_EPSILON` (0.000001f): the binary32 value nearest to 1e-6. -/
def LOCAL_EPSILON_F : F32 := F32.fin false 8796093 (-43)

/-- Record `CollisionFace` of OPC_RayCollider.h with `float` members. -/
structure CollisionFaceF where
  mFaceID : Nat
  mDistance : F32
  mU : F32
  mV : F32
deriving DecidableEq

/-- The members of `RayCollider` that `RayTriOverlap` reads or writes, with `float`
members. -/
structure RayColliderF where
  mOrigin : PointF
  mDir : PointF
  mCulling : Bool
  mNbRayPrimTests : Nat
  mStabbedFace : CollisionFaceF
deriving DecidableEq

/-- The determinant test of `RayTriOverlap` in binary32 arithmetic (both branches of
`if (mCulling)`): `true` when the function returns FALSE before computing `1.0f / det`. -/
def detRejectsF (mCulling : Bool) (det : F32) (edge1 edge2 : PointF) : Bool :=
  if mCulling then
    det.le (LOCAL_EPSILON_F.mul (FCMin2F edge1.SquareMagnitude edge2.SquareMagnitude))
  else
    det.fabsf.le (LOCAL_EPSILON_F.mul (FCMin2F edge1.SquareMagnitude edge2.SquareMagnitude))

/-- Method `RayCollider::RayTriOverlap` in binary32 arithmetic, every operation rounded to
`float`: the BOOL result and the collider after the call. -/
def RayColliderF.RayTriOverlap (rc : RayColliderF) (vert0 vert1 vert2 : PointF) :
    Bool × RayColliderF :=
  let rc := { rc with mNbRayPrimTests := (rc.mNbRayPrimTests + 1) % 2 ^ 32 }
  let edge1 := vert1.sub vert0
  let edge2 := vert2.sub vert0
  let pvec := rc.mDir.cross edge2
  let det := edge1.dot pvec
  if detRejectsF rc.mCulling det edge1 edge2 then (false, rc)
  else
    let OneOverDet := (F32.ofInt 1).div det
    let tvec := rc.mOrigin.sub vert0
    let rc := { rc with mStabbedFace :=
                  { rc.mStabbedFace with mU := (tvec.dot pvec).mul OneOverDet } }
    if rc.mStabbedFace.mU.lt (F32.ofInt 0) ∨ (F32.ofInt 1).lt rc.mStabbedFace.mU then (false, rc)
    else
      let qvec := tvec.cross edge1
      let rc := { rc with mStabbedFace :=
                    { rc.mStabbedFace with mV := (rc.mDir.dot qvec).mul OneOverDet } }
      if rc.mStabbedFace.mV.lt (F32.ofInt 0) ∨
          (F32.ofInt 1).lt (rc.mStabbedFace.mU.add rc.mStabbedFace.mV) then (false, rc)
      else
        let rc := { rc with mStabbedFace :=
                      { rc.mStabbedFace with mDistance := (edge2.dot qvec).mul OneOverDet } }
        if rc.mStabbedFace.mDistance.lt (F32.ofInt 0) then (false, rc)
        else (true, rc)

/-- Sample ray in binary32: origin (0,0,0), direction (0,0,16777215), culling on. -/
def sampleRayF : RayColliderF :=
  ⟨PointF.ofInts 0 0 0, PointF.ofInts 0 0 16777215, true, 0,
    ⟨7, F32.ofInt 0, F32.ofInt 0, F32.ofInt 0⟩⟩

/-- The point `(0, 2^100, 2^100)` in binary32. -/
def samplePointHugeF : PointF := ⟨F32.ofInt 0, F32.ofScaled 1 100, F32.ofScaled 1 100⟩

/-- Sample ray in binary32: origin (0,0,0), direction `(0, 2^100, 2^100)`, culling on. -/
def sampleRayHugeF : RayColliderF :=
  ⟨PointF.ofInts 0 0 0, samplePointHugeF, true, 0, ⟨7, F32.ofInt 0, F32.ofInt 0, F32.ofInt 0⟩⟩

/-- A word with the leaf tag has its low bit set. -/
theorem tag_lsb (x : Nat) : (x ||| 1) &&& 1 = 1 := by
  rw [Nat.and_one_is_mod]
  exact Nat.or_mod_two_eq_one.mpr (Or.inr rfl)

/-- The leaf tag of an index below `2 ^ 31` is `2 * p + 1`. -/
theorem tag_eq (p : Nat) (hp : p < 2 ^ 31) : ((p <<< 1) % 2 ^ 32) ||| 1 = 2 * p + 1 := by
  rw [Nat.shiftLeft_eq, Nat.mod_eq_of_lt (by omega)]
  have h1 : (1 : Nat) < 2 ^ 1 := by norm_num
  have := Nat.mul_add_lt_is_or h1 p
  simp only [pow_one] at this
  rw [pow_one, Nat.mul_comm, ← this]

/-- The leaf tag is computed in 32 bits: the index `2 ^ 31` is stored with payload 0. -/
theorem tag_wraps : ((((2 ^ 31 <<< 1) % 2 ^ 32) ||| 1) >>> 1) % 2 ^ 32 = 0 := by decide

/-- The payload of the leaf tag of an index below `2 ^ 31` is the index. -/
theorem tag_payload (p : Nat) (hp : p < 2 ^ 31) :
    ((((p <<< 1) % 2 ^ 32) ||| 1) >>> 1) % 2 ^ 32 = p := by
  rw [tag_eq p hp, Nat.shiftRight_eq_div_pow]
  omega

/-- The node case of `_BuildNoLeafTree` written with `childStep`: store the box, treat the
positive child, then the negative child. -/
theorem build_node_eq (sz : Nat) (bv : AABB) (ps : List Nat) (P N : AABBTreeNode) (b : Nat)
    (s0 : BuildState) :
    _BuildNoLeafTree sz (.node bv ps P N) b s0 =
      match s0.store b (fun c => { c with mAABB := ⟨bv.mCenter, bv.mExtents⟩ }) with
      | none => none
      | some s1 =>
        match childStep sz (fun w c => { c with mPosData := w }) P b
            { s1 with written := s1.written ++ [b] } with
        | none => none
        | some s4 => childStep sz (fun w c => { c with mNegData := w }) N b s4 := by
  rfl

/-- The pre-order image has one element per internal node. -/
theorem flatten_length (sz base : Nat) (n : AABBTreeNode) (b : Nat) :
    (flatten sz base n b).length = n.internalCount := by
  induction n generalizing b with
  | leaf _ _ => rfl
  | node bv ps P N ihP ihN =>
    simp [flatten, AABBTreeNode.internalCount, ihP, ihN]; omega

/-- A store into a slot of the array succeeds. -/
theorem store_eq (s : BuildState) (b : Nat) (f : AABBNoLeafNode → AABBNoLeafNode)
    (h : b < s.linear.cells.length) : s.store b f = some (s.put b f) := by
  simp [BuildState.store, BuildState.put, List.getElem?_eq_getElem h, List.getD_eq_getElem _ _ h]

/-- Reading back the element just set. -/
theorem getElem?_set_same {α : Type} (l : List α) (i : Nat) (a : α) (h : i < l.length) :
    (l.set i a)[i]? = some a := by
  simp [List.getElem?_set, h]

/-- Element addresses of an even-aligned array with even element size have a clear low bit. -/
theorem addr_even (sz base i : Nat) (hb : base % 2 = 0) (hs : sz % 2 = 0) :
    (base + sz * i) &&& 1 = 0 := by
  rw [Nat.and_one_is_mod, Nat.add_mod, Nat.mul_mod, hb, hs]; simp

/-- The treatment of one child succeeds: it stores the child's reference into the parent and,
for an internal child, places the child's subtree from slot `c` on. -/
theorem childStep_ok (sz : Nat) (hs : sz % 2 = 0)
    (setData : Nat → AABBNoLeafNode → AABBNoLeafNode) (C : AABBTreeNode)
    (ih : BuildHyp sz C) (hone : C.OnePrimPerLeaf) (box_id c : Nat) (s : BuildState)
    (hcur : s.current_id = c) (hbox : box_id < c) (hlen : c + C.internalCount ≤ s.linear.cells.length)
    (hlt : c + C.internalCount < 2 ^ 32) (hbase : s.linear.base % 2 = 0) :
    ∃ s', childStep sz setData C box_id s = some s' ∧ ChildTo sz setData C box_id c s s' := by
  have hb : box_id < s.linear.cells.length := by omega
  cases C with
  | leaf bc pc =>
    simp only [AABBTreeNode.OnePrimPerLeaf] at hone
    obtain ⟨p, rfl⟩ := List.length_eq_one.mp hone
    refine ⟨s.put box_id (setData (((p <<< 1) % 2 ^ 32) ||| 1)), ?_, ?_⟩
    · simp only [childStep, AABBTreeNode.IsLeaf, AABBTreeNode.GetNbPrimitives,
        AABBTreeNode.GetPrimitives]
      simp [store_eq s box_id _ hb]
    · constructor <;> simp [AABBTreeNode.internalCount, hcur, childRef, flatten, BuildState.put]
      · intro j hj _
        rw [List.getElem?_set_ne (Ne.symm hj)]
      · simp [List.getElem?_eq_getElem hb, getElem?_set_same _ _ _ hb]
  | node bc pc CP CN =>
    have hk : 1 ≤ (AABBTreeNode.node bc pc CP CN).internalCount := by
      simp [AABBTreeNode.internalCount]; omega
    have hc : c < s.linear.cells.length := by omega
    obtain ⟨s', hrun, hto⟩ := ih c
      (({ s with current_id := c + 1 } : BuildState).put box_id
        (setData (s.linear.base + sz * c))) rfl rfl
      (by simpa [BuildState.put] using hlen) hlt hbase
    refine ⟨s', ?_, ?_⟩
    · simp only [childStep, AABBTreeNode.IsLeaf]
      have h1 : (s.current_id + 1) % 2 ^ 32 = c + 1 := by rw [hcur]; omega
      simp only [h1]
      simp only [hcur]
      rw [store_eq _ box_id _ (by simpa using hb)]
      have h2 := addr_even sz _ c hbase hs
      simp only [NodeArray.addr, BuildState.put, h2]
      simpa [BuildState.put] using hrun
    · obtain ⟨h1, h2, h3, h4, h5, h6⟩ := hto
      simp only [BuildState.put] at h1 h2 h3 h4 h5 h6
      constructor
      · exact h1
      · exact h2
      · exact h3
      · simpa using h4
      · intro j hj hj2
        rw [h5 j hj2, List.getElem?_set_ne (Ne.symm hj)]
      · rw [h5 box_id (Or.inl hbox)]
        simp [List.getElem?_eq_getElem hb, childRef, getElem?_set_same _ _ _ hb]
      · exact h6

/-- Function `_BuildNoLeafTree` succeeds on every internal node of a tree with one primitive per leaf,
placing the subtree in pre-order from slot `b` on. -/
theorem build_ok (sz : Nat) (hs : sz % 2 = 0) (n : AABBTreeNode) (hone : n.OnePrimPerLeaf) :
    BuildHyp sz n := by
  induction n with
  | leaf _ _ => intro b s h; simp [AABBTreeNode.IsLeaf] at h
  | node bv ps P N ihP ihN =>
    intro b s _ hcur hlen hlt hbase
    obtain ⟨honeP, honeN⟩ := hone
    simp only [AABBTreeNode.internalCount] at hlen hlt
    have hb : b < s.linear.cells.length := by omega
    rw [build_node_eq, store_eq s b _ hb]
    obtain ⟨s4, hrun4, h4⟩ := childStep_ok sz hs (fun w c => { c with mPosData := w }) P
      (ihP honeP) honeP b (b + 1)
      { (s.put b (fun c => { c with mAABB := ⟨bv.mCenter, bv.mExtents⟩ })) with
        written := s.written ++ [b] }
      hcur (by omega) (by simp [BuildState.put]; omega) (by omega) hbase
    obtain ⟨s7, hrun7, h7⟩ := childStep_ok sz hs (fun w c => { c with mNegData := w }) N
      (ihN honeN) honeN b (b + 1 + P.internalCount) s4 h4.cur (by omega)
      (by rw [h4.len]; simp [BuildState.put]; omega) (by omega) (by rw [h4.base]; exact hbase)
    refine ⟨s7, ?_, ?_⟩
    · simp only
      have : ({ (s.put b (fun c => { c with mAABB := ⟨bv.mCenter, bv.mExtents⟩ })) with
        written := s.written ++ [b] } : BuildState) = { (s.put b (fun c => { c with mAABB := ⟨bv.mCenter, bv.mExtents⟩ })) with
        written := (s.put b (fun c => { c with mAABB := ⟨bv.mCenter, bv.mExtents⟩ })).written ++ [b] } := rfl
      rw [← this, hrun4]
      exact hrun7
    · have hbase4 : s4.linear.base = s.linear.base := h4.base
      have hlen4 : s4.linear.cells.length = s.linear.cells.length := by
        rw [h4.len]; simp [BuildState.put]
      constructor
      · rw [h7.cur]; simp only [AABBTreeNode.internalCount]; omega
      · rw [h7.log, h4.log]
        simp only [AABBTreeNode.internalCount, List.append_assoc]
        congr 1
        rw [show 1 + P.internalCount + N.internalCount
              = (N.internalCount + P.internalCount) + 1 by omega,
          List.range'_succ, ← List.range'_append_1]
        rfl
      · rw [h7.base, hbase4]
      · rw [h7.len, hlen4]
      · intro j hj
        simp only [AABBTreeNode.internalCount] at hj
        have hjb : j ≠ b := by omega
        rw [h7.frame j hjb (by omega), h4.frame j hjb (by omega)]
        simp only [BuildState.put]
        rw [List.getElem?_set_ne (Ne.symm hjb)]
      · intro j hj
        simp only [AABBTreeNode.internalCount] at hj
        simp only [flatten]
        rcases Nat.eq_zero_or_pos j with h0 | hpos
        · subst h0
          rw [Nat.add_zero, h7.parent, h4.parent, hbase4]
          simp [BuildState.put, getElem?_set_same _ _ _ hb]
        · obtain ⟨i, rfl⟩ : ∃ i, j = i + 1 := ⟨j - 1, by omega⟩
          rw [List.getElem?_cons_succ]
          by_cases hi : i < P.internalCount
          · rw [List.getElem?_append_left (by rw [flatten_length]; exact hi)]
            rw [h7.frame (b + (i + 1)) (by omega) (by omega)]
            have := h4.image i hi
            simp only [BuildState.put] at this
            rw [← this]
            congr 1
            omega
          · rw [List.getElem?_append_right (by rw [flatten_length]; omega), flatten_length]
            have := h7.image (i - P.internalCount) (by omega)
            rw [hbase4] at this
            rw [← this]
            congr 1
            omega

/-- The bound of the determinant test is never negative. -/
theorem detBound_nonneg (edge1 edge2 : Point) :
    0 ≤ LOCAL_EPSILON * FCMin2 edge1.SquareMagnitude edge2.SquareMagnitude := by
  have h1 : 0 ≤ edge1.SquareMagnitude := by
    unfold Point.SquareMagnitude; nlinarith [mul_self_nonneg edge1.x, mul_self_nonneg edge1.y, mul_self_nonneg edge1.z]
  have h2 : 0 ≤ edge2.SquareMagnitude := by
    unfold Point.SquareMagnitude; nlinarith [mul_self_nonneg edge2.x, mul_self_nonneg edge2.y, mul_self_nonneg edge2.z]
  have h3 : 0 ≤ FCMin2 edge1.SquareMagnitude edge2.SquareMagnitude := by
    unfold FCMin2; split <;> assumption
  have h4 : (0 : ℚ) ≤ LOCAL_EPSILON := by unfold LOCAL_EPSILON; norm_num
  exact mul_nonneg h4 h3

/-- Function `FCMin2` is the minimum. -/
theorem FCMin2_eq_min (a b : ℚ) : FCMin2 a b = min a b := by
  unfold FCMin2; split
  · rw [min_eq_left (le_of_lt ‹_›)]
  · rw [min_eq_right (not_lt.mp ‹_›)]

/-- Acceptance of `RayTriOverlap` in terms of the specification's quantities. -/
theorem RayTriOverlap_fst (rc : RayCollider) (v0 v1 v2 : Point) :
    (rc.RayTriOverlap v0 v1 v2).1 = true ↔
      specAccepts rc.mCulling rc.mOrigin rc.mDir v0 v1 v2 := by
  simp only [RayCollider.RayTriOverlap, detRejects, FCMin2_eq_min, specAccepts, specU, specV,
    specT, specDet, LOCAL_EPSILON, mul_one_div]
  generalize (v1.sub v0).dot (rc.mDir.cross (v2.sub v0)) = det
  generalize (rc.mOrigin.sub v0).dot (rc.mDir.cross (v2.sub v0)) = a
  generalize rc.mDir.dot ((rc.mOrigin.sub v0).cross (v1.sub v0)) = b
  generalize (v2.sub v0).dot ((rc.mOrigin.sub v0).cross (v1.sub v0)) = c
  generalize 1 / 1000000 * min (v1.sub v0).SquareMagnitude (v2.sub v0).SquareMagnitude = bound
  cases hc : rc.mCulling <;> split_ifs <;> simp_all <;>
    (intros; rcases ‹_ ∨ _› with h | h <;> linarith)

/-- The stabbed face after an accepted test. -/
theorem RayTriOverlap_face (rc : RayCollider) (v0 v1 v2 : Point)
    (h : (rc.RayTriOverlap v0 v1 v2).1 = true) :
    (rc.RayTriOverlap v0 v1 v2).2.mStabbedFace =
      { mFaceID := rc.mStabbedFace.mFaceID,
        mDistance := specT rc.mOrigin rc.mDir v0 v1 v2,
        mU := specU rc.mOrigin rc.mDir v0 v1 v2,
        mV := specV rc.mOrigin rc.mDir v0 v1 v2 } := by
  revert h
  simp only [RayCollider.RayTriOverlap, specU, specV, specT, specDet, mul_one_div]
  split_ifs <;> simp

/-- An accepted determinant is non-zero. -/
theorem specDet_ne_zero (c : Bool) (o dir v0 v1 v2 : Point)
    (h : specAccepts c o dir v0 v1 v2) : specDet dir v0 v1 v2 ≠ 0 := by
  have hb := detBound_nonneg (v1.sub v0) (v2.sub v0)
  rw [FCMin2_eq_min, LOCAL_EPSILON] at hb
  obtain ⟨h1, -⟩ := h
  intro h0
  rw [h0] at h1
  cases c <;> simp at h1 <;> linarith

/-- Cramer identity behind the Möller test: with a non-zero determinant the point at
parameter `t` on the ray is the point of barycentric coordinates `(1-u-v, u, v)`. -/
theorem moller_identity (o d v0 v1 v2 : Point) (h : specDet d v0 v1 v2 ≠ 0) :
    o.add (d.scale (specT o d v0 v1 v2)) =
      ((v0.scale (1 - specU o d v0 v1 v2 - specV o d v0 v1 v2)).add
        (v1.scale (specU o d v0 v1 v2))).add (v2.scale (specV o d v0 v1 v2)) := by
  have key : ∀ p q : Point, p.x = q.x → p.y = q.y → p.z = q.z → p = q := by
    intro p q hx hy hz; cases p; cases q; simp_all
  apply key <;> simp only [Point.add, Point.scale, specT, specU, specV] <;>
    field_simp <;> simp only [specDet, Point.dot, Point.cross, Point.sub] <;> ring

/-- The sample ray hits the sample triangle. -/
theorem sample_hit :
    (sampleRay.RayTriOverlap sampleV0 sampleV1 sampleV2).1 = true := by
  rw [RayTriOverlap_fst]
  simp only [specAccepts, specU, specV, specT, specDet, sampleRay, sampleV0, sampleV1, sampleV2,
    Point.sub, Point.dot, Point.cross, Point.SquareMagnitude]
  norm_num

/-- C6, in exact arithmetic: `RayTriOverlap` returns TRUE exactly when the determinant
exceeds `1e-6 * min(|e1|^2, |e2|^2)` (in absolute value when culling is off), `0 <= u <= 1`,
`v >= 0`, `u + v <= 1` and `t >= 0`; on TRUE the stabbed face holds `mDistance = t`,
`mU = u`, `mV = v`. -/
theorem RayTriOverlap_iff_spec (rc : RayCollider) (v0 v1 v2 : Point) :
    ((rc.RayTriOverlap v0 v1 v2).1 = true ↔
        specAccepts rc.mCulling rc.mOrigin rc.mDir v0 v1 v2) ∧
    ((rc.RayTriOverlap v0 v1 v2).1 = true →
        (rc.RayTriOverlap v0 v1 v2).2.mStabbedFace.mDistance = specT rc.mOrigin rc.mDir v0 v1 v2 ∧
        (rc.RayTriOverlap v0 v1 v2).2.mStabbedFace.mU = specU rc.mOrigin rc.mDir v0 v1 v2 ∧
        (rc.RayTriOverlap v0 v1 v2).2.mStabbedFace.mV = specV rc.mOrigin rc.mDir v0 v1 v2) := by
  refine ⟨RayTriOverlap_fst rc v0 v1 v2, fun h => ?_⟩
  rw [RayTriOverlap_face rc v0 v1 v2 h]
  exact ⟨rfl, rfl, rfl⟩

/-- Witness for C6: the sample ray hits the sample triangle at distance 2 with
barycentric coordinates (1/4, 1/2). -/
theorem RayTriOverlap_iff_spec_witness :
    (sampleRay.RayTriOverlap sampleV0 sampleV1 sampleV2).1 = true ∧
    (sampleRay.RayTriOverlap sampleV0 sampleV1 sampleV2).2.mStabbedFace.mDistance =
      specT sampleRay.mOrigin sampleRay.mDir sampleV0 sampleV1 sampleV2 ∧
    specT sampleRay.mOrigin sampleRay.mDir sampleV0 sampleV1 sampleV2 = 2 :=
  ⟨sample_hit,
   ((RayTriOverlap_iff_spec sampleRay sampleV0 sampleV1 sampleV2).2 sample_hit).1,
   by simp only [specT, specDet, sampleRay, sampleV0, sampleV1, sampleV2,
        Point.sub, Point.dot, Point.cross]; norm_num⟩

/-- C7: whenever `RayTriOverlap` returns TRUE, the reported distance and barycentric
coordinates describe a real intersection: `origin + mDistance * dir` equals
`(1 - mU - mV) * v0 + mU * v1 + mV * v2`, with `mDistance`, `mU`, `mV` and
`1 - mU - mV` all non-negative (exact arithmetic). -/
theorem RayTriOverlap_hit_point (rc : RayCollider) (v0 v1 v2 : Point)
    (h : (rc.RayTriOverlap v0 v1 v2).1 = true) :
    rc.mOrigin.add (rc.mDir.scale (rc.RayTriOverlap v0 v1 v2).2.mStabbedFace.mDistance) =
      ((v0.scale (1 - (rc.RayTriOverlap v0 v1 v2).2.mStabbedFace.mU
                    - (rc.RayTriOverlap v0 v1 v2).2.mStabbedFace.mV)).add
        (v1.scale (rc.RayTriOverlap v0 v1 v2).2.mStabbedFace.mU)).add
        (v2.scale (rc.RayTriOverlap v0 v1 v2).2.mStabbedFace.mV) ∧
    0 ≤ (rc.RayTriOverlap v0 v1 v2).2.mStabbedFace.mDistance ∧
    0 ≤ (rc.RayTriOverlap v0 v1 v2).2.mStabbedFace.mU ∧
    0 ≤ (rc.RayTriOverlap v0 v1 v2).2.mStabbedFace.mV ∧
    0 ≤ 1 - (rc.RayTriOverlap v0 v1 v2).2.mStabbedFace.mU
          - (rc.RayTriOverlap v0 v1 v2).2.mStabbedFace.mV := by
  have hacc := (RayTriOverlap_fst rc v0 v1 v2).1 h
  have hdet := specDet_ne_zero _ _ _ _ _ _ hacc
  rw [RayTriOverlap_face rc v0 v1 v2 h]
  obtain ⟨-, hu0, -, hv0, huv, ht⟩ := hacc
  exact ⟨moller_identity _ _ _ _ _ hdet, ht, hu0, hv0, by linarith⟩

/-- Witness for C7 on the sample ray and triangle. -/
theorem RayTriOverlap_hit_point_witness :
    (sampleRay.RayTriOverlap sampleV0 sampleV1 sampleV2).1 = true ∧
    0 ≤ (sampleRay.RayTriOverlap sampleV0 sampleV1 sampleV2).2.mStabbedFace.mDistance :=
  ⟨sample_hit, (RayTriOverlap_hit_point sampleRay sampleV0 sampleV1 sampleV2 sample_hit).2.1⟩

/-- A binary tree has one leaf more than internal nodes. -/
theorem leafCount_eq (n : AABBTreeNode) : n.leafCount = n.internalCount + 1 := by
  induction n with
  | leaf _ _ => rfl
  | node _ _ P N ihP ihN => simp only [AABBTreeNode.leafCount, AABBTreeNode.internalCount]; omega

/-- Node count of a binary tree in terms of its internal nodes. -/
theorem nodeCount_eq (n : AABBTreeNode) : n.nodeCount = 2 * n.internalCount + 1 := by
  induction n with
  | leaf _ _ => rfl
  | node _ _ P N ihP ihN => simp only [AABBTreeNode.nodeCount, AABBTreeNode.internalCount]; omega

/-- A subtree with an internal node is not a leaf. -/
theorem isLeaf_of_internalCount (n : AABBTreeNode) (h : 1 ≤ n.internalCount) :
    n.IsLeaf = false := by
  cases n with
  | leaf _ _ => simp [AABBTreeNode.internalCount] at h
  | node _ _ _ _ => rfl

/-- A non-leaf subtree has at least one internal node. -/
theorem internalCount_pos (n : AABBTreeNode) (h : n.IsLeaf = false) : 1 ≤ n.internalCount := by
  cases n with
  | leaf _ _ => simp [AABBTreeNode.IsLeaf] at h
  | node _ _ _ _ => simp only [AABBTreeNode.internalCount]; omega

/-- A run from slot 0 with `current_id = 1` over an array with room for the internal nodes. -/
theorem build_root (sz : Nat) (hs : sz % 2 = 0) (n : AABBTreeNode) (hone : n.OnePrimPerLeaf)
    (hk : 1 ≤ n.internalCount) (linear : NodeArray)
    (hlen : n.internalCount ≤ linear.cells.length) (hlt : n.internalCount < 2 ^ 32)
    (hbase : linear.base % 2 = 0) :
    _BuildNoLeafTree sz n 0 ⟨linear, 1, []⟩ =
      some ⟨⟨linear.base, flatten sz linear.base n 0 ++ linear.cells.drop n.internalCount⟩,
            n.internalCount, List.range' 0 n.internalCount⟩ := by
  obtain ⟨s', hrun, h⟩ := build_ok sz hs n hone 0 ⟨linear, 1, []⟩
    (isLeaf_of_internalCount n hk) rfl (by simpa using hlen) (by simpa using hlt) hbase
  rw [hrun]
  obtain ⟨h1, h2, h3, h4, h5, h6⟩ := h
  simp only [Nat.zero_add, List.nil_append] at h1 h2 h3 h4 h5 h6
  have hcells : s'.linear.cells = flatten sz linear.base n 0 ++ linear.cells.drop n.internalCount := by
    apply List.ext_getElem?
    intro j
    by_cases hj : j < n.internalCount
    · rw [h6 j hj, List.getElem?_append_left (by rw [flatten_length]; exact hj)]
    · rw [h5 j (Or.inr (by omega)),
        List.getElem?_append_right (by rw [flatten_length]; omega), flatten_length,
        List.getElem?_drop]
      congr 1
      omega
  cases s' with
  | mk lin cur wr =>
    cases lin with
    | mk bs cs =>
      simp only at h1 h2 h3 hcells
      simp [h1, h2, h3, hcells]

/-- The reference stored for a leaf child has its low bit set. -/
theorem childRef_leaf_tag (sz base : Nat) (C : AABBTreeNode) (slot : Nat) (h : C.IsLeaf = true) :
    childRef sz base C slot &&& 1 = 1 := by
  cases C with
  | leaf _ ps => simp only [childRef]; exact tag_lsb _
  | node _ _ _ _ => simp [AABBTreeNode.IsLeaf] at h

/-- The reference stored for an internal child is the address of its slot. -/
theorem childRef_node (sz base : Nat) (C : AABBTreeNode) (slot : Nat) (h : C.IsLeaf = false) :
    childRef sz base C slot = base + sz * slot := by
  cases C with
  | leaf _ ps => simp [AABBTreeNode.IsLeaf] at h
  | node _ _ _ _ => rfl

/-- The boxes of the pre-order image are the boxes of the internal nodes in pre-order. -/
theorem flatten_boxes (sz base : Nat) (n : AABBTreeNode) (b : Nat) :
    (flatten sz base n b).map (fun c => c.mAABB) =
      n.preorderBoxes.map (fun bv => (⟨bv.mCenter, bv.mExtents⟩ : CollisionAABB)) := by
  induction n generalizing b with
  | leaf _ _ => rfl
  | node bv ps P N ihP ihN => simp [flatten, AABBTreeNode.preorderBoxes, ihP, ihN]

/-- In the pre-order image every non-leaf reference is the address of a later slot of the
same image. -/
theorem flatten_refs (sz base : Nat) (n : AABBTreeNode) :
    ∀ (b j : Nat) (c : AABBNoLeafNode), (flatten sz base n b)[j]? = some c →
      (c.HasPosLeaf = false →
        ∃ m, c.mPosData = base + sz * m ∧ b + j < m ∧ m < b + n.internalCount) ∧
      (c.HasNegLeaf = false →
        ∃ m, c.mNegData = base + sz * m ∧ b + j < m ∧ m < b + n.internalCount) := by
  induction n with
  | leaf _ _ => intro b j c h; simp [flatten] at h
  | node bv ps P N ihP ihN =>
    intro b j c h
    simp only [flatten] at h
    simp only [AABBTreeNode.internalCount]
    rcases Nat.eq_zero_or_pos j with h0 | hpos
    · subst h0
      simp only [List.getElem?_cons_zero, Option.some.injEq] at h
      subst h
      constructor
      · intro hl
        have hP : P.IsLeaf = false := by
          by_contra hc
          have := childRef_leaf_tag sz base P (b + 1) (by simpa using hc)
          simp [AABBNoLeafNode.HasPosLeaf, this] at hl
        exact ⟨b + 1, childRef_node sz base P _ hP, by omega,
          by have := internalCount_pos P hP; omega⟩
      · intro hl
        have hN : N.IsLeaf = false := by
          by_contra hc
          have := childRef_leaf_tag sz base N (b + 1 + P.internalCount) (by simpa using hc)
          simp [AABBNoLeafNode.HasNegLeaf, this] at hl
        exact ⟨b + 1 + P.internalCount, childRef_node sz base N _ hN, by omega,
          by have := internalCount_pos N hN; omega⟩
    · obtain ⟨i, rfl⟩ : ∃ i, j = i + 1 := ⟨j - 1, by omega⟩
      rw [List.getElem?_cons_succ] at h
      by_cases hi : i < P.internalCount
      · rw [List.getElem?_append_left (by rw [flatten_length]; exact hi)] at h
        obtain ⟨h1, h2⟩ := ihP (b + 1) i c h
        constructor
        · intro hl; obtain ⟨m, e, l1, l2⟩ := h1 hl; exact ⟨m, e, by omega, by omega⟩
        · intro hl; obtain ⟨m, e, l1, l2⟩ := h2 hl; exact ⟨m, e, by omega, by omega⟩
      · rw [List.getElem?_append_right (by rw [flatten_length]; omega), flatten_length] at h
        obtain ⟨h1, h2⟩ := ihN (b + 1 + P.internalCount) (i - P.internalCount) c h
        constructor
        · intro hl; obtain ⟨m, e, l1, l2⟩ := h1 hl; exact ⟨m, e, by omega, by omega⟩
        · intro hl; obtain ⟨m, e, l1, l2⟩ := h2 hl; exact ⟨m, e, by omega, by omega⟩

/-- The address of an element designates that element. -/
theorem index_addr (sz : Nat) (hsz : 0 < sz) (a : NodeArray) (m : Nat) (hm : m < a.cells.length) :
    a.index? sz (a.base + sz * m) = some m := by
  simp [NodeArray.index?, hsz, Nat.mul_div_cancel_left m hsz, hm]

/-- One step of the walk at a valid node pointer. -/
theorem walk_unfold (sz : Nat) (a : NodeArray) (fuel p i : Nat) (c : AABBNoLeafNode)
    (hp : p ≠ 0) (hi : a.index? sz p = some i) (hc : a.cells[i]? = some c) :
    AABBNoLeafTree._Walk sz a (fuel + 1) p =
      match (if !c.HasPosLeaf then AABBNoLeafTree._Walk sz a fuel c.GetPos else some []) with
      | none => none
      | some l1 =>
        match (if !c.HasNegLeaf then AABBNoLeafTree._Walk sz a fuel c.GetNeg else some []) with
        | none => none
        | some l2 => some (i :: (l1 ++ l2)) := by
  rw [AABBNoLeafTree._Walk]
  simp only [hp, if_false, hi, hc]

/-- Walking the pre-order image of an internal subtree visits its slots in array order. -/
theorem walk_flatten (sz : Nat) (hsz : 0 < sz) (hs : sz % 2 = 0) (a : NodeArray)
    (hbase0 : 0 < a.base) (hbase : a.base % 2 = 0) (n : AABBTreeNode) :
    ∀ (b fuel : Nat), n.IsLeaf = false → n.internalCount ≤ fuel →
      b + n.internalCount ≤ a.cells.length →
      (∀ j, j < n.internalCount → a.cells[b + j]? = (flatten sz a.base n b)[j]?) →
      AABBNoLeafTree._Walk sz a fuel (a.base + sz * b) = some (List.range' b n.internalCount) := by
  induction n with
  | leaf _ _ => intro b fuel h; simp [AABBTreeNode.IsLeaf] at h
  | node bv ps P N ihP ihN =>
    intro b fuel _ hfuel hlen himg
    simp only [AABBTreeNode.internalCount] at hfuel hlen himg
    obtain ⟨f, rfl⟩ : ∃ f, fuel = f + 1 := ⟨fuel - 1, by omega⟩
    have h0 := himg 0 (by omega)
    simp only [flatten, Nat.add_zero, List.getElem?_cons_zero] at h0
    rw [walk_unfold sz a f _ b _ (by omega) (index_addr sz hsz a b (by omega)) h0]
    have himgP : ∀ j, j < P.internalCount →
        a.cells[b + 1 + j]? = (flatten sz a.base P (b + 1))[j]? := by
      intro j hj
      have := himg (j + 1) (by omega)
      simp only [flatten, List.getElem?_cons_succ] at this
      rw [List.getElem?_append_left (by rw [flatten_length]; exact hj)] at this
      rw [← this]; congr 1; omega
    have himgN : ∀ j, j < N.internalCount →
        a.cells[b + 1 + P.internalCount + j]? =
          (flatten sz a.base N (b + 1 + P.internalCount))[j]? := by
      intro j hj
      have := himg (P.internalCount + j + 1) (by omega)
      simp only [flatten, List.getElem?_cons_succ] at this
      rw [List.getElem?_append_right (by rw [flatten_length]; omega), flatten_length] at this
      rw [show P.internalCount + j - P.internalCount = j by omega] at this
      rw [← this]; congr 1; omega
    have hP : (if !(AABBNoLeafNode.HasPosLeaf
          { mAABB := ⟨bv.mCenter, bv.mExtents⟩, mPosData := childRef sz a.base P (b + 1),
            mNegData := childRef sz a.base N (b + 1 + P.internalCount) })
        then AABBNoLeafTree._Walk sz a f (childRef sz a.base P (b + 1)) else some [])
        = some (List.range' (b + 1) P.internalCount) := by
      cases hPl : P.IsLeaf with
      | true =>
        have := childRef_leaf_tag sz a.base P (b + 1) hPl
        have hk : P.internalCount = 0 := by
          cases P with
          | leaf _ _ => rfl
          | node _ _ _ _ => simp [AABBTreeNode.IsLeaf] at hPl
        simp [AABBNoLeafNode.HasPosLeaf, this, hk]
      | false =>
        have := addr_even sz a.base (b + 1) hbase hs
        rw [childRef_node sz a.base P _ hPl]
        simp only [AABBNoLeafNode.HasPosLeaf, this]
        simp only [bne_self_eq_false, Bool.not_false, if_true]
        exact ihP (b + 1) f hPl (by omega) (by omega) himgP
    have hN : (if !(AABBNoLeafNode.HasNegLeaf
          { mAABB := ⟨bv.mCenter, bv.mExtents⟩, mPosData := childRef sz a.base P (b + 1),
            mNegData := childRef sz a.base N (b + 1 + P.internalCount) })
        then AABBNoLeafTree._Walk sz a f (childRef sz a.base N (b + 1 + P.internalCount))
        else some [])
        = some (List.range' (b + 1 + P.internalCount) N.internalCount) := by
      cases hNl : N.IsLeaf with
      | true =>
        have := childRef_leaf_tag sz a.base N (b + 1 + P.internalCount) hNl
        have hk : N.internalCount = 0 := by
          cases N with
          | leaf _ _ => rfl
          | node _ _ _ _ => simp [AABBTreeNode.IsLeaf] at hNl
        simp [AABBNoLeafNode.HasNegLeaf, this, hk]
      | false =>
        have := addr_even sz a.base (b + 1 + P.internalCount) hbase hs
        rw [childRef_node sz a.base N _ hNl]
        simp only [AABBNoLeafNode.HasNegLeaf, this]
        simp only [bne_self_eq_false, Bool.not_false, if_true]
        exact ihN (b + 1 + P.internalCount) f hNl (by omega) (by omega) himgN
    simp only [AABBNoLeafNode.GetPos, AABBNoLeafNode.GetNeg]
    rw [hP, hN]
    simp only [AABBTreeNode.internalCount]
    rw [show 1 + P.internalCount + N.internalCount
              = (N.internalCount + P.internalCount) + 1 by omega,
          List.range'_succ, ← List.range'_append_1]

/-- Payload read back from the reference stored for a child. -/
theorem childPayload_eq (sz base : Nat) (hs : sz % 2 = 0) (hbase : base % 2 = 0)
    (C : AABBTreeNode) (slot : Nat) (hone : C.OnePrimPerLeaf)
    (hidx : ∀ p ∈ C.leafPrims, p < 2 ^ 31) :
    (if childRef sz base C slot &&& 1 != 0 then [(childRef sz base C slot >>> 1) % 2 ^ 32]
      else []) = childPayload C := by
  cases C with
  | leaf _ ps =>
    simp only [AABBTreeNode.OnePrimPerLeaf] at hone
    obtain ⟨p, rfl⟩ := List.length_eq_one.mp hone
    have hp : p < 2 ^ 31 := hidx p (by simp [AABBTreeNode.leafPrims])
    simp only [childRef, List.headD_cons, tag_lsb, childPayload, AABBTreeNode.IsLeaf,
      AABBTreeNode.leafPrims, tag_payload p hp]
    simp
  | node _ _ _ _ =>
    simp only [childRef, addr_even sz base slot hbase hs, childPayload, AABBTreeNode.IsLeaf]
    simp

/-- The leaf payloads of the pre-order image are the primitive indices of the leaves. -/
theorem flatten_payloads (sz base : Nat) (hs : sz % 2 = 0) (hbase : base % 2 = 0)
    (n : AABBTreeNode) : ∀ (b : Nat), n.OnePrimPerLeaf → (∀ p ∈ n.leafPrims, p < 2 ^ 31) →
      (childPayload n ++ (flatten sz base n b).flatMap AABBNoLeafNode.leafPayloads).Perm
        n.leafPrims := by
  induction n with
  | leaf _ ps => intro b _ _; simp [childPayload, AABBTreeNode.IsLeaf, flatten]
  | node bv ps P N ihP ihN =>
    intro b hone hidx
    obtain ⟨honeP, honeN⟩ := hone
    have hidxP : ∀ p ∈ P.leafPrims, p < 2 ^ 31 := fun p hp =>
      hidx p (by simp [AABBTreeNode.leafPrims, hp])
    have hidxN : ∀ p ∈ N.leafPrims, p < 2 ^ 31 := fun p hp =>
      hidx p (by simp [AABBTreeNode.leafPrims, hp])
    have h1 := ihP (b + 1) honeP hidxP
    have h2 := ihN (b + 1 + P.internalCount) honeN hidxN
    simp only [childPayload, AABBTreeNode.IsLeaf, flatten, List.flatMap_cons, List.flatMap_append,
      AABBNoLeafNode.leafPayloads, AABBNoLeafNode.HasPosLeaf, AABBNoLeafNode.HasNegLeaf,
      AABBNoLeafNode.GetPosPrimitive, AABBNoLeafNode.GetNegPrimitive, AABBTreeNode.leafPrims]
    rw [childPayload_eq sz base hs hbase P _ honeP hidxP,
      childPayload_eq sz base hs hbase N _ honeN hidxN]
    simp only [Bool.false_eq_true, if_false, List.nil_append]
    have h3 := List.Perm.append h1 h2
    refine List.Perm.trans ?_ h3
    simp only [List.append_assoc]
    apply List.Perm.append_left
    rw [← List.append_assoc, ← List.append_assoc]
    apply List.Perm.append_right
    exact List.perm_append_comm

/-- Reading the cells of a list in index order visits the list. -/
theorem flatMap_range_cells (f : AABBNoLeafNode → List Nat) (l pre : List AABBNoLeafNode) :
    (List.range' pre.length l.length).flatMap
        (fun i => match (pre ++ l)[i]? with
          | none => []
          | some c => f c) = l.flatMap f := by
  induction l generalizing pre with
  | nil => simp
  | cons x xs ih =>
    have := ih (pre ++ [x])
    simp only [List.length_append, List.length_singleton, List.append_assoc,
      List.singleton_append] at this
    simp only [List.length_cons, List.range'_succ, List.flatMap_cons, this]
    have hx : (pre ++ x :: xs)[pre.length]? = some x := by
      rw [List.getElem?_append_right (Nat.le_refl _)]; simp
    rw [hx]

/-- On a complete tree with at least two leaves `Build` succeeds and leaves the pre-order image. -/
theorem Build_complete (sz base : Nat) (t : AABBNoLeafTree) (tree : AABBTree)
    (hs : sz % 2 = 0) (hb0 : 0 < base) (hb : base % 2 = 0)
    (hwf : t.WellFormed) (hc : tree.Complete) (hT : 2 ≤ tree.root.leafCount) :
    ∃ b, 0 < b ∧ b % 2 = 0 ∧
      t.Build sz (some tree) (some base) =
        some (true, ⟨tree.root.leafCount - 1,
                      some ⟨b, flatten sz b tree.root 0⟩⟩) := by
  obtain ⟨hone, hnp, hnn, hw⟩ := hc
  have hk := leafCount_eq tree.root
  have hk1 : 1 ≤ tree.root.internalCount := by omega
  have e1 : (tree.GetNbPrimitives * 2 + (2 ^ 32 - 1)) % 2 ^ 32 = tree.GetNbNodes := by
    rw [hnp, hnn]; rw [hnn] at hw; omega
  have e2 : (tree.GetNbPrimitives + (2 ^ 32 - 1)) % 2 ^ 32 = tree.root.internalCount := by
    rw [hnp]; rw [hnn] at hw; omega
  have hklt : tree.root.internalCount < 2 ^ 32 := by rw [hnn] at hw; omega
  simp only [AABBNoLeafTree.Build, e1, e2, ne_eq, not_true_eq_false, if_false]
  by_cases hre : t.mNbNodes = tree.root.internalCount
  · simp only [hre, not_true_eq_false, if_false]
    cases hm : t.mNodes with
    | none => simp only [AABBNoLeafTree.WellFormed, hm] at hwf; omega
    | some a =>
      simp only [AABBNoLeafTree.WellFormed, hm] at hwf
      obtain ⟨hl, ha0, ha⟩ := hwf
      refine ⟨a.base, ha0, ha, ?_⟩
      simp only [AABBNoLeafTree.buildNodes, hm]
      rw [build_root sz hs tree.root hone hk1 a (by omega) hklt ha]
      have hd : a.cells.drop tree.root.internalCount = [] := by
        apply List.drop_eq_nil_of_le; omega
      simp [hre, hd, hk]
  · simp only [hre, not_false_eq_true, if_true]
    refine ⟨base, hb0, hb, ?_⟩
    simp only [AABBNoLeafTree.buildNodes]
    rw [build_root sz hs tree.root hone hk1 _ (by simp) hklt hb]
    simp [hk]

/-- C1 (amended): for every complete generic tree with `T >= 2` leaves (stored counts `T` and
`2T - 1`, one primitive index below `2 ^ 31` per leaf), `Build` on a consistent tree object with
an aligned allocation succeeds and produces an array of `T - 1` nodes; walking it from node 0
visits every node, and the leaf-tagged references met (LSB = 1, payload read back) are the
primitive indices of the input leaves, each leaf exactly once. -/
theorem Build_roundtrip (sz base : Nat) (t : AABBNoLeafTree) (tree : AABBTree)
    (hsz : 0 < sz) (hs : sz % 2 = 0) (hb0 : 0 < base) (hb : base % 2 = 0)
    (hwf : t.WellFormed) (hc : tree.Complete) (hT : 2 ≤ tree.root.leafCount)
    (hidx : ∀ p ∈ tree.root.leafPrims, p < 2 ^ 31) :
    ∃ a : NodeArray,
      t.Build sz (some tree) (some base) =
        some (true, ⟨tree.root.leafCount - 1, some a⟩) ∧
      a.cells.length = tree.root.leafCount - 1 ∧
      (∀ fuel, tree.root.leafCount - 1 ≤ fuel →
        AABBNoLeafTree.Walk sz ⟨tree.root.leafCount - 1, some a⟩ fuel =
          some (List.range' 0 (tree.root.leafCount - 1))) ∧
      (a.walkedPrims (List.range' 0 (tree.root.leafCount - 1))).Perm tree.root.leafPrims := by
  obtain ⟨b, hb0', hb', hbuild⟩ := Build_complete sz base t tree hs hb0 hb hwf hc hT
  have hk := leafCount_eq tree.root
  have hk1 : 1 ≤ tree.root.internalCount := by omega
  have hleaf := isLeaf_of_internalCount tree.root hk1
  refine ⟨⟨b, flatten sz b tree.root 0⟩, hbuild, ?_, ?_, ?_⟩
  · simp [flatten_length, hk]
  · intro fuel hfuel
    have hw := walk_flatten sz hsz hs ⟨b, flatten sz b tree.root 0⟩ hb0' hb' tree.root 0 fuel
      hleaf (by omega) (by simp [flatten_length]) (by intro j _; simp)
    simp only [Nat.mul_zero, Nat.add_zero] at hw
    simp only [AABBNoLeafTree.Walk, hw, hk, Nat.add_sub_cancel]
  · have h1 := flatMap_range_cells AABBNoLeafNode.leafPayloads (flatten sz b tree.root 0) []
    simp only [List.length_nil, List.nil_append, flatten_length] at h1
    have h2 := flatten_payloads sz b hs hb' tree.root 0 hc.1 hidx
    simp only [childPayload, hleaf, Bool.false_eq_true, if_false, List.nil_append] at h2
    simp only [NodeArray.walkedPrims, hk, Nat.add_sub_cancel, h1]
    exact h2

/-- Witness for C1 on the sample tree with three leaves. -/
theorem Build_roundtrip_witness :
    ∃ a : NodeArray,
      AABBNoLeafTree.Build 40 ⟨0, none⟩ (some sampleTree) (some 4096) =
        some (true, ⟨sampleTree.root.leafCount - 1, some a⟩) ∧
      a.cells.length = sampleTree.root.leafCount - 1 ∧
      (∀ fuel, sampleTree.root.leafCount - 1 ≤ fuel →
        AABBNoLeafTree.Walk 40 ⟨sampleTree.root.leafCount - 1, some a⟩ fuel =
          some (List.range' 0 (sampleTree.root.leafCount - 1))) ∧
      (a.walkedPrims (List.range' 0 (sampleTree.root.leafCount - 1))).Perm
        sampleTree.root.leafPrims :=
  Build_roundtrip 40 4096 ⟨0, none⟩ sampleTree (by decide) (by decide) (by decide) (by decide)
    rfl ⟨⟨⟨rfl, rfl⟩, rfl⟩, rfl, rfl, by decide⟩ (by decide) (by decide)

/-- Counterexample for C1: a generic tree made of one leaf has `T = 1` leaves, `2T - 1 = 1`
nodes and one primitive index on its leaf, yet `Build` never returns true on it (the builder
asserts that the node it is given has two children). -/
theorem Build_single_leaf_never_true :
    singleLeafTree.root.leafCount = 1 ∧ singleLeafTree.GetNbPrimitives = 1 ∧
    singleLeafTree.GetNbNodes = 2 * 1 - 1 ∧ singleLeafTree.root.OnePrimPerLeaf ∧
    ∀ (sz : Nat) (t : AABBNoLeafTree) (alloc : Option Nat) (t' : AABBNoLeafTree),
      t.Build sz (some singleLeafTree) alloc ≠ some (true, t') := by
  refine ⟨rfl, rfl, rfl, rfl, ?_⟩
  intro sz t alloc t'
  simp only [AABBNoLeafTree.Build, AABBNoLeafTree.buildNodes, singleLeafTree, _BuildNoLeafTree]
  intro h
  split_ifs at h
  · simp at h
  · cases alloc <;> simp at h
  · cases hm : t.mNodes <;> simp [hm] at h

/-- C3: for a complete input tree with `T >= 2` leaves, `_BuildNoLeafTree` started with
`box_id = 0` and `current_id = 1` on an even-aligned array with room for `T - 1` nodes
succeeds; the destination slots of its calls are `0, 1, ..., T-2` in this order (each once,
none beyond), slots `0 .. T-2` hold the boxes of the internal nodes in depth-first pre-order
(the root's box at index 0), the rest of the array is untouched, the run ends with
`current_id = T - 1`, and every non-leaf child reference stored in node `i` designates a node
at an index `j` with `i < j < T - 1`. -/
theorem BuildNoLeafTree_preorder (sz : Nat) (linear : NodeArray) (tree : AABBTreeNode)
    (hsz : 0 < sz) (hs : sz % 2 = 0) (hbase : linear.base % 2 = 0)
    (hone : tree.OnePrimPerLeaf) (hT : 2 ≤ tree.leafCount)
    (hlen : tree.leafCount - 1 ≤ linear.cells.length) (hw : tree.leafCount - 1 < 2 ^ 32) :
    ∃ s' : BuildState,
      _BuildNoLeafTree sz tree 0 ⟨linear, 1, []⟩ = some s' ∧
      s'.current_id = tree.leafCount - 1 ∧
      s'.written = List.range' 0 (tree.leafCount - 1) ∧
      (s'.linear.cells.take (tree.leafCount - 1)).map (fun c => c.mAABB) =
        tree.preorderBoxes.map (fun bv => (⟨bv.mCenter, bv.mExtents⟩ : CollisionAABB)) ∧
      (s'.linear.cells[0]?).map (fun c => c.mAABB) =
        some ⟨tree.GetAABB.mCenter, tree.GetAABB.mExtents⟩ ∧
      s'.linear.cells.drop (tree.leafCount - 1) = linear.cells.drop (tree.leafCount - 1) ∧
      s'.linear.cells.length = linear.cells.length ∧
      ∀ i c, i < tree.leafCount - 1 → s'.linear.cells[i]? = some c →
        (c.HasPosLeaf = false →
          ∃ j, s'.linear.index? sz c.GetPos = some j ∧ i < j ∧ j < tree.leafCount - 1) ∧
        (c.HasNegLeaf = false →
          ∃ j, s'.linear.index? sz c.GetNeg = some j ∧ i < j ∧ j < tree.leafCount - 1) := by
  have hk := leafCount_eq tree
  have hk1 : 1 ≤ tree.internalCount := by omega
  have hkk : tree.leafCount - 1 = tree.internalCount := by omega
  rw [hkk] at hlen hw ⊢
  have hfl := flatten_length sz linear.base tree 0
  refine ⟨_, build_root sz hs tree hone hk1 linear hlen hw hbase, rfl, rfl, ?_, ?_, ?_, ?_, ?_⟩
  · simp only
    rw [List.take_left' hfl]
    exact flatten_boxes sz linear.base tree 0
  · cases tree with
    | leaf _ _ => simp [AABBTreeNode.internalCount] at hk1
    | node bv ps P N => simp [flatten, AABBTreeNode.GetAABB]
  · simp only
    rw [List.drop_left' hfl]
  · simp only [List.length_append, hfl, List.length_drop]
    omega
  · intro i c hi hc
    simp only at hc
    rw [List.getElem?_append_left (by rw [hfl]; exact hi)] at hc
    obtain ⟨h1, h2⟩ := flatten_refs sz linear.base tree 0 i c hc
    have hlen' : (flatten sz linear.base tree 0 ++
        List.drop tree.internalCount linear.cells).length = linear.cells.length := by
      simp only [List.length_append, hfl, List.length_drop]; omega
    constructor
    · intro hl
      obtain ⟨m, e, l1, l2⟩ := h1 hl
      refine ⟨m, ?_, by omega, by omega⟩
      rw [AABBNoLeafNode.GetPos, e]
      exact index_addr sz hsz ⟨linear.base, _⟩ m (by rw [hlen']; omega)
    · intro hl
      obtain ⟨m, e, l1, l2⟩ := h2 hl
      refine ⟨m, ?_, by omega, by omega⟩
      rw [AABBNoLeafNode.GetNeg, e]
      exact index_addr sz hsz ⟨linear.base, _⟩ m (by rw [hlen']; omega)

/-- Witness for C3 on the root of the sample tree and a fresh two-element array. -/
theorem BuildNoLeafTree_preorder_witness :
    ∃ s' : BuildState,
      _BuildNoLeafTree 40 sampleTree.root 0
        ⟨⟨4096, List.replicate 2 AABBNoLeafNode.fresh⟩, 1, []⟩ = some s' ∧
      s'.current_id = 2 ∧ s'.written = [0, 1] := by
  obtain ⟨s', h1, h2, h3, -⟩ := BuildNoLeafTree_preorder 40
    ⟨4096, List.replicate 2 AABBNoLeafNode.fresh⟩ sampleTree.root (by decide) (by decide)
    (by decide) ⟨⟨rfl, rfl⟩, rfl⟩ (by decide) (by decide) (by decide)
  exact ⟨s', h1, h2, h3⟩

/-- C4 (amended): `Build` returns false, leaving the stored node array and node count as they
were, when the input tree is null or when its node count differs from `2 * (primitive count) - 1`
computed in 32 bits (which is `2T - 1` for `1 <= T <= 2 ^ 31`); it returns false with the node
count already updated and a null array when a needed allocation fails; and it returns true for
a complete tree with at least two leaves, a consistent tree object and an aligned
allocation. -/
theorem Build_result (sz : Nat) (t : AABBNoLeafTree) (alloc : Option Nat) :
    t.Build sz none alloc = some (false, t) ∧
    (∀ tree : AABBTree,
      tree.GetNbNodes ≠ (tree.GetNbPrimitives * 2 + (2 ^ 32 - 1)) % 2 ^ 32 →
        t.Build sz (some tree) alloc = some (false, t)) ∧
    (∀ T : Nat, 1 ≤ T → T ≤ 2 ^ 31 → (T * 2 + (2 ^ 32 - 1)) % 2 ^ 32 = 2 * T - 1) ∧
    (∀ tree : AABBTree,
      tree.GetNbNodes = (tree.GetNbPrimitives * 2 + (2 ^ 32 - 1)) % 2 ^ 32 →
      t.mNbNodes ≠ (tree.GetNbPrimitives + (2 ^ 32 - 1)) % 2 ^ 32 →
        t.Build sz (some tree) none =
          some (false, ⟨(tree.GetNbPrimitives + (2 ^ 32 - 1)) % 2 ^ 32, none⟩)) ∧
    (∀ (tree : AABBTree) (base : Nat), alloc = some base → sz % 2 = 0 → 0 < base →
      base % 2 = 0 → t.WellFormed → tree.Complete → 2 ≤ tree.root.leafCount →
        ∃ t', t.Build sz (some tree) alloc = some (true, t')) := by
  refine ⟨rfl, ?_, ?_, ?_, ?_⟩
  · intro tree h
    simp only [AABBNoLeafTree.Build]
    rw [if_pos h]
  · intro T h1 h2; omega
  · intro tree h1 h2
    simp only [AABBNoLeafTree.Build]
    rw [if_neg (by simpa using h1), if_pos h2]
  · intro tree base ha hs hb0 hb hwf hc hT
    subst ha
    obtain ⟨b, -, -, h⟩ := Build_complete sz base t tree hs hb0 hb hwf hc hT
    exact ⟨_, h⟩

/-- Witness for C4: a mismatching node count is refused, and the sample tree is built. -/
theorem Build_result_witness :
    AABBNoLeafTree.Build 40 ⟨0, none⟩ (some ⟨sampleTree.root, 4⟩) (some 4096) =
      some (false, ⟨0, none⟩) ∧
    ∃ t', AABBNoLeafTree.Build 40 ⟨0, none⟩ (some sampleTree) (some 4096) = some (true, t') :=
  ⟨(Build_result 40 ⟨0, none⟩ (some 4096)).2.1 ⟨sampleTree.root, 4⟩ (by decide),
   (Build_result 40 ⟨0, none⟩ (some 4096)).2.2.2.2 sampleTree 4096 rfl (by decide) (by decide)
     (by decide) rfl ⟨⟨⟨rfl, rfl⟩, rfl⟩, rfl, rfl, by decide⟩ (by decide)⟩

/-- Counterexample for C4: the single-leaf tree is non-null and its node count 1 equals
`2 * 1 - 1`, yet `Build` on a freshly constructed tree object does not return true: the run
stops on the builder's assertion that the node has two children. -/
theorem Build_single_leaf_fresh :
    singleLeafTree.GetNbNodes = 2 * singleLeafTree.GetNbPrimitives - 1 ∧
    AABBNoLeafTree.Build 40 ⟨0, none⟩ (some singleLeafTree) (some 4096) = none ∧
    AABBNoLeafTree.Build 40 ⟨3, none⟩ (some singleLeafTree) (some 4096) = none := by
  refine ⟨rfl, ?_, ?_⟩ <;> rfl

/-! ### Refit -/

/-- Function `MinMax` computes the minimum and the maximum of its three arguments. -/
theorem MinMax_eq (a b c : ℚ) : MinMax a b c = (min a (min b c), max a (max b c)) := by
  unfold MinMax
  split_ifs <;>
    simp only [Prod.mk.injEq] <;> constructor <;>
    simp only [min_def, max_def] <;> split_ifs <;> linarith

/-- Function `lComputeMinMax` computes the bounds of the triangle. -/
theorem lComputeMinMax_eq (vp : VertexPointers) : lComputeMinMax vp = specTriBounds vp := by
  simp [lComputeMinMax, specTriBounds, MinMax_eq, Point.inf, Point.sup]

/-- Reading the minimum back after `SetMinMax` (exact arithmetic). -/
theorem GetMin_SetMinMax (mn mx : Point) : (CollisionAABB.SetMinMax mn mx).GetMin = mn := by
  cases mn; cases mx
  simp only [CollisionAABB.SetMinMax, CollisionAABB.GetMin, Point.sub, Point.add, Point.scale,
    Point.mk.injEq]
  refine ⟨?_, ?_, ?_⟩ <;> ring

/-- Reading the maximum back after `SetMinMax` (exact arithmetic). -/
theorem GetMax_SetMinMax (mn mx : Point) : (CollisionAABB.SetMinMax mn mx).GetMax = mx := by
  cases mn; cases mx
  simp only [CollisionAABB.SetMinMax, CollisionAABB.GetMax, Point.sub, Point.add, Point.scale,
    Point.mk.injEq]
  refine ⟨?_, ?_, ?_⟩ <;> ring

/-- Setting a box from its own minimum and maximum leaves it unchanged (exact arithmetic). -/
theorem SetMinMax_self (b : CollisionAABB) : CollisionAABB.SetMinMax b.GetMin b.GetMax = b := by
  obtain ⟨⟨cx, cy, cz⟩, ⟨ex, ey, ez⟩⟩ := b
  simp only [CollisionAABB.SetMinMax, CollisionAABB.GetMax, CollisionAABB.GetMin, Point.sub,
    Point.add, Point.scale, CollisionAABB.mk.injEq, Point.mk.injEq]
  refine ⟨⟨?_, ?_, ?_⟩, ?_, ?_, ?_⟩ <;> ring

/-- The side computation of `Refit` is the side of the specification. -/
theorem refit_side_eq (sz : Nat) (mi : Nat → VertexPointers) (a : NodeArray)
    (isLeaf : Bool) (prim ptr : Nat) :
    (if isLeaf then some (lComputeMinMax (mi prim))
      else
        (a.deref sz ptr).map (fun child => (child.mAABB.GetMin, child.mAABB.GetMax))) =
      specSideBounds sz mi a isLeaf prim ptr := by
  unfold specSideBounds
  rw [lComputeMinMax_eq]

/-- One iteration of the refit loop, stated with the sides of the specification. -/
theorem refitNode_eq (sz : Nat) (mi : Nat → VertexPointers) (a : NodeArray) (k : Nat)
    (c : AABBNoLeafNode) (p n : Point × Point) (hc : a.cells[k]? = some c)
    (hp : specSideBounds sz mi a c.HasPosLeaf c.GetPosPrimitive c.GetPos = some p)
    (hn : specSideBounds sz mi a c.HasNegLeaf c.GetNegPrimitive c.GetNeg = some n) :
    AABBNoLeafTree.refitNode sz mi a k =
      some ⟨a.base, a.cells.set k
        ⟨CollisionAABB.SetMinMax (p.1.inf n.1) (p.2.sup n.2), c.mPosData, c.mNegData⟩⟩ := by
  simp only [AABBNoLeafTree.refitNode, hc, refit_side_eq, hp, hn]
  obtain ⟨⟨x1, y1, z1⟩, ⟨x2, y2, z2⟩⟩ := p
  obtain ⟨⟨x3, y3, z3⟩, ⟨x4, y4, z4⟩⟩ := n
  simp only [Point.inf, Point.sup, min_def, max_def, gt_iff_lt]
  have e1 : ∀ u v : ℚ, (if v < u then v else u) = if u ≤ v then u else v := by
    intro u v; split_ifs <;> linarith
  have e2 : ∀ u v : ℚ, (if v > u then v else u) = if u ≤ v then v else u := by
    intro u v; split_ifs <;> first | rfl | linarith
  simp only [e1, e2]

/-- Replacing the box of one node does not change what a pointer designates. -/
theorem index_setBox (sz : Nat) (a : NodeArray) (k : Nat) (c' : AABBNoLeafNode) (p : Nat) :
    NodeArray.index? sz ⟨a.base, a.cells.set k c'⟩ p = a.index? sz p := by
  simp [NodeArray.index?]

/-- A pointer that designates a node can be dereferenced. -/
theorem deref_of_index (sz : Nat) (a : NodeArray) (p j : Nat) (h : a.index? sz p = some j) :
    ∃ child, a.cells[j]? = some child ∧ a.deref sz p = some child := by
  have hj : j < a.cells.length := by
    unfold NodeArray.index? at h
    split_ifs at h with hc
    simp only [Option.some.injEq] at h
    omega
  exact ⟨a.cells[j], List.getElem?_eq_getElem hj, by simp [NodeArray.deref, h, List.getElem?_eq_getElem hj]⟩

/-- A side whose reference, if it is a node reference, designates a node has bounds. -/
theorem side_some (sz : Nat) (mi : Nat → VertexPointers) (a : NodeArray) (isLeaf : Bool)
    (prim ptr : Nat) (h : isLeaf = false → ∃ j, a.index? sz ptr = some j) :
    ∃ p, specSideBounds sz mi a isLeaf prim ptr = some p := by
  unfold specSideBounds
  cases isLeaf
  · obtain ⟨j, hj⟩ := h rfl
    obtain ⟨child, -, hd⟩ := deref_of_index sz a ptr j hj
    simp [hd]
  · simp

/-- Replacing the box of node `k` does not change the bounds of a side that is a primitive
or designates another node. -/
theorem side_setBox (sz : Nat) (mi : Nat → VertexPointers) (a : NodeArray) (k : Nat)
    (c' : AABBNoLeafNode) (isLeaf : Bool) (prim ptr : Nat)
    (h : isLeaf = false → ∃ j, a.index? sz ptr = some j ∧ j ≠ k) :
    specSideBounds sz mi ⟨a.base, a.cells.set k c'⟩ isLeaf prim ptr =
      specSideBounds sz mi a isLeaf prim ptr := by
  unfold specSideBounds
  cases isLeaf
  · obtain ⟨j, hj, hne⟩ := h rfl
    simp only [Bool.false_eq_true, if_false, NodeArray.deref, index_setBox, hj]
    rw [List.getElem?_set_ne (Ne.symm hne)]
  · simp

/-- One iteration of the refit loop succeeds on a node whose node references are valid, and
rewrites only the box of that node. -/
theorem refitNode_ok (sz : Nat) (mi : Nat → VertexPointers) (a : NodeArray) (k : Nat)
    (hk : k < a.cells.length) (hv : a.ValidRefs sz) :
    ∃ (c : AABBNoLeafNode) (p n : Point × Point), a.cells[k]? = some c ∧
      specSideBounds sz mi a c.HasPosLeaf c.GetPosPrimitive c.GetPos = some p ∧
      specSideBounds sz mi a c.HasNegLeaf c.GetNegPrimitive c.GetNeg = some n ∧
      AABBNoLeafTree.refitNode sz mi a k =
        some ⟨a.base, a.cells.set k
          ⟨CollisionAABB.SetMinMax (p.1.inf n.1) (p.2.sup n.2), c.mPosData, c.mNegData⟩⟩ := by
  have hc : a.cells[k]? = some a.cells[k] := List.getElem?_eq_getElem hk
  obtain ⟨h1, h2⟩ := hv k _ hc
  obtain ⟨p, hp⟩ := side_some sz mi a _ (a.cells[k]).GetPosPrimitive _ h1
  obtain ⟨n, hn⟩ := side_some sz mi a _ (a.cells[k]).GetNegPrimitive _ h2
  exact ⟨_, p, n, hc, hp, hn, refitNode_eq sz mi a k _ p n hc hp hn⟩

/-- Cells of an array after the box of node `k` was replaced. -/
theorem cells_setBox (a : NodeArray) (k : Nat) (c : AABBNoLeafNode) (bx : CollisionAABB)
    (hc : a.cells[k]? = some c) (i : Nat) (ci : AABBNoLeafNode)
    (hi : (a.cells.set k ⟨bx, c.mPosData, c.mNegData⟩)[i]? = some ci) :
    ∃ c0, a.cells[i]? = some c0 ∧ ci.mPosData = c0.mPosData ∧ ci.mNegData = c0.mNegData ∧
      (i ≠ k → ci = c0) ∧ (i = k → ci = ⟨bx, c.mPosData, c.mNegData⟩) := by
  by_cases hik : i = k
  · subst hik
    have hlt : i < a.cells.length := by
      by_contra hcon
      rw [List.getElem?_eq_none (by omega)] at hc
      simp at hc
    rw [getElem?_set_same _ _ _ hlt] at hi
    simp only [Option.some.injEq] at hi
    subst hi
    exact ⟨c, hc, rfl, rfl, fun h => absurd rfl h, fun _ => rfl⟩
  · rw [List.getElem?_set_ne (Ne.symm hik)] at hi
    exact ⟨ci, hi, rfl, rfl, fun _ => rfl, fun h => absurd h hik⟩

/-- Validity of the node references survives the replacement of a box. -/
theorem validRefs_setBox (sz : Nat) (a : NodeArray) (k : Nat) (c : AABBNoLeafNode)
    (bx : CollisionAABB) (hc : a.cells[k]? = some c) (hv : a.ValidRefs sz) :
    NodeArray.ValidRefs sz ⟨a.base, a.cells.set k ⟨bx, c.mPosData, c.mNegData⟩⟩ := by
  intro i ci hi
  obtain ⟨c0, h0, e1, e2, -, -⟩ := cells_setBox a k c bx hc i ci hi
  obtain ⟨h1, h2⟩ := hv i c0 h0
  simp only [index_setBox, AABBNoLeafNode.HasPosLeaf, AABBNoLeafNode.HasNegLeaf,
    AABBNoLeafNode.GetPos, AABBNoLeafNode.GetNeg, e1, e2]
  exact ⟨h1, h2⟩

/-- Forward node references survive the replacement of a box. -/
theorem forwardRefs_setBox (sz : Nat) (a : NodeArray) (k : Nat) (c : AABBNoLeafNode)
    (bx : CollisionAABB) (hc : a.cells[k]? = some c) (hv : a.ForwardRefs sz) :
    NodeArray.ForwardRefs sz ⟨a.base, a.cells.set k ⟨bx, c.mPosData, c.mNegData⟩⟩ := by
  intro i ci hi
  obtain ⟨c0, h0, e1, e2, -, -⟩ := cells_setBox a k c bx hc i ci hi
  obtain ⟨h1, h2⟩ := hv i c0 h0
  simp only [index_setBox, AABBNoLeafNode.HasPosLeaf, AABBNoLeafNode.HasNegLeaf,
    AABBNoLeafNode.GetPos, AABBNoLeafNode.GetNeg, e1, e2]
  exact ⟨h1, h2⟩

/-- Forward references are valid references. -/
theorem validRefs_of_forwardRefs (sz : Nat) (a : NodeArray) (h : a.ForwardRefs sz) :
    a.ValidRefs sz := by
  intro i c hc
  obtain ⟨h1, h2⟩ := h i c hc
  exact ⟨fun hl => (h1 hl).imp fun j hj => hj.1, fun hl => (h2 hl).imp fun j hj => hj.1⟩

/-- The topology survives the replacement of a box. -/
theorem topology_setBox (a : NodeArray) (k : Nat) (c : AABBNoLeafNode) (bx : CollisionAABB)
    (hc : a.cells[k]? = some c) :
    NodeArray.topology ⟨a.base, a.cells.set k ⟨bx, c.mPosData, c.mNegData⟩⟩ = a.topology := by
  simp only [NodeArray.topology, Prod.mk.injEq, true_and]
  apply List.ext_getElem?
  intro i
  simp only [List.getElem?_map]
  by_cases hik : i = k
  · subst hik
    have hlt : i < a.cells.length := by
      by_contra hcon
      rw [List.getElem?_eq_none (by omega)] at hc
      simp at hc
    rw [getElem?_set_same _ _ _ hlt, hc]
    rfl
  · rw [List.getElem?_set_ne (Ne.symm hik)]

/-- The refit loop succeeds on an array with valid node references and keeps its topology. -/
theorem refitLoop_topology (sz : Nat) (mi : Nat → VertexPointers) :
    ∀ (k : Nat) (a : NodeArray), k ≤ a.cells.length → a.ValidRefs sz →
      ∃ a', AABBNoLeafTree.refitLoop sz mi k a = some a' ∧ a'.topology = a.topology := by
  intro k
  induction k with
  | zero => intro a _ _; exact ⟨a, rfl, rfl⟩
  | succ k ih =>
    intro a hk hv
    obtain ⟨c, p, n, hc, -, -, hrun⟩ := refitNode_ok sz mi a k (by omega) hv
    obtain ⟨a', h1, h2⟩ := ih ⟨a.base, a.cells.set k
        ⟨CollisionAABB.SetMinMax (p.1.inf n.1) (p.2.sup n.2), c.mPosData, c.mNegData⟩⟩
      (by simpa using (by omega : k ≤ a.cells.length))
      (validRefs_setBox sz a k c _ hc hv)
    refine ⟨a', ?_, ?_⟩
    · simp only [AABBNoLeafTree.refitLoop, hrun, h1]
    · rw [h2, topology_setBox a k c _ hc]

/-- The refit loop leaves a tight array unchanged. -/
theorem refitLoop_id (sz : Nat) (mi : Nat → VertexPointers) (a : NodeArray)
    (ht : a.Tight sz mi) :
    ∀ (k : Nat), k ≤ a.cells.length → AABBNoLeafTree.refitLoop sz mi k a = some a := by
  intro k
  induction k with
  | zero => intro _; rfl
  | succ k ih =>
    intro hk
    have hlt : k < a.cells.length := by omega
    have hc : a.cells[k]? = some a.cells[k] := List.getElem?_eq_getElem hlt
    obtain ⟨p, n, hp, hn, e1, e2⟩ := ht k _ hc
    have hrun := refitNode_eq sz mi a k _ p n hc hp hn
    rw [← e1, ← e2, SetMinMax_self] at hrun
    have hsame : (⟨a.base, a.cells.set k
        ⟨(a.cells[k]).mAABB, (a.cells[k]).mPosData, (a.cells[k]).mNegData⟩⟩ : NodeArray) = a := by
      cases a with
      | mk bs cs =>
        simp only [NodeArray.mk.injEq, true_and]
        apply List.ext_getElem?
        intro i
        by_cases hik : i = k
        · subst hik
          rw [getElem?_set_same _ _ _ hlt, List.getElem?_eq_getElem hlt]
        · rw [List.getElem?_set_ne (Ne.symm hik)]
    rw [hsame] at hrun
    simp only [AABBNoLeafTree.refitLoop, hrun]
    exact ih (by omega)

/-- The refit loop started at `k` makes every node tight, provided node references point
forward and the nodes from `k` on are already tight. -/
theorem refitLoop_tight (sz : Nat) (mi : Nat → VertexPointers) :
    ∀ (k : Nat) (a : NodeArray), k ≤ a.cells.length → a.ForwardRefs sz →
      (∀ (i : Nat) (c : AABBNoLeafNode), k ≤ i → a.cells[i]? = some c → a.TightAt sz mi c) →
      ∃ a', AABBNoLeafTree.refitLoop sz mi k a = some a' ∧ a'.Tight sz mi := by
  intro k
  induction k with
  | zero => intro a _ _ ht; exact ⟨a, rfl, fun i c hc => ht i c (Nat.zero_le _) hc⟩
  | succ k ih =>
    intro a hk hf ht
    obtain ⟨c, p, n, hc, hp, hn, hrun⟩ :=
      refitNode_ok sz mi a k (by omega) (validRefs_of_forwardRefs sz a hf)
    have hstep : ∀ (i : Nat) (c0 : AABBNoLeafNode), k ≤ i → a.cells[i]? = some c0 →
        ∀ (isLeaf : Bool) (prim ptr : Nat),
          (isLeaf = false → ∃ j, a.index? sz ptr = some j ∧ i < j) →
          specSideBounds sz mi ⟨a.base, a.cells.set k
            ⟨CollisionAABB.SetMinMax (p.1.inf n.1) (p.2.sup n.2), c.mPosData, c.mNegData⟩⟩
            isLeaf prim ptr = specSideBounds sz mi a isLeaf prim ptr := by
      intro i c0 hki _ isLeaf prim ptr h
      apply side_setBox
      intro hl
      obtain ⟨j, hj, hij⟩ := h hl
      exact ⟨j, hj, by omega⟩
    obtain ⟨a', h1, h2⟩ := ih ⟨a.base, a.cells.set k
        ⟨CollisionAABB.SetMinMax (p.1.inf n.1) (p.2.sup n.2), c.mPosData, c.mNegData⟩⟩
      (by simpa using (by omega : k ≤ a.cells.length))
      (forwardRefs_setBox sz a k c _ hc hf) (by
        intro i ci hki hi
        obtain ⟨c0, h0, e1, e2, hne, heq⟩ := cells_setBox a k c _ hc i ci hi
        obtain ⟨f1, f2⟩ := hf i c0 h0
        by_cases hik : i = k
        · have hci := heq hik
          subst hik
          have hcc : c0 = c := by rw [hc] at h0; exact (Option.some.inj h0).symm
          subst hcc
          subst hci
          refine ⟨p, n, ?_, ?_, ?_, ?_⟩
          · rw [← hp]
            exact hstep i c0 (Nat.le_refl _) h0 _ _ _ f1
          · rw [← hn]
            exact hstep i c0 (Nat.le_refl _) h0 _ _ _ f2
          · exact GetMin_SetMinMax _ _
          · exact GetMax_SetMinMax _ _
        · have hci := hne hik
          subst hci
          obtain ⟨p0, n0, hp0, hn0, g1, g2⟩ := ht i ci (by omega) h0
          refine ⟨p0, n0, ?_, ?_, g1, g2⟩
          · rw [← hp0]
            exact hstep i ci hki h0 _ _ _ f1
          · rw [← hn0]
            exact hstep i ci hki h0 _ _ _ f2)
    exact ⟨a', by simp only [AABBNoLeafTree.refitLoop, hrun, h1], h2⟩

/-- The pre-order image of an internal subtree has forward node references. -/
theorem flatten_forwardRefs (sz base : Nat) (hsz : 0 < sz) (n : AABBTreeNode) :
    NodeArray.ForwardRefs sz ⟨base, flatten sz base n 0⟩ := by
  intro i c hc
  simp only at hc
  obtain ⟨h1, h2⟩ := flatten_refs sz base n 0 i c hc
  have hfl := flatten_length sz base n 0
  constructor
  · intro hl
    obtain ⟨m, e, l1, l2⟩ := h1 hl
    refine ⟨m, ?_, by omega⟩
    rw [AABBNoLeafNode.GetPos, e]
    exact index_addr sz hsz ⟨base, _⟩ m (by simp only [hfl]; omega)
  · intro hl
    obtain ⟨m, e, l1, l2⟩ := h2 hl
    refine ⟨m, ?_, by omega⟩
    rw [AABBNoLeafNode.GetNeg, e]
    exact index_addr sz hsz ⟨base, _⟩ m (by simp only [hfl]; omega)

/-- C2: after `Refit` with a non-null mesh interface, on a tree in which every non-leaf
child reference designates a later element of the array, every node's box (min = center -
extents, max = center + extents, exact arithmetic) is the component-wise union of the bounds
of its two sides: the min / max of the three vertices of the primitive for a primitive side,
the refitted box of the child for a node side. -/
theorem Refit_tight (sz : Nat) (t : AABBNoLeafTree) (mi : Nat → VertexPointers)
    (a : NodeArray) (hm : t.mNodes = some a) (hlen : a.cells.length = t.mNbNodes)
    (hf : a.ForwardRefs sz) :
    ∃ a' : NodeArray,
      t.Refit sz (some mi) = some (true, ⟨t.mNbNodes, some a'⟩) ∧ a'.Tight sz mi := by
  obtain ⟨a', h1, h2⟩ := refitLoop_tight sz mi t.mNbNodes a (by omega) hf (by
    intro i c hi hc
    have : i < a.cells.length := by
      by_contra hcon
      rw [List.getElem?_eq_none (by omega)] at hc
      simp at hc
    omega)
  exact ⟨a', by simp only [AABBNoLeafTree.Refit, hm, h1], h2⟩

/-- Witness for C2 on the sample array and the sample mesh. -/
theorem Refit_tight_witness :
    ∃ a' : NodeArray,
      AABBNoLeafTree.Refit 40 ⟨2, some sampleArray⟩ (some sampleMesh) =
        some (true, ⟨2, some a'⟩) ∧ a'.Tight 40 sampleMesh :=
  Refit_tight 40 ⟨2, some sampleArray⟩ sampleMesh sampleArray rfl rfl
    (flatten_forwardRefs 40 4096 (by decide) sampleTree.root)

/-- C5: `Refit` never changes the topology, and refitting with unchanged geometry is the
identity: for a non-null mesh interface and an array whose node references designate nodes,
`Refit` succeeds, keeps the node count, the array address and both tagged references of every
node, and if every node's box already is the union of its two sides' bounds it leaves every
center and extents unchanged (exact arithmetic). -/
theorem Refit_topology_identity (sz : Nat) (t : AABBNoLeafTree) (mi : Nat → VertexPointers)
    (a : NodeArray) (hm : t.mNodes = some a) (hlen : a.cells.length = t.mNbNodes)
    (hv : a.ValidRefs sz) :
    ∃ a' : NodeArray,
      t.Refit sz (some mi) = some (true, ⟨t.mNbNodes, some a'⟩) ∧
      a'.topology = a.topology ∧ (a.Tight sz mi → a' = a) := by
  obtain ⟨a', h1, h2⟩ := refitLoop_topology sz mi t.mNbNodes a (by omega) hv
  refine ⟨a', by simp only [AABBNoLeafTree.Refit, hm, h1], h2, ?_⟩
  intro ht
  have h3 := refitLoop_id sz mi a ht t.mNbNodes (by omega)
  rw [h1] at h3
  exact Option.some.inj h3

/-- Arrays with the same topology have the same valid node references. -/
theorem validRefs_of_topology (sz : Nat) (a a' : NodeArray) (h : a'.topology = a.topology)
    (hv : a.ValidRefs sz) : a'.ValidRefs sz := by
  simp only [NodeArray.topology, Prod.mk.injEq] at h
  obtain ⟨hb, hmap⟩ := h
  have hl : a'.cells.length = a.cells.length := by
    have := congrArg List.length hmap
    simpa using this
  intro i c' hc'
  have hi : i < a.cells.length := by
    by_contra hcon
    rw [List.getElem?_eq_none (by omega)] at hc'
    simp at hc'
  have hci : a.cells[i]? = some a.cells[i] := List.getElem?_eq_getElem hi
  have h1 := congrArg (fun l => l[i]?) hmap
  simp only [List.getElem?_map, hc', hci, Option.map_some', Option.some.injEq,
    Prod.mk.injEq] at h1
  obtain ⟨e1, e2⟩ := h1
  obtain ⟨g1, g2⟩ := hv i _ hci
  simp only [AABBNoLeafNode.HasPosLeaf, AABBNoLeafNode.HasNegLeaf, AABBNoLeafNode.GetPos,
    AABBNoLeafNode.GetNeg, NodeArray.index?, hb, hl, e1, e2] at g1 g2 ⊢
  exact ⟨g1, g2⟩

/-- Witness for C5: the array obtained by refitting the sample array is tight, and a further
`Refit` with the same mesh returns it unchanged. -/
theorem Refit_topology_identity_witness :
    ∃ a0 : NodeArray,
      AABBNoLeafTree.refitLoop 40 sampleMesh 2 sampleArray = some a0 ∧
      a0.Tight 40 sampleMesh ∧
      AABBNoLeafTree.Refit 40 ⟨2, some a0⟩ (some sampleMesh) = some (true, ⟨2, some a0⟩) := by
  have hf := flatten_forwardRefs 40 4096 (by decide) sampleTree.root
  have hv := validRefs_of_forwardRefs 40 sampleArray hf
  obtain ⟨a0, h1, h2⟩ := refitLoop_tight 40 sampleMesh 2 sampleArray (by decide) hf
    (fun i c hi hc => by
      have : i < sampleArray.cells.length := by
        by_contra hcon
        rw [List.getElem?_eq_none (by omega)] at hc
        simp at hc
      have : sampleArray.cells.length = 2 := rfl
      omega)
  obtain ⟨a1, h3, h4⟩ := refitLoop_topology 40 sampleMesh 2 sampleArray (by decide) hv
  have e : a1 = a0 := by rw [h1] at h3; exact (Option.some.inj h3).symm
  subst e
  have hlen : a1.cells.length = 2 := by
    have := congrArg (fun p => p.2.length) h4
    simpa [NodeArray.topology] using this
  obtain ⟨a', h5, -, h6⟩ := Refit_topology_identity 40 ⟨2, some a1⟩ sampleMesh a1 rfl hlen
    (validRefs_of_topology 40 sampleArray a1 h4 hv)
  have e2 := h6 h2
  subst e2
  exact ⟨a', h1, h2, h5⟩

/-! ### Box / mesh collider: contact cap -/

/-- Masking with a single bit gives 0 or the bit. -/
theorem and_two_pow_cases (x i : Nat) : x &&& 2 ^ i = 0 ∨ x &&& 2 ^ i = 2 ^ i := by
  by_cases h : x.testBit i
  · right
    apply Nat.eq_of_testBit_eq
    intro j
    rw [Nat.testBit_and, Nat.testBit_two_pow]
    by_cases hij : i = j
    · subst hij; simp [h]
    · simp [hij]
  · left
    apply Nat.eq_of_testBit_eq
    intro j
    rw [Nat.testBit_and, Nat.testBit_two_pow]
    by_cases hij : i = j
    · subst hij; simp [h]
    · simp [hij]

/-- Setting a bit above a value adds it. -/
theorem or_two_pow_of_lt (c i : Nat) (h : c < 2 ^ i) : c ||| 2 ^ i = c + 2 ^ i := by
  have := Nat.mul_add_lt_is_or h 1
  rw [Nat.mul_one] at this
  rw [Nat.or_comm, ← this, Nat.add_comm]

/-- The cap test on words: equality holds exactly when bit 31 of the flags is set and the
count equals the masked cap. -/
theorem capTest_iff (Flags c : Nat) (hc : c < 2 ^ 16) :
    (c ||| 0x80000000 = Flags &&& (0xffff ||| 0x80000000)) ↔
      (Flags &&& 0x80000000 ≠ 0 ∧ c = Flags &&& 0xffff) := by
  rw [Nat.and_or_distrib_left]
  have hN : Flags &&& 0xffff < 2 ^ 16 := Nat.and_lt_two_pow _ (by norm_num)
  have h1 : c ||| 0x80000000 = c + 2 ^ 31 := or_two_pow_of_lt c 31 (by omega)
  rw [h1]
  rcases and_two_pow_cases Flags 31 with h | h
  · have h' : Flags &&& 0x80000000 = 0 := h
    rw [h', Nat.or_zero]
    constructor
    · intro e; omega
    · intro ⟨e, _⟩; exact absurd rfl e
  · have h' : Flags &&& 0x80000000 = 2 ^ 31 := h
    rw [h', or_two_pow_of_lt _ 31 (by omega)]
    constructor
    · intro e; exact ⟨by norm_num, by omega⟩
    · intro ⟨_, e⟩; omega

/-- The cap is a 16-bit value. -/
theorem cap_lt (Flags : Nat) : Flags &&& NUMC_MASK < 2 ^ 16 :=
  Nat.and_lt_two_pow _ (by norm_num [NUMC_MASK])

/-- The cap test of the box collider holds exactly when contacts are unimportant and the
contact count equals the cap. -/
theorem capReached_iff (d : sTrimeshBoxColliderData)
    (h : d.m_ctContacts ≤ d.m_iFlags &&& NUMC_MASK) :
    d.capReached = true ↔
      (d.m_iFlags &&& CONTACTS_UNIMPORTANT ≠ 0 ∧ d.m_ctContacts = d.m_iFlags &&& NUMC_MASK) := by
  have := cap_lt d.m_iFlags
  simp only [sTrimeshBoxColliderData.capReached, beq_iff_eq]
  exact capTest_iff d.m_iFlags d.m_ctContacts (by omega)

/-- An access below the cap inside the array is defined. -/
theorem SAFECONTACT_some (Flags : Nat) (Contacts : List dContactGeom) (i : Nat)
    (h1 : i < Flags &&& NUMC_MASK) (h2 : i < Contacts.length) :
    SAFECONTACT Flags Contacts i = some Contacts[i] := by
  simp [SAFECONTACT, h1, List.getElem?_eq_getElem h2]

/-- The duplicate scan stays inside the array view and keeps the array length. -/
theorem GenerateContact_scan_ok (dEpsilon : ℚ) (Flags : Nat) (p nrm : dVector3) (dep : ℚ) :
    ∀ (k i : Nat) (Contacts : List dContactGeom) (dup : Bool),
      i + k ≤ Flags &&& NUMC_MASK → i + k ≤ Contacts.length →
      ∃ Contacts1 dup1, GenerateContact_scan dEpsilon Flags p nrm dep k i Contacts dup =
          some (Contacts1, dup1) ∧ Contacts1.length = Contacts.length := by
  intro k
  induction k with
  | zero => intro i Contacts dup _ _; exact ⟨Contacts, dup, rfl, rfl⟩
  | succ k ih =>
    intro i Contacts dup h1 h2
    simp only [GenerateContact_scan, SAFECONTACT_some Flags Contacts i (by omega) (by omega)]
    by_cases hmatch : (p.sub Contacts[i].pos).SquareMagnitude < dEpsilon ∧
        1 - |nrm.dot Contacts[i].normal| < dEpsilon
    · rw [if_pos hmatch]
      obtain ⟨c1, d1, e1, e2⟩ := ih (i + 1) (Contacts.set i
        (if dep > Contacts[i].depth then { Contacts[i] with depth := dep } else Contacts[i]))
        true (by omega) (by simp; omega)
      exact ⟨c1, d1, e1, by simpa using e2⟩
    · rw [if_neg hmatch]
      exact ih (i + 1) Contacts dup (by omega) (by omega)

/-- Function `GenerateContact` called with the count within the cap (strictly below it when contacts
are unimportant) succeeds, keeps the array length and leaves the count within the cap. -/
theorem GenerateContact_ok (dEpsilon : ℚ) (Flags : Nat) (Contacts : List dContactGeom)
    (g1 g2 : Nat) (TriIndex : Int) (p nrm : dVector3) (dep : ℚ) (count : Nat)
    (hlen : Flags &&& NUMC_MASK ≤ Contacts.length) (hc : count ≤ Flags &&& NUMC_MASK)
    (hu : Flags &&& CONTACTS_UNIMPORTANT ≠ 0 → count < Flags &&& NUMC_MASK) :
    ∃ Contacts1 count1,
      GenerateContact dEpsilon Flags Contacts g1 g2 TriIndex p nrm dep count =
        some (Contacts1, count1) ∧
      Contacts1.length = Contacts.length ∧ count1 ≤ Flags &&& NUMC_MASK ∧ count ≤ count1 := by
  have hadd : ∀ Cs : List dContactGeom, Cs.length = Contacts.length →
      count < Flags &&& NUMC_MASK →
      SAFECONTACT_store Flags Cs count (fun _ =>
        { pos := p, normal := nrm, depth := dep, g1 := g1, g2 := g2, side1 := TriIndex,
          side2 := -1 }) = some (Cs.set count
        { pos := p, normal := nrm, depth := dep, g1 := g1, g2 := g2, side1 := TriIndex,
          side2 := -1 }) := by
    intro Cs hl hlt
    simp only [SAFECONTACT_store, SAFECONTACT_some Flags Cs count hlt (by omega)]
  unfold GenerateContact
  by_cases hcu : Flags &&& CONTACTS_UNIMPORTANT = 0
  · simp only [hcu, if_true]
    obtain ⟨c1, d1, e1, e2⟩ := GenerateContact_scan_ok dEpsilon Flags p nrm dep count 0 Contacts
      false (by omega) (by omega)
    simp only [e1]
    split_ifs with h
    · exact ⟨c1, count, rfl, e2, hc, Nat.le_refl _⟩
    · have hlt : count < Flags &&& NUMC_MASK := by
        have : count ≠ Flags &&& NUMC_MASK := fun e => h (Or.inr e)
        omega
      rw [hadd c1 e2 hlt]
      exact ⟨_, count + 1, rfl, by simp [e2], by omega, by omega⟩
  · have hlt := hu hcu
    simp only [hcu, if_false, hlt, if_true]
    rw [hadd Contacts rfl hlt]
    exact ⟨_, count + 1, rfl, by simp, by omega, by omega⟩

/-- Within the cap with the cap test false means ready for further contacts. -/
theorem ready_of_within (d : sTrimeshBoxColliderData) (h : d.Within)
    (hc : d.capReached = false) : d.Ready := by
  refine ⟨h.1, h.2, fun hu => ?_⟩
  have := (capReached_iff d h.2).not.mp (by simp [hc])
  have hne : d.m_ctContacts ≠ d.m_iFlags &&& NUMC_MASK := fun e => this ⟨hu, e⟩
  have := h.2
  omega

/-- The contact loop over a clipped polygon stays within the cap. -/
theorem clipLoop_ok (dEpsilon : ℚ) (TriIndex : Int) (nrm : dVector3) :
    ∀ (pts : List (dVector3 × ℚ)) (d : sTrimeshBoxColliderData), d.Ready →
      ∃ d', sTrimeshBoxColliderData.clipLoop dEpsilon TriIndex nrm pts d = some d' ∧
        d'.m_iFlags = d.m_iFlags ∧ d'.Within := by
  intro pts
  induction pts with
  | nil => intro d h; exact ⟨d, rfl, rfl, h.1, h.2.1⟩
  | cons pt rest ih =>
    intro d h
    obtain ⟨vPntTmp, fTempDepth⟩ := pt
    obtain ⟨Cs, c1, e1, e2, e3, -⟩ := GenerateContact_ok dEpsilon d.m_iFlags d.m_ContactGeoms
      d.m_Geom1 d.m_Geom2 TriIndex vPntTmp nrm fTempDepth d.m_ctContacts h.1 h.2.1 h.2.2
    have hw : sTrimeshBoxColliderData.Within
        { d with m_ContactGeoms := Cs, m_ctContacts := c1 } := ⟨by simp [e2, h.1], e3⟩
    simp only [sTrimeshBoxColliderData.clipLoop, e1]
    cases hcap : sTrimeshBoxColliderData.capReached
        { d with m_ContactGeoms := Cs, m_ctContacts := c1 } with
    | true =>
      exact ⟨{ d with m_ContactGeoms := Cs, m_ctContacts := c1 }, by simp, rfl, hw⟩
    | false =>
      obtain ⟨d', f1, f2, f3⟩ := ih _ (ready_of_within _ hw hcap)
      exact ⟨d', by simpa using f1, f2, f3⟩

/-- Function `_cldClipping` entered ready succeeds and stays within the cap. -/
theorem cldClipping_ok (dEpsilon : ℚ) (d : sTrimeshBoxColliderData) (tri : BoxCandidate)
    (h : d.Ready) :
    ∃ d', d._cldClipping dEpsilon tri = some d' ∧ d'.m_iFlags = d.m_iFlags ∧ d'.Within := by
  have hassert : d.m_iFlags &&& CONTACTS_UNIMPORTANT = 0 ∨
      d.m_ctContacts < d.m_iFlags &&& NUMC_MASK := by
    by_cases hu : d.m_iFlags &&& CONTACTS_UNIMPORTANT = 0
    · exact Or.inl hu
    · exact Or.inr (h.2.2 hu)
  simp only [sTrimeshBoxColliderData._cldClipping, hassert, not_true_eq_false, if_false]
  by_cases h4 : tri.m_iBestAxis > 4
  · obtain ⟨Cs, c1, e1, e2, e3, -⟩ := GenerateContact_ok dEpsilon d.m_iFlags d.m_ContactGeoms
      d.m_Geom1 d.m_Geom2 tri.Triint tri.edgePoint tri.m_vBestNormal tri.m_fBestDepth
      d.m_ctContacts h.1 h.2.1 h.2.2
    simp only [h4, if_true, e1]
    exact ⟨_, rfl, rfl, by simp [e2, h.1], e3⟩
  · simp only [h4, if_false]
    by_cases h1 : tri.m_iBestAxis = 1
    · simp only [h1, if_true]
      exact clipLoop_ok dEpsilon tri.Triint tri.m_vBestNormal tri.clippedOnTriangle d h
    · simp only [h1, if_false]
      exact clipLoop_ok dEpsilon tri.Triint tri.m_vBestNormal tri.clippedOnBox d h

/-- The side-filling loop stays inside the array view. -/
theorem fillSides_ok (Flags : Nat) (Triint : Int) :
    ∀ (k ct0 : Nat) (Cs : List dContactGeom),
      (k = 0 ∨ (ct0 + k ≤ Flags &&& NUMC_MASK ∧ ct0 + k ≤ Cs.length)) →
      ∃ Cs', sTrimeshBoxColliderData.fillSides Flags Triint k ct0 Cs = some Cs' ∧
        Cs'.length = Cs.length := by
  intro k
  induction k with
  | zero => intro ct0 Cs _; exact ⟨Cs, rfl, rfl⟩
  | succ k ih =>
    intro ct0 Cs h
    obtain ⟨h1, h2⟩ : ct0 + (k + 1) ≤ Flags &&& NUMC_MASK ∧ ct0 + (k + 1) ≤ Cs.length := by
      rcases h with h | h
      · omega
      · exact h
    simp only [sTrimeshBoxColliderData.fillSides, SAFECONTACT_store,
      SAFECONTACT_some Flags Cs ct0 (by omega) (by omega)]
    obtain ⟨Cs', e1, e2⟩ := ih (ct0 + 1) (Cs.set ct0
      { Cs[ct0] with side1 := Triint, side2 := -1 }) (Or.inr ⟨by omega, by simp; omega⟩)
    exact ⟨Cs', e1, by simpa using e2⟩

/-- Function `TestCollisionForSingleTriangle` entered ready succeeds and stays within the cap; it
stores the cap test into `bOutFinishSearching`, or stores nothing and changes nothing. -/
theorem TestCollisionForSingleTriangle_ok (dEpsilon : ℚ) (d : sTrimeshBoxColliderData)
    (ct0 : Nat) (tri : BoxCandidate) (h : d.Ready) :
    ∃ ct1 stored d', d.TestCollisionForSingleTriangle dEpsilon ct0 tri = some (ct1, stored, d') ∧
      d'.m_iFlags = d.m_iFlags ∧ d'.Within ∧ (stored = none → d' = d) ∧
      (∀ b, stored = some b → b = d'.capReached) := by
  unfold sTrimeshBoxColliderData.TestCollisionForSingleTriangle
    sTrimeshBoxColliderData._cldTestOneTriangle
  by_cases hs : tri.separatingAxes = true
  · by_cases ha : tri.m_iBestAxis > 0
    · obtain ⟨d1, e1, e2, e3⟩ := cldClipping_ok dEpsilon d tri h
      simp only [hs, ha, if_true, e1]
      obtain ⟨Cs', f1, f2⟩ := fillSides_ok d1.m_iFlags tri.Triint (d1.m_ctContacts - ct0) ct0
        d1.m_ContactGeoms (by have := e3.1; have := e3.2; omega)
      simp only [f1]
      refine ⟨_, _, _, rfl, e2, ⟨by simp only [f2]; exact e3.1, e3.2⟩, ?_, ?_⟩
      · intro hn; simp at hn
      · intro b hb
        simp only [Option.some.injEq] at hb
        exact hb.symm
    · simp only [hs, ha, if_true, if_false]
      exact ⟨_, _, _, rfl, rfl, ⟨h.1, h.2.1⟩, fun _ => rfl, fun b hb => by simp at hb⟩
  · simp only [hs, if_false]
    exact ⟨_, _, _, rfl, rfl, ⟨h.1, h.2.1⟩, fun _ => rfl, fun b hb => by simp at hb⟩

/-- The loop over the candidate triangles entered ready succeeds and stays within the cap,
whatever the uninitialised flag holds. -/
theorem dCollideBTL_loop_ok (dEpsilon : ℚ) :
    ∀ (tris : List BoxCandidate) (ct0 : Nat) (d : sTrimeshBoxColliderData), d.Ready →
      ∃ d', dCollideBTL_loop dEpsilon tris ct0 d = some d' ∧
        d'.m_iFlags = d.m_iFlags ∧ d'.Within := by
  intro tris
  induction tris with
  | nil => intro ct0 d h; exact ⟨d, rfl, rfl, h.1, h.2.1⟩
  | cons tri rest ih =>
    intro ct0 d h
    unfold dCollideBTL_loop
    by_cases hcb : tri.callbackResult = true
    · obtain ⟨ct1, stored, d1, e1, e2, e3, e4, e5⟩ :=
        TestCollisionForSingleTriangle_ok dEpsilon d ct0 tri h
      simp only [hcb, not_true_eq_false, if_false, e1]
      cases hfin : stored.getD tri.indeterminate with
      | true => exact ⟨d1, by simp, e2, e3⟩
      | false =>
        have hr : d1.Ready := by
          cases stored with
          | none => rw [e4 rfl]; exact h
          | some b =>
            have hb : b = false := by simpa using hfin
            exact ready_of_within d1 e3 (by rw [← e5 b rfl, hb])
        obtain ⟨d', f1, f2, f3⟩ := ih ct1 d1 hr
        exact ⟨d', by simpa using f1, by rw [f2, e2], f3⟩
    · simp only [hcb, not_false_eq_true, if_true]
      exact ih ct0 d h

/-- C9: for any flags whose cap `N = Flags & NUMC_MASK` is at least 1, a contact array with
room for `N` contacts, any outcome of the OBB query and any sequence of candidate triangles
(whatever the geometry yields for them and whatever the uninitialised finish flag holds), the
box-mesh collider `dCollideBTL` runs to completion: no contact at an index `>= N` is accessed
(such an access makes the embedding fail), the assertions of `_cldClipping` and
`GenerateContact` hold (so `GenerateContact` is never called with a full buffer when contacts
are unimportant), and the returned contact count is `<= N`. -/
theorem dCollideBTL_cap (dEpsilon : ℚ) (g1 BoxGeom Flags : Nat) (Contacts : List dContactGeom)
    (contactStatus : Bool) (Triangles : List BoxCandidate)
    (hN : 1 ≤ Flags &&& NUMC_MASK) (hlen : Flags &&& NUMC_MASK ≤ Contacts.length) :
    ∃ (count : Nat) (Contacts1 : List dContactGeom),
      dCollideBTL dEpsilon g1 BoxGeom Flags Contacts contactStatus Triangles =
        some (count, Contacts1) ∧
      count ≤ Flags &&& NUMC_MASK := by
  unfold dCollideBTL
  simp only [ge_iff_le, hN, not_true_eq_false, if_false]
  cases contactStatus with
  | false => exact ⟨0, Contacts, by simp, Nat.zero_le _⟩
  | true =>
    obtain ⟨d', e1, e2, e3⟩ := dCollideBTL_loop_ok dEpsilon Triangles 0
      { m_iFlags := Flags, m_ContactGeoms := Contacts, m_Geom1 := g1, m_Geom2 := BoxGeom,
        m_ctContacts := 0 } ⟨hlen, Nat.zero_le _, fun _ => hN⟩
    simp only [Bool.not_eq_true, Bool.true_eq_false, if_false, e1]
    exact ⟨_, _, rfl, by have := e3.2; rw [e2] at this; exact this⟩

/-- Witness for C9: cap 2 with contacts unimportant and a triangle offering three contacts. -/
theorem dCollideBTL_cap_witness :
    ∃ (count : Nat) (Contacts1 : List dContactGeom),
      dCollideBTL (1 / 10000) 0 1 sampleFlags [sampleContact, sampleContact] true
        [sampleBoxCandidate, sampleBoxCandidate] = some (count, Contacts1) ∧
      count ≤ sampleFlags &&& NUMC_MASK :=
  dCollideBTL_cap (1 / 10000) 0 1 sampleFlags [sampleContact, sampleContact] true
    [sampleBoxCandidate, sampleBoxCandidate] (by decide) (by decide)

/-! ### Capsule / mesh collider: contact cap -/

/-- A store at the contact count succeeds while the count is inside the buffer. -/
theorem storeLocal_ok (d : sTrimeshCapsuleColliderData)
    (f : sLocalContactData → sLocalContactData) (h : d.m_ctContacts < d.m_gLocalContacts.length) :
    ∃ d', d.storeLocal f = some d' ∧ d'.m_iFlags = d.m_iFlags ∧
      d'.m_ctContacts = d.m_ctContacts ∧
      d'.m_gLocalContacts.length = d.m_gLocalContacts.length := by
  simp only [sTrimeshCapsuleColliderData.storeLocal, List.getElem?_eq_getElem h]
  exact ⟨_, rfl, rfl, rfl, by simp⟩

/-- The capsule triangle test entered ready writes inside the local buffer and leaves the
count within the cap. -/
theorem cldTestOneTriangleVSCapsule_ok (d : sTrimeshCapsuleColliderData)
    (tri : CapsuleCandidate) (h : d.Ready) :
    ∃ d', d._cldTestOneTriangleVSCapsule tri = some d' ∧ d'.m_iFlags = d.m_iFlags ∧
      d'.Within := by
  have hN := cap_lt d.m_iFlags
  unfold sTrimeshCapsuleColliderData._cldTestOneTriangleVSCapsule
  by_cases hr : tri.reachesContacts = true
  · simp only [hr, not_true_eq_false, if_false]
    obtain ⟨d1, e1, e2, e3, e4⟩ := storeLocal_ok d
      (fun c => ⟨tri.vCEdgePoint0, tri.m_vNormal, tri.fDepth0, c.triIndex, 1⟩)
      (by rw [h.1]; exact h.2)
    simp only [e1]
    have hmod : (d1.m_ctContacts + 1) % 2 ^ 32 = d.m_ctContacts + 1 := by
      rw [e3]; have := h.2; omega
    simp only [hmod, e2]
    by_cases hlt : d.m_ctContacts + 1 < d.m_iFlags &&& NUMC_MASK
    · simp only [hlt, if_true]
      obtain ⟨d3, f1, f2, f3, f4⟩ := storeLocal_ok
        ⟨d1.m_gLocalContacts, d.m_ctContacts + 1, d.m_iFlags⟩
        (fun c => ⟨tri.vCEdgePoint1, tri.m_vNormal, tri.fDepth1, c.triIndex, 1⟩)
        (by simp only [e4, h.1]; exact hlt)
      simp only [f1]
      have hmod2 : (d3.m_ctContacts + 1) % 2 ^ 32 = d.m_ctContacts + 2 := by
        rw [f3]; simp only; omega
      refine ⟨_, rfl, f2, ?_, ?_⟩
      · show d3.m_gLocalContacts.length = d3.m_iFlags &&& NUMC_MASK
        rw [f4, f2]; simp only [e4, h.1]
      · show (d3.m_ctContacts + 1) % 2 ^ 32 ≤ d3.m_iFlags &&& NUMC_MASK
        rw [hmod2, f2]; simp only; omega
    · simp only [hlt, if_false]
      refine ⟨_, rfl, rfl, ?_, ?_⟩
      · show d1.m_gLocalContacts.length = d.m_iFlags &&& NUMC_MASK
        rw [e4, h.1]
      · show d.m_ctContacts + 1 ≤ d.m_iFlags &&& NUMC_MASK
        have := h.2; omega
  · simp only [hr, not_false_eq_true, if_true]
    exact ⟨d, rfl, rfl, h.1, Nat.le_of_lt h.2⟩

/-- The triangle-index loop stays inside the local buffer. -/
theorem fillTriIndex_ok (Triint : Int) :
    ∀ (k ct0 : Nat) (cs : List sLocalContactData), (k = 0 ∨ ct0 + k ≤ cs.length) →
      ∃ cs', sTrimeshCapsuleColliderData.fillTriIndex Triint k ct0 cs = some cs' ∧
        cs'.length = cs.length := by
  intro k
  induction k with
  | zero => intro ct0 cs _; exact ⟨cs, rfl, rfl⟩
  | succ k ih =>
    intro ct0 cs h
    have h1 : ct0 + (k + 1) ≤ cs.length := by
      rcases h with h | h
      · omega
      · exact h
    have hlt : ct0 < cs.length := by omega
    simp only [sTrimeshCapsuleColliderData.fillTriIndex, List.getElem?_eq_getElem hlt]
    obtain ⟨cs', e1, e2⟩ := ih (ct0 + 1) (cs.set ct0 { cs[ct0] with triIndex := Triint })
      (Or.inr (by simp; omega))
    exact ⟨cs', e1, by simpa using e2⟩

/-- The capsule `TestCollisionForSingleTriangle` entered ready succeeds, stays within the cap
and reports whether the cap is reached. -/
theorem capsule_TestCollisionForSingleTriangle_ok (d : sTrimeshCapsuleColliderData)
    (ct0 : Nat) (tri : CapsuleCandidate) (h : d.Ready) :
    ∃ ct1 b d', d.TestCollisionForSingleTriangle ct0 tri = some (ct1, b, d') ∧
      d'.m_iFlags = d.m_iFlags ∧ d'.Within ∧
      (b = true ↔ d'.m_ctContacts ≥ d'.m_iFlags &&& NUMC_MASK) := by
  obtain ⟨d1, e1, e2, e3⟩ := cldTestOneTriangleVSCapsule_ok d tri h
  obtain ⟨cs, f1, f2⟩ := fillTriIndex_ok tri.Triint (d1.m_ctContacts - ct0) ct0
    d1.m_gLocalContacts (by have := e3.1; have := e3.2; omega)
  simp only [sTrimeshCapsuleColliderData.TestCollisionForSingleTriangle, e1, f1]
  refine ⟨_, _, _, rfl, e2, ⟨by simp only [f2]; exact e3.1, e3.2⟩, ?_⟩
  simp

/-- The loop over the candidate triangles of the capsule collider entered ready succeeds and
stays within the cap. -/
theorem dCollideCCTL_loop_ok :
    ∀ (tris : List CapsuleCandidate) (ct0 : Nat) (d : sTrimeshCapsuleColliderData), d.Ready →
      ∃ d', dCollideCCTL_loop tris ct0 d = some d' ∧ d'.m_iFlags = d.m_iFlags ∧ d'.Within := by
  intro tris
  induction tris with
  | nil => intro ct0 d h; exact ⟨d, rfl, rfl, h.1, Nat.le_of_lt h.2⟩
  | cons tri rest ih =>
    intro ct0 d h
    obtain ⟨ct1, b, d1, e1, e2, e3, e4⟩ := capsule_TestCollisionForSingleTriangle_ok d ct0 tri h
    simp only [dCollideCCTL_loop, e1]
    cases b with
    | true => exact ⟨d1, by simp, e2, e3⟩
    | false =>
      have hlt : d1.m_ctContacts < d1.m_iFlags &&& NUMC_MASK := by
        have := e4.not.mp (by simp)
        omega
      obtain ⟨d', g1, g2, g3⟩ := ih ct1 d1 ⟨e3.1, hlt⟩
      exact ⟨d', by simpa using g1, by rw [g2, e2], g3⟩

/-- The inner filtering loop stays inside the local buffer. -/
theorem OptimizeLocalContacts_inner_ok (i : Nat) :
    ∀ (k j : Nat) (cs : List sLocalContactData), i < cs.length → (k = 0 ∨ j + k ≤ cs.length) →
      ∃ cs', _OptimizeLocalContacts_inner i k j cs = some cs' ∧ cs'.length = cs.length := by
  intro k
  induction k with
  | zero => intro j cs _ _; exact ⟨cs, rfl, rfl⟩
  | succ k ih =>
    intro j cs hi h
    have hj : j < cs.length := by
      rcases h with h | h <;> omega
    have hjk : j + 1 + k ≤ cs.length := by
      rcases h with h | h <;> omega
    simp only [_OptimizeLocalContacts_inner, List.getElem?_eq_getElem hi,
      List.getElem?_eq_getElem hj]
    have hl : (if _IsNearContacts cs[i] cs[j] = true then
          if _IsBetter cs[j] cs[i] = true then cs.set i { cs[i] with nFlags := 0 }
          else cs.set j { cs[j] with nFlags := 0 }
        else cs).length = cs.length := by
      split_ifs <;> simp
    obtain ⟨cs', e1, e2⟩ := ih (j + 1) _ (by rw [hl]; exact hi) (Or.inr (by rw [hl]; exact hjk))
    exact ⟨cs', e1, by rw [e2, hl]⟩

/-- The outer filtering loop stays inside the local buffer. -/
theorem OptimizeLocalContacts_outer_ok (n : Nat) :
    ∀ (k i : Nat) (cs : List sLocalContactData), n ≤ cs.length → (k = 0 ∨ i + k + 1 ≤ n) →
      ∃ cs', _OptimizeLocalContacts_outer n k i cs = some cs' ∧ cs'.length = cs.length := by
  intro k
  induction k with
  | zero => intro i cs _ _; exact ⟨cs, rfl, rfl⟩
  | succ k ih =>
    intro i cs hn h
    have hik : i + (k + 1) + 1 ≤ n := by
      rcases h with h | h <;> omega
    obtain ⟨cs1, e1, e2⟩ := OptimizeLocalContacts_inner_ok i (n - (i + 1)) (i + 1) cs
      (by omega) (Or.inr (by omega))
    simp only [_OptimizeLocalContacts_outer, e1]
    obtain ⟨cs', f1, f2⟩ := ih (i + 1) cs1 (by omega) (Or.inr (by omega))
    exact ⟨cs', f1, by rw [f2, e2]⟩

/-- The copy loop of `_ProcessLocalContacts` stays inside both arrays and copies at most
`N` contacts. -/
theorem ProcessLocalContacts_loop_ok (d : sTrimeshCapsuleColliderData) (TriMesh Capsule : Nat) :
    ∀ (k iContact nFinal : Nat) (contact : List dContactGeom),
      iContact + k ≤ d.m_gLocalContacts.length → nFinal ≤ d.m_iFlags &&& NUMC_MASK →
      d.m_iFlags &&& NUMC_MASK ≤ contact.length →
      ∃ contact1 n1, _ProcessLocalContacts_loop d TriMesh Capsule k iContact nFinal contact =
          some (contact1, n1) ∧ n1 ≤ d.m_iFlags &&& NUMC_MASK := by
  intro k
  induction k with
  | zero => intro i n c _ hn _; exact ⟨c, n, rfl, hn⟩
  | succ k ih =>
    intro i n c hi hn hc
    unfold _ProcessLocalContacts_loop
    by_cases hge : n ≥ d.m_iFlags &&& NUMC_MASK
    · simp only [hge, if_true]
      exact ⟨c, n, rfl, hn⟩
    · have hlt : i < d.m_gLocalContacts.length := by omega
      simp only [hge, if_false, List.getElem?_eq_getElem hlt]
      by_cases hf : (d.m_gLocalContacts[i]).nFlags = 1
      · simp only [hf, if_true, SAFECONTACT_store,
          SAFECONTACT_some d.m_iFlags c n (by omega) (by omega)]
        exact ih (i + 1) (n + 1) _ (by omega) (by omega) (by simp; omega)
      · simp only [hf, if_false]
        exact ih (i + 1) n c (by omega) hn hc

/-- Function `_ProcessLocalContacts` within the cap copies at most `N` contacts. -/
theorem ProcessLocalContacts_ok (d : sTrimeshCapsuleColliderData) (contact : List dContactGeom)
    (TriMesh Capsule : Nat) (h : d.Within)
    (hc : d.m_iFlags &&& NUMC_MASK ≤ contact.length) :
    ∃ contact1 n1, d._ProcessLocalContacts contact TriMesh Capsule = some (contact1, n1) ∧
      n1 ≤ d.m_iFlags &&& NUMC_MASK := by
  unfold sTrimeshCapsuleColliderData._ProcessLocalContacts
  by_cases ho : d.m_ctContacts > 1 ∧ d.m_iFlags &&& CONTACTS_UNIMPORTANT = 0
  · obtain ⟨cs, e1, e2⟩ := OptimizeLocalContacts_outer_ok d.m_ctContacts (d.m_ctContacts - 1) 0
      d.m_gLocalContacts (by rw [h.1]; exact h.2) (Or.inr (by have := ho.1; omega))
    simp only [ho, and_self, if_true, sTrimeshCapsuleColliderData._OptimizeLocalContacts, e1]
    exact ProcessLocalContacts_loop_ok ⟨cs, d.m_ctContacts, d.m_iFlags⟩ TriMesh Capsule
      d.m_ctContacts 0 0 contact (by simp only [e2, h.1]; have := h.2; omega)
      (Nat.zero_le _) hc
  · simp only [ho, if_false]
    exact ProcessLocalContacts_loop_ok d TriMesh Capsule d.m_ctContacts 0 0 contact
      (by rw [h.1]; have := h.2; omega) (Nat.zero_le _) hc

/-- C10: in `dCollideCCTL` with cap `N = flags & NUMC_MASK >= 1` the local contact buffer,
allocated with `N` entries, is never accessed at an index `>= N`: a triangle test entered with
`m_ctContacts < N` and a buffer of `N` entries succeeds (every store lies inside the buffer),
leaves `m_ctContacts <= N` and reports finish exactly when `m_ctContacts >= N`; the whole
function, for any outcome of the OBB query and any sequence of candidate triangles, runs to
completion and the number of contacts copied out by `_ProcessLocalContacts` is `<= N`. -/
theorem dCollideCCTL_cap (o1 o2 flags : Nat) (contact : List dContactGeom)
    (contactStatus : Bool) (Triangles : List CapsuleCandidate)
    (hN : 1 ≤ flags &&& NUMC_MASK) (hlen : flags &&& NUMC_MASK ≤ contact.length) :
    (∀ (d : sTrimeshCapsuleColliderData) (ct0 : Nat) (tri : CapsuleCandidate),
      d.m_iFlags = flags → d.m_gLocalContacts.length = flags &&& NUMC_MASK →
      d.m_ctContacts < flags &&& NUMC_MASK →
      ∃ ct1 b d', d.TestCollisionForSingleTriangle ct0 tri = some (ct1, b, d') ∧
        d'.m_gLocalContacts.length = flags &&& NUMC_MASK ∧
        d'.m_ctContacts ≤ flags &&& NUMC_MASK ∧
        (b = true ↔ d'.m_ctContacts ≥ flags &&& NUMC_MASK)) ∧
    ∃ (count : Nat) (contact1 : List dContactGeom),
      dCollideCCTL o1 o2 flags contact contactStatus Triangles = some (count, contact1) ∧
      count ≤ flags &&& NUMC_MASK := by
  constructor
  · intro d ct0 tri hf hl hc
    subst hf
    obtain ⟨ct1, b, d', e1, e2, e3, e4⟩ :=
      capsule_TestCollisionForSingleTriangle_ok d ct0 tri ⟨hl, hc⟩
    exact ⟨ct1, b, d', e1, by rw [← e2]; exact e3.1, by rw [← e2]; exact e3.2,
      by rw [← e2]; exact e4⟩
  · unfold dCollideCCTL
    simp only [ge_iff_le, hN, not_true_eq_false, if_false]
    by_cases hrun : contactStatus = true ∧ Triangles.length ≠ 0
    · simp only [hrun, ne_eq, not_false_eq_true, and_self, if_true]
      obtain ⟨d1, e1, e2, e3⟩ := dCollideCCTL_loop_ok Triangles 0
        ⟨List.replicate (flags &&& NUMC_MASK) sLocalContactData.fresh, 0, flags⟩
        ⟨by simp, hN⟩
      simp only [e1]
      by_cases hz : d1.m_ctContacts = 0
      · simp only [hz, ne_eq, not_true_eq_false, if_false]
        exact ⟨0, contact, rfl, Nat.zero_le _⟩
      · simp only [hz, ne_eq, not_false_eq_true, if_true]
        obtain ⟨c1, n1, f1, f2⟩ := ProcessLocalContacts_ok d1 contact o1 o2 e3
          (by rw [e2]; exact hlen)
        simp only [f1]
        exact ⟨n1, c1, rfl, by rw [e2] at f2; exact f2⟩
    · simp only [hrun, if_false]
      exact ⟨0, contact, rfl, Nat.zero_le _⟩

/-- Witness for C10: cap 3 without the unimportant flag and two triangles offering two
contacts each. -/
theorem dCollideCCTL_cap_witness :
    ∃ (count : Nat) (contact1 : List dContactGeom),
      dCollideCCTL 0 1 3 [sampleContact, sampleContact, sampleContact] true
        [sampleCapsuleCandidate, sampleCapsuleCandidate] = some (count, contact1) ∧
      count ≤ 3 &&& NUMC_MASK :=
  (dCollideCCTL_cap 0 1 3 [sampleContact, sampleContact, sampleContact] true
    [sampleCapsuleCandidate, sampleCapsuleCandidate] (by decide) (by decide)).2

/-! ### Finish flags of the box and capsule scans -/

/-- C14 (code at the failing input): when `_cldTestOneTriangle` returns false,
`TestCollisionForSingleTriangle` stores nothing into `bOutFinishSearching` and changes
nothing; `dCollideBTL` then branches on the uninitialised local. With cap 2 and the
contacts-unimportant flag clear, a rejected first triangle met while that local holds `true`
ends the scan with 0 contacts whatever triangles follow, while the same triangle met while it
holds `false` lets the scan go on to the remaining triangles. -/
theorem dCollideBTL_finish_flag_unset :
    (∀ (dEpsilon : ℚ) (d : sTrimeshBoxColliderData) (ct0 : Nat) (tri : BoxCandidate),
      d.TestCollisionForSingleTriangle dEpsilon ct0 { tri with separatingAxes := false } =
        some (ct0, none, d)) ∧
    (∀ (dEpsilon : ℚ) (Contacts : List dContactGeom) (rest : List BoxCandidate),
      dCollideBTL dEpsilon 0 1 2 Contacts true (separatedBoxCandidate :: rest) =
        some (0, Contacts)) ∧
    (∀ (dEpsilon : ℚ) (Contacts : List dContactGeom) (rest : List BoxCandidate),
      dCollideBTL dEpsilon 0 1 2 Contacts true
          ({ separatedBoxCandidate with indeterminate := false } :: rest) =
        dCollideBTL dEpsilon 0 1 2 Contacts true rest) := by
  refine ⟨?_, ?_, ?_⟩
  · intro dEpsilon d ct0 tri
    simp [sTrimeshBoxColliderData.TestCollisionForSingleTriangle,
      sTrimeshBoxColliderData._cldTestOneTriangle]
  · intro dEpsilon Contacts rest
    simp [dCollideBTL, dCollideBTL_loop, sTrimeshBoxColliderData.TestCollisionForSingleTriangle,
      sTrimeshBoxColliderData._cldTestOneTriangle, separatedBoxCandidate, NUMC_MASK]
  · intro dEpsilon Contacts rest
    simp [dCollideBTL, dCollideBTL_loop, sTrimeshBoxColliderData.TestCollisionForSingleTriangle,
      sTrimeshBoxColliderData._cldTestOneTriangle, separatedBoxCandidate, NUMC_MASK]

/-- C15 (counterexample): with cap 1 and the contacts-unimportant flag clear, the capsule scan
stops after the first triangle that fills the local buffer: the triangles that follow are not
tested, whatever they are. -/
theorem dCollideCCTL_loop_stops_flag_clear :
    (1 : Nat) &&& CONTACTS_UNIMPORTANT = 0 ∧
    ∀ rest : List CapsuleCandidate,
      dCollideCCTL_loop (sampleCapsuleCandidate :: rest) 0
          ⟨[sLocalContactData.fresh], 0, 1⟩ =
        dCollideCCTL_loop [sampleCapsuleCandidate] 0 ⟨[sLocalContactData.fresh], 0, 1⟩ ∧
      dCollideCCTL_loop [sampleCapsuleCandidate] 0 ⟨[sLocalContactData.fresh], 0, 1⟩ =
        some ⟨[⟨⟨0, 0, 1⟩, ⟨0, 1, 0⟩, 1 / 8, 4, 1⟩], 1, 1⟩ := by
  refine ⟨by decide, fun rest => ?_⟩
  have h : sTrimeshCapsuleColliderData.TestCollisionForSingleTriangle
      ⟨[sLocalContactData.fresh], 0, 1⟩ 0 sampleCapsuleCandidate =
      some (1, true, ⟨[⟨⟨0, 0, 1⟩, ⟨0, 1, 0⟩, 1 / 8, 4, 1⟩], 1, 1⟩) := by
    simp [sTrimeshCapsuleColliderData.TestCollisionForSingleTriangle,
      sTrimeshCapsuleColliderData._cldTestOneTriangleVSCapsule,
      sTrimeshCapsuleColliderData.storeLocal, sTrimeshCapsuleColliderData.fillTriIndex,
      sampleCapsuleCandidate, sLocalContactData.fresh, NUMC_MASK]
  simp [dCollideCCTL_loop, h]

/-- C15 (amended): the capsule scan stops early exactly when the local contact count has
reached the cap `N = flags & NUMC_MASK`, whether or not the contacts-unimportant flag is set:
a triangle tested with fewer than `N` contacts stored yields the finish flag
`m_ctContacts ≥ N`, and the remaining triangles are tested only when that flag is false. -/
theorem dCollideCCTL_loop_stops_at_cap (d : sTrimeshCapsuleColliderData) (ct0 : Nat)
    (tri : CapsuleCandidate) (rest : List CapsuleCandidate) (h : d.Ready) :
    ∃ ct1 d1, d.TestCollisionForSingleTriangle ct0 tri =
        some (ct1, decide (d1.m_ctContacts ≥ d.m_iFlags &&& NUMC_MASK), d1) ∧
      d1.m_ctContacts ≤ d.m_iFlags &&& NUMC_MASK ∧
      dCollideCCTL_loop (tri :: rest) ct0 d =
        if d1.m_ctContacts = d.m_iFlags &&& NUMC_MASK then some d1
        else dCollideCCTL_loop rest ct1 d1 := by
  obtain ⟨ct1, b, d1, e1, e2, e3, e4⟩ := capsule_TestCollisionForSingleTriangle_ok d ct0 tri h
  have hb : b = decide (d1.m_ctContacts ≥ d.m_iFlags &&& NUMC_MASK) := by
    rw [← e2]
    cases b with
    | true => exact (decide_eq_true (e4.1 rfl)).symm
    | false =>
      symm
      apply decide_eq_false
      intro hc
      exact Bool.false_ne_true (e4.2 hc)
  have hle : d1.m_ctContacts ≤ d.m_iFlags &&& NUMC_MASK := by rw [← e2]; exact e3.2
  refine ⟨ct1, d1, by rw [e1, hb], hle, ?_⟩
  simp only [dCollideCCTL_loop, e1, hb]
  by_cases hc : d1.m_ctContacts = d.m_iFlags &&& NUMC_MASK
  · simp [hc]
  · have : ¬ (d1.m_ctContacts ≥ d.m_iFlags &&& NUMC_MASK) := by omega
    simp [hc, this]

/-- Witness for `dCollideCCTL_loop_stops_at_cap`: cap 2 with the contacts-unimportant flag
clear and an empty local buffer of two entries. -/
theorem dCollideCCTL_loop_stops_at_cap_witness :
    (⟨[sLocalContactData.fresh, sLocalContactData.fresh], 0, 2⟩ :
        sTrimeshCapsuleColliderData).Ready ∧
    ∃ ct1 d1, sTrimeshCapsuleColliderData.TestCollisionForSingleTriangle
        ⟨[sLocalContactData.fresh, sLocalContactData.fresh], 0, 2⟩ 0 sampleCapsuleCandidate =
        some (ct1, decide (d1.m_ctContacts ≥ 2 &&& NUMC_MASK), d1) ∧
      d1.m_ctContacts ≤ 2 &&& NUMC_MASK ∧
      dCollideCCTL_loop (sampleCapsuleCandidate :: [sampleCapsuleCandidate]) 0
          ⟨[sLocalContactData.fresh, sLocalContactData.fresh], 0, 2⟩ =
        if d1.m_ctContacts = 2 &&& NUMC_MASK then some d1
        else dCollideCCTL_loop [sampleCapsuleCandidate] ct1 d1 :=
  ⟨by constructor <;> decide,
   dCollideCCTL_loop_stops_at_cap ⟨[sLocalContactData.fresh, sLocalContactData.fresh], 0, 2⟩ 0
     sampleCapsuleCandidate [sampleCapsuleCandidate] (by constructor <;> decide)⟩

/-! ### Single-sided capsule test -/

/-- C16 (counterexample): with the closedSurface bit (here 0x40) set and 1.5 x radius = 3/2
not below the extents (1, 1, 1) the test is single-sided; with the bit clear and the same
radius and extents it is single-sided as well; and with the bit clear, extents (2, 2, 2) (so
not single-sided) a triangle lying more than the capsule size above the capsule centre is
neither flipped nor tested. -/
theorem dCollideCCTL_singleSide_not_as_stated :
    dCollideCCTL_singleSide 0x40 0x40 1 ⟨1, 1, 1⟩ = true ∧ ¬ ((3 / 2 : ℚ) * 1 < 1) ∧
    dCollideCCTL_singleSide 0x40 0 1 ⟨1, 1, 1⟩ = true ∧ (0 : Nat) &&& 0x40 = 0 ∧
    dCollideCCTL_singleSide 0x40 0 1 ⟨2, 2, 2⟩ = false ∧
    _cldTestOneTriangleVSCapsule_side sampleNormalize 0xff ⟨0, 0, -3⟩ 2
      ⟨0, 0, 0⟩ ⟨1, 0, 0⟩ ⟨0, 1, 0⟩ 0 false = none := by
  refine ⟨?_, by norm_num, ?_, by decide, ?_, ?_⟩
  · simp [dCollideCCTL_singleSide]
  · simp [dCollideCCTL_singleSide]; norm_num
  · simp [dCollideCCTL_singleSide]; norm_num
  · simp [_cldTestOneTriangleVSCapsule_side, sampleNormalize, Point.dot, Point.sub, Point.cross]
    norm_num

/-- C16 (amended): `dCollideCCTL` applies the single-sided test exactly when the mesh's
closedSurface flag is set or 1.5 x capsule radius is below none of the three AABB extents.
For a triangle whose plane the capsule centre lies below: under the single-sided test it
produces no contact; otherwise it is flipped (points, edges, negated normal, all-edges flags)
and handed to the separating-axis test when the centre is at most the capsule size below the
plane, and produces no contact when it is further below. -/
theorem dCollideCCTL_singleSide_iff (closedSurface meshflags kUseAll flags : Nat)
    (m_fCapsuleRadius m_fCapsuleSize : ℚ) (ext m_vCapsulePosition v0 v1 v2 m_vN : dVector3)
    (normalize : dVector3 → Option dVector3) (d : sTrimeshCapsuleColliderData)
    (tri : CapsuleCandidate)
    (hn : normalize ((v1.sub v0).cross (v2.sub v1)) = some m_vN)
    (hbelow : m_vCapsulePosition.dot m_vN - v0.dot m_vN < 0) :
    (dCollideCCTL_singleSide closedSurface meshflags m_fCapsuleRadius ext = true ↔
      (meshflags &&& closedSurface ≠ 0 ∨
        (ext.x ≤ 3 / 2 * m_fCapsuleRadius ∧ ext.y ≤ 3 / 2 * m_fCapsuleRadius ∧
          ext.z ≤ 3 / 2 * m_fCapsuleRadius))) ∧
    (_cldTestOneTriangleVSCapsule_side normalize kUseAll m_vCapsulePosition m_fCapsuleSize
        v0 v1 v2 flags true = none ∧
      d._cldTestOneTriangleVSCapsule_sided normalize kUseAll m_vCapsulePosition m_fCapsuleSize
        v0 v1 v2 flags true tri = some d) ∧
    (-m_fCapsuleSize ≤ m_vCapsulePosition.dot m_vN - v0.dot m_vN →
      _cldTestOneTriangleVSCapsule_side normalize kUseAll m_vCapsulePosition m_fCapsuleSize
          v0 v1 v2 flags false =
        some ⟨v0, v2, v1, v2.sub v0, v1.sub v2, v0.sub v1, m_vN.scale (-1), kUseAll⟩ ∧
      d._cldTestOneTriangleVSCapsule_sided normalize kUseAll m_vCapsulePosition m_fCapsuleSize
          v0 v1 v2 flags false tri = d._cldTestOneTriangleVSCapsule tri) ∧
    (m_vCapsulePosition.dot m_vN - v0.dot m_vN < -m_fCapsuleSize →
      _cldTestOneTriangleVSCapsule_side normalize kUseAll m_vCapsulePosition m_fCapsuleSize
          v0 v1 v2 flags false = none ∧
      d._cldTestOneTriangleVSCapsule_sided normalize kUseAll m_vCapsulePosition m_fCapsuleSize
          v0 v1 v2 flags false tri = some d) := by
  have hside : _cldTestOneTriangleVSCapsule_side normalize kUseAll m_vCapsulePosition
      m_fCapsuleSize v0 v1 v2 flags true = none := by
    simp [_cldTestOneTriangleVSCapsule_side, hn, hbelow]
  refine ⟨?_, ⟨hside, ?_⟩, ?_, ?_⟩
  · unfold dCollideCCTL_singleSide
    by_cases hc : meshflags &&& closedSurface = 0
    · simp only [hc, if_true, ne_eq, not_true_eq_false, false_or]
      by_cases h0 : 3 / 2 * m_fCapsuleRadius < ext.x
      · simp only [h0, if_true]
        constructor
        · intro h; exact absurd h (by simp)
        · intro h; linarith [h.1]
      · by_cases h1 : 3 / 2 * m_fCapsuleRadius < ext.y
        · simp only [h0, h1, if_true, if_false]
          constructor
          · intro h; exact absurd h (by simp)
          · intro h; linarith [h.2.1]
        · by_cases h2 : 3 / 2 * m_fCapsuleRadius < ext.z
          · simp only [h0, h1, h2, if_true, if_false]
            constructor
            · intro h; exact absurd h (by simp)
            · intro h; linarith [h.2.2]
          · simp only [h0, h1, h2, if_false, true_iff]
            exact ⟨not_lt.mp h0, not_lt.mp h1, not_lt.mp h2⟩
    · simp [hc]
  · simp only [sTrimeshCapsuleColliderData._cldTestOneTriangleVSCapsule_sided, hside]
  · intro h
    have hsz : ¬ (m_vCapsulePosition.dot m_vN - v0.dot m_vN > m_fCapsuleSize) := by
      intro h2
      have : (0 : ℚ) ≤ m_fCapsuleSize := by linarith
      linarith
    have e : _cldTestOneTriangleVSCapsule_side normalize kUseAll m_vCapsulePosition
        m_fCapsuleSize v0 v1 v2 flags false =
        some ⟨v0, v2, v1, v2.sub v0, v1.sub v2, v0.sub v1, m_vN.scale (-1), kUseAll⟩ := by
      simp only [_cldTestOneTriangleVSCapsule_side, hn]
      rw [if_neg (by simp), if_neg hsz, if_pos hbelow, if_neg (by linarith)]
    exact ⟨e, by simp only [sTrimeshCapsuleColliderData._cldTestOneTriangleVSCapsule_sided, e]⟩
  · intro h
    have e : _cldTestOneTriangleVSCapsule_side normalize kUseAll m_vCapsulePosition
        m_fCapsuleSize v0 v1 v2 flags false = none := by
      simp only [_cldTestOneTriangleVSCapsule_side, hn]
      rw [if_neg (by simp)]
      by_cases hsz : m_vCapsulePosition.dot m_vN - v0.dot m_vN > m_fCapsuleSize
      · rw [if_pos hsz]
      · rw [if_neg hsz, if_pos hbelow, if_pos h]
    exact ⟨e, by simp only [sTrimeshCapsuleColliderData._cldTestOneTriangleVSCapsule_sided, e]⟩

/-- Witness for `dCollideCCTL_singleSide_iff`: a triangle of the plane `z = 0` with the
capsule centre one unit below it, capsule size 2, radius 1, mesh extents (2, 2, 2), flag
clear. -/
theorem dCollideCCTL_singleSide_iff_witness :
    sampleNormalize ((Point.sub ⟨1, 0, 0⟩ ⟨0, 0, 0⟩).cross (Point.sub ⟨0, 1, 0⟩ ⟨1, 0, 0⟩)) =
      some ⟨0, 0, 1⟩ ∧
    Point.dot ⟨0, 0, -1⟩ ⟨0, 0, 1⟩ - Point.dot ⟨0, 0, 0⟩ ⟨0, 0, 1⟩ < 0 ∧
    _cldTestOneTriangleVSCapsule_side sampleNormalize 0xff ⟨0, 0, -1⟩ 2
      ⟨0, 0, 0⟩ ⟨1, 0, 0⟩ ⟨0, 1, 0⟩ 0 true = none :=
  ⟨rfl, by simp [Point.dot],
   (dCollideCCTL_singleSide_iff 0x40 0 0xff 0 1 2 ⟨2, 2, 2⟩ ⟨0, 0, -1⟩ ⟨0, 0, 0⟩ ⟨1, 0, 0⟩
     ⟨0, 1, 0⟩ ⟨0, 0, 1⟩ sampleNormalize ⟨[sLocalContactData.fresh], 0, 1⟩
     sampleCapsuleCandidate rfl (by simp [Point.dot])).2.1.1⟩

/-! ### Tree collider -/

/-- C18: `ValidateSettings` returns a non-null string exactly when temporal coherence is
enabled while first-contact mode is disabled; it returns null for the three other
combinations of the two flags. -/
theorem ValidateSettings_iff (c : AABBTreeCollider) :
    (c.ValidateSettings ≠ none ↔
      (c.TemporalCoherenceEnabled = true ∧ c.FirstContactEnabled = false)) ∧
    AABBTreeCollider.ValidateSettings
        { c with mTemporalCoherence := true, mFirstContact := false } =
      some "Temporal coherence only works with First contact mode!" ∧
    AABBTreeCollider.ValidateSettings
        { c with mTemporalCoherence := true, mFirstContact := true } = none ∧
    AABBTreeCollider.ValidateSettings
        { c with mTemporalCoherence := false, mFirstContact := true } = none ∧
    AABBTreeCollider.ValidateSettings
        { c with mTemporalCoherence := false, mFirstContact := false } = none := by
  refine ⟨?_, rfl, rfl, rfl, rfl⟩
  unfold AABBTreeCollider.ValidateSettings
  cases h1 : c.TemporalCoherenceEnabled <;> cases h2 : c.FirstContactEnabled <;> simp

namespace AABBTreeCollider

/-- Unfolding of `_CollideTriBox` as a sequence of two steps. -/
theorem CollideTriBox_succ (g : OverlapOracle) (sz : Nat) (tree1 : NodeArray)
    (fuel b : Nat) (c : AABBTreeCollider) :
    _CollideTriBox g sz tree1 (fuel + 1) b c =
      (tree1.deref sz b).bind fun nb =>
        if !g.TriBoxOverlap c.mLeafMesh1 c.mLeafIndex nb.mAABB.mCenter nb.mAABB.mExtents then
          some { c with tests := c.tests ++ [.TriBox b] }
        else
          andThen
            (fun c => if nb.HasPosLeaf then some (c.PrimTestTriIndex g nb.GetPosPrimitive)
              else _CollideTriBox g sz tree1 fuel nb.GetPos c)
            (fun c => if nb.HasNegLeaf then some (c.PrimTestTriIndex g nb.GetNegPrimitive)
              else _CollideTriBox g sz tree1 fuel nb.GetNeg c)
            { c with tests := c.tests ++ [.TriBox b] } := rfl

/-- Unfolding of `_CollideBoxTri` as a sequence of two steps. -/
theorem CollideBoxTri_succ (g : OverlapOracle) (sz : Nat) (tree0 : NodeArray)
    (fuel b : Nat) (c : AABBTreeCollider) :
    _CollideBoxTri g sz tree0 (fuel + 1) b c =
      (tree0.deref sz b).bind fun nb =>
        if !g.TriBoxOverlap c.mLeafMesh1 c.mLeafIndex nb.mAABB.mCenter nb.mAABB.mExtents then
          some { c with tests := c.tests ++ [.TriBox b] }
        else
          andThen
            (fun c => if nb.HasPosLeaf then some (c.PrimTestIndexTri g nb.GetPosPrimitive)
              else _CollideBoxTri g sz tree0 fuel nb.GetPos c)
            (fun c => if nb.HasNegLeaf then some (c.PrimTestIndexTri g nb.GetNegPrimitive)
              else _CollideBoxTri g sz tree0 fuel nb.GetNeg c)
            { c with tests := c.tests ++ [.TriBox b] } := rfl

/-- A `return` after the first of three steps is the same as going on to the test that
follows the second. -/
theorem bind_return (x : Option AABBTreeCollider)
    (h k : AABBTreeCollider → Option AABBTreeCollider) :
    (x.bind fun c1 => if c1.ContactFound then some c1
      else (h c1).bind fun c2 => if c2.ContactFound then some c2 else k c2) =
    (x.bind fun c1 => if c1.ContactFound then some c1 else h c1).bind
      fun c2 => if c2.ContactFound then some c2 else k c2 := by
  cases x with
  | none => rfl
  | some c1 =>
    simp only [Option.bind]
    by_cases hc : c1.ContactFound = true
    · simp [hc]
    · simp [hc]

/-- Unfolding of `_Collide` as a sequence of four steps. -/
theorem Collide_succ (g : OverlapOracle) (sz : Nat) (tree0 tree1 : NodeArray)
    (fuel a b : Nat) (c : AABBTreeCollider) :
    _Collide g sz tree0 tree1 (fuel + 1) a b c =
      (tree0.deref sz a).bind fun na =>
      (tree1.deref sz b).bind fun nb =>
        if !g.BoxBoxOverlap na.mAABB.mExtents na.mAABB.mCenter nb.mAABB.mExtents
            nb.mAABB.mCenter then some { c with tests := c.tests ++ [.BoxBox a b] }
        else
          andThen
            (if na.HasPosLeaf then
              andThen
                (fun c => if nb.HasPosLeaf then
                    some ((c.FETCH_LEAF na.GetPosPrimitive false).PrimTestTriIndex g
                      nb.GetPosPrimitive)
                  else _CollideTriBox g sz tree1 fuel nb.GetPos
                    (c.FETCH_LEAF na.GetPosPrimitive false))
                (fun c => if nb.HasNegLeaf then some (c.PrimTestTriIndex g nb.GetNegPrimitive)
                  else _CollideTriBox g sz tree1 fuel nb.GetNeg c)
            else
              andThen
                (fun c => if nb.HasPosLeaf then
                    _CollideBoxTri g sz tree0 fuel na.GetPos
                      (c.FETCH_LEAF nb.GetPosPrimitive true)
                  else _Collide g sz tree0 tree1 fuel na.GetPos nb.GetPos c)
                (fun c => if nb.HasNegLeaf then
                    _CollideBoxTri g sz tree0 fuel na.GetPos
                      (c.FETCH_LEAF nb.GetNegPrimitive true)
                  else _Collide g sz tree0 tree1 fuel na.GetPos nb.GetNeg c))
            (if na.HasNegLeaf then
              andThen
                (fun c => if nb.HasPosLeaf then
                    some ((c.FETCH_LEAF na.GetNegPrimitive false).PrimTestTriIndex g
                      nb.GetPosPrimitive)
                  else _CollideTriBox g sz tree1 fuel nb.GetPos
                    (c.FETCH_LEAF na.GetNegPrimitive false))
                (fun c => if nb.HasNegLeaf then some (c.PrimTestTriIndex g nb.GetNegPrimitive)
                  else _CollideTriBox g sz tree1 fuel nb.GetNeg c)
            else
              andThen
                (fun c => if nb.HasPosLeaf then
                    _CollideBoxTri g sz tree0 fuel na.GetNeg
                      (c.FETCH_LEAF nb.GetPosPrimitive true)
                  else _Collide g sz tree0 tree1 fuel na.GetNeg nb.GetPos c)
                (fun c => if nb.HasNegLeaf then
                    _CollideBoxTri g sz tree0 fuel na.GetNeg
                      (c.FETCH_LEAF nb.GetNegPrimitive true)
                  else _Collide g sz tree0 tree1 fuel na.GetNeg nb.GetNeg c))
            { c with tests := c.tests ++ [.BoxBox a b] } := by
  rw [_Collide]
  cases h0 : tree0.deref sz a with
  | none => rfl
  | some na =>
    cases h1 : tree1.deref sz b with
    | none => rfl
    | some nb =>
      simp only [Option.some_bind, andThen]
      cases na.HasPosLeaf <;> cases na.HasNegLeaf <;> cases nb.HasPosLeaf <;>
        cases nb.HasNegLeaf <;> simp only [if_true, if_false, Bool.false_eq_true] <;>
        split <;> first | rfl | (rw [bind_return]; rfl)

end AABBTreeCollider

namespace AABBTreeCollider

/-- Recording a test that is not a successful triangle-triangle test keeps the first-contact
state. -/
theorem atMostOne_log (c : AABBTreeCollider) (e : OverlapTest) (he : e.isHit = false)
    (h : c.AtMostOne) (hc : c.mContact = false) :
    AtMostOne { c with tests := c.tests ++ [e] } := by
  obtain ⟨h1, h2, _⟩ := h
  refine ⟨h1, fun _ => ⟨(h2 hc).1, ?_⟩, fun h3 => ?_⟩
  · intro e1 he1
    rcases List.mem_append.mp he1 with h4 | h4
    · exact (h2 hc).2 e1 h4
    · rw [List.mem_singleton.mp h4]; exact he
  · exact absurd (hc.symm.trans h3) (by simp)

/-- Fetching a leaf keeps the first-contact state. -/
theorem atMostOne_fetch (c : AABBTreeCollider) (p : Nat) (m : Bool) (h : c.AtMostOne) :
    (c.FETCH_LEAF p m).AtMostOne := h

/-- A triangle-triangle test entered with the contact flag clear keeps the first-contact
state. -/
theorem atMostOne_test (c : AABBTreeCollider) (id0 id1 : Nat) (hit : Bool)
    (h : c.AtMostOne) (hc : c.mContact = false) :
    AtMostOne (if hit then
      { c with mPairs := c.mPairs ++ [id0, id1], mContact := true,
               tests := c.tests ++ [.TriTri id0 id1 true] }
    else { c with tests := c.tests ++ [.TriTri id0 id1 false] }) := by
  cases hit with
  | false => exact atMostOne_log c _ rfl h hc
  | true =>
    obtain ⟨h1, h2, _⟩ := h
    refine ⟨h1, fun h3 => absurd h3 (by simp), fun _ => ⟨c.tests, id0, id1, rfl, ?_, (h2 hc).2⟩⟩
    show c.mPairs ++ [id0, id1] = [id0, id1]
    rw [(h2 hc).1]; rfl

/-- Step `PrimTestTriIndex` keeps the first-contact state. -/
theorem keeps_PrimTestTriIndex (g : OverlapOracle) (id1 : Nat) :
    Keeps (fun c => some (c.PrimTestTriIndex g id1)) := by
  intro c c1 h hc e
  rw [← Option.some.inj e]
  exact atMostOne_test c c.mLeafIndex id1 _ h hc

/-- Step `PrimTestIndexTri` keeps the first-contact state. -/
theorem keeps_PrimTestIndexTri (g : OverlapOracle) (id0 : Nat) :
    Keeps (fun c => some (c.PrimTestIndexTri g id0)) := by
  intro c c1 h hc e
  rw [← Option.some.inj e]
  exact atMostOne_test c id0 c.mLeafIndex _ h hc

/-- Two steps in sequence keep the first-contact state when each does. -/
theorem keeps_andThen (f h : AABBTreeCollider → Option AABBTreeCollider)
    (hf : Keeps f) (hh : Keeps h) : Keeps (andThen f h) := by
  intro c c2 hc hcon e
  unfold andThen at e
  cases hx : f c with
  | none => rw [hx] at e; exact absurd e (by simp)
  | some c1 =>
    rw [hx] at e
    simp only [Option.some_bind] at e
    have h1 := hf c c1 hc hcon hx
    by_cases hcf : c1.ContactFound = true
    · rw [if_pos hcf] at e; rw [← Option.some.inj e]; exact h1
    · rw [if_neg hcf] at e
      have : c1.mContact = false := by
        have := h1.1
        simp only [ContactFound, this, Bool.true_and] at hcf
        simpa using hcf
      exact hh c1 c2 h1 this e

/-- A choice between two steps keeps the first-contact state when each does. -/
theorem keeps_ite (b : Bool) (f h : AABBTreeCollider → Option AABBTreeCollider)
    (hf : Keeps f) (hh : Keeps h) : Keeps (fun c => if b then f c else h c) := by
  cases b with
  | true => exact hf
  | false => exact hh

/-- A step entered after fetching a leaf keeps the first-contact state when it does. -/
theorem keeps_fetch (p : Nat) (m : Bool) (f : AABBTreeCollider → Option AABBTreeCollider)
    (hf : Keeps f) : Keeps (fun c => f (c.FETCH_LEAF p m)) :=
  fun c c1 h hc e => hf (c.FETCH_LEAF p m) c1 (atMostOne_fetch c p m h) hc e

/-- Function `_CollideTriBox` keeps the first-contact state. -/
theorem keeps_CollideTriBox (g : OverlapOracle) (sz : Nat) (tree1 : NodeArray) :
    ∀ (fuel b : Nat), Keeps (_CollideTriBox g sz tree1 fuel b) := by
  intro fuel
  induction fuel with
  | zero => intro b c c1 _ _ e; exact absurd e (by simp [_CollideTriBox])
  | succ fuel ih =>
    intro b c c1 h hc e
    rw [CollideTriBox_succ] at e
    cases hd : tree1.deref sz b with
    | none => rw [hd] at e; exact absurd e (by simp)
    | some nb =>
      rw [hd] at e
      simp only [Option.some_bind] at e
      have hl := atMostOne_log c (.TriBox b) rfl h hc
      split at e
      · rw [← Option.some.inj e]; exact hl
      · exact keeps_andThen _ _
          (keeps_ite _ _ _ (keeps_PrimTestTriIndex g _) (ih _))
          (keeps_ite _ _ _ (keeps_PrimTestTriIndex g _) (ih _)) _ c1 hl hc e

/-- Function `_CollideBoxTri` keeps the first-contact state. -/
theorem keeps_CollideBoxTri (g : OverlapOracle) (sz : Nat) (tree0 : NodeArray) :
    ∀ (fuel b : Nat), Keeps (_CollideBoxTri g sz tree0 fuel b) := by
  intro fuel
  induction fuel with
  | zero => intro b c c1 _ _ e; exact absurd e (by simp [_CollideBoxTri])
  | succ fuel ih =>
    intro b c c1 h hc e
    rw [CollideBoxTri_succ] at e
    cases hd : tree0.deref sz b with
    | none => rw [hd] at e; exact absurd e (by simp)
    | some nb =>
      rw [hd] at e
      simp only [Option.some_bind] at e
      have hl := atMostOne_log c (.TriBox b) rfl h hc
      split at e
      · rw [← Option.some.inj e]; exact hl
      · exact keeps_andThen _ _
          (keeps_ite _ _ _ (keeps_PrimTestIndexTri g _) (ih _))
          (keeps_ite _ _ _ (keeps_PrimTestIndexTri g _) (ih _)) _ c1 hl hc e

/-- Function `_Collide` keeps the first-contact state. -/
theorem keeps_Collide (g : OverlapOracle) (sz : Nat) (tree0 tree1 : NodeArray) :
    ∀ (fuel a b : Nat), Keeps (_Collide g sz tree0 tree1 fuel a b) := by
  intro fuel
  induction fuel with
  | zero => intro a b c c1 _ _ e; exact absurd e (by simp [_Collide])
  | succ fuel ih =>
    intro a b c c1 h hc e
    rw [Collide_succ] at e
    cases hd0 : tree0.deref sz a with
    | none => rw [hd0] at e; exact absurd e (by simp)
    | some na =>
      cases hd1 : tree1.deref sz b with
      | none => rw [hd0, hd1] at e; exact absurd e (by simp)
      | some nb =>
        rw [hd0, hd1] at e
        simp only [Option.some_bind] at e
        have hl := atMostOne_log c (.BoxBox a b) rfl h hc
        split at e
        · rw [← Option.some.inj e]; exact hl
        · have hT := keeps_CollideTriBox g sz tree1 fuel
          have hB := keeps_CollideBoxTri g sz tree0 fuel
          refine keeps_andThen _ _ ?_ ?_ _ c1 hl hc e
          · cases na.HasPosLeaf with
            | true =>
              exact keeps_andThen _ _
                (keeps_ite _ _ _ (keeps_fetch _ _ _ (keeps_PrimTestTriIndex g _))
                  (keeps_fetch _ _ _ (hT _)))
                (keeps_ite _ _ _ (keeps_PrimTestTriIndex g _) (hT _))
            | false =>
              exact keeps_andThen _ _
                (keeps_ite _ _ _ (keeps_fetch _ _ _ (hB _)) (ih _ _))
                (keeps_ite _ _ _ (keeps_fetch _ _ _ (hB _)) (ih _ _))
          · cases na.HasNegLeaf with
            | true =>
              exact keeps_andThen _ _
                (keeps_ite _ _ _ (keeps_fetch _ _ _ (keeps_PrimTestTriIndex g _))
                  (keeps_fetch _ _ _ (hT _)))
                (keeps_ite _ _ _ (keeps_PrimTestTriIndex g _) (hT _))
            | false =>
              exact keeps_andThen _ _
                (keeps_ite _ _ _ (keeps_fetch _ _ _ (hB _)) (ih _ _))
                (keeps_ite _ _ _ (keeps_fetch _ _ _ (hB _)) (ih _ _))

end AABBTreeCollider

namespace AABBTreeCollider

/-- Two steps in sequence return when each does. -/
theorem returns_andThen (f h : AABBTreeCollider → Option AABBTreeCollider)
    (hf : Returns f) (hh : Returns h) : Returns (andThen f h) := by
  intro c
  obtain ⟨c1, e1⟩ := hf c
  unfold andThen
  rw [e1]
  simp only [Option.some_bind]
  by_cases hcf : c1.ContactFound = true
  · exact ⟨c1, by rw [if_pos hcf]⟩
  · obtain ⟨c2, e2⟩ := hh c1
    exact ⟨c2, by rw [if_neg hcf, e2]⟩

/-- A choice between two steps returns when the chosen one does. -/
theorem returns_ite (b : Bool) (f h : AABBTreeCollider → Option AABBTreeCollider)
    (hf : b = true → Returns f) (hh : b = false → Returns h) :
    Returns (fun c => if b then f c else h c) := by
  cases b with
  | true => exact hf rfl
  | false => exact hh rfl

/-- A step entered after fetching a leaf returns when it does. -/
theorem returns_fetch (p : Nat) (m : Bool) (f : AABBTreeCollider → Option AABBTreeCollider)
    (hf : Returns f) : Returns (fun c => f (c.FETCH_LEAF p m)) :=
  fun c => hf (c.FETCH_LEAF p m)

/-- A pointer that designates a node designates one inside the array. -/
theorem index_lt (sz : Nat) (a : NodeArray) (p j : Nat) (h : a.index? sz p = some j) :
    j < a.cells.length := by
  unfold NodeArray.index? at h
  split_ifs at h with hc
  simp only [Option.some.injEq] at h
  omega

/-- With forward references `_CollideTriBox` returns when the fuel covers the nodes that
follow the entered one. -/
theorem returns_CollideTriBox (g : OverlapOracle) (sz : Nat) (tree1 : NodeArray)
    (hf : tree1.ForwardRefs sz) :
    ∀ (fuel b j : Nat), tree1.index? sz b = some j → tree1.cells.length ≤ fuel + j →
      Returns (_CollideTriBox g sz tree1 fuel b) := by
  intro fuel
  induction fuel with
  | zero =>
    intro b j hj hlen
    have := index_lt sz tree1 b j hj
    omega
  | succ fuel ih =>
    intro b j hj hlen c
    obtain ⟨nb, hc, hd⟩ := deref_of_index sz tree1 b j hj
    obtain ⟨hp, hn⟩ := hf j nb hc
    rw [CollideTriBox_succ, hd]
    simp only [Option.some_bind]
    split
    · exact ⟨_, rfl⟩
    · refine returns_andThen _ _ (returns_ite _ _ _ (fun _ c => ⟨_, rfl⟩) ?_)
        (returns_ite _ _ _ (fun _ c => ⟨_, rfl⟩) ?_) _
      · intro hl
        obtain ⟨j1, e1, l1⟩ := hp hl
        exact ih _ j1 e1 (by omega)
      · intro hl
        obtain ⟨j1, e1, l1⟩ := hn hl
        exact ih _ j1 e1 (by omega)

/-- With forward references `_CollideBoxTri` returns when the fuel covers the nodes that
follow the entered one. -/
theorem returns_CollideBoxTri (g : OverlapOracle) (sz : Nat) (tree0 : NodeArray)
    (hf : tree0.ForwardRefs sz) :
    ∀ (fuel b j : Nat), tree0.index? sz b = some j → tree0.cells.length ≤ fuel + j →
      Returns (_CollideBoxTri g sz tree0 fuel b) := by
  intro fuel
  induction fuel with
  | zero =>
    intro b j hj hlen
    have := index_lt sz tree0 b j hj
    omega
  | succ fuel ih =>
    intro b j hj hlen c
    obtain ⟨nb, hc, hd⟩ := deref_of_index sz tree0 b j hj
    obtain ⟨hp, hn⟩ := hf j nb hc
    rw [CollideBoxTri_succ, hd]
    simp only [Option.some_bind]
    split
    · exact ⟨_, rfl⟩
    · refine returns_andThen _ _ (returns_ite _ _ _ (fun _ c => ⟨_, rfl⟩) ?_)
        (returns_ite _ _ _ (fun _ c => ⟨_, rfl⟩) ?_) _
      · intro hl
        obtain ⟨j1, e1, l1⟩ := hp hl
        exact ih _ j1 e1 (by omega)
      · intro hl
        obtain ⟨j1, e1, l1⟩ := hn hl
        exact ih _ j1 e1 (by omega)

/-- With forward references in both trees `_Collide` returns when the fuel covers the nodes
that follow the two entered ones. -/
theorem returns_Collide (g : OverlapOracle) (sz : Nat) (tree0 tree1 : NodeArray)
    (hf0 : tree0.ForwardRefs sz) (hf1 : tree1.ForwardRefs sz) :
    ∀ (fuel a b i j : Nat), tree0.index? sz a = some i → tree1.index? sz b = some j →
      tree0.cells.length + tree1.cells.length ≤ fuel + i + j + 1 →
      Returns (_Collide g sz tree0 tree1 fuel a b) := by
  intro fuel
  induction fuel with
  | zero =>
    intro a b i j hi hj hlen
    have := index_lt sz tree0 a i hi
    have := index_lt sz tree1 b j hj
    omega
  | succ fuel ih =>
    intro a b i j hi hj hlen c
    have li := index_lt sz tree0 a i hi
    have lj := index_lt sz tree1 b j hj
    obtain ⟨na, hca, hda⟩ := deref_of_index sz tree0 a i hi
    obtain ⟨nb, hcb, hdb⟩ := deref_of_index sz tree1 b j hj
    obtain ⟨hap, han⟩ := hf0 i na hca
    obtain ⟨hbp, hbn⟩ := hf1 j nb hcb
    have hT := returns_CollideTriBox g sz tree1 hf1 fuel
    have hB := returns_CollideBoxTri g sz tree0 hf0 fuel
    rw [Collide_succ, hda, hdb]
    simp only [Option.some_bind]
    split
    · exact ⟨_, rfl⟩
    · refine returns_andThen _ _ ?_ ?_ _
      · cases hpl : na.HasPosLeaf with
        | true =>
          refine returns_andThen _ _
            (returns_ite _ _ _ (fun _ c => ⟨_, rfl⟩) ?_)
            (returns_ite _ _ _ (fun _ c => ⟨_, rfl⟩) ?_)
          · intro hl
            obtain ⟨j1, e1, l1⟩ := hbp hl
            exact returns_fetch _ _ _ (hT _ j1 e1 (by omega))
          · intro hl
            obtain ⟨j1, e1, l1⟩ := hbn hl
            exact hT _ j1 e1 (by omega)
        | false =>
          obtain ⟨i1, d1, k1⟩ := hap hpl
          refine returns_andThen _ _ (returns_ite _ _ _ ?_ ?_) (returns_ite _ _ _ ?_ ?_)
          · intro _
            exact returns_fetch _ _ _ (hB _ i1 d1 (by omega))
          · intro hl
            obtain ⟨j1, e1, l1⟩ := hbp hl
            exact ih _ _ i1 j1 d1 e1 (by omega)
          · intro _
            exact returns_fetch _ _ _ (hB _ i1 d1 (by omega))
          · intro hl
            obtain ⟨j1, e1, l1⟩ := hbn hl
            exact ih _ _ i1 j1 d1 e1 (by omega)
      · cases hpl : na.HasNegLeaf with
        | true =>
          refine returns_andThen _ _
            (returns_ite _ _ _ (fun _ c => ⟨_, rfl⟩) ?_)
            (returns_ite _ _ _ (fun _ c => ⟨_, rfl⟩) ?_)
          · intro hl
            obtain ⟨j1, e1, l1⟩ := hbp hl
            exact returns_fetch _ _ _ (hT _ j1 e1 (by omega))
          · intro hl
            obtain ⟨j1, e1, l1⟩ := hbn hl
            exact hT _ j1 e1 (by omega)
        | false =>
          obtain ⟨i1, d1, k1⟩ := han hpl
          refine returns_andThen _ _ (returns_ite _ _ _ ?_ ?_) (returns_ite _ _ _ ?_ ?_)
          · intro _
            exact returns_fetch _ _ _ (hB _ i1 d1 (by omega))
          · intro hl
            obtain ⟨j1, e1, l1⟩ := hbp hl
            exact ih _ _ i1 j1 d1 e1 (by omega)
          · intro _
            exact returns_fetch _ _ _ (hB _ i1 d1 (by omega))
          · intro hl
            obtain ⟨j1, e1, l1⟩ := hbn hl
            exact ih _ _ i1 j1 d1 e1 (by omega)

end AABBTreeCollider

namespace AABBTreeCollider

/-- The state left by `InitQuery` in first-contact mode is a first-contact state with the
contact flag clear. -/
theorem atMostOne_InitQuery (c : AABBTreeCollider) (h : c.mFirstContact = true) :
    c.InitQuery.AtMostOne ∧ c.InitQuery.mContact = false :=
  ⟨⟨h, fun _ => ⟨rfl, fun e he => absurd he (List.not_mem_nil e)⟩,
    fun h3 => absurd h3 (by simp [InitQuery])⟩, rfl⟩

/-- In a first-contact state at most one pair (two indices) is recorded, none while the
contact flag is clear, and a successful triangle-triangle test is the last test recorded,
its pair being the recorded one. -/
theorem atMostOne_spec (c : AABBTreeCollider) (h : c.AtMostOne) :
    c.mPairs.length ≤ 2 ∧ (c.mContact = false → c.mPairs = []) ∧
    ∀ l1 l2 id0 id1, c.tests = l1 ++ OverlapTest.TriTri id0 id1 true :: l2 →
      l2 = [] ∧ c.mPairs = [id0, id1] ∧ c.mContact = true := by
  obtain ⟨_, h2, h3⟩ := h
  cases hc : c.mContact with
  | false =>
    obtain ⟨e1, e2⟩ := h2 hc
    refine ⟨by rw [e1]; simp, fun _ => e1, ?_⟩
    intro l1 l2 id0 id1 ht
    have := e2 (OverlapTest.TriTri id0 id1 true) (by rw [ht]; simp)
    exact absurd this (by simp [OverlapTest.isHit])
  | true =>
    obtain ⟨l, i0, i1, e1, e2, e3⟩ := h3 hc
    refine ⟨by rw [e2]; simp, fun hf => absurd hf (by simp), ?_⟩
    intro l1 l2 id0 id1 ht
    rw [e1] at ht
    rcases List.eq_nil_or_concat l2 with hl | ⟨l3, x, hl⟩
    · subst hl
      have := List.append_inj_right ht (by
        have := congrArg List.length ht
        simp at this
        omega)
      simp only [List.cons.injEq, OverlapTest.TriTri.injEq, and_true] at this
      refine ⟨rfl, ?_, rfl⟩
      rw [e2, this.1, this.2]
    · subst hl
      have ht2 : l ++ [OverlapTest.TriTri i0 i1 true] =
          (l1 ++ OverlapTest.TriTri id0 id1 true :: l3) ++ [x] := by
        rw [ht]; simp
      have hl := List.append_inj_left ht2 (by
        have := congrArg List.length ht2
        simp at this
        simp
        omega)
      have := e3 (OverlapTest.TriTri id0 id1 true) (by rw [hl]; simp)
      exact absurd this (by simp [OverlapTest.isHit])

/-- The root of a non-empty array designates its element 0. -/
theorem index_base (sz : Nat) (hsz : 0 < sz) (a : NodeArray) (h : a.cells ≠ []) :
    a.index? sz a.base = some 0 := by
  have := index_addr sz hsz a 0 (List.length_pos.mpr h)
  simpa using this

end AABBTreeCollider

/-- C19: in first-contact mode a `Collide` query on two no-leaf trees (non-empty node arrays
with forward references, enough fuel for the recursion) returns true with at most one
recorded pair (two indices; none while the contact flag is clear), and a successful
triangle-triangle test is the last overlap test of the query: no primitive test, triangle-box
test or box-box test follows it, and its pair is the recorded one. -/
theorem Collide_first_contact (g : OverlapOracle) (sz : Nat) (c : AABBTreeCollider)
    (tree0 tree1 : AABBNoLeafTree) (cache : Option Pair) (fuel : Nat) (a0 a1 : NodeArray)
    (hfirst : c.FirstContactEnabled = true)
    (h0 : tree0.mNodes = some a0) (h1 : tree1.mNodes = some a1) (hsz : 0 < sz)
    (hne0 : a0.cells ≠ []) (hne1 : a1.cells ≠ [])
    (hf0 : a0.ForwardRefs sz) (hf1 : a1.ForwardRefs sz)
    (hfuel : a0.cells.length + a1.cells.length ≤ fuel) :
    ∃ c1 cache1, c.Collide g sz tree0 tree1 cache fuel = some (true, c1, cache1) ∧
      c1.mPairs.length ≤ 2 ∧ (c1.GetContactStatus = false → c1.mPairs = []) ∧
      ∀ l1 l2 id0 id1, c1.tests = l1 ++ OverlapTest.TriTri id0 id1 true :: l2 →
        l2 = [] ∧ c1.mPairs = [id0, id1] ∧ c1.GetContactStatus = true := by
  obtain ⟨hI, hIc⟩ := AABBTreeCollider.atMostOne_InitQuery c hfirst
  have key : ∃ c1 cache1, c.Collide g sz tree0 tree1 cache fuel = some (true, c1, cache1) ∧
      c1.AtMostOne := by
    unfold AABBTreeCollider.Collide
    simp only [h0, h1]
    have trav : ∀ (c0 : AABBTreeCollider), c0.AtMostOne → c0.mContact = false →
        ∃ c1 cache1,
          ((AABBTreeCollider._Collide g sz a0 a1 fuel a0.base a1.base c0).bind fun c =>
            (c.UPDATE_CACHE cache).bind fun cache => some (true, c, cache)) =
            some (true, c1, cache1) ∧ c1.AtMostOne := by
      intro c0 hc0 hcc
      obtain ⟨c1, e1⟩ := AABBTreeCollider.returns_Collide g sz a0 a1 hf0 hf1 fuel a0.base
        a1.base 0 0 (AABBTreeCollider.index_base sz hsz a0 hne0)
        (AABBTreeCollider.index_base sz hsz a1 hne1) (by omega) c0
      have hk := AABBTreeCollider.keeps_Collide g sz a0 a1 fuel a0.base a1.base c0 c1 hc0 hcc e1
      rw [e1]
      simp only [Option.some_bind]
      cases cache with
      | none => exact ⟨c1, none, rfl, hk⟩
      | some p =>
        cases hs : c1.mContact with
        | false =>
          refine ⟨c1, some p, ?_, hk⟩
          simp [AABBTreeCollider.UPDATE_CACHE, AABBTreeCollider.GetContactStatus, hs]
        | true =>
          obtain ⟨l, i0, i1, _, e2, _⟩ := hk.2.2 hs
          refine ⟨c1, some ⟨i0, i1⟩, ?_, hk⟩
          simp [AABBTreeCollider.UPDATE_CACHE, AABBTreeCollider.GetContactStatus, hs, e2]
    cases cache with
    | none => exact trav _ hI hIc
    | some p =>
      simp only [AABBTreeCollider.CheckTemporalCoherence]
      by_cases ht : (c.InitQuery.TemporalCoherenceEnabled && c.InitQuery.FirstContactEnabled)
          = true
      · rw [if_pos ht]
        have hp := AABBTreeCollider.atMostOne_test c.InitQuery p.id0 p.id1
          (g.TriTriOverlap p.id0 p.id1) hI hIc
        cases hs : (c.InitQuery.PrimTest g p.id0 p.id1).GetContactStatus with
        | true =>
          simp only [hs, if_true]
          exact ⟨_, _, rfl, hp⟩
        | false =>
          simp only [hs, if_false, Bool.false_eq_true]
          exact trav _ hp hs
      · rw [if_neg ht]
        simp only [if_false, Bool.false_eq_true]
        exact trav _ hI hIc
  obtain ⟨c1, cache1, e, hA⟩ := key
  exact ⟨c1, cache1, e, AABBTreeCollider.atMostOne_spec c1 hA⟩

/-- Witness for `Collide_first_contact`: the sample array against itself with the sample
oracle, no cache, fuel 4. -/
theorem Collide_first_contact_witness :
    sampleCollider.FirstContactEnabled = true ∧
    ∃ c1 cache1, sampleCollider.Collide sampleOracle 40 ⟨2, some sampleArray⟩
        ⟨2, some sampleArray⟩ none 4 = some (true, c1, cache1) ∧
      c1.mPairs.length ≤ 2 ∧ (c1.GetContactStatus = false → c1.mPairs = []) ∧
      ∀ l1 l2 id0 id1, c1.tests = l1 ++ OverlapTest.TriTri id0 id1 true :: l2 →
        l2 = [] ∧ c1.mPairs = [id0, id1] ∧ c1.GetContactStatus = true :=
  ⟨rfl, Collide_first_contact sampleOracle 40 sampleCollider ⟨2, some sampleArray⟩
    ⟨2, some sampleArray⟩ none 4 sampleArray sampleArray rfl rfl rfl (by decide)
    (List.ne_nil_of_length_pos
      (by simp [sampleArray, flatten_length, sampleTree, AABBTreeNode.internalCount]))
    (List.ne_nil_of_length_pos
      (by simp [sampleArray, flatten_length, sampleTree, AABBTreeNode.internalCount]))
    (flatten_forwardRefs 40 4096 (by decide) sampleTree.root)
    (flatten_forwardRefs 40 4096 (by decide) sampleTree.root)
    (by simp [sampleArray, flatten_length, sampleTree, AABBTreeNode.internalCount])⟩

/-- C20 (counterexample): first-contact mode enabled, temporal coherence disabled, cached pair
(6, 6) whose triangles overlap, root boxes that do not overlap: the first and only test of
the query is the box-box test of the two roots; the cached pair is never tested, the contact
flag stays clear and no pair is recorded. -/
theorem Collide_cached_pair_skipped :
    sampleCollider.FirstContactEnabled = true ∧
    sampleOracle.TriTriOverlap 6 6 = true ∧
    sampleCollider.Collide { sampleOracle with BoxBoxOverlap := fun _ _ _ _ => false } 40
        ⟨2, some sampleArray⟩ ⟨2, some sampleArray⟩ (some ⟨6, 6⟩) 4 =
      some (true, { sampleCollider with tests := [OverlapTest.BoxBox 4096 4096] },
        some ⟨6, 6⟩) := by
  refine ⟨rfl, rfl, ?_⟩
  rfl

/-- C20 (amended): if a cached (id0, id1) pair is present and both temporal coherence and
first-contact mode are enabled, `Collide` runs the triangle-triangle test on the cached pair
before any bounding-volume test. On a hit it sets the contact flag, records exactly that pair
and returns true with that test as the only test of the query, keeping the cache. On a miss
it performs the normal traversal from the two roots (non-empty node arrays with forward
references, enough fuel), with the missed test recorded first, then updates the cache and
returns true. -/
theorem Collide_cached_pair (g : OverlapOracle) (sz : Nat) (c : AABBTreeCollider)
    (tree0 tree1 : AABBNoLeafTree) (p : Pair) (fuel : Nat) (a0 a1 : NodeArray)
    (hfirst : c.FirstContactEnabled = true) (htc : c.TemporalCoherenceEnabled = true)
    (h0 : tree0.mNodes = some a0) (h1 : tree1.mNodes = some a1) (hsz : 0 < sz)
    (hne0 : a0.cells ≠ []) (hne1 : a1.cells ≠ [])
    (hf0 : a0.ForwardRefs sz) (hf1 : a1.ForwardRefs sz)
    (hfuel : a0.cells.length + a1.cells.length ≤ fuel) :
    (g.TriTriOverlap p.id0 p.id1 = true →
      c.Collide g sz tree0 tree1 (some p) fuel =
        some (true,
          { c with mContact := true, mPairs := [p.id0, p.id1],
                   tests := [OverlapTest.TriTri p.id0 p.id1 true] },
          some p)) ∧
    (g.TriTriOverlap p.id0 p.id1 = false →
      ∃ c1 cache1,
        AABBTreeCollider._Collide g sz a0 a1 fuel a0.base a1.base
          { c with mContact := false, mPairs := [],
                   tests := [OverlapTest.TriTri p.id0 p.id1 false] } = some c1 ∧
        c1.UPDATE_CACHE (some p) = some cache1 ∧
        c.Collide g sz tree0 tree1 (some p) fuel = some (true, c1, cache1)) := by
  have hfirst1 : c.mFirstContact = true := hfirst
  have htc1 : c.mTemporalCoherence = true := htc
  constructor
  · intro hit
    simp [AABBTreeCollider.Collide, AABBTreeCollider.CheckTemporalCoherence,
      AABBTreeCollider.InitQuery, AABBTreeCollider.PrimTest,
      AABBTreeCollider.TemporalCoherenceEnabled, AABBTreeCollider.FirstContactEnabled,
      AABBTreeCollider.GetContactStatus, hfirst1, htc1, hit]
  · intro miss
    obtain ⟨hI, hIc⟩ := AABBTreeCollider.atMostOne_InitQuery c hfirst1
    have hl := AABBTreeCollider.atMostOne_log c.InitQuery
      (OverlapTest.TriTri p.id0 p.id1 false) rfl hI hIc
    obtain ⟨c1, e1⟩ := AABBTreeCollider.returns_Collide g sz a0 a1 hf0 hf1 fuel a0.base
      a1.base 0 0 (AABBTreeCollider.index_base sz hsz a0 hne0)
      (AABBTreeCollider.index_base sz hsz a1 hne1) (by omega)
      { c with mContact := false, mPairs := [],
               tests := [OverlapTest.TriTri p.id0 p.id1 false] }
    have hk := AABBTreeCollider.keeps_Collide g sz a0 a1 fuel a0.base a1.base _ c1 hl rfl e1
    have hu : ∃ cache1, c1.UPDATE_CACHE (some p) = some cache1 := by
      cases hs : c1.mContact with
      | false =>
        exact ⟨some p, by
          simp [AABBTreeCollider.UPDATE_CACHE, AABBTreeCollider.GetContactStatus, hs]⟩
      | true =>
        obtain ⟨l, i0, i1, _, e2, _⟩ := hk.2.2 hs
        exact ⟨some ⟨i0, i1⟩, by
          simp [AABBTreeCollider.UPDATE_CACHE, AABBTreeCollider.GetContactStatus, hs, e2]⟩
    obtain ⟨cache1, e2⟩ := hu
    refine ⟨c1, cache1, e1, e2, ?_⟩
    have e1b : AABBTreeCollider._Collide g sz a0 a1 fuel a0.base a1.base
        { mFirstContact := true, mTemporalCoherence := true, mContact := false, mPairs := [],
          mLeafIndex := c.mLeafIndex, mLeafMesh1 := c.mLeafMesh1,
          tests := [OverlapTest.TriTri p.id0 p.id1 false] } = some c1 := by
      rw [← e1, hfirst1, htc1]
    simp [AABBTreeCollider.Collide, AABBTreeCollider.CheckTemporalCoherence,
      AABBTreeCollider.InitQuery, AABBTreeCollider.PrimTest,
      AABBTreeCollider.TemporalCoherenceEnabled, AABBTreeCollider.FirstContactEnabled,
      AABBTreeCollider.GetContactStatus, hfirst1, htc1, miss, h0, h1, e1b, e2]

/-- Witness for `Collide_cached_pair`: the sample array against itself with the sample
oracle, both modes enabled and the cached pair (6, 6), which overlaps. -/
theorem Collide_cached_pair_witness :
    AABBTreeCollider.FirstContactEnabled { sampleCollider with mTemporalCoherence := true } =
      true ∧
    AABBTreeCollider.TemporalCoherenceEnabled
      { sampleCollider with mTemporalCoherence := true } = true ∧
    AABBTreeCollider.Collide sampleOracle 40 { sampleCollider with mTemporalCoherence := true }
        ⟨2, some sampleArray⟩ ⟨2, some sampleArray⟩ (some ⟨6, 6⟩) 4 =
      some (true,
        { mFirstContact := true, mTemporalCoherence := true, mContact := true,
          mPairs := [6, 6], mLeafIndex := 0, mLeafMesh1 := false,
          tests := [OverlapTest.TriTri 6 6 true] },
        some ⟨6, 6⟩) :=
  ⟨rfl, rfl,
   (Collide_cached_pair sampleOracle 40 { sampleCollider with mTemporalCoherence := true }
    ⟨2, some sampleArray⟩ ⟨2, some sampleArray⟩ ⟨6, 6⟩ 4 sampleArray sampleArray rfl rfl rfl
    rfl (by decide)
    (List.ne_nil_of_length_pos
      (by simp [sampleArray, flatten_length, sampleTree, AABBTreeNode.internalCount]))
    (List.ne_nil_of_length_pos
      (by simp [sampleArray, flatten_length, sampleTree, AABBTreeNode.internalCount]))
    (flatten_forwardRefs 40 4096 (by decide) sampleTree.root)
    (flatten_forwardRefs 40 4096 (by decide) sampleTree.root)
    (by simp [sampleArray, flatten_length, sampleTree, AABBTreeNode.internalCount])).1 rfl⟩

/-! ### Ray / mesh collider -/

/-- The loops of `dCollideRTL` entered below the cap return, keep the contacts already
emitted, and emit contacts of the reported faces only. -/
theorem dCollideRTL_loop_ok (FetchTriangle : Int → dVector3 × dVector3 × dVector3)
    (dSafeNormalize3 : dVector3 → Bool × dVector3) (TriGeom RayGeom Flags : Nat)
    (Origin Direction : dVector3) (RayCallback : Option (Int → ℚ → ℚ → Bool)) :
    ∀ (Faces : List CollisionFace) (OutTriCount : Nat) (Contacts : List dContactGeom),
      OutTriCount < Flags &&& NUMC_MASK → Flags &&& NUMC_MASK ≤ Contacts.length →
      ∃ n C, dCollideRTL_loop FetchTriangle dSafeNormalize3 TriGeom RayGeom Flags Origin
          Direction RayCallback Faces OutTriCount Contacts = some (n, C) ∧
        OutTriCount ≤ n ∧ n ≤ Flags &&& NUMC_MASK ∧ C.length = Contacts.length ∧
        (∀ k, k < OutTriCount → C[k]? = Contacts[k]?) ∧
        ∀ k, OutTriCount ≤ k → k < n → ∃ face ∈ Faces, ∃ c, C[k]? = some c ∧
          RayContactOf Origin Direction RayCallback face c := by
  intro Faces
  induction Faces with
  | nil =>
    intro n C hn _
    exact ⟨n, C, rfl, le_refl _, Nat.le_of_lt hn, rfl, fun _ _ => rfl,
      fun k h1 h2 => absurd h2 (by omega)⟩
  | cons face rest ih =>
    intro cnt C hn hlen
    rw [dCollideRTL_loop]
    by_cases hcb : rayCallbackPasses RayCallback (udwordToInt face.mFaceID) face.mU face.mV
        = true
    · have hcb2 : ∀ cb, RayCallback = some cb →
          cb (udwordToInt face.mFaceID) face.mU face.mV = true := by
        intro cb e
        rw [e] at hcb
        exact hcb
      simp only [hcb, if_true]
      obtain ⟨Contact, hC⟩ : ∃ Contact, SAFECONTACT Flags C cnt = some Contact := by
        unfold SAFECONTACT
        rw [if_pos hn]
        exact ⟨C.get ⟨cnt, by omega⟩, List.getElem?_eq_getElem (by omega)⟩
      simp only [hC]
      by_cases hnorm : (dSafeNormalize3 (((FetchTriangle (udwordToInt face.mFaceID)).2.2.sub
          (FetchTriangle (udwordToInt face.mFaceID)).1).cross
          ((FetchTriangle (udwordToInt face.mFaceID)).2.1.sub
            (FetchTriangle (udwordToInt face.mFaceID)).1))).1 = true
      · simp only [hnorm, if_true]
        have hnew : ∀ (C1 : List dContactGeom) (c : dContactGeom), C1 = C.set cnt c →
            RayContactOf Origin Direction RayCallback face c →
            ∀ (n : Nat) (C2 : List dContactGeom), cnt + 1 ≤ n → C2.length = C1.length →
              (∀ k, k < cnt + 1 → C2[k]? = C1[k]?) →
              (∀ k, k < cnt → C2[k]? = C[k]?) ∧
              ∀ k, cnt ≤ k → k < cnt + 1 → ∃ f ∈ face :: rest, ∃ c, C2[k]? = some c ∧
                RayContactOf Origin Direction RayCallback f c := by
          intro C1 c e hc n C2 _ hl hk
          constructor
          · intro k hk1
            rw [hk k (by omega), e, List.getElem?_set_ne (by omega)]
          · intro k h1 h2
            have : k = cnt := by omega
            subst this
            refine ⟨face, List.mem_cons_self _ _, c, ?_, hc⟩
            rw [hk k (by omega), e]
            exact getElem?_set_same C k c (by omega)
        have hrc : RayContactOf Origin Direction RayCallback face
            { pos := dAddScaledVector3 Origin Direction face.mDistance,
              normal := (dSafeNormalize3 (((FetchTriangle (udwordToInt face.mFaceID)).2.2.sub
                (FetchTriangle (udwordToInt face.mFaceID)).1).cross
                ((FetchTriangle (udwordToInt face.mFaceID)).2.1.sub
                  (FetchTriangle (udwordToInt face.mFaceID)).1))).2,
              depth := face.mDistance, g1 := TriGeom, g2 := RayGeom,
              side1 := udwordToInt face.mFaceID, side2 := -1 } :=
          ⟨rfl, rfl, rfl, rfl, hcb2⟩
        by_cases hcap : cnt + 1 ≥ Flags &&& NUMC_MASK
        · rw [if_pos hcap]
          obtain ⟨g1, g2⟩ := hnew _ _ rfl hrc (cnt + 1) _ (le_refl _) rfl (fun _ _ => rfl)
          exact ⟨_, _, rfl, by omega, by omega, by simp, g1, g2⟩
        · rw [if_neg hcap]
          obtain ⟨n, C2, e, i1, i2, i3, i4, i5⟩ := ih (cnt + 1) (C.set cnt _) (by omega)
            (by simp; exact hlen)
          obtain ⟨g1, g2⟩ := hnew _ _ rfl hrc n C2 i1 i3 i4
          refine ⟨n, C2, e, by omega, i2, by rw [i3]; simp, g1, ?_⟩
          intro k h1 h2
          by_cases hk : k < cnt + 1
          · exact g2 k h1 hk
          · obtain ⟨f, hf, c, e1, e2⟩ := i5 k (by omega) h2
            exact ⟨f, List.mem_cons_of_mem _ hf, c, e1, e2⟩
      · simp only [hnorm, if_false, Bool.false_eq_true]
        obtain ⟨n, C2, e, i1, i2, i3, i4, i5⟩ := ih cnt (C.set cnt _) hn (by simp; exact hlen)
        refine ⟨n, C2, e, i1, i2, by rw [i3]; simp, ?_, ?_⟩
        · intro k hk
          rw [i4 k hk, List.getElem?_set_ne (by omega)]
        · intro k h1 h2
          obtain ⟨f, hf, c, e1, e2⟩ := i5 k h1 h2
          exact ⟨f, List.mem_cons_of_mem _ hf, c, e1, e2⟩
    · simp only [hcb, if_false, Bool.false_eq_true]
      obtain ⟨n, C2, e, i1, i2, i3, i4, i5⟩ := ih cnt C hn hlen
      refine ⟨n, C2, e, i1, i2, i3, i4, ?_⟩
      intro k h1 h2
      obtain ⟨f, hf, c, e1, e2⟩ := i5 k h1 h2
      exact ⟨f, List.mem_cons_of_mem _ hf, c, e1, e2⟩

/-- C17: `dCollideRTL` (cap `N = Flags & NUMC_MASK` at least 1, at least `N` contacts in the
caller's array) returns a count `n ≤ N`, and each of the `n` emitted contacts belongs to a
reported face: its depth is the face's hit distance `T`, its position is
`Origin + T * Direction`, `side1` is the face's triangle index (`mFaceID` read as `int`,
the index itself below 2^31), `side2 = -1`, and when a ray callback is installed the callback
returned true for that face. -/
theorem dCollideRTL_contacts (FetchTriangle : Int → dVector3 × dVector3 × dVector3)
    (dSafeNormalize3 : dVector3 → Bool × dVector3) (TriGeom RayGeom Flags : Nat)
    (Contacts : List dContactGeom) (Origin Direction : dVector3)
    (RayCallback : Option (Int → ℚ → ℚ → Bool)) (collided : Bool)
    (Faces : List CollisionFace)
    (hN : 1 ≤ Flags &&& NUMC_MASK) (hlen : Flags &&& NUMC_MASK ≤ Contacts.length) :
    ∃ n C, dCollideRTL FetchTriangle dSafeNormalize3 TriGeom RayGeom Flags Contacts Origin
        Direction RayCallback collided Faces = some (n, C) ∧
      n ≤ Flags &&& NUMC_MASK ∧
      ∀ k, k < n → ∃ face ∈ Faces, ∃ c, C[k]? = some c ∧
        RayContactOf Origin Direction RayCallback face c ∧
        (face.mFaceID < 2 ^ 31 → c.side1 = (face.mFaceID : Int)) := by
  unfold dCollideRTL
  rw [if_neg (by omega)]
  by_cases h0 : (if collided = true then Faces.length else 0) = 0
  · simp only [h0, if_true]
    exact ⟨0, Contacts, rfl, Nat.zero_le _, fun k hk => absurd hk (by omega)⟩
  · simp only [h0, if_false]
    obtain ⟨n, C, e, _, i2, _, _, i5⟩ := dCollideRTL_loop_ok FetchTriangle dSafeNormalize3
      TriGeom RayGeom Flags Origin Direction RayCallback Faces 0 Contacts (by omega) hlen
    refine ⟨n, C, e, i2, fun k hk => ?_⟩
    obtain ⟨face, hf, c, e1, e2⟩ := i5 k (Nat.zero_le _) hk
    refine ⟨face, hf, c, e1, e2, fun hlt => ?_⟩
    rw [e2.2.2.1]
    unfold udwordToInt
    have : face.mFaceID % 2 ^ 32 = face.mFaceID := Nat.mod_eq_of_lt (by omega)
    rw [this, if_pos hlt]

/-- Witness for `dCollideRTL_contacts`: cap 2, one reported face with hit distance 2 on a ray
from (0, 0, -2) along (0, 0, 1), no callback. -/
theorem dCollideRTL_contacts_witness :
    1 ≤ 2 &&& NUMC_MASK ∧ 2 &&& NUMC_MASK ≤ [sampleContact, sampleContact].length ∧
    ∃ n C, dCollideRTL (fun _ => (⟨0, 0, 0⟩, ⟨1, 0, 0⟩, ⟨0, 1, 0⟩)) (fun v => (true, v)) 7 8 2
        [sampleContact, sampleContact] ⟨0, 0, -2⟩ ⟨0, 0, 1⟩ none true [⟨3, 2, 0, 0⟩] =
          some (n, C) ∧
      n ≤ 2 &&& NUMC_MASK ∧
      ∀ k, k < n → ∃ face ∈ [(⟨3, 2, 0, 0⟩ : CollisionFace)], ∃ c, C[k]? = some c ∧
        RayContactOf ⟨0, 0, -2⟩ ⟨0, 0, 1⟩ none face c ∧
        (face.mFaceID < 2 ^ 31 → c.side1 = (face.mFaceID : Int)) :=
  ⟨by decide, by decide,
   dCollideRTL_contacts (fun _ => (⟨0, 0, 0⟩, ⟨1, 0, 0⟩, ⟨0, 1, 0⟩)) (fun v => (true, v)) 7 8 2
     [sampleContact, sampleContact] ⟨0, 0, -2⟩ ⟨0, 0, 1⟩ none true [⟨3, 2, 0, 0⟩]
     (by decide) (by decide)⟩

/-! ### Box / mesh collider: deduplication -/

/-- The scan of `GenerateContact` inside the array view returns; it leaves every contact of
the scanned range as `GenerateContact_scanned` says and every other contact as it was, and
the flag `duplicate` is raised exactly when it was raised before or a scanned contact passed
the test. -/
theorem GenerateContact_scan_spec (dEpsilon : ℚ) (Flags : Nat) (p nrm : dVector3) (dep : ℚ) :
    ∀ (k i : Nat) (Contacts : List dContactGeom) (dup : Bool),
      i + k ≤ Flags &&& NUMC_MASK → i + k ≤ Contacts.length →
      ∃ Contacts1 dup1, GenerateContact_scan dEpsilon Flags p nrm dep k i Contacts dup =
          some (Contacts1, dup1) ∧ Contacts1.length = Contacts.length ∧
        (∀ (m : Nat) (c : dContactGeom), Contacts[m]? = some c →
          Contacts1[m]? = some (if i ≤ m ∧ m < i + k then
            GenerateContact_scanned dEpsilon p nrm dep c else c)) ∧
        (dup1 = true ↔ (dup = true ∨ ∃ (m : Nat) (c : dContactGeom), i ≤ m ∧ m < i + k ∧
          Contacts[m]? = some c ∧ GenerateContact_same dEpsilon p nrm c = true)) := by
  intro k
  induction k with
  | zero =>
    intro i Contacts dup _ _
    refine ⟨Contacts, dup, rfl, rfl, ?_, ?_⟩
    · intro m c hc
      rw [if_neg (by omega)]; exact hc
    · constructor
      · intro h; exact Or.inl h
      · rintro (h | ⟨m, c, h1, h2, _⟩)
        · exact h
        · omega
  | succ k ih =>
    intro i Contacts dup h1 h2
    have hi : i < Contacts.length := by omega
    have hci : Contacts[i]? = some Contacts[i] := List.getElem?_eq_getElem hi
    simp only [GenerateContact_scan, SAFECONTACT_some Flags Contacts i (by omega) hi]
    by_cases hmatch : (p.sub Contacts[i].pos).SquareMagnitude < dEpsilon ∧
        1 - |nrm.dot Contacts[i].normal| < dEpsilon
    · rw [if_pos hmatch]
      have hsame : GenerateContact_same dEpsilon p nrm Contacts[i] = true := by
        simp only [GenerateContact_same, decide_eq_true_eq]; exact hmatch
      obtain ⟨c1, d1, e1, e2, e3, e4⟩ := ih (i + 1) (Contacts.set i
        (if dep > Contacts[i].depth then { Contacts[i] with depth := dep } else Contacts[i]))
        true (by omega) (by simp; omega)
      refine ⟨c1, d1, e1, by rw [e2]; simp, ?_, ?_⟩
      · intro m c hc
        by_cases hmi : m = i
        · subst hmi
          rw [hci] at hc
          have hc2 := Option.some.inj hc
          have hr1 : ¬ (m + 1 ≤ m ∧ m < m + 1 + k) := by omega
          have hr2 : m ≤ m ∧ m < m + (k + 1) := by omega
          rw [e3 m _ (getElem?_set_same Contacts m _ hi), ← hc2]
          simp only [hr1, hr2, GenerateContact_scanned, hsame, if_true, if_false, and_self]
        · rw [e3 m c (by rw [List.getElem?_set_ne (Ne.symm hmi)]; exact hc)]
          by_cases hr : i + 1 ≤ m ∧ m < i + 1 + k
          · rw [if_pos hr, if_pos (by omega)]
          · rw [if_neg hr, if_neg (by omega)]
      · constructor
        · intro _
          exact Or.inr ⟨i, Contacts[i], le_refl _, by omega, hci, hsame⟩
        · intro _
          exact e4.mpr (Or.inl rfl)
    · rw [if_neg hmatch]
      have hsame : GenerateContact_same dEpsilon p nrm Contacts[i] = false := by
        simp only [GenerateContact_same, decide_eq_false_iff_not]; exact hmatch
      obtain ⟨c1, d1, e1, e2, e3, e4⟩ := ih (i + 1) Contacts dup (by omega) (by omega)
      refine ⟨c1, d1, e1, e2, ?_, ?_⟩
      · intro m c hc
        rw [e3 m c hc]
        by_cases hmi : m = i
        · subst hmi
          rw [hci] at hc
          have hc2 := Option.some.inj hc
          have hr1 : ¬ (m + 1 ≤ m ∧ m < m + 1 + k) := by omega
          have hr2 : m ≤ m ∧ m < m + (k + 1) := by omega
          rw [← hc2]
          simp only [hr1, hr2, GenerateContact_scanned, hsame, if_true, if_false, and_self,
            Bool.false_eq_true]
        · by_cases hr : i + 1 ≤ m ∧ m < i + 1 + k
          · rw [if_pos hr, if_pos (by omega)]
          · rw [if_neg hr, if_neg (by omega)]
      · rw [e4]
        constructor
        · rintro (h | ⟨m, c, g1, g2, g3, g4⟩)
          · exact Or.inl h
          · exact Or.inr ⟨m, c, by omega, by omega, g3, g4⟩
        · rintro (h | ⟨m, c, g1, g2, g3, g4⟩)
          · exact Or.inl h
          · by_cases hmi : m = i
            · subst hmi
              rw [hci] at g3
              rw [← Option.some.inj g3, hsame] at g4
              exact absurd g4 (by simp)
            · exact Or.inr ⟨m, c, by omega, by omega, g3, g4⟩

/-- The scan changes the depth of a contact only. -/
theorem GenerateContact_scanned_fields (dEpsilon : ℚ) (p nrm : dVector3) (dep : ℚ)
    (c : dContactGeom) :
    (GenerateContact_scanned dEpsilon p nrm dep c).pos = c.pos ∧
    (GenerateContact_scanned dEpsilon p nrm dep c).normal = c.normal ∧
    (GenerateContact_scanned dEpsilon p nrm dep c).g1 = c.g1 ∧
    (GenerateContact_scanned dEpsilon p nrm dep c).g2 = c.g2 ∧
    (GenerateContact_scanned dEpsilon p nrm dep c).side1 = c.side1 ∧
    (GenerateContact_scanned dEpsilon p nrm dep c).side2 = c.side2 ∧
    (GenerateContact_scanned dEpsilon p nrm dep c).depth =
      if GenerateContact_same dEpsilon p nrm c = true then max c.depth dep else c.depth := by
  unfold GenerateContact_scanned
  by_cases h : GenerateContact_same dEpsilon p nrm c = true
  · by_cases h2 : dep > c.depth
    · simp only [h, h2, if_true]
      exact ⟨by trivial, by trivial, by trivial, by trivial, by trivial, by trivial,
        (max_eq_right (le_of_lt h2)).symm⟩
    · simp only [h, h2, if_true, if_false]
      exact ⟨by trivial, by trivial, by trivial, by trivial, by trivial, by trivial,
        (max_eq_left (not_lt.mp h2)).symm⟩
  · simp only [h, if_false]
    exact ⟨by trivial, by trivial, by trivial, by trivial, by trivial, by trivial, by trivial⟩

/-- The test of the scan reads the position and the normal of the stored contact only. -/
theorem GenerateContact_same_congr (dEpsilon : ℚ) (p nrm : dVector3) (c c1 : dContactGeom)
    (h1 : c1.pos = c.pos) (h2 : c1.normal = c.normal) :
    GenerateContact_same dEpsilon p nrm c1 = GenerateContact_same dEpsilon p nrm c := by
  unfold GenerateContact_same
  rw [h1, h2]

/-- C12: with the contacts-unimportant flag clear, a `GenerateContact` call whose position and
normal pass the test of the scan (squared distance below `dEpsilon` and
`1 - |n.n'| < dEpsilon`) against a stored contact appends nothing: the count is unchanged,
every contact keeps its position, normal, geoms and sides, the depth of every stored contact
that passes the test becomes the maximum of its old depth and the new depth, and every other
depth is unchanged. -/
theorem GenerateContact_duplicate (dEpsilon : ℚ) (Flags : Nat) (Contacts : List dContactGeom)
    (g1 g2 : Nat) (TriIndex : Int) (p nrm : dVector3) (dep : ℚ) (count m : Nat)
    (stored : dContactGeom)
    (hflag : Flags &&& CONTACTS_UNIMPORTANT = 0)
    (hlen : Flags &&& NUMC_MASK ≤ Contacts.length) (hc : count ≤ Flags &&& NUMC_MASK)
    (hm : m < count) (hs : Contacts[m]? = some stored)
    (hsame : GenerateContact_same dEpsilon p nrm stored = true) :
    ∃ Contacts1,
      GenerateContact dEpsilon Flags Contacts g1 g2 TriIndex p nrm dep count =
        some (Contacts1, count) ∧
      Contacts1.length = Contacts.length ∧
      ∀ (i : Nat) (c : dContactGeom), Contacts[i]? = some c →
        ∃ c1, Contacts1[i]? = some c1 ∧ c1.pos = c.pos ∧ c1.normal = c.normal ∧
          c1.g1 = c.g1 ∧ c1.g2 = c.g2 ∧ c1.side1 = c.side1 ∧ c1.side2 = c.side2 ∧
          c1.depth = if i < count ∧ GenerateContact_same dEpsilon p nrm c = true then
            max c.depth dep else c.depth := by
  obtain ⟨Cs, dup, e1, e2, e3, e4⟩ := GenerateContact_scan_spec dEpsilon Flags p nrm dep count 0
    Contacts false (by omega) (by omega)
  have hdup : dup = true := e4.mpr (Or.inr ⟨m, stored, Nat.zero_le _, by omega, hs, hsame⟩)
  refine ⟨Cs, ?_, e2, ?_⟩
  · simp only [GenerateContact, hflag, if_true, e1, hdup, true_or]
  · intro i c hic
    have := e3 i c hic
    by_cases hi : i < count
    · rw [if_pos (by omega)] at this
      obtain ⟨f1, f2, f3, f4, f5, f6, f7⟩ := GenerateContact_scanned_fields dEpsilon p nrm dep c
      refine ⟨_, this, f1, f2, f3, f4, f5, f6, ?_⟩
      rw [f7]
      by_cases hsm : GenerateContact_same dEpsilon p nrm c = true
      · rw [if_pos hsm, if_pos ⟨hi, hsm⟩]
      · rw [if_neg hsm, if_neg (fun h => hsm h.2)]
    · rw [if_neg (by omega)] at this
      exact ⟨c, this, rfl, rfl, rfl, rfl, rfl, rfl, by rw [if_neg (fun h => hi h.1)]⟩

/-- Witness for `GenerateContact_duplicate`: cap 2, one stored contact at the origin with
normal (0, 0, 1) and depth 0, a new contact at the same place with depth 1. -/
theorem GenerateContact_duplicate_witness :
    (2 : Nat) &&& CONTACTS_UNIMPORTANT = 0 ∧
    GenerateContact_same (1 / 10000) ⟨0, 0, 0⟩ ⟨0, 0, 1⟩ sampleContact = true ∧
    ∃ Contacts1,
      GenerateContact (1 / 10000) 2 [sampleContact, sampleContact] 0 1 3 ⟨0, 0, 0⟩ ⟨0, 0, 1⟩ 1 1 =
        some (Contacts1, 1) ∧
      Contacts1.length = [sampleContact, sampleContact].length ∧
      ∀ (i : Nat) (c : dContactGeom), [sampleContact, sampleContact][i]? = some c →
        ∃ c1, Contacts1[i]? = some c1 ∧ c1.pos = c.pos ∧ c1.normal = c.normal ∧
          c1.g1 = c.g1 ∧ c1.g2 = c.g2 ∧ c1.side1 = c.side1 ∧ c1.side2 = c.side2 ∧
          c1.depth = if i < 1 ∧ GenerateContact_same (1 / 10000) ⟨0, 0, 0⟩ ⟨0, 0, 1⟩ c = true
            then max c.depth 1 else c.depth := by
  have hsame : GenerateContact_same (1 / 10000) ⟨0, 0, 0⟩ ⟨0, 0, 1⟩ sampleContact = true := by
    simp [GenerateContact_same, sampleContact, Point.sub, Point.dot, Point.SquareMagnitude]
  exact ⟨by decide, hsame,
    GenerateContact_duplicate (1 / 10000) 2 [sampleContact, sampleContact] 0 1 3 ⟨0, 0, 0⟩
      ⟨0, 0, 1⟩ 1 1 0 sampleContact (by decide) (by decide) (by decide) (by decide) rfl hsame⟩

/-- One call of `GenerateContact` with the contacts-unimportant flag clear returns, keeps the
count within the cap and keeps the stored contacts pairwise distinct for the test of the
scan. -/
theorem GenerateContact_distinct_step (dEpsilon : ℚ) (Flags : Nat)
    (Contacts : List dContactGeom) (g1 g2 : Nat) (TriIndex : Int) (p nrm : dVector3) (dep : ℚ)
    (count : Nat) (hflag : Flags &&& CONTACTS_UNIMPORTANT = 0)
    (hlen : Flags &&& NUMC_MASK ≤ Contacts.length) (hc : count ≤ Flags &&& NUMC_MASK)
    (hd : GenerateContact_distinct dEpsilon Contacts count) :
    ∃ Contacts1 count1,
      GenerateContact dEpsilon Flags Contacts g1 g2 TriIndex p nrm dep count =
        some (Contacts1, count1) ∧
      Contacts1.length = Contacts.length ∧ count1 ≤ Flags &&& NUMC_MASK ∧
      GenerateContact_distinct dEpsilon Contacts1 count1 := by
  obtain ⟨Cs, dup, e1, e2, e3, e4⟩ := GenerateContact_scan_spec dEpsilon Flags p nrm dep count 0
    Contacts false (by omega) (by omega)
  have hold : ∀ (i : Nat) (ci : dContactGeom), i < count → Cs[i]? = some ci →
      ∃ c, Contacts[i]? = some c ∧ ci.pos = c.pos ∧ ci.normal = c.normal := by
    intro i ci hi hci
    have hl : i < Contacts.length := by omega
    have h := e3 i _ (List.getElem?_eq_getElem hl)
    rw [if_pos (by omega), hci] at h
    obtain ⟨f1, f2, _⟩ := GenerateContact_scanned_fields dEpsilon p nrm dep (Contacts.get ⟨i, hl⟩)
    refine ⟨_, List.getElem?_eq_getElem hl, ?_, ?_⟩
    · rw [Option.some.inj h]; exact f1
    · rw [Option.some.inj h]; exact f2
  have hkeep : GenerateContact_distinct dEpsilon Cs count := by
    intro i j ci cj hij hj hi1 hj1
    obtain ⟨c, a1, a2, a3⟩ := hold i ci (by omega) hi1
    obtain ⟨d, b1, b2, b3⟩ := hold j cj hj hj1
    rw [b2, b3, GenerateContact_same_congr dEpsilon d.pos d.normal c ci a2 a3]
    exact hd i j c d hij hj a1 b1
  simp only [GenerateContact, hflag, if_true, e1]
  by_cases hret : dup = true ∨ count = Flags &&& NUMC_MASK
  · rw [if_pos hret]
    exact ⟨Cs, count, rfl, e2, hc, hkeep⟩
  · rw [if_neg hret]
    have hlt : count < Flags &&& NUMC_MASK := by
      rcases Nat.lt_or_ge count (Flags &&& NUMC_MASK) with h | h
      · exact h
      · exact absurd (Or.inr (Nat.le_antisymm hc h)) hret
    have hnd : ∀ (i : Nat) (c : dContactGeom), i < count → Contacts[i]? = some c →
        GenerateContact_same dEpsilon p nrm c = false := by
      intro i c hi hic
      cases hs : GenerateContact_same dEpsilon p nrm c with
      | false => rfl
      | true =>
        exact absurd (Or.inl (e4.mpr (Or.inr ⟨i, c, Nat.zero_le _, by omega, hic, hs⟩))) hret
    simp only [SAFECONTACT_store, SAFECONTACT_some Flags Cs count hlt (by omega)]
    refine ⟨_, _, rfl, by simp [e2], by omega, ?_⟩
    intro i j ci cj hij hj hi1 hj1
    rw [List.getElem?_set_ne (by omega)] at hi1
    by_cases hjc : j = count
    · subst hjc
      rw [getElem?_set_same Cs j _ (by omega)] at hj1
      rw [← Option.some.inj hj1]
      obtain ⟨c, a1, a2, a3⟩ := hold i ci hij hi1
      show GenerateContact_same dEpsilon p nrm ci = false
      rw [GenerateContact_same_congr dEpsilon p nrm c ci a2 a3]
      exact hnd i c hij a1
    · rw [List.getElem?_set_ne (by omega)] at hj1
      exact hkeep i j ci cj hij (by omega) hi1 hj1

/-- A sequence of calls of `GenerateContact` with the contacts-unimportant flag clear returns,
keeps the count within the cap and keeps the stored contacts pairwise distinct for the test
of the scan. -/
theorem GenerateContact_calls_distinct (dEpsilon : ℚ) (Flags : Nat)
    (hflag : Flags &&& CONTACTS_UNIMPORTANT = 0) :
    ∀ (calls : List ContactCall) (Contacts : List dContactGeom) (count : Nat),
      Flags &&& NUMC_MASK ≤ Contacts.length → count ≤ Flags &&& NUMC_MASK →
      GenerateContact_distinct dEpsilon Contacts count →
      ∃ Contacts1 count1,
        GenerateContact_calls dEpsilon Flags calls Contacts count = some (Contacts1, count1) ∧
        count1 ≤ Flags &&& NUMC_MASK ∧ GenerateContact_distinct dEpsilon Contacts1 count1 := by
  intro calls
  induction calls with
  | nil => intro Contacts count _ hc hd; exact ⟨Contacts, count, rfl, hc, hd⟩
  | cons call rest ih =>
    intro Contacts count hlen hc hd
    obtain ⟨C1, n1, e1, e2, e3, e4⟩ := GenerateContact_distinct_step dEpsilon Flags Contacts
      call.in_g1 call.in_g2 call.TriIndex call.in_ContactPos call.in_Normal call.in_Depth count
      hflag hlen hc hd
    obtain ⟨C2, n2, f1, f2, f3⟩ := ih C1 n1 (by omega) e3 e4
    exact ⟨C2, n2, by simp only [GenerateContact_calls, e1, f1], f2, f3⟩

/-- C11, with the thresholds of the code: with the contacts-unimportant flag clear, any
sequence of `GenerateContact` calls starting from an empty buffer (count 0, at least `N`
contacts in the caller's array) returns with a count within the cap, and no stored contact
passes the test of the scan (squared distance below `dEpsilon` and `1 - |n.n'| < dEpsilon`)
against another stored contact, whatever the value of `dEpsilon`. When `dEpsilon` is at least
1e-4 it follows that no two stored contacts have both positions closer than 1e-4 (squared
distance below 1e-4 squared) and normals within 1e-4 of parallel (`1 - |n.n'| < 1e-4`). -/
theorem GenerateContact_unique (dEpsilon : ℚ) (Flags : Nat) (calls : List ContactCall)
    (Contacts : List dContactGeom)
    (hflag : Flags &&& CONTACTS_UNIMPORTANT = 0)
    (hlen : Flags &&& NUMC_MASK ≤ Contacts.length) :
    ∃ Contacts1 count,
      GenerateContact_calls dEpsilon Flags calls Contacts 0 = some (Contacts1, count) ∧
      count ≤ Flags &&& NUMC_MASK ∧
      (∀ (i j : Nat) (ci cj : dContactGeom), i ≠ j → i < count → j < count →
        Contacts1[i]? = some ci → Contacts1[j]? = some cj →
        GenerateContact_same dEpsilon ci.pos ci.normal cj = false) ∧
      (1 / 10000 ≤ dEpsilon →
        ∀ (i j : Nat) (ci cj : dContactGeom), i ≠ j → i < count → j < count →
          Contacts1[i]? = some ci → Contacts1[j]? = some cj →
          ¬ ((ci.pos.sub cj.pos).SquareMagnitude < (1 / 10000) ^ 2 ∧
            1 - |ci.normal.dot cj.normal| < 1 / 10000)) := by
  obtain ⟨C1, n, e1, e2, e3⟩ := GenerateContact_calls_distinct dEpsilon Flags hflag calls
    Contacts 0 hlen (Nat.zero_le _) (fun i j _ _ _ hj => absurd hj (by omega))
  have hsym : ∀ (a b : dContactGeom), GenerateContact_same dEpsilon a.pos a.normal b =
      GenerateContact_same dEpsilon b.pos b.normal a := by
    intro a b
    have h1 : (a.pos.sub b.pos).SquareMagnitude = (b.pos.sub a.pos).SquareMagnitude := by
      simp only [Point.SquareMagnitude, Point.sub]; ring
    have h2 : a.normal.dot b.normal = b.normal.dot a.normal := by
      simp only [Point.dot]; ring
    simp only [GenerateContact_same, h1, h2]
  have key : ∀ (i j : Nat) (ci cj : dContactGeom), i ≠ j → i < n → j < n →
      C1[i]? = some ci → C1[j]? = some cj →
      GenerateContact_same dEpsilon ci.pos ci.normal cj = false := by
    intro i j ci cj hne hi hj hi1 hj1
    rcases Nat.lt_or_gt_of_ne hne with h | h
    · rw [hsym]; exact e3 i j ci cj h hj hi1 hj1
    · exact e3 j i cj ci h hi hj1 hi1
  refine ⟨C1, n, e1, e2, key, ?_⟩
  intro heps i j ci cj hne hi hj hi1 hj1 ⟨h1, h2⟩
  have h := key i j ci cj hne hi hj hi1 hj1
  simp only [GenerateContact_same, decide_eq_false_iff_not] at h
  apply h
  have : ((1 : ℚ) / 10000) ^ 2 ≤ 1 / 10000 := by norm_num
  exact ⟨by linarith, by linarith⟩

/-- Witness for `GenerateContact_unique`: `dEpsilon` = 1e-4, cap 2, two calls at the same
place. -/
theorem GenerateContact_unique_witness :
    (2 : Nat) &&& CONTACTS_UNIMPORTANT = 0 ∧
    2 &&& NUMC_MASK ≤ [sampleContact, sampleContact].length ∧ (1 : ℚ) / 10000 ≤ 1 / 10000 ∧
    ∃ Contacts1 count,
      GenerateContact_calls (1 / 10000) 2
          [⟨0, 1, 3, ⟨0, 0, 0⟩, ⟨0, 0, 1⟩, 1⟩, ⟨0, 1, 4, ⟨0, 0, 0⟩, ⟨0, 0, 1⟩, 2⟩]
          [sampleContact, sampleContact] 0 = some (Contacts1, count) ∧
      count ≤ 2 &&& NUMC_MASK ∧
      (∀ (i j : Nat) (ci cj : dContactGeom), i ≠ j → i < count → j < count →
        Contacts1[i]? = some ci → Contacts1[j]? = some cj →
        GenerateContact_same (1 / 10000) ci.pos ci.normal cj = false) ∧
      ((1 : ℚ) / 10000 ≤ 1 / 10000 →
        ∀ (i j : Nat) (ci cj : dContactGeom), i ≠ j → i < count → j < count →
          Contacts1[i]? = some ci → Contacts1[j]? = some cj →
          ¬ ((ci.pos.sub cj.pos).SquareMagnitude < (1 / 10000) ^ 2 ∧
            1 - |ci.normal.dot cj.normal| < 1 / 10000)) :=
  ⟨by decide, by decide, le_refl _,
   GenerateContact_unique (1 / 10000) 2
     [⟨0, 1, 3, ⟨0, 0, 0⟩, ⟨0, 0, 1⟩, 1⟩, ⟨0, 1, 4, ⟨0, 0, 0⟩, ⟨0, 0, 1⟩, 2⟩]
     [sampleContact, sampleContact] (by decide) (by decide)⟩

/-! ### Capsule / mesh collider: deduplication -/

/-- Every buffer is related to itself. -/
theorem dimmed_refl (cs : List sLocalContactData) : Dimmed cs cs :=
  ⟨rfl, fun _ c h => ⟨c, h, rfl, rfl, rfl, rfl, Or.inl rfl⟩⟩

/-- Filtering steps compose. -/
theorem dimmed_trans (cs cs1 cs2 : List sLocalContactData) (h1 : Dimmed cs cs1)
    (h2 : Dimmed cs1 cs2) : Dimmed cs cs2 := by
  refine ⟨h2.1.trans h1.1, fun k c hc => ?_⟩
  obtain ⟨c1, e1, a1, a2, a3, a4, a5⟩ := h1.2 k c hc
  obtain ⟨c2, e2, b1, b2, b3, b4, b5⟩ := h2.2 k c1 e1
  refine ⟨c2, e2, b1.trans a1, b2.trans a2, b3.trans a3, b4.trans a4, ?_⟩
  rcases b5 with h | h
  · rcases a5 with g | g
    · exact Or.inl (h.trans g)
    · exact Or.inr (h.trans g)
  · exact Or.inr h

/-- Clearing the flag of one contact is a filtering step. -/
theorem dimmed_set (cs : List sLocalContactData) (k : Nat) (c : sLocalContactData)
    (hc : cs[k]? = some c) : Dimmed cs (cs.set k { c with nFlags := 0 }) := by
  refine ⟨by simp, fun m cm hm => ?_⟩
  by_cases hmk : m = k
  · subst hmk
    have hlt : m < cs.length := by
      by_contra hcon
      rw [List.getElem?_eq_none (by omega)] at hc
      exact absurd hc (by simp)
    rw [hc] at hm
    rw [← Option.some.inj hm]
    exact ⟨_, getElem?_set_same cs m _ hlt, rfl, rfl, rfl, rfl, Or.inr rfl⟩
  · exact ⟨cm, by rw [List.getElem?_set_ne (Ne.symm hmk)]; exact hm, rfl, rfl, rfl, rfl,
      Or.inl rfl⟩

/-- Function `_IsNearContacts` reads positions and normals only. -/
theorem IsNearContacts_congr (c1 c2 d1 d2 : sLocalContactData) (h1 : d1.vPos = c1.vPos)
    (h2 : d1.vNormal = c1.vNormal) (h3 : d2.vPos = c2.vPos) (h4 : d2.vNormal = c2.vNormal) :
    _IsNearContacts d1 d2 = _IsNearContacts c1 c2 := by
  unfold _IsNearContacts
  rw [h1, h2, h3, h4]

/-- A filtered pair stays filtered through filtering steps. -/
theorem filteredPair_dimmed (cs cs1 : List sLocalContactData) (a b : Nat)
    (ha : a < cs.length) (hb : b < cs.length) (h : Dimmed cs cs1) (hf : FilteredPair cs a b) :
    FilteredPair cs1 a b := by
  intro ca cb hca hcb hnear
  obtain ⟨c1, e1, a1, a2, _, _, a5⟩ := h.2 a _ (List.getElem?_eq_getElem ha)
  obtain ⟨c2, e2, b1, b2, _, _, b5⟩ := h.2 b _ (List.getElem?_eq_getElem hb)
  rw [hca] at e1
  rw [hcb] at e2
  have e1 := Option.some.inj e1
  have e2 := Option.some.inj e2
  subst e1; subst e2
  rw [IsNearContacts_congr _ _ ca cb a1 a2 b1 b2] at hnear
  rcases hf _ _ (List.getElem?_eq_getElem ha) (List.getElem?_eq_getElem hb) hnear with g | g
  · rcases a5 with x | x
    · exact Or.inl (x.trans g)
    · exact Or.inl x
  · rcases b5 with x | x
    · exact Or.inr (x.trans g)
    · exact Or.inr x

/-- The inner filtering loop returns, is a filtering step, and leaves every pair it examined
filtered. -/
theorem OptimizeLocalContacts_inner_spec (i : Nat) :
    ∀ (k j : Nat) (cs : List sLocalContactData), i < j → j + k ≤ cs.length →
      ∃ cs1, _OptimizeLocalContacts_inner i k j cs = some cs1 ∧ Dimmed cs cs1 ∧
        ∀ m, j ≤ m → m < j + k → FilteredPair cs1 i m := by
  intro k
  induction k with
  | zero =>
    intro j cs _ _
    exact ⟨cs, rfl, dimmed_refl cs, fun m h1 h2 => absurd h2 (by omega)⟩
  | succ k ih =>
    intro j cs hij hjk
    have hi : i < cs.length := by omega
    have hj : j < cs.length := by omega
    have hci := List.getElem?_eq_getElem hi
    have hcj := List.getElem?_eq_getElem hj
    simp only [_OptimizeLocalContacts_inner, hci, hcj]
    have hstep : ∃ cs0, (if _IsNearContacts cs[i] cs[j] = true then
          (if _IsBetter cs[j] cs[i] = true then cs.set i { cs[i] with nFlags := 0 }
           else cs.set j { cs[j] with nFlags := 0 })
         else cs) = cs0 ∧ Dimmed cs cs0 ∧ FilteredPair cs0 i j := by
      by_cases hn : _IsNearContacts cs[i] cs[j] = true
      · by_cases hb : _IsBetter cs[j] cs[i] = true
        · refine ⟨_, by rw [if_pos hn, if_pos hb], dimmed_set cs i _ hci, ?_⟩
          intro ca cb hca _ _
          rw [getElem?_set_same cs i _ hi] at hca
          rw [← Option.some.inj hca]
          exact Or.inl rfl
        · refine ⟨_, by rw [if_pos hn, if_neg hb], dimmed_set cs j _ hcj, ?_⟩
          intro ca cb _ hcb _
          rw [getElem?_set_same cs j _ hj] at hcb
          rw [← Option.some.inj hcb]
          exact Or.inr rfl
      · refine ⟨cs, by rw [if_neg hn], dimmed_refl cs, ?_⟩
        intro ca cb hca hcb hnear
        rw [hci] at hca
        rw [hcj] at hcb
        rw [← Option.some.inj hca, ← Option.some.inj hcb] at hnear
        exact absurd hnear hn
    obtain ⟨cs0, e0, d0, f0⟩ := hstep
    rw [e0]
    obtain ⟨cs1, e1, d1, f1⟩ := ih (j + 1) cs0 (by omega) (by rw [d0.1]; omega)
    refine ⟨cs1, e1, dimmed_trans cs cs0 cs1 d0 d1, ?_⟩
    intro m hm1 hm2
    by_cases hmj : m = j
    · subst hmj
      exact filteredPair_dimmed cs0 cs1 i m (by rw [d0.1]; exact hi) (by rw [d0.1]; exact hj)
        d1 f0
    · exact f1 m (by omega) (by omega)

/-- The outer filtering loop returns, is a filtering step, and leaves every pair of the
first `n` contacts filtered. -/
theorem OptimizeLocalContacts_outer_spec (n : Nat) :
    ∀ (k i : Nat) (cs : List sLocalContactData), n ≤ cs.length → i + k + 1 = n →
      (∀ a b, a < i → a < b → b < n → FilteredPair cs a b) →
      ∃ cs1, _OptimizeLocalContacts_outer n k i cs = some cs1 ∧ Dimmed cs cs1 ∧
        ∀ a b, a < b → b < n → FilteredPair cs1 a b := by
  intro k
  induction k with
  | zero =>
    intro i cs _ hik hf
    exact ⟨cs, rfl, dimmed_refl cs, fun a b hab hb => hf a b (by omega) hab hb⟩
  | succ k ih =>
    intro i cs hn hik hf
    obtain ⟨cs0, e0, d0, f0⟩ := OptimizeLocalContacts_inner_spec i (n - (i + 1)) (i + 1) cs
      (by omega) (by omega)
    simp only [_OptimizeLocalContacts_outer, e0]
    obtain ⟨cs1, e1, d1, f1⟩ := ih (i + 1) cs0 (by rw [d0.1]; exact hn) (by omega) (by
      intro a b ha hab hb
      by_cases hai : a = i
      · subst hai
        exact f0 b (by omega) (by omega)
      · exact filteredPair_dimmed cs cs0 a b (by omega) (by omega) d0
          (hf a b (by omega) hab hb))
    exact ⟨cs1, e1, dimmed_trans cs cs0 cs1 d0 d1, f1⟩

/-- The copy loop of `_ProcessLocalContacts` returns, keeps what was emitted before, and
emits, in the order of the local buffer, contacts flagged 1 only. -/
theorem ProcessLocalContacts_loop_spec (d : sTrimeshCapsuleColliderData)
    (TriMesh Capsule : Nat) :
    ∀ (k iContact nFinal : Nat) (contact : List dContactGeom),
      iContact + k ≤ d.m_gLocalContacts.length → nFinal ≤ d.m_iFlags &&& NUMC_MASK →
      d.m_iFlags &&& NUMC_MASK ≤ contact.length →
      ∃ contact1 n1, _ProcessLocalContacts_loop d TriMesh Capsule k iContact nFinal contact =
          some (contact1, n1) ∧ nFinal ≤ n1 ∧ n1 ≤ d.m_iFlags &&& NUMC_MASK ∧
        contact1.length = contact.length ∧
        (∀ t, t < nFinal → contact1[t]? = contact[t]?) ∧
        (∀ t, nFinal ≤ t → t < n1 → ∃ (i : Nat) (lc : sLocalContactData), iContact ≤ i ∧
          i < iContact + k ∧ d.m_gLocalContacts[i]? = some lc ∧ lc.nFlags = 1 ∧
          contact1[t]? = some (lc.toContact TriMesh Capsule)) ∧
        (∀ t1 t2, nFinal ≤ t1 → t1 < t2 → t2 < n1 →
          ∃ (i1 i2 : Nat) (lc1 lc2 : sLocalContactData), iContact ≤ i1 ∧ i1 < i2 ∧
            i2 < iContact + k ∧ d.m_gLocalContacts[i1]? = some lc1 ∧
            d.m_gLocalContacts[i2]? = some lc2 ∧ lc1.nFlags = 1 ∧ lc2.nFlags = 1 ∧
            contact1[t1]? = some (lc1.toContact TriMesh Capsule) ∧
            contact1[t2]? = some (lc2.toContact TriMesh Capsule)) := by
  intro k
  induction k with
  | zero =>
    intro i n c _ hn _
    exact ⟨c, n, rfl, le_refl _, hn, rfl, fun _ _ => rfl, fun t h1 h2 => absurd h2 (by omega),
      fun t1 t2 h1 h2 h3 => absurd h3 (by omega)⟩
  | succ k ih =>
    intro i n c hi hn hc
    unfold _ProcessLocalContacts_loop
    by_cases hge : n ≥ d.m_iFlags &&& NUMC_MASK
    · simp only [hge, if_true]
      exact ⟨c, n, rfl, le_refl _, hn, rfl, fun _ _ => rfl,
        fun t h1 h2 => absurd h2 (by omega), fun t1 t2 h1 h2 h3 => absurd h3 (by omega)⟩
    · simp only [hge, if_false]
      have hil : i < d.m_gLocalContacts.length := by omega
      have hli := List.getElem?_eq_getElem hil
      simp only [hli]
      by_cases hfl : (d.m_gLocalContacts[i]).nFlags = 1
      · simp only [hfl, if_true, SAFECONTACT_store,
          SAFECONTACT_some d.m_iFlags c n (by omega) (by omega)]
        obtain ⟨c1, n1, e1, a1, a2, a3, a4, a5, a6⟩ := ih (i + 1) (n + 1)
          (c.set n ((d.m_gLocalContacts[i]).toContact TriMesh Capsule)) (by omega) (by omega)
          (by simp; exact hc)
        have hn0 : c1[n]? = some ((d.m_gLocalContacts[i]).toContact TriMesh Capsule) := by
          rw [a4 n (by omega)]
          exact getElem?_set_same c n _ (by omega)
        refine ⟨c1, n1, e1, by omega, a2, by rw [a3]; simp, ?_, ?_, ?_⟩
        · intro t ht
          rw [a4 t (by omega), List.getElem?_set_ne (by omega)]
        · intro t h1 h2
          by_cases htn : t = n
          · subst htn
            exact ⟨i, _, le_refl _, by omega, hli, hfl, hn0⟩
          · obtain ⟨j, lc, b1, b2, b3, b4, b5⟩ := a5 t (by omega) h2
            exact ⟨j, lc, by omega, by omega, b3, b4, b5⟩
        · intro t1 t2 h1 h2 h3
          by_cases htn : t1 = n
          · subst htn
            obtain ⟨j, lc, b1, b2, b3, b4, b5⟩ := a5 t2 (by omega) h3
            exact ⟨i, j, _, lc, le_refl _, by omega, by omega, hli, b3, hfl, b4, hn0, b5⟩
          · obtain ⟨j1, j2, l1, l2, b1, b2, b3, b4, b5, b6, b7, b8, b9⟩ :=
              a6 t1 t2 (by omega) h2 h3
            exact ⟨j1, j2, l1, l2, by omega, b2, by omega, b4, b5, b6, b7, b8, b9⟩
      · simp only [hfl, if_false]
        obtain ⟨c1, n1, e1, a1, a2, a3, a4, a5, a6⟩ := ih (i + 1) n c (by omega) hn hc
        refine ⟨c1, n1, e1, a1, a2, a3, a4, ?_, ?_⟩
        · intro t h1 h2
          obtain ⟨j, lc, b1, b2, b3, b4, b5⟩ := a5 t h1 h2
          exact ⟨j, lc, by omega, by omega, b3, b4, b5⟩
        · intro t1 t2 h1 h2 h3
          obtain ⟨j1, j2, l1, l2, b1, b2, b3, b4, b5, b6, b7, b8, b9⟩ := a6 t1 t2 h1 h2 h3
          exact ⟨j1, j2, l1, l2, by omega, b2, by omega, b4, b5, b6, b7, b8, b9⟩

/-- Function `_ProcessLocalContacts` with the contacts-unimportant flag clear (collider within
the cap, at least `N` contacts in the caller's array) returns, and for the local buffer `cs1`
it copies from (the one `_OptimizeLocalContacts` leaves when more than one contact is
stored): of every near pair of local contacts at least one is flagged 0; every emitted
contact is the copy of a local contact flagged 1; no two emitted contacts are near. -/
theorem ProcessLocalContacts_filtered (d : sTrimeshCapsuleColliderData)
    (contact : List dContactGeom) (TriMesh Capsule : Nat) (hW : d.Within)
    (hc : d.m_iFlags &&& NUMC_MASK ≤ contact.length)
    (hflag : d.m_iFlags &&& CONTACTS_UNIMPORTANT = 0) :
    ∃ (cs1 : List sLocalContactData) (contact1 : List dContactGeom) (n1 : Nat),
      (1 < d.m_ctContacts → d._OptimizeLocalContacts = some ⟨cs1, d.m_ctContacts, d.m_iFlags⟩) ∧
      (d.m_ctContacts ≤ 1 → cs1 = d.m_gLocalContacts) ∧
      (∀ (a b : Nat) (ca cb : sLocalContactData), a < b → b < d.m_ctContacts →
        cs1[a]? = some ca → cs1[b]? = some cb → _IsNearContacts ca cb = true →
        ca.nFlags = 0 ∨ cb.nFlags = 0) ∧
      d._ProcessLocalContacts contact TriMesh Capsule = some (contact1, n1) ∧
      n1 ≤ d.m_iFlags &&& NUMC_MASK ∧
      (∀ t, t < n1 → ∃ (i : Nat) (lc : sLocalContactData), i < d.m_ctContacts ∧
        cs1[i]? = some lc ∧ lc.nFlags = 1 ∧
        contact1[t]? = some (lc.toContact TriMesh Capsule)) ∧
      (∀ (t1 t2 : Nat) (c1 c2 : dContactGeom), t1 < t2 → t2 < n1 →
        contact1[t1]? = some c1 → contact1[t2]? = some c2 →
        _IsNearContacts (localContactOf c1) (localContactOf c2) = false) := by
  have hopt : ∃ cs1 : List sLocalContactData, cs1.length = d.m_gLocalContacts.length ∧
      (1 < d.m_ctContacts →
        d._OptimizeLocalContacts = some ⟨cs1, d.m_ctContacts, d.m_iFlags⟩) ∧
      (d.m_ctContacts ≤ 1 → cs1 = d.m_gLocalContacts) ∧
      (∀ a b, a < b → b < d.m_ctContacts → FilteredPair cs1 a b) := by
    by_cases h1 : 1 < d.m_ctContacts
    · obtain ⟨cs1, e1, e2, e3⟩ := OptimizeLocalContacts_outer_spec d.m_ctContacts
        (d.m_ctContacts - 1) 0 d.m_gLocalContacts (by rw [hW.1]; exact hW.2) (by omega)
        (fun a b ha => absurd ha (by omega))
      refine ⟨cs1, e2.1, fun _ => ?_, fun h => absurd h (by omega), e3⟩
      simp only [sTrimeshCapsuleColliderData._OptimizeLocalContacts, e1]
    · exact ⟨d.m_gLocalContacts, rfl, fun h => absurd h h1, fun _ => rfl,
        fun a b hab hb => absurd hb (by omega)⟩
  obtain ⟨cs1, hl, o1, o2, o3⟩ := hopt
  obtain ⟨contact1, n1, e1, _, a2, _, _, a5, a6⟩ := ProcessLocalContacts_loop_spec
    ⟨cs1, d.m_ctContacts, d.m_iFlags⟩ TriMesh Capsule d.m_ctContacts 0 0 contact
    (by simp only [hl, hW.1]; have := hW.2; omega) (Nat.zero_le _) hc
  have hrun : d._ProcessLocalContacts contact TriMesh Capsule = some (contact1, n1) := by
    unfold sTrimeshCapsuleColliderData._ProcessLocalContacts
    by_cases h1 : 1 < d.m_ctContacts
    · simp only [gt_iff_lt, h1, hflag, and_self, if_true, o1 h1]
      exact e1
    · have h2 : ¬ (d.m_ctContacts > 1 ∧ d.m_iFlags &&& CONTACTS_UNIMPORTANT = 0) :=
        fun h => h1 h.1
      simp only [h2, if_false]
      rw [o2 (by omega)] at e1
      exact e1
  refine ⟨cs1, contact1, n1, o1, o2, fun a b ca cb hab hb => o3 a b hab hb ca cb, hrun, a2,
    ?_, ?_⟩
  · intro t ht
    obtain ⟨i, lc, _, b2, b3, b4, b5⟩ := a5 t (Nat.zero_le _) ht
    exact ⟨i, lc, by omega, b3, b4, b5⟩
  · intro t1 t2 c1 c2 h12 h2 hc1 hc2
    obtain ⟨i1, i2, l1, l2, _, b2, b3, b4, b5, b6, b7, b8, b9⟩ := a6 t1 t2 (Nat.zero_le _) h12 h2
    rw [hc1] at b8
    rw [hc2] at b9
    rw [Option.some.inj b8, Option.some.inj b9]
    have hcongr : _IsNearContacts (localContactOf (l1.toContact TriMesh Capsule))
        (localContactOf (l2.toContact TriMesh Capsule)) = _IsNearContacts l1 l2 :=
      IsNearContacts_congr l1 l2 _ _ rfl rfl rfl rfl
    rw [hcongr]
    cases hnear : _IsNearContacts l1 l2 with
    | false => rfl
    | true =>
      rcases o3 i1 i2 b2 (by omega) l1 l2 b4 b5 hnear with g | g
      · rw [g] at b6; exact absurd b6 (by decide)
      · rw [g] at b7; exact absurd b7 (by decide)

/-- C13: with the contacts-unimportant flag clear (cap `N` at least 1, at least `N` contacts
in the caller's array), for every state of the capsule collider within the cap
`_ProcessLocalContacts` returns, and for the local buffer `cs1` it copies from (the one
`_OptimizeLocalContacts` leaves when more than one contact is stored): of every pair of
local contacts whose positions and normals both differ by less than 1e-4 in every component
(`_IsNearContacts`) at least one is flagged 0 (filtered); every emitted contact is the copy of
a local contact flagged 1; and no two emitted contacts are near-duplicates. Hence
`dCollideCCTL` returns, and no two contacts it emits are near-duplicates. -/
theorem dCollideCCTL_no_near_duplicates (o1 o2 flags : Nat) (contact : List dContactGeom)
    (contactStatus : Bool) (Triangles : List CapsuleCandidate)
    (hN : 1 ≤ flags &&& NUMC_MASK) (hlen : flags &&& NUMC_MASK ≤ contact.length)
    (hflag : flags &&& CONTACTS_UNIMPORTANT = 0) :
    (∀ (d : sTrimeshCapsuleColliderData), d.m_iFlags = flags → d.Within →
      ∃ (cs1 : List sLocalContactData) (contact1 : List dContactGeom) (n1 : Nat),
        (1 < d.m_ctContacts →
          d._OptimizeLocalContacts = some ⟨cs1, d.m_ctContacts, d.m_iFlags⟩) ∧
        (d.m_ctContacts ≤ 1 → cs1 = d.m_gLocalContacts) ∧
        (∀ (a b : Nat) (ca cb : sLocalContactData), a < b → b < d.m_ctContacts →
          cs1[a]? = some ca → cs1[b]? = some cb → _IsNearContacts ca cb = true →
          ca.nFlags = 0 ∨ cb.nFlags = 0) ∧
        d._ProcessLocalContacts contact o1 o2 = some (contact1, n1) ∧
        n1 ≤ flags &&& NUMC_MASK ∧
        (∀ t, t < n1 → ∃ (i : Nat) (lc : sLocalContactData), i < d.m_ctContacts ∧
          cs1[i]? = some lc ∧ lc.nFlags = 1 ∧ contact1[t]? = some (lc.toContact o1 o2)) ∧
        (∀ (t1 t2 : Nat) (c1 c2 : dContactGeom), t1 < t2 → t2 < n1 →
          contact1[t1]? = some c1 → contact1[t2]? = some c2 →
          _IsNearContacts (localContactOf c1) (localContactOf c2) = false)) ∧
    ∃ (count : Nat) (contact1 : List dContactGeom),
      dCollideCCTL o1 o2 flags contact contactStatus Triangles = some (count, contact1) ∧
      count ≤ flags &&& NUMC_MASK ∧
      ∀ (t1 t2 : Nat) (c1 c2 : dContactGeom), t1 < t2 → t2 < count →
        contact1[t1]? = some c1 → contact1[t2]? = some c2 →
        _IsNearContacts (localContactOf c1) (localContactOf c2) = false := by
  have hproc : ∀ (d : sTrimeshCapsuleColliderData), d.m_iFlags = flags → d.Within →
      ∃ (cs1 : List sLocalContactData) (contact1 : List dContactGeom) (n1 : Nat),
        (1 < d.m_ctContacts →
          d._OptimizeLocalContacts = some ⟨cs1, d.m_ctContacts, d.m_iFlags⟩) ∧
        (d.m_ctContacts ≤ 1 → cs1 = d.m_gLocalContacts) ∧
        (∀ (a b : Nat) (ca cb : sLocalContactData), a < b → b < d.m_ctContacts →
          cs1[a]? = some ca → cs1[b]? = some cb → _IsNearContacts ca cb = true →
          ca.nFlags = 0 ∨ cb.nFlags = 0) ∧
        d._ProcessLocalContacts contact o1 o2 = some (contact1, n1) ∧
        n1 ≤ flags &&& NUMC_MASK ∧
        (∀ t, t < n1 → ∃ (i : Nat) (lc : sLocalContactData), i < d.m_ctContacts ∧
          cs1[i]? = some lc ∧ lc.nFlags = 1 ∧ contact1[t]? = some (lc.toContact o1 o2)) ∧
        (∀ (t1 t2 : Nat) (c1 c2 : dContactGeom), t1 < t2 → t2 < n1 →
          contact1[t1]? = some c1 → contact1[t2]? = some c2 →
          _IsNearContacts (localContactOf c1) (localContactOf c2) = false) := by
    intro d hf hW
    subst hf
    exact ProcessLocalContacts_filtered d contact o1 o2 hW hlen hflag
  refine ⟨hproc, ?_⟩
  unfold dCollideCCTL
  simp only [ge_iff_le, hN, not_true_eq_false, if_false]
  by_cases hrun : contactStatus = true ∧ Triangles.length ≠ 0
  · simp only [hrun, ne_eq, not_false_eq_true, and_self, if_true]
    obtain ⟨d1, e1, e2, e3⟩ := dCollideCCTL_loop_ok Triangles 0
      ⟨List.replicate (flags &&& NUMC_MASK) sLocalContactData.fresh, 0, flags⟩
      ⟨by simp, hN⟩
    simp only [e1]
    by_cases hz : d1.m_ctContacts = 0
    · simp only [hz, ne_eq, not_true_eq_false, if_false]
      exact ⟨0, contact, rfl, Nat.zero_le _, fun t1 t2 _ _ _ h => absurd h (by omega)⟩
    · simp only [hz, ne_eq, not_false_eq_true, if_true]
      obtain ⟨_, c1, n1, _, _, _, f1, f2, _, f3⟩ := hproc d1 e2 e3
      simp only [f1]
      exact ⟨n1, c1, rfl, f2, f3⟩
  · simp only [hrun, if_false]
    exact ⟨0, contact, rfl, Nat.zero_le _, fun t1 t2 _ _ _ h => absurd h (by omega)⟩

/-- Witness for `dCollideCCTL_no_near_duplicates`: cap 2 with the contacts-unimportant flag
clear and two candidate triangles. -/
theorem dCollideCCTL_no_near_duplicates_witness :
    1 ≤ 2 &&& NUMC_MASK ∧ 2 &&& NUMC_MASK ≤ [sampleContact, sampleContact].length ∧
    (2 : Nat) &&& CONTACTS_UNIMPORTANT = 0 ∧
    ∃ (count : Nat) (contact1 : List dContactGeom),
      dCollideCCTL 7 8 2 [sampleContact, sampleContact] true
        [sampleCapsuleCandidate, sampleCapsuleCandidate] = some (count, contact1) ∧
      count ≤ 2 &&& NUMC_MASK ∧
      ∀ (t1 t2 : Nat) (c1 c2 : dContactGeom), t1 < t2 → t2 < count →
        contact1[t1]? = some c1 → contact1[t2]? = some c2 →
        _IsNearContacts (localContactOf c1) (localContactOf c2) = false :=
  ⟨by decide, by decide, by decide,
   (dCollideCCTL_no_near_duplicates 7 8 2 [sampleContact, sampleContact] true
     [sampleCapsuleCandidate, sampleCapsuleCandidate] (by decide) (by decide) (by decide)).2⟩

/-! ### Box containment -/

/-- C27 (code at the failing input): the scalar branch of `IsInside` returns TRUE exactly when
the current box is inside the input box, and the AVX branch returns TRUE exactly when the two
boxes overlap (`|c - c'| ≤ e + e'` on each axis). For the current box of center 0 and
extents 2 and the input box of center 0 and extents 1 the current box is not inside the
input box, the scalar branch returns FALSE and the AVX branch returns TRUE. -/
theorem IsInside_avx_overlap :
    (∀ b box : CollisionAABB, b.IsInside box = true ↔ b.InsideSpec box) ∧
    (∀ b box : CollisionAABB, b.IsInside_avx box = true ↔
      (|box.mCenter.x - b.mCenter.x| ≤ box.mExtents.x + b.mExtents.x ∧
       |box.mCenter.y - b.mCenter.y| ≤ box.mExtents.y + b.mExtents.y ∧
       |box.mCenter.z - b.mCenter.z| ≤ box.mExtents.z + b.mExtents.z)) ∧
    ¬ CollisionAABB.InsideSpec ⟨⟨0, 0, 0⟩, ⟨2, 2, 2⟩⟩ ⟨⟨0, 0, 0⟩, ⟨1, 1, 1⟩⟩ ∧
    CollisionAABB.IsInside ⟨⟨0, 0, 0⟩, ⟨2, 2, 2⟩⟩ ⟨⟨0, 0, 0⟩, ⟨1, 1, 1⟩⟩ = false ∧
    CollisionAABB.IsInside_avx ⟨⟨0, 0, 0⟩, ⟨2, 2, 2⟩⟩ ⟨⟨0, 0, 0⟩, ⟨1, 1, 1⟩⟩ = true := by
  have h1 : ∀ b box : CollisionAABB, b.IsInside box = true ↔ b.InsideSpec box := by
    intro b box
    unfold CollisionAABB.IsInside CollisionAABB.InsideSpec
    constructor
    · intro h
      split_ifs at h with a1 a2 a3 a4 a5 a6
      exact ⟨not_lt.mp a1, not_lt.mp a2, not_lt.mp a3, not_lt.mp a4, not_lt.mp a5,
        not_lt.mp a6⟩
    · rintro ⟨a1, a2, a3, a4, a5, a6⟩
      rw [if_neg (not_lt.mpr a1), if_neg (not_lt.mpr a2), if_neg (not_lt.mpr a3),
        if_neg (not_lt.mpr a4), if_neg (not_lt.mpr a5), if_neg (not_lt.mpr a6)]
  have h2 : ∀ b box : CollisionAABB, b.IsInside_avx box = true ↔
      (|box.mCenter.x - b.mCenter.x| ≤ box.mExtents.x + b.mExtents.x ∧
       |box.mCenter.y - b.mCenter.y| ≤ box.mExtents.y + b.mExtents.y ∧
       |box.mCenter.z - b.mCenter.z| ≤ box.mExtents.z + b.mExtents.z) := by
    intro b box
    simp [CollisionAABB.IsInside_avx, avxBoxesOverlap, Point.sub, Point.add, and_assoc]
  refine ⟨h1, h2, ?_, ?_, ?_⟩
  · simp [CollisionAABB.InsideSpec, CollisionAABB.GetMin, CollisionAABB.GetMax, Point.sub,
      Point.add]
  · have := h1 ⟨⟨0, 0, 0⟩, ⟨2, 2, 2⟩⟩ ⟨⟨0, 0, 0⟩, ⟨1, 1, 1⟩⟩
    cases hv : CollisionAABB.IsInside ⟨⟨0, 0, 0⟩, ⟨2, 2, 2⟩⟩ ⟨⟨0, 0, 0⟩, ⟨1, 1, 1⟩⟩ with
    | false => rfl
    | true =>
      have hs := this.mp hv
      simp [CollisionAABB.InsideSpec, CollisionAABB.GetMin, CollisionAABB.GetMax, Point.sub,
        Point.add] at hs
  · rw [h2]
    norm_num

/-! ### Box / mesh collider: separating axes and closest points -/

/-- The smaller and the larger of the three projections as `_cldTestFace` selects them. -/
theorem cldTestFace_minmax (fp0 fp1 fp2 : ℚ) :
    (if fp0 < fp1 then (if fp0 < fp2 then fp0 else fp2) else (if fp1 < fp2 then fp1 else fp2)) =
      min fp0 (min fp1 fp2) ∧
    (if fp0 < fp1 then (if fp1 > fp2 then fp1 else fp2) else (if fp0 > fp2 then fp0 else fp2)) =
      max fp0 (max fp1 fp2) := by
  constructor
  · split_ifs <;> simp only [min_def] <;> split_ifs <;> linarith
  · split_ifs <;> simp only [max_def] <;> split_ifs <;> linarith

/-- C29: `_cldTestFace` returns false exactly when the projection interval of the triangle,
`[min(fp0,fp1,fp2), max(fp0,fp1,fp2)]`, is disjoint from `[-fR, fR]` (min > fR or
max < -fR), and then changes nothing. When it returns true the best depth becomes
`min(previous best, fR - min, fR + max)`, which is non-negative whenever the previous best
was, and the best axis and normal are changed only if the best depth strictly decreased. -/
theorem cldTestFace_spec (d : sTrimeshBoxColliderAxes) (fp0 fp1 fp2 fR : ℚ)
    (vNormal : dVector3) (iAxis : Int) :
    ((d._cldTestFace fp0 fp1 fp2 fR vNormal iAxis).1 = false ↔
      (min fp0 (min fp1 fp2) > fR ∨ max fp0 (max fp1 fp2) < -fR)) ∧
    ((d._cldTestFace fp0 fp1 fp2 fR vNormal iAxis).1 = false →
      (d._cldTestFace fp0 fp1 fp2 fR vNormal iAxis).2 = d) ∧
    ((d._cldTestFace fp0 fp1 fp2 fR vNormal iAxis).1 = true →
      (d._cldTestFace fp0 fp1 fp2 fR vNormal iAxis).2.m_fBestDepth =
        min d.m_fBestDepth (min (fR - min fp0 (min fp1 fp2)) (fR + max fp0 (max fp1 fp2))) ∧
      (0 ≤ d.m_fBestDepth →
        0 ≤ (d._cldTestFace fp0 fp1 fp2 fR vNormal iAxis).2.m_fBestDepth) ∧
      (((d._cldTestFace fp0 fp1 fp2 fR vNormal iAxis).2.m_iBestAxis ≠ d.m_iBestAxis ∨
          (d._cldTestFace fp0 fp1 fp2 fR vNormal iAxis).2.m_vBestNormal ≠ d.m_vBestNormal) →
        (d._cldTestFace fp0 fp1 fp2 fR vNormal iAxis).2.m_fBestDepth < d.m_fBestDepth)) := by
  obtain ⟨hmin, hmax⟩ := cldTestFace_minmax fp0 fp1 fp2
  generalize hm : min fp0 (min fp1 fp2) = m at hmin
  generalize hM : max fp0 (max fp1 fp2) = M at hmax
  have key : d._cldTestFace fp0 fp1 fp2 fR vNormal iAxis =
      if fR - m < 0 then (false, d)
      else if fR + M < 0 then (false, d)
      else if fR - m > fR + M then
        (if fR + M < d.m_fBestDepth then
          (true, { m_vBestNormal := vNormal.scale (-1), m_iBestAxis := iAxis,
                   m_fBestDepth := fR + M })
         else (true, d))
      else if fR - m < d.m_fBestDepth then
        (true, { m_vBestNormal := vNormal, m_iBestAxis := iAxis, m_fBestDepth := fR - m })
      else (true, d) := by
    unfold sTrimeshBoxColliderAxes._cldTestFace
    by_cases h01 : fp0 < fp1
    · simp only [h01, if_true] at hmin hmax ⊢
      rw [hmin, hmax]
    · simp only [h01, if_false] at hmin hmax ⊢
      rw [hmin, hmax]
  rw [key]
  by_cases h1 : fR - m < 0
  · simp only [h1, if_true]
    refine ⟨⟨fun _ => Or.inl (by linarith), fun _ => by trivial⟩, fun _ => by trivial,
      fun h => ?_⟩
    exact absurd h (by simp)
  · by_cases h2 : fR + M < 0
    · simp only [h1, h2, if_true, if_false]
      refine ⟨⟨fun _ => Or.inr (by linarith), fun _ => by trivial⟩, fun _ => by trivial,
        fun h => ?_⟩
      exact absurd h (by simp)
    · have hno : ¬ (m > fR ∨ M < -fR) := by
        rintro (h | h)
        · exact h1 (by linarith)
        · exact h2 (by linarith)
      simp only [h1, h2, if_false]
      by_cases h3 : fR - m > fR + M
      · by_cases h4 : fR + M < d.m_fBestDepth
        · simp only [h3, h4, if_true]
          refine ⟨⟨fun h => absurd h (by simp), fun h => absurd h hno⟩,
            fun h => absurd h (by simp), fun _ => ⟨?_, fun _ => not_lt.mp h2, fun _ => by trivial⟩⟩
          rw [min_eq_right (le_of_lt h3), min_eq_right (le_of_lt h4)]
        · simp only [h3, h4, if_true, if_false]
          refine ⟨⟨fun h => absurd h (by simp), fun h => absurd h hno⟩,
            fun h => absurd h (by simp), fun _ => ⟨?_, fun h => h, fun h => ?_⟩⟩
          · rw [min_eq_right (le_of_lt h3), min_eq_left (not_lt.mp h4)]
          · rcases h with h | h <;> exact absurd rfl h
      · by_cases h4 : fR - m < d.m_fBestDepth
        · simp only [h3, h4, if_true, if_false]
          refine ⟨⟨fun h => absurd h (by simp), fun h => absurd h hno⟩,
            fun h => absurd h (by simp), fun _ => ⟨?_, fun _ => not_lt.mp h1, fun _ => by trivial⟩⟩
          rw [min_eq_left (not_lt.mp h3), min_eq_right (le_of_lt h4)]
        · simp only [h3, h4, if_false]
          refine ⟨⟨fun h => absurd h (by simp), fun h => absurd h hno⟩,
            fun h => absurd h (by simp), fun _ => ⟨?_, fun h => h, fun h => ?_⟩⟩
          · rw [min_eq_left (not_lt.mp h3), min_eq_left (not_lt.mp h4)]
          · rcases h with h | h <;> exact absurd rfl h

/-- The dot product of the vector between `P1 + s*u1` and `P2 + t*u2` with a direction. -/
theorem dot_between (P1 u1 P2 u2 v : dVector3) (s t : ℚ) :
    ((P1.add (u1.scale s)).sub (P2.add (u2.scale t))).dot v =
      s * u1.dot v - t * u2.dot v - (P2.sub P1).dot v := by
  simp only [Point.dot, Point.sub, Point.add, Point.scale]
  ring

/-- The dot product is symmetric. -/
theorem dot_comm (a b : dVector3) : a.dot b = b.dot a := by
  simp only [Point.dot]
  ring

/-- C30: for unit direction vectors `u1`, `u2` with `1 - (u1.u2)^2 > dEpsilon` (`dEpsilon`
non-negative) `_cldClosestPointOnTwoLines` returns true with parameters `s`, `t` such that
the vector between `P1 + s*u1` and `P2 + t*u2` is perpendicular to both `u1` and `u2`;
otherwise it returns false with both parameters set to 0. -/
theorem cldClosestPointOnTwoLines_spec (dEpsilon : ℚ) (P1 u1 P2 u2 : dVector3)
    (heps : 0 ≤ dEpsilon) (h1 : u1.dot u1 = 1) (h2 : u2.dot u2 = 1) :
    (1 - u1.dot u2 * u1.dot u2 > dEpsilon →
      ∃ s t, _cldClosestPointOnTwoLines dEpsilon P1 u1 P2 u2 = (true, s, t) ∧
        ((P1.add (u1.scale s)).sub (P2.add (u2.scale t))).dot u1 = 0 ∧
        ((P1.add (u1.scale s)).sub (P2.add (u2.scale t))).dot u2 = 0) ∧
    (¬ (1 - u1.dot u2 * u1.dot u2 > dEpsilon) →
      _cldClosestPointOnTwoLines dEpsilon P1 u1 P2 u2 = (false, 0, 0)) := by
  constructor
  · intro h
    have hd : (1 : ℚ) - u1.dot u2 * u1.dot u2 ≠ 0 := by
      intro h0
      rw [h0] at h
      linarith
    refine ⟨(u1.dot (P2.sub P1) + u1.dot u2 * -(u2.dot (P2.sub P1))) *
        (1 / (1 - u1.dot u2 * u1.dot u2)),
      (u1.dot u2 * u1.dot (P2.sub P1) + -(u2.dot (P2.sub P1))) *
        (1 / (1 - u1.dot u2 * u1.dot u2)),
      by simp only [_cldClosestPointOnTwoLines, h, if_true], ?_, ?_⟩
    · rw [dot_between, h1, dot_comm u2 u1, dot_comm (P2.sub P1) u1]
      generalize u1.dot u2 = c at hd ⊢
      generalize u1.dot (P2.sub P1) = a
      generalize u2.dot (P2.sub P1) = b
      field_simp
      ring
    · rw [dot_between, h2, dot_comm (P2.sub P1) u2]
      generalize u1.dot u2 = c at hd ⊢
      generalize u1.dot (P2.sub P1) = a
      generalize u2.dot (P2.sub P1) = b
      field_simp
      ring
  · intro h
    simp only [_cldClosestPointOnTwoLines, h, if_false]

/-- Witness for `cldClosestPointOnTwoLines_spec`: the lines through (0, 0, 0) along the x axis
and through (0, 0, 1) along the y axis. -/
theorem cldClosestPointOnTwoLines_spec_witness :
    (0 : ℚ) ≤ 1 / 1000000 ∧ Point.dot ⟨1, 0, 0⟩ ⟨1, 0, 0⟩ = 1 ∧
    Point.dot ⟨0, 1, 0⟩ ⟨0, 1, 0⟩ = 1 ∧
    1 - Point.dot ⟨1, 0, 0⟩ ⟨0, 1, 0⟩ * Point.dot ⟨1, 0, 0⟩ ⟨0, 1, 0⟩ > (1 : ℚ) / 1000000 ∧
    ∃ s t, _cldClosestPointOnTwoLines (1 / 1000000) ⟨0, 0, 0⟩ ⟨1, 0, 0⟩ ⟨0, 0, 1⟩ ⟨0, 1, 0⟩ =
        (true, s, t) ∧
      ((Point.add ⟨0, 0, 0⟩ (Point.scale ⟨1, 0, 0⟩ s)).sub
        (Point.add ⟨0, 0, 1⟩ (Point.scale ⟨0, 1, 0⟩ t))).dot ⟨1, 0, 0⟩ = 0 ∧
      ((Point.add ⟨0, 0, 0⟩ (Point.scale ⟨1, 0, 0⟩ s)).sub
        (Point.add ⟨0, 0, 1⟩ (Point.scale ⟨0, 1, 0⟩ t))).dot ⟨0, 1, 0⟩ = 0 :=
  ⟨by norm_num, by simp [Point.dot], by simp [Point.dot], by simp [Point.dot]; norm_num,
   (cldClosestPointOnTwoLines_spec (1 / 1000000) ⟨0, 0, 0⟩ ⟨1, 0, 0⟩ ⟨0, 0, 1⟩ ⟨0, 1, 0⟩
     (by norm_num) (by simp [Point.dot]) (by simp [Point.dot])).1
     (by simp [Point.dot]; norm_num)⟩

namespace AABBTreeCollider

/-! ### Tree collider: every pair of primitives -/

/-- The primitive pairs of two records in sequence. -/
theorem primTests_append (l1 l2 : List OverlapTest) :
    primTests (l1 ++ l2) = primTests l1 ++ primTests l2 := by
  simp [primTests, List.filterMap_append]

/-- A step that keeps the leaf is a step. -/
theorem run_of_runLeaf (f : AABBTreeCollider → Option AABBTreeCollider) (c : AABBTreeCollider)
    (L : List (Nat × Nat)) (h : RunLeaf f c L) : Run f c L := by
  obtain ⟨c1, new, e1, e2, e3, e4, e5, _, _⟩ := h
  exact ⟨c1, new, e1, e2, by rw [e3], e4, e5⟩

/-- Step `PrimTestTriIndex` tests the fetched leaf against the given index. -/
theorem runLeaf_PrimTestTriIndex (g : OverlapOracle) (id1 : Nat) (c : AABBTreeCollider) :
    RunLeaf (fun c => some (c.PrimTestTriIndex g id1)) c [(c.mLeafIndex, id1)] := by
  refine ⟨c.PrimTestTriIndex g id1,
    [.TriTri c.mLeafIndex id1 (g.LeafTriOverlap c.mLeafMesh1 c.mLeafIndex id1)], rfl, ?_, rfl,
    ?_, ?_, ?_, ?_⟩ <;>
  cases h : g.LeafTriOverlap c.mLeafMesh1 c.mLeafIndex id1 <;>
  simp [PrimTestTriIndex, h, OverlapTest.hitIds]

/-- Step `PrimTestIndexTri` tests the given index against the fetched leaf. -/
theorem runLeaf_PrimTestIndexTri (g : OverlapOracle) (id0 : Nat) (c : AABBTreeCollider) :
    RunLeaf (fun c => some (c.PrimTestIndexTri g id0)) c [(id0, c.mLeafIndex)] := by
  refine ⟨c.PrimTestIndexTri g id0,
    [.TriTri id0 c.mLeafIndex (g.LeafTriOverlap c.mLeafMesh1 c.mLeafIndex id0)], rfl, ?_, rfl,
    ?_, ?_, ?_, ?_⟩ <;>
  cases h : g.LeafTriOverlap c.mLeafMesh1 c.mLeafIndex id0 <;>
  simp [PrimTestIndexTri, h, OverlapTest.hitIds]

/-- Outside first-contact mode two steps in sequence perform the tests of both. -/
theorem run_andThen (f h : AABBTreeCollider → Option AABBTreeCollider) (c : AABBTreeCollider)
    (L1 L2 : List (Nat × Nat)) (hc : c.mFirstContact = false) (hf : Run f c L1)
    (hh : ∀ c1, c1.mFirstContact = false → Run h c1 L2) : Run (andThen f h) c (L1 ++ L2) := by
  obtain ⟨c1, n1, e1, e2, e3, e4, e5⟩ := hf
  obtain ⟨c2, n2, f1, f2, f3, f4, f5⟩ := hh c1 (by rw [e5]; exact hc)
  have hcf : c1.ContactFound = false := by simp [ContactFound, e5, hc]
  refine ⟨c2, n1 ++ n2, ?_, ?_, ?_, ?_, by rw [f5, e5]⟩
  · simp [andThen, e1, hcf, f1]
  · rw [f2, e2, List.append_assoc]
  · rw [primTests_append]; exact e3.append f3
  · rw [f4, e4, List.flatMap_append, List.append_assoc]

/-- Outside first-contact mode two steps in sequence that keep the leaf perform the tests of
both in order. -/
theorem runLeaf_andThen (f h : AABBTreeCollider → Option AABBTreeCollider)
    (c : AABBTreeCollider) (L1 : List (Nat × Nat)) (L2 : AABBTreeCollider → List (Nat × Nat))
    (hc : c.mFirstContact = false) (hf : RunLeaf f c L1)
    (hh : ∀ c1, c1.mFirstContact = false → RunLeaf h c1 (L2 c1))
    (hL : ∀ c1, c1.mLeafIndex = c.mLeafIndex → L2 c1 = L2 c) :
    RunLeaf (andThen f h) c (L1 ++ L2 c) := by
  obtain ⟨c1, n1, e1, e2, e3, e4, e5, e6, e7⟩ := hf
  obtain ⟨c2, n2, f1, f2, f3, f4, f5, f6, f7⟩ := hh c1 (by rw [e5]; exact hc)
  have hcf : c1.ContactFound = false := by simp [ContactFound, e5, hc]
  refine ⟨c2, n1 ++ n2, ?_, ?_, ?_, ?_, by rw [f5, e5], by rw [f6, e6], by rw [f7, e7]⟩
  · simp [andThen, e1, hcf, f1]
  · rw [f2, e2, List.append_assoc]
  · rw [primTests_append, e3, f3, hL c1 e6]
  · rw [f4, e4, List.flatMap_append, List.append_assoc]

end AABBTreeCollider

namespace AABBTreeCollider

/-- The product of lists distributes over a concatenation on the left. -/
theorem product_append_left (l1 l2 : List Nat) (m : List Nat) :
    (l1 ++ l2) ×ˢ m = l1 ×ˢ m ++ l2 ×ˢ m := by
  induction l1 with
  | nil => simp
  | cons a l ih => simp [List.product_cons, ih]

/-- The product of lists distributes over a concatenation on the right up to the order. -/
theorem product_append_right (l : List Nat) (m1 m2 : List Nat) :
    (l ×ˢ m1 ++ l ×ˢ m2).Perm (l ×ˢ (m1 ++ m2)) := by
  induction l with
  | nil => simp
  | cons a l ih =>
    simp only [List.product_cons, List.map_append]
    rw [List.perm_iff_count] at ih ⊢
    intro x
    have := ih x
    simp only [List.count_append] at this ⊢
    omega

/-- The pairs of one index with a list. -/
theorem product_singleton_left (a : Nat) (m : List Nat) :
    [a] ×ˢ m = m.map (fun id => (a, id)) := by
  simp [List.product_cons]

/-- The pairs of a list with one index. -/
theorem product_singleton_right (l : List Nat) (b : Nat) :
    l ×ˢ [b] = l.map (fun id => (id, b)) := by
  induction l with
  | nil => simp
  | cons a l ih => simp [List.product_cons, ih]

/-- One level of `primsUnder` at a node. -/
theorem primsUnder_succ (sz : Nat) (a : NodeArray) (fuel p : Nat) (P : List Nat)
    (h : a.primsUnder sz (fuel + 1) p = some P) :
    ∃ n l1 l2, a.deref sz p = some n ∧ P = l1 ++ l2 ∧
      (if n.HasPosLeaf then some [n.GetPosPrimitive]
        else a.primsUnder sz fuel n.GetPos) = some l1 ∧
      (if n.HasNegLeaf then some [n.GetNegPrimitive]
        else a.primsUnder sz fuel n.GetNeg) = some l2 := by
  rw [NodeArray.primsUnder] at h
  cases hd : a.deref sz p with
  | none => rw [hd] at h; exact absurd h (by simp)
  | some n =>
    rw [hd] at h
    simp only [Option.some_bind] at h
    cases h1 : (if n.HasPosLeaf then some [n.GetPosPrimitive]
        else a.primsUnder sz fuel n.GetPos) with
    | none => rw [h1] at h; exact absurd h (by simp)
    | some l1 =>
      rw [h1] at h
      simp only [Option.some_bind] at h
      cases h2 : (if n.HasNegLeaf then some [n.GetNegPrimitive]
          else a.primsUnder sz fuel n.GetNeg) with
      | none => rw [h2] at h; exact absurd h (by simp)
      | some l2 =>
        rw [h2] at h
        simp only [Option.some_bind, Option.some.injEq] at h
        exact ⟨n, l1, l2, rfl, h.symm, h1, h2⟩

/-- With forward references the leaf primitives below a node are listed when the fuel covers
the nodes that follow it. -/
theorem primsUnder_ok (sz : Nat) (a : NodeArray) (hf : a.ForwardRefs sz) :
    ∀ (fuel p j : Nat), a.index? sz p = some j → a.cells.length ≤ fuel + j →
      ∃ P, a.primsUnder sz fuel p = some P := by
  intro fuel
  induction fuel with
  | zero =>
    intro p j hj hlen
    have := index_lt sz a p j hj
    omega
  | succ fuel ih =>
    intro p j hj hlen
    obtain ⟨n, hc, hd⟩ := deref_of_index sz a p j hj
    obtain ⟨hp, hn⟩ := hf j n hc
    have h1 : ∃ l1, (if n.HasPosLeaf then some [n.GetPosPrimitive]
        else a.primsUnder sz fuel n.GetPos) = some l1 := by
      cases hl : n.HasPosLeaf with
      | true => exact ⟨[n.GetPosPrimitive], by simp⟩
      | false =>
        obtain ⟨j1, e1, l1⟩ := hp hl
        obtain ⟨P, hP⟩ := ih _ j1 e1 (by omega)
        exact ⟨P, by simp [hP]⟩
    have h2 : ∃ l2, (if n.HasNegLeaf then some [n.GetNegPrimitive]
        else a.primsUnder sz fuel n.GetNeg) = some l2 := by
      cases hl : n.HasNegLeaf with
      | true => exact ⟨[n.GetNegPrimitive], by simp⟩
      | false =>
        obtain ⟨j1, e1, l1⟩ := hn hl
        obtain ⟨P, hP⟩ := ih _ j1 e1 (by omega)
        exact ⟨P, by simp [hP]⟩
    obtain ⟨l1, e1⟩ := h1
    obtain ⟨l2, e2⟩ := h2
    exact ⟨l1 ++ l2, by rw [NodeArray.primsUnder, hd]; simp only [Option.some_bind, e1, e2]⟩

/-- Recording a box test before a step changes neither its triangle-triangle tests nor the
recorded pairs. -/
theorem runLeaf_log (f : AABBTreeCollider → Option AABBTreeCollider) (c : AABBTreeCollider)
    (e : OverlapTest) (L : List (Nat × Nat)) (h1 : e.primPair? = none) (h2 : e.hitIds = [])
    (h : RunLeaf f { c with tests := c.tests ++ [e] } L) :
    ∃ c1 new, f { c with tests := c.tests ++ [e] } = some c1 ∧ c1.tests = c.tests ++ new ∧
      primTests new = L ∧ c1.mPairs = c.mPairs ++ new.flatMap OverlapTest.hitIds ∧
      c1.mFirstContact = c.mFirstContact ∧ c1.mLeafIndex = c.mLeafIndex ∧
      c1.mLeafMesh1 = c.mLeafMesh1 := by
  obtain ⟨c1, new, e1, e2, e3, e4, e5, e6, e7⟩ := h
  refine ⟨c1, e :: new, e1, by rw [e2]; simp, ?_, ?_, e5, e6, e7⟩
  · rw [← e3]
    simp [primTests, List.filterMap_cons, h1]
  · rw [e4]
    simp [List.flatMap_cons, h2]

/-- When every triangle-box test passes, `_CollideTriBox` outside first-contact mode tests the
fetched leaf against every leaf primitive below the node, in order. -/
theorem runLeaf_CollideTriBox (g : OverlapOracle) (sz : Nat) (tree1 : NodeArray)
    (htb : ∀ m i ce ex, g.TriBoxOverlap m i ce ex = true) :
    ∀ (fuel b : Nat) (P : List Nat), tree1.primsUnder sz fuel b = some P →
      ∀ c : AABBTreeCollider, c.mFirstContact = false →
        RunLeaf (_CollideTriBox g sz tree1 fuel b) c (P.map (fun id => (c.mLeafIndex, id))) := by
  intro fuel
  induction fuel with
  | zero => intro b P h; exact absurd h (by simp [NodeArray.primsUnder])
  | succ fuel ih =>
    intro b P hP c hc
    obtain ⟨nb, l1, l2, hd, hl, h1, h2⟩ := primsUnder_succ sz tree1 fuel b P hP
    have s1 : ∀ c1 : AABBTreeCollider, c1.mFirstContact = false →
        RunLeaf (fun c => if nb.HasPosLeaf then some (c.PrimTestTriIndex g nb.GetPosPrimitive)
          else _CollideTriBox g sz tree1 fuel nb.GetPos c) c1
          (l1.map (fun id => (c1.mLeafIndex, id))) := by
      intro c1 hc1
      cases hl : nb.HasPosLeaf with
      | true =>
        simp only [hl, if_true, Option.some.injEq] at h1 ⊢
        rw [← h1]
        exact runLeaf_PrimTestTriIndex g _ c1
      | false =>
        simp only [hl, if_false, Bool.false_eq_true] at h1 ⊢
        exact ih _ l1 h1 c1 hc1
    have s2 : ∀ c1 : AABBTreeCollider, c1.mFirstContact = false →
        RunLeaf (fun c => if nb.HasNegLeaf then some (c.PrimTestTriIndex g nb.GetNegPrimitive)
          else _CollideTriBox g sz tree1 fuel nb.GetNeg c) c1
          (l2.map (fun id => (c1.mLeafIndex, id))) := by
      intro c1 hc1
      cases hl : nb.HasNegLeaf with
      | true =>
        simp only [hl, if_true, Option.some.injEq] at h2 ⊢
        rw [← h2]
        exact runLeaf_PrimTestTriIndex g _ c1
      | false =>
        simp only [hl, if_false, Bool.false_eq_true] at h2 ⊢
        exact ih _ l2 h2 c1 hc1
    have hboth := runLeaf_andThen _ _ { c with tests := c.tests ++ [.TriBox b] } _
      (fun c1 => l2.map (fun id => (c1.mLeafIndex, id))) hc (s1 _ hc) s2
      (fun c1 e => by simp only [e])
    obtain ⟨c1, new, e1, e2, e3, e4, e5, e6, e7⟩ := runLeaf_log _ c (.TriBox b) _ rfl rfl hboth
    refine ⟨c1, new, ?_, e2, ?_, e4, e5, e6, e7⟩
    · rw [CollideTriBox_succ, hd]
      simp only [Option.some_bind, htb, Bool.not_true, Bool.false_eq_true, if_false]
      exact e1
    · rw [e3, hl, List.map_append]

/-- When every triangle-box test passes, `_CollideBoxTri` outside first-contact mode tests
every leaf primitive below the node against the fetched leaf, in order. -/
theorem runLeaf_CollideBoxTri (g : OverlapOracle) (sz : Nat) (tree0 : NodeArray)
    (htb : ∀ m i ce ex, g.TriBoxOverlap m i ce ex = true) :
    ∀ (fuel b : Nat) (P : List Nat), tree0.primsUnder sz fuel b = some P →
      ∀ c : AABBTreeCollider, c.mFirstContact = false →
        RunLeaf (_CollideBoxTri g sz tree0 fuel b) c (P.map (fun id => (id, c.mLeafIndex))) := by
  intro fuel
  induction fuel with
  | zero => intro b P h; exact absurd h (by simp [NodeArray.primsUnder])
  | succ fuel ih =>
    intro b P hP c hc
    obtain ⟨nb, l1, l2, hd, hl, h1, h2⟩ := primsUnder_succ sz tree0 fuel b P hP
    have s1 : ∀ c1 : AABBTreeCollider, c1.mFirstContact = false →
        RunLeaf (fun c => if nb.HasPosLeaf then some (c.PrimTestIndexTri g nb.GetPosPrimitive)
          else _CollideBoxTri g sz tree0 fuel nb.GetPos c) c1
          (l1.map (fun id => (id, c1.mLeafIndex))) := by
      intro c1 hc1
      cases hl : nb.HasPosLeaf with
      | true =>
        simp only [hl, if_true, Option.some.injEq] at h1 ⊢
        rw [← h1]
        exact runLeaf_PrimTestIndexTri g _ c1
      | false =>
        simp only [hl, if_false, Bool.false_eq_true] at h1 ⊢
        exact ih _ l1 h1 c1 hc1
    have s2 : ∀ c1 : AABBTreeCollider, c1.mFirstContact = false →
        RunLeaf (fun c => if nb.HasNegLeaf then some (c.PrimTestIndexTri g nb.GetNegPrimitive)
          else _CollideBoxTri g sz tree0 fuel nb.GetNeg c) c1
          (l2.map (fun id => (id, c1.mLeafIndex))) := by
      intro c1 hc1
      cases hl : nb.HasNegLeaf with
      | true =>
        simp only [hl, if_true, Option.some.injEq] at h2 ⊢
        rw [← h2]
        exact runLeaf_PrimTestIndexTri g _ c1
      | false =>
        simp only [hl, if_false, Bool.false_eq_true] at h2 ⊢
        exact ih _ l2 h2 c1 hc1
    have hboth := runLeaf_andThen _ _ { c with tests := c.tests ++ [.TriBox b] } _
      (fun c1 => l2.map (fun id => (id, c1.mLeafIndex))) hc (s1 _ hc) s2
      (fun c1 e => by simp only [e])
    obtain ⟨c1, new, e1, e2, e3, e4, e5, e6, e7⟩ := runLeaf_log _ c (.TriBox b) _ rfl rfl hboth
    refine ⟨c1, new, ?_, e2, ?_, e4, e5, e6, e7⟩
    · rw [CollideBoxTri_succ, hd]
      simp only [Option.some_bind, htb, Bool.not_true, Bool.false_eq_true, if_false]
      exact e1
    · rw [e3, hl, List.map_append]

end AABBTreeCollider

namespace AABBTreeCollider

/-- A step run after fetching a leaf, seen from the state before the fetch. -/
theorem run_fetch (f : AABBTreeCollider → Option AABBTreeCollider) (c : AABBTreeCollider)
    (p : Nat) (m : Bool) (L : List (Nat × Nat)) (h : RunLeaf f (c.FETCH_LEAF p m) L) :
    Run (fun c => f (c.FETCH_LEAF p m)) c L := by
  obtain ⟨c1, new, e1, e2, e3, e4, e5, _, _⟩ := h
  exact ⟨c1, new, e1, e2, by rw [e3], e4, e5⟩

/-- A step performs the tests of any list that is a permutation of its own. -/
theorem run_perm (f : AABBTreeCollider → Option AABBTreeCollider) (c : AABBTreeCollider)
    (L1 L2 : List (Nat × Nat)) (hp : L1.Perm L2) (h : Run f c L1) : Run f c L2 := by
  obtain ⟨c1, new, e1, e2, e3, e4, e5⟩ := h
  exact ⟨c1, new, e1, e2, e3.trans hp, e4, e5⟩

/-- The half of `_Collide` for a leaf side of the first node: the leaf is fetched and tested
against every leaf primitive below the second node. -/
theorem run_leafHalf (g : OverlapOracle) (sz : Nat) (tree1 : NodeArray)
    (htb : ∀ m i ce ex, g.TriBoxOverlap m i ce ex = true) (fuel : Nat) (nb : AABBNoLeafNode)
    (l1 l2 : List Nat) (L : Nat)
    (h1 : (if nb.HasPosLeaf then some [nb.GetPosPrimitive]
      else tree1.primsUnder sz fuel nb.GetPos) = some l1)
    (h2 : (if nb.HasNegLeaf then some [nb.GetNegPrimitive]
      else tree1.primsUnder sz fuel nb.GetNeg) = some l2)
    (c : AABBTreeCollider) (hc : c.mFirstContact = false) :
    Run (andThen
        (fun c => if nb.HasPosLeaf then
            some ((c.FETCH_LEAF L false).PrimTestTriIndex g nb.GetPosPrimitive)
          else _CollideTriBox g sz tree1 fuel nb.GetPos (c.FETCH_LEAF L false))
        (fun c => if nb.HasNegLeaf then some (c.PrimTestTriIndex g nb.GetNegPrimitive)
          else _CollideTriBox g sz tree1 fuel nb.GetNeg c)) c ([L] ×ˢ (l1 ++ l2)) := by
  have s1 : ∀ c1 : AABBTreeCollider, c1.mFirstContact = false →
      RunLeaf (fun c => if nb.HasPosLeaf then some (c.PrimTestTriIndex g nb.GetPosPrimitive)
        else _CollideTriBox g sz tree1 fuel nb.GetPos c) c1
        (l1.map (fun id => (c1.mLeafIndex, id))) := by
    intro c1 hc1
    cases hl : nb.HasPosLeaf with
    | true =>
      simp only [hl, if_true, Option.some.injEq] at h1 ⊢
      rw [← h1]
      exact runLeaf_PrimTestTriIndex g _ c1
    | false =>
      simp only [hl, if_false, Bool.false_eq_true] at h1 ⊢
      exact runLeaf_CollideTriBox g sz tree1 htb fuel _ l1 h1 c1 hc1
  have s2 : ∀ c1 : AABBTreeCollider, c1.mFirstContact = false →
      RunLeaf (fun c => if nb.HasNegLeaf then some (c.PrimTestTriIndex g nb.GetNegPrimitive)
        else _CollideTriBox g sz tree1 fuel nb.GetNeg c) c1
        (l2.map (fun id => (c1.mLeafIndex, id))) := by
    intro c1 hc1
    cases hl : nb.HasNegLeaf with
    | true =>
      simp only [hl, if_true, Option.some.injEq] at h2 ⊢
      rw [← h2]
      exact runLeaf_PrimTestTriIndex g _ c1
    | false =>
      simp only [hl, if_false, Bool.false_eq_true] at h2 ⊢
      exact runLeaf_CollideTriBox g sz tree1 htb fuel _ l2 h2 c1 hc1
  have hboth := runLeaf_andThen _ _ (c.FETCH_LEAF L false) _
    (fun c1 => l2.map (fun id => (c1.mLeafIndex, id))) hc (s1 _ hc) s2
    (fun c1 e => by simp only [e])
  obtain ⟨c1, new, e1, e2, e3, e4, e5, _, _⟩ := hboth
  refine ⟨c1, new, ?_, e2, ?_, e4, e5⟩
  · cases hl : nb.HasPosLeaf <;> simp only [hl, andThen, if_true, if_false, Bool.false_eq_true]
      at e1 ⊢ <;> exact e1
  · rw [e3, product_singleton_left, List.map_append]
    exact List.Perm.refl _

/-- The half of `_Collide` for a node side of the first node: the leaf primitives below it
are tested against every leaf primitive below the second node. -/
theorem run_nodeHalf (g : OverlapOracle) (sz : Nat) (tree0 tree1 : NodeArray)
    (htb : ∀ m i ce ex, g.TriBoxOverlap m i ce ex = true) (fuel : Nat) (nb : AABBNoLeafNode)
    (l1 l2 A : List Nat) (pa : Nat)
    (ih : ∀ (b : Nat) (P1 : List Nat), tree1.primsUnder sz fuel b = some P1 →
      ∀ c : AABBTreeCollider, c.mFirstContact = false →
        Run (_Collide g sz tree0 tree1 fuel pa b) c (A ×ˢ P1))
    (hA : tree0.primsUnder sz fuel pa = some A)
    (h1 : (if nb.HasPosLeaf then some [nb.GetPosPrimitive]
      else tree1.primsUnder sz fuel nb.GetPos) = some l1)
    (h2 : (if nb.HasNegLeaf then some [nb.GetNegPrimitive]
      else tree1.primsUnder sz fuel nb.GetNeg) = some l2)
    (c : AABBTreeCollider) (hc : c.mFirstContact = false) :
    Run (andThen
        (fun c => if nb.HasPosLeaf then
            _CollideBoxTri g sz tree0 fuel pa (c.FETCH_LEAF nb.GetPosPrimitive true)
          else _Collide g sz tree0 tree1 fuel pa nb.GetPos c)
        (fun c => if nb.HasNegLeaf then
            _CollideBoxTri g sz tree0 fuel pa (c.FETCH_LEAF nb.GetNegPrimitive true)
          else _Collide g sz tree0 tree1 fuel pa nb.GetNeg c)) c (A ×ˢ (l1 ++ l2)) := by
  have s1 : ∀ c1 : AABBTreeCollider, c1.mFirstContact = false →
      Run (fun c => if nb.HasPosLeaf then
            _CollideBoxTri g sz tree0 fuel pa (c.FETCH_LEAF nb.GetPosPrimitive true)
          else _Collide g sz tree0 tree1 fuel pa nb.GetPos c) c1 (A ×ˢ l1) := by
    intro c1 hc1
    cases hl : nb.HasPosLeaf with
    | true =>
      simp only [hl, if_true, Option.some.injEq] at h1 ⊢
      rw [← h1, product_singleton_right]
      exact run_fetch _ c1 _ _ _
        (runLeaf_CollideBoxTri g sz tree0 htb fuel pa A hA (c1.FETCH_LEAF _ true) hc1)
    | false =>
      simp only [hl, if_false, Bool.false_eq_true] at h1 ⊢
      exact ih _ l1 h1 c1 hc1
  have s2 : ∀ c1 : AABBTreeCollider, c1.mFirstContact = false →
      Run (fun c => if nb.HasNegLeaf then
            _CollideBoxTri g sz tree0 fuel pa (c.FETCH_LEAF nb.GetNegPrimitive true)
          else _Collide g sz tree0 tree1 fuel pa nb.GetNeg c) c1 (A ×ˢ l2) := by
    intro c1 hc1
    cases hl : nb.HasNegLeaf with
    | true =>
      simp only [hl, if_true, Option.some.injEq] at h2 ⊢
      rw [← h2, product_singleton_right]
      exact run_fetch _ c1 _ _ _
        (runLeaf_CollideBoxTri g sz tree0 htb fuel pa A hA (c1.FETCH_LEAF _ true) hc1)
    | false =>
      simp only [hl, if_false, Bool.false_eq_true] at h2 ⊢
      exact ih _ l2 h2 c1 hc1
  exact run_perm _ c _ _ (product_append_right A l1 l2) (run_andThen _ _ c _ _ hc (s1 c hc) s2)

/-- When every box-box and triangle-box test passes, `_Collide` outside first-contact mode
performs one triangle-triangle test for every combination of a leaf primitive below the
first node and a leaf primitive below the second node, and no other. -/
theorem run_Collide (g : OverlapOracle) (sz : Nat) (tree0 tree1 : NodeArray)
    (hbb : ∀ ea ca eb cb, g.BoxBoxOverlap ea ca eb cb = true)
    (htb : ∀ m i ce ex, g.TriBoxOverlap m i ce ex = true) :
    ∀ (fuel a b : Nat) (P0 P1 : List Nat), tree0.primsUnder sz fuel a = some P0 →
      tree1.primsUnder sz fuel b = some P1 →
      ∀ c : AABBTreeCollider, c.mFirstContact = false →
        Run (_Collide g sz tree0 tree1 fuel a b) c (P0 ×ˢ P1) := by
  intro fuel
  induction fuel with
  | zero => intro a b P0 P1 h; exact absurd h (by simp [NodeArray.primsUnder])
  | succ fuel ih =>
    intro a b P0 P1 hP0 hP1 c hc
    obtain ⟨na, a1, a2, hda, hla, ha1, ha2⟩ := primsUnder_succ sz tree0 fuel a P0 hP0
    obtain ⟨nb, b1, b2, hdb, hlb, hb1, hb2⟩ := primsUnder_succ sz tree1 fuel b P1 hP1
    have first : ∀ c1 : AABBTreeCollider, c1.mFirstContact = false →
        Run (if na.HasPosLeaf then
            andThen
              (fun c => if nb.HasPosLeaf then
                  some ((c.FETCH_LEAF na.GetPosPrimitive false).PrimTestTriIndex g
                    nb.GetPosPrimitive)
                else _CollideTriBox g sz tree1 fuel nb.GetPos
                  (c.FETCH_LEAF na.GetPosPrimitive false))
              (fun c => if nb.HasNegLeaf then some (c.PrimTestTriIndex g nb.GetNegPrimitive)
                else _CollideTriBox g sz tree1 fuel nb.GetNeg c)
          else
            andThen
              (fun c => if nb.HasPosLeaf then
                  _CollideBoxTri g sz tree0 fuel na.GetPos
                    (c.FETCH_LEAF nb.GetPosPrimitive true)
                else _Collide g sz tree0 tree1 fuel na.GetPos nb.GetPos c)
              (fun c => if nb.HasNegLeaf then
                  _CollideBoxTri g sz tree0 fuel na.GetPos
                    (c.FETCH_LEAF nb.GetNegPrimitive true)
                else _Collide g sz tree0 tree1 fuel na.GetPos nb.GetNeg c)) c1
          (a1 ×ˢ (b1 ++ b2)) := by
      intro c1 hc1
      cases hl : na.HasPosLeaf with
      | true =>
        simp only [hl, if_true, Option.some.injEq] at ha1 ⊢
        rw [← ha1]
        exact run_leafHalf g sz tree1 htb fuel nb b1 b2 _ hb1 hb2 c1 hc1
      | false =>
        simp only [hl, if_false, Bool.false_eq_true] at ha1 ⊢
        exact run_nodeHalf g sz tree0 tree1 htb fuel nb b1 b2 a1 _
          (fun b P1 h c h2 => ih _ b a1 P1 ha1 h c h2) ha1 hb1 hb2 c1 hc1
    have second : ∀ c1 : AABBTreeCollider, c1.mFirstContact = false →
        Run (if na.HasNegLeaf then
            andThen
              (fun c => if nb.HasPosLeaf then
                  some ((c.FETCH_LEAF na.GetNegPrimitive false).PrimTestTriIndex g
                    nb.GetPosPrimitive)
                else _CollideTriBox g sz tree1 fuel nb.GetPos
                  (c.FETCH_LEAF na.GetNegPrimitive false))
              (fun c => if nb.HasNegLeaf then some (c.PrimTestTriIndex g nb.GetNegPrimitive)
                else _CollideTriBox g sz tree1 fuel nb.GetNeg c)
          else
            andThen
              (fun c => if nb.HasPosLeaf then
                  _CollideBoxTri g sz tree0 fuel na.GetNeg
                    (c.FETCH_LEAF nb.GetPosPrimitive true)
                else _Collide g sz tree0 tree1 fuel na.GetNeg nb.GetPos c)
              (fun c => if nb.HasNegLeaf then
                  _CollideBoxTri g sz tree0 fuel na.GetNeg
                    (c.FETCH_LEAF nb.GetNegPrimitive true)
                else _Collide g sz tree0 tree1 fuel na.GetNeg nb.GetNeg c)) c1
          (a2 ×ˢ (b1 ++ b2)) := by
      intro c1 hc1
      cases hl : na.HasNegLeaf with
      | true =>
        simp only [hl, if_true, Option.some.injEq] at ha2 ⊢
        rw [← ha2]
        exact run_leafHalf g sz tree1 htb fuel nb b1 b2 _ hb1 hb2 c1 hc1
      | false =>
        simp only [hl, if_false, Bool.false_eq_true] at ha2 ⊢
        exact run_nodeHalf g sz tree0 tree1 htb fuel nb b1 b2 a2 _
          (fun b P1 h c h2 => ih _ b a2 P1 ha2 h c h2) ha2 hb1 hb2 c1 hc1
    have hboth := run_andThen _ _ { c with tests := c.tests ++ [.BoxBox a b] } _ _ hc
      (first _ hc) second
    obtain ⟨c1, new, e1, e2, e3, e4, e5⟩ := hboth
    refine ⟨c1, .BoxBox a b :: new, ?_, by rw [e2]; simp, ?_, ?_, e5⟩
    · rw [Collide_succ, hda, hdb]
      simp only [Option.some_bind, hbb, Bool.not_true, Bool.false_eq_true, if_false]
      exact e1
    · have : primTests (.BoxBox a b :: new) = primTests new := by
        simp [primTests, List.filterMap_cons, OverlapTest.primPair?]
      rw [this, hla, hlb, product_append_left]
      exact e3
    · rw [e4]
      simp [List.flatMap_cons, OverlapTest.hitIds]

end AABBTreeCollider

/-- The walk of `AABBNoLeafTree::Walk` from a node meets the leaf primitives below the node:
what it meets is a permutation of the list `primsUnder`. -/
theorem primsUnder_perm_walk (sz : Nat) (a : NodeArray) (hb : 0 < a.base) :
    ∀ (fuel p : Nat) (P : List Nat), a.primsUnder sz fuel p = some P →
      ∃ v, AABBNoLeafTree._Walk sz a fuel p = some v ∧ (a.walkedPrims v).Perm P := by
  intro fuel
  induction fuel with
  | zero => intro p P h; exact absurd h (by simp [NodeArray.primsUnder])
  | succ fuel ih =>
    intro p P hP
    obtain ⟨n, l1, l2, hd, hl, h1, h2⟩ := AABBTreeCollider.primsUnder_succ sz a fuel p P hP
    have hidx : ∃ i, a.index? sz p = some i ∧ a.cells[i]? = some n := by
      unfold NodeArray.deref at hd
      cases hi : a.index? sz p with
      | none => rw [hi] at hd; exact absurd hd (by simp)
      | some i => rw [hi] at hd; exact ⟨i, rfl, hd⟩
    obtain ⟨i, hi, hc⟩ := hidx
    have hp0 : p ≠ 0 := by
      unfold NodeArray.index? at hi
      split_ifs at hi with hcond
      omega
    have w1 : ∃ v1, (if !n.HasPosLeaf then AABBNoLeafTree._Walk sz a fuel n.GetPos
        else some []) = some v1 ∧
        ((if n.HasPosLeaf then [n.GetPosPrimitive] else []) ++ a.walkedPrims v1).Perm l1 := by
      cases hl : n.HasPosLeaf with
      | true =>
        simp only [hl, if_true, Option.some.injEq] at h1
        exact ⟨[], by simp, by rw [← h1]; simp [NodeArray.walkedPrims]⟩
      | false =>
        simp only [hl, if_false, Bool.false_eq_true] at h1
        obtain ⟨v, e1, e2⟩ := ih _ l1 h1
        exact ⟨v, by simp [e1], by simpa using e2⟩
    have w2 : ∃ v2, (if !n.HasNegLeaf then AABBNoLeafTree._Walk sz a fuel n.GetNeg
        else some []) = some v2 ∧
        ((if n.HasNegLeaf then [n.GetNegPrimitive] else []) ++ a.walkedPrims v2).Perm l2 := by
      cases hl : n.HasNegLeaf with
      | true =>
        simp only [hl, if_true, Option.some.injEq] at h2
        exact ⟨[], by simp, by rw [← h2]; simp [NodeArray.walkedPrims]⟩
      | false =>
        simp only [hl, if_false, Bool.false_eq_true] at h2
        obtain ⟨v, e1, e2⟩ := ih _ l2 h2
        exact ⟨v, by simp [e1], by simpa using e2⟩
    obtain ⟨v1, f1, g1⟩ := w1
    obtain ⟨v2, f2, g2⟩ := w2
    refine ⟨i :: (v1 ++ v2), ?_, ?_⟩
    · rw [walk_unfold sz a fuel p i n hp0 hi hc, f1, f2]
    · have hw : a.walkedPrims (i :: (v1 ++ v2)) =
          n.leafPayloads ++ (a.walkedPrims v1 ++ a.walkedPrims v2) := by
        simp [NodeArray.walkedPrims, hc]
      rw [hw, hl]
      have hcount := (g1.append g2)
      rw [List.perm_iff_count] at hcount ⊢
      intro x
      have := hcount x
      simp only [AABBNoLeafNode.leafPayloads, List.count_append] at this ⊢
      omega

/-- C28: with first-contact mode off and every box-box and triangle-box test passing,
`_Collide` on the roots of two no-leaf trees (non-empty node arrays at non-null addresses
with forward references, enough fuel for the recursion) returns, and the triangle-triangle
tests it performs are, up to their order, exactly one for every combination of a primitive
met by the walk of tree 0 and a primitive met by the walk of tree 1; the indices appended
to `mPairs` are those of the successful tests, each pair listing the tree-0 primitive first
and the tree-1 primitive second. -/
theorem Collide_all_pairs (g : OverlapOracle) (sz : Nat) (a0 a1 : NodeArray) (fuel : Nat)
    (c : AABBTreeCollider)
    (hfirst : c.FirstContactEnabled = false)
    (hbb : ∀ ea ca eb cb, g.BoxBoxOverlap ea ca eb cb = true)
    (htb : ∀ m i ce ex, g.TriBoxOverlap m i ce ex = true)
    (hsz : 0 < sz) (hb0 : 0 < a0.base) (hb1 : 0 < a1.base)
    (hne0 : a0.cells ≠ []) (hne1 : a1.cells ≠ [])
    (hf0 : a0.ForwardRefs sz) (hf1 : a1.ForwardRefs sz)
    (hfuel : a0.cells.length + a1.cells.length ≤ fuel) :
    ∃ v0 v1 c1 new,
      AABBNoLeafTree._Walk sz a0 fuel a0.base = some v0 ∧
      AABBNoLeafTree._Walk sz a1 fuel a1.base = some v1 ∧
      AABBTreeCollider._Collide g sz a0 a1 fuel a0.base a1.base c = some c1 ∧
      c1.tests = c.tests ++ new ∧
      (primTests new).Perm (a0.walkedPrims v0 ×ˢ a1.walkedPrims v1) ∧
      c1.mPairs = c.mPairs ++ new.flatMap OverlapTest.hitIds ∧
      ∀ id0 id1 hit, OverlapTest.TriTri id0 id1 hit ∈ new →
        id0 ∈ a0.walkedPrims v0 ∧ id1 ∈ a1.walkedPrims v1 := by
  obtain ⟨P0, hP0⟩ := AABBTreeCollider.primsUnder_ok sz a0 hf0 fuel a0.base 0
    (AABBTreeCollider.index_base sz hsz a0 hne0) (by omega)
  obtain ⟨P1, hP1⟩ := AABBTreeCollider.primsUnder_ok sz a1 hf1 fuel a1.base 0
    (AABBTreeCollider.index_base sz hsz a1 hne1) (by omega)
  obtain ⟨v0, w0, p0⟩ := primsUnder_perm_walk sz a0 hb0 fuel a0.base P0 hP0
  obtain ⟨v1, w1, p1⟩ := primsUnder_perm_walk sz a1 hb1 fuel a1.base P1 hP1
  obtain ⟨c1, new, e1, e2, e3, e4, _⟩ := AABBTreeCollider.run_Collide g sz a0 a1 hbb htb fuel
    a0.base a1.base P0 P1 hP0 hP1 c hfirst
  have hperm : (primTests new).Perm (a0.walkedPrims v0 ×ˢ a1.walkedPrims v1) :=
    e3.trans (List.Perm.product p0.symm p1.symm)
  refine ⟨v0, v1, c1, new, w0, w1, e1, e2, hperm, e4, ?_⟩
  intro id0 id1 hit hmem
  have : (id0, id1) ∈ primTests new := by
    simp only [primTests, List.mem_filterMap]
    exact ⟨_, hmem, rfl⟩
  have := (hperm.mem_iff).mp this
  exact List.mem_product.mp this

/-- Witness for `Collide_all_pairs`: the sample array against itself with the sample oracle,
first-contact mode off, fuel 4. -/
theorem Collide_all_pairs_witness :
    AABBTreeCollider.FirstContactEnabled { sampleCollider with mFirstContact := false } =
      false ∧
    ∃ v0 v1 c1 new,
      AABBNoLeafTree._Walk 40 sampleArray 4 sampleArray.base = some v0 ∧
      AABBNoLeafTree._Walk 40 sampleArray 4 sampleArray.base = some v1 ∧
      AABBTreeCollider._Collide sampleOracle 40 sampleArray sampleArray 4 sampleArray.base
        sampleArray.base { sampleCollider with mFirstContact := false } = some c1 ∧
      c1.tests = [] ++ new ∧
      (primTests new).Perm (sampleArray.walkedPrims v0 ×ˢ sampleArray.walkedPrims v1) ∧
      c1.mPairs = [] ++ new.flatMap OverlapTest.hitIds ∧
      ∀ id0 id1 hit, OverlapTest.TriTri id0 id1 hit ∈ new →
        id0 ∈ sampleArray.walkedPrims v0 ∧ id1 ∈ sampleArray.walkedPrims v1 :=
  ⟨rfl, Collide_all_pairs sampleOracle 40 sampleArray sampleArray 4
    { sampleCollider with mFirstContact := false } rfl (fun _ _ _ _ => rfl)
    (fun _ _ _ _ => rfl) (by decide) (by decide) (by decide)
    (List.ne_nil_of_length_pos
      (by simp [sampleArray, flatten_length, sampleTree, AABBTreeNode.internalCount]))
    (List.ne_nil_of_length_pos
      (by simp [sampleArray, flatten_length, sampleTree, AABBTreeNode.internalCount]))
    (flatten_forwardRefs 40 4096 (by decide) sampleTree.root)
    (flatten_forwardRefs 40 4096 (by decide) sampleTree.root)
    (by simp [sampleArray, flatten_length, sampleTree, AABBTreeNode.internalCount])⟩

/-! ### Quadtree space: construction -/

/-- Powers of four against the count of blocks. -/
theorem four_pow_quadBelow (d : Nat) : 4 ^ (d + 1) = 3 * quadBelow d + 4 := by
  induction d with
  | zero => rfl
  | succ d ih => rw [pow_succ, ih]; simp only [quadBelow]; ring

/-- Closed form of the count of blocks. -/
theorem quadBelow_eq (d : Nat) : (4 ^ (d + 1) - 1) / 3 = quadBelow d + 1 := by
  rw [four_pow_quadBelow]; omega

/-- The count of blocks as a sum of powers of four. -/
theorem quadBelow_sum (d : Nat) : ∑ i in Finset.range (d + 1), 4 ^ i = quadBelow d + 1 := by
  induction d with
  | zero => rfl
  | succ d ih =>
    rw [Finset.sum_range_succ, ih, four_pow_quadBelow]
    simp only [quadBelow]
    omega

/-- A complete tree depends only on the blocks of its index set. -/
theorem isQuadTree_congr (blocks blocks2 : List Block) (d : Nat) :
    ∀ (MinX MaxX MinZ MaxZ : ℚ) (Parent : Option Nat) (self ptr : Nat),
      (∀ j, Block.InSub d self ptr j →
        (blocks2[j]?).map Block.shape = (blocks[j]?).map Block.shape) →
      Block.IsQuadTree blocks d MinX MaxX MinZ MaxZ Parent self ptr →
      Block.IsQuadTree blocks2 d MinX MaxX MinZ MaxZ Parent self ptr := by
  induction d with
  | zero =>
    intro MinX MaxX MinZ MaxZ Parent self ptr h hq
    simp only [Block.IsQuadTree] at hq ⊢
    rw [h self (Or.inl rfl)]; exact hq
  | succ d ih =>
    intro MinX MaxX MinZ MaxZ Parent self ptr h hq
    simp only [Block.IsQuadTree] at hq ⊢
    obtain ⟨h0, h1, h2, h3, h4⟩ := hq
    refine ⟨by rw [h self (Or.inl rfl)]; exact h0, ih _ _ _ _ _ _ _ ?_ h1, ih _ _ _ _ _ _ _ ?_ h2,
      ih _ _ _ _ _ _ _ ?_ h3, ih _ _ _ _ _ _ _ ?_ h4⟩ <;>
    · intro j hj
      apply h
      simp only [Block.InSub, quadBelow] at hj ⊢
      omega

/-- Count of an index in a run of consecutive indices. -/
theorem count_range_run (a : Nat) (n : Nat) : ∀ p : Nat,
    (List.range' p n).count a = if p ≤ a ∧ a < p + n then 1 else 0 := by
  induction n with
  | zero => intro p; rw [if_neg (by omega)]; rfl
  | succ n ih =>
    intro p
    rw [List.range'_succ, List.count_cons, ih]
    simp only [beq_iff_eq]
    split_ifs <;> omega

/-- The middle of an interval as the code computes it. -/
theorem child_mid (a b : ℚ) : a + (b - a) * (1 / 2) = (a + b) / 2 := by ring

/-- Unfolding of `Block::Create` at depth zero. -/
theorem create_zero (MinX MaxX MinY MaxY : ℚ) (Parent : Option Nat) (self : Nat)
    (s : CreateState) (hx : MinX ≤ MaxX) (hy : MinY ≤ MaxY) (hs : self < s.blocks.length) :
    Block.Create MinX MaxX MinY MaxY Parent 0 self s =
      some { s with
        blocks := s.blocks.set self ⟨MinX, MaxX, MinY, MaxY, none, 0, Parent, none⟩,
        written := s.written ++ [self] } := by
  rw [Block.Create]; simp [hx, hy, hs]

/-- Unfolding of `Block::Create` at a positive depth. -/
theorem create_succ (MinX MaxX MinY MaxY : ℚ) (Parent : Option Nat) (d self : Nat)
    (s : CreateState) (hx : MinX ≤ MaxX) (hy : MinY ≤ MaxY) (hs : self < s.blocks.length) :
    Block.Create MinX MaxX MinY MaxY Parent (d + 1) self s =
      (Block.Create MinX ((MinX + MaxX) / 2) MinY ((MinY + MaxY) / 2) (some self) d s.Blocks
        { blocks := s.blocks.set self
            ⟨MinX, MaxX, MinY, MaxY, none, 0, Parent, some s.Blocks⟩,
          Blocks := s.Blocks + 4, written := s.written ++ [self] }).bind fun s2 =>
      (Block.Create MinX ((MinX + MaxX) / 2) ((MinY + MaxY) / 2) MaxY (some self) d
        (s.Blocks + 1) s2).bind fun s3 =>
      (Block.Create ((MinX + MaxX) / 2) MaxX MinY ((MinY + MaxY) / 2) (some self) d
        (s.Blocks + 2) s3).bind fun s4 =>
      Block.Create ((MinX + MaxX) / 2) MaxX ((MinY + MaxY) / 2) MaxY (some self) d
        (s.Blocks + 3) s4 := by
  rw [Block.Create]; simp only [hx, hy, hs, not_true_eq_false, if_false, child_mid]

/-- A run of consecutive indices splits in two. -/
theorem range_run_append (m n : Nat) : ∀ p : Nat,
    List.range' p (m + n) = List.range' p m ++ List.range' (p + m) n := by
  induction m with
  | zero => intro p; simp
  | succ m ih =>
    intro p
    have e : m + 1 + n = (m + n) + 1 := by omega
    rw [e, List.range'_succ, List.range'_succ, ih (p + 1)]
    have e2 : p + 1 + m = p + (m + 1) := by omega
    rw [e2]; rfl

/-- A run of `Block::Create` with room for the subtree succeeds and leaves a complete tree. -/
theorem create_spec (d : Nat) :
    ∀ (MinX MaxX MinZ MaxZ : ℚ) (Parent : Option Nat) (self : Nat) (s : CreateState),
      MinX ≤ MaxX → MinZ ≤ MaxZ → self < s.Blocks →
      s.Blocks + quadBelow d ≤ s.blocks.length →
      ∃ s2, Block.Create MinX MaxX MinZ MaxZ Parent d self s = some s2 ∧
        Block.Created d MinX MaxX MinZ MaxZ Parent self s s2 := by
  induction d with
  | zero =>
    intro MinX MaxX MinZ MaxZ Parent self s hx hz hself hroom
    have hs : self < s.blocks.length := by simp only [quadBelow] at hroom; omega
    refine ⟨_, create_zero _ _ _ _ _ _ _ hx hz hs, by simp [quadBelow], by simp,
      ⟨[self], rfl, by simp [quadBelow]⟩, ?_, ?_, ?_⟩
    · intro j hj
      have : self ≠ j := fun h => hj (Or.inl h.symm)
      simp [List.getElem?_set_ne this]
    · simp [Block.IsQuadTree, List.getElem?_set_self, hs, Block.shape]
    · intro j hj
      have : j = self := by simp only [Block.InSub, quadBelow] at hj; omega
      subst this
      exact ⟨⟨MinX, MaxX, MinZ, MaxZ, none, 0, Parent, none⟩,
        by simp [List.getElem?_set_self, hs], rfl, rfl⟩
  | succ d ih =>
    intro MinX MaxX MinZ MaxZ Parent self s hx hz hself hroom
    simp only [quadBelow] at hroom
    have hs : self < s.blocks.length := by omega
    have hmx1 : MinX ≤ (MinX + MaxX) / 2 := by linarith
    have hmx2 : (MinX + MaxX) / 2 ≤ MaxX := by linarith
    have hmz1 : MinZ ≤ (MinZ + MaxZ) / 2 := by linarith
    have hmz2 : (MinZ + MaxZ) / 2 ≤ MaxZ := by linarith
    rw [create_succ _ _ _ _ _ _ _ _ hx hz hs]
    obtain ⟨s2, e2, b2, l2, ⟨W2, w2, p2⟩, f2, q2, z2⟩ :=
      ih MinX ((MinX + MaxX) / 2) MinZ ((MinZ + MaxZ) / 2) (some self) s.Blocks
        { blocks := s.blocks.set self ⟨MinX, MaxX, MinZ, MaxZ, none, 0, Parent, some s.Blocks⟩,
          Blocks := s.Blocks + 4, written := s.written ++ [self] }
        hmx1 hmz1 (by simp) (by simp; omega)
    simp only [List.length_set] at b2 l2 w2 p2 f2 q2 z2
    obtain ⟨s3, e3, b3, l3, ⟨W3, w3, p3⟩, f3, q3, z3⟩ :=
      ih MinX ((MinX + MaxX) / 2) ((MinZ + MaxZ) / 2) MaxZ (some self) (s.Blocks + 1) s2
        hmx1 hmz2 (by omega) (by omega)
    obtain ⟨s4, e4, b4, l4, ⟨W4, w4, p4⟩, f4, q4, z4⟩ :=
      ih ((MinX + MaxX) / 2) MaxX MinZ ((MinZ + MaxZ) / 2) (some self) (s.Blocks + 2) s3
        hmx2 hmz1 (by omega) (by omega)
    obtain ⟨s5, e5, b5, l5, ⟨W5, w5, p5⟩, f5, q5, z5⟩ :=
      ih ((MinX + MaxX) / 2) MaxX ((MinZ + MaxZ) / 2) MaxZ (some self) (s.Blocks + 3) s4
        hmx2 hmz2 (by omega) (by omega)
    have b3n : s3.Blocks = s.Blocks + 4 + 2 * quadBelow d := by omega
    have b4n : s4.Blocks = s.Blocks + 4 + 3 * quadBelow d := by omega
    rw [b2] at f3 q3 z3 p3
    rw [b3n] at f4 q4 z4 p4
    rw [b4n] at f5 q5 z5 p5
    have a4 : ∀ j, Block.InSub d (s.Blocks + 2) (s.Blocks + 4 + 2 * quadBelow d) j →
        s5.blocks[j]? = s4.blocks[j]? := by
      intro j hj; apply f5
      simp only [Block.InSub] at hj ⊢; omega
    have a3 : ∀ j, Block.InSub d (s.Blocks + 1) (s.Blocks + 4 + quadBelow d) j →
        s5.blocks[j]? = s3.blocks[j]? := by
      intro j hj
      rw [f5 j (by simp only [Block.InSub] at hj ⊢; omega),
        f4 j (by simp only [Block.InSub] at hj ⊢; omega)]
    have a2 : ∀ j, Block.InSub d s.Blocks (s.Blocks + 4) j →
        s5.blocks[j]? = s2.blocks[j]? := by
      intro j hj
      rw [f5 j (by simp only [Block.InSub] at hj ⊢; omega),
        f4 j (by simp only [Block.InSub] at hj ⊢; omega),
        f3 j (by simp only [Block.InSub] at hj ⊢; omega)]
    have a1 : ∀ j, ¬ (s.Blocks ≤ j ∧ j < s.Blocks + (4 * quadBelow d + 4)) →
        s5.blocks[j]? =
          (s.blocks.set self ⟨MinX, MaxX, MinZ, MaxZ, none, 0, Parent, some s.Blocks⟩)[j]? := by
      intro j hj
      rw [f5 j (by simp only [Block.InSub]; omega),
        f4 j (by simp only [Block.InSub]; omega),
        f3 j (by simp only [Block.InSub]; omega),
        f2 j (by simp only [Block.InSub]; omega)]
    refine ⟨s5, by simp only [e2, e3, e4, e5, Option.bind_some, Option.some_bind], ?_, ?_, ?_, ?_, ?_, ?_⟩
    · rw [b5, b4, b3, b2]; simp only [quadBelow]; omega
    · rw [l5, l4, l3, l2]
    · refine ⟨[self] ++ W2 ++ W3 ++ W4 ++ W5, ?_, ?_⟩
      · rw [w5, w4, w3, w2]; simp only [List.append_assoc]
      · have hr : List.range' s.Blocks (quadBelow (d + 1)) =
            s.Blocks :: (s.Blocks + 1) :: (s.Blocks + 2) :: (s.Blocks + 3) ::
              (List.range' (s.Blocks + 4) (quadBelow d) ++
                (List.range' (s.Blocks + 4 + quadBelow d) (quadBelow d) ++
                  (List.range' (s.Blocks + 4 + 2 * quadBelow d) (quadBelow d) ++
                    List.range' (s.Blocks + 4 + 3 * quadBelow d) (quadBelow d)))) := by
          have e : quadBelow (d + 1) =
              4 + (quadBelow d + (quadBelow d + (quadBelow d + quadBelow d))) := by
            simp only [quadBelow]; omega
          rw [e, range_run_append, range_run_append, range_run_append, range_run_append]
          have e1 : s.Blocks + 4 + quadBelow d + quadBelow d = s.Blocks + 4 + 2 * quadBelow d := by
            omega
          have e2 : s.Blocks + 4 + 2 * quadBelow d + quadBelow d =
              s.Blocks + 4 + 3 * quadBelow d := by omega
          rw [e1, e2]
          rfl
        rw [hr, List.perm_iff_count]
        intro a
        simp only [List.count_append, p2.count_eq a, p3.count_eq a, p4.count_eq a,
          p5.count_eq a, List.count_cons, List.count_nil]
        omega
    · intro j hj
      simp only [Block.InSub, quadBelow] at hj
      rw [a1 j (by omega), List.getElem?_set_ne (by omega)]
    · simp only [Block.IsQuadTree]
      refine ⟨?_, ?_, ?_, ?_, q5⟩
      · rw [a1 self (by omega)]
        simp [List.getElem?_set_self, hs, Block.shape]
      · exact isQuadTree_congr _ _ _ _ _ _ _ _ _ _ (fun j hj => by rw [a2 j hj]) q2
      · exact isQuadTree_congr _ _ _ _ _ _ _ _ _ _ (fun j hj => by rw [a3 j hj]) q3
      · exact isQuadTree_congr _ _ _ _ _ _ _ _ _ _ (fun j hj => by rw [a4 j hj]) q4
    · intro j hj
      simp only [Block.InSub, quadBelow] at hj
      by_cases c0 : j = self
      · subst c0
        rw [a1 j (by omega)]
        exact ⟨⟨MinX, MaxX, MinZ, MaxZ, none, 0, Parent, some s.Blocks⟩,
          by simp [List.getElem?_set_self, hs], rfl, rfl⟩
      by_cases c2 : Block.InSub d s.Blocks (s.Blocks + 4) j
      · rw [a2 j c2]; exact z2 j c2
      by_cases c3 : Block.InSub d (s.Blocks + 1) (s.Blocks + 4 + quadBelow d) j
      · rw [a3 j c3]; exact z3 j c3
      by_cases c4 : Block.InSub d (s.Blocks + 2) (s.Blocks + 4 + 2 * quadBelow d) j
      · rw [a4 j c4]; exact z4 j c4
      · apply z5
        simp only [Block.InSub] at c2 c3 c4 ⊢
        omega

/-- C21: for a depth `D` with `2 (D + 1)` below the width of `size_t`, `numNodes` returns
`(4 ^ (D + 1) - 1) / 3`, which is the sum of `4 ^ i` over `i ≤ D`; and `Block::Create` called on
block 0 of an array of that many blocks, with the running pointer on block 1, returns, leaves
the running pointer at the end of the array, initialises every block of the array exactly once
(its record of writes is a permutation of the indices of the array) and none outside, and
builds a complete 4-ary tree of depth `D` of empty blocks: a block above depth `D` has four
children over the four equal quadrants of its rectangle, a block at depth `D` has none. -/
theorem Create_complete_tree (w D : Nat) (hw : 2 * (D + 1) < w) (MinX MaxX MinZ MaxZ : ℚ)
    (hx : MinX ≤ MaxX) (hz : MinZ ≤ MaxZ) (blocks : List Block)
    (hlen : blocks.length = (4 ^ (D + 1) - 1) / 3) :
    numNodes w D = some ((4 ^ (D + 1) - 1) / 3) ∧
    (4 ^ (D + 1) - 1) / 3 = ∑ i in Finset.range (D + 1), 4 ^ i ∧
    ∃ s, Block.Create MinX MaxX MinZ MaxZ none D 0 ⟨blocks, 1, []⟩ = some s ∧
      s.Blocks = (4 ^ (D + 1) - 1) / 3 ∧ s.blocks.length = (4 ^ (D + 1) - 1) / 3 ∧
      s.written.Perm (List.range ((4 ^ (D + 1) - 1) / 3)) ∧
      Block.IsQuadTree s.blocks D MinX MaxX MinZ MaxZ none 0 1 ∧
      ∀ j, j < (4 ^ (D + 1) - 1) / 3 →
        ∃ b, s.blocks[j]? = some b ∧ b.mGeomCount = 0 ∧ b.mFirst = none := by
  refine ⟨?_, ?_, ?_⟩
  · have h1 : (1 <<< (2 * (D + 1))) % 2 ^ w = 4 ^ (D + 1) := by
      rw [Nat.one_shiftLeft, Nat.mod_eq_of_lt (Nat.pow_lt_pow_right (by norm_num) hw),
        pow_mul]
      norm_num
    simp only [numNodes, hw, if_true, h1]
  · rw [quadBelow_eq, quadBelow_sum]
  · rw [quadBelow_eq] at hlen ⊢
    obtain ⟨s, e, b, l, ⟨W, hw1, hp⟩, -, q, z⟩ :=
      create_spec D MinX MaxX MinZ MaxZ none 0 ⟨blocks, 1, []⟩ hx hz (by simp)
        (by simp only [hlen]; omega)
    simp only at b l hw1 hp q z
    refine ⟨s, e, by omega, by omega, ?_, q, ?_⟩
    · rw [hw1, List.nil_append]
      refine hp.trans ?_
      rw [List.range_eq_range', List.range'_succ]
    · intro j hj
      apply z
      simp only [Block.InSub]
      omega

/-- C21 at depth 1 with a 64-bit `size_t`: five blocks over the square from 0 to 8. -/
theorem Create_complete_tree_witness :
    2 * (1 + 1) < 64 ∧
    numNodes 64 1 = some ((4 ^ (1 + 1) - 1) / 3) ∧
    (4 ^ (1 + 1) - 1) / 3 = ∑ i in Finset.range (1 + 1), 4 ^ i ∧
    ∃ s, Block.Create 0 8 0 8 none 1 0 ⟨List.replicate 5 Block.fresh, 1, []⟩ = some s ∧
      s.Blocks = (4 ^ (1 + 1) - 1) / 3 ∧ s.blocks.length = (4 ^ (1 + 1) - 1) / 3 ∧
      s.written.Perm (List.range ((4 ^ (1 + 1) - 1) / 3)) ∧
      Block.IsQuadTree s.blocks 1 0 8 0 8 none 0 1 ∧
      ∀ j, j < (4 ^ (1 + 1) - 1) / 3 →
        ∃ b, s.blocks[j]? = some b ∧ b.mGeomCount = 0 ∧ b.mFirst = none :=
  ⟨by decide, Create_complete_tree 64 1 (by decide) 0 8 0 8 (by norm_num) (by norm_num)
    (List.replicate 5 Block.fresh) (by simp)⟩

/-! ### Quadtree space: block lookup -/

/-- Reading the shape of a block. -/
theorem shape_get (blocks : List Block) (self : Nat) (MinX MaxX MinZ MaxZ : ℚ)
    (Parent Children : Option Nat)
    (h : (blocks[self]?).map Block.shape = some (MinX, MaxX, MinZ, MaxZ, Parent, Children)) :
    ∃ b, blocks[self]? = some b ∧ b.mMinX = MinX ∧ b.mMaxX = MaxX ∧ b.mMinZ = MinZ ∧
      b.mMaxZ = MaxZ ∧ b.mParent = Parent ∧ b.mChildren = Children := by
  cases hb : blocks[self]? with
  | none => rw [hb] at h; simp at h
  | some b =>
    rw [hb] at h
    simp only [Option.map_some', Option.some.injEq, Block.shape, Prod.mk.injEq] at h
    exact ⟨b, rfl, h.1, h.2.1, h.2.2.1, h.2.2.2.1, h.2.2.2.2.1, h.2.2.2.2.2⟩

/-- The root of a complete tree. -/
theorem isQuadTree_root (blocks : List Block) (d : Nat) (MinX MaxX MinZ MaxZ : ℚ)
    (Parent : Option Nat) (self ptr : Nat)
    (h : Block.IsQuadTree blocks d MinX MaxX MinZ MaxZ Parent self ptr) :
    ∃ b, blocks[self]? = some b ∧ b.mMinX = MinX ∧ b.mMaxX = MaxX ∧ b.mMinZ = MinZ ∧
      b.mMaxZ = MaxZ ∧ b.mParent = Parent := by
  cases d with
  | zero =>
    obtain ⟨b, h1, h2, h3, h4, h5, h6, -⟩ := shape_get _ _ _ _ _ _ _ _ h
    exact ⟨b, h1, h2, h3, h4, h5, h6⟩
  | succ d =>
    obtain ⟨b, h1, h2, h3, h4, h5, h6, -⟩ := shape_get _ _ _ _ _ _ _ _ h.1
    exact ⟨b, h1, h2, h3, h4, h5, h6⟩

/-- What a complete tree says of every block of its index set: the rectangle is ordered, the
children follow the block and are its quadrants, and a block other than the root has its
parent before it, among whose children it is. -/
theorem isQuadTree_facts (blocks : List Block) (d : Nat) :
    ∀ (MinX MaxX MinZ MaxZ : ℚ) (Parent : Option Nat) (self ptr : Nat),
      MinX ≤ MaxX → MinZ ≤ MaxZ → self < ptr →
      Block.IsQuadTree blocks d MinX MaxX MinZ MaxZ Parent self ptr →
      (∀ i, Block.InSub d self ptr i → ∃ b, blocks[i]? = some b ∧ b.mMinX ≤ b.mMaxX ∧
        b.mMinZ ≤ b.mMaxZ ∧ ∀ ch, b.mChildren = some ch → i < ch ∧
          ∀ k, k < 4 → ∃ c, blocks[ch + k]? = some c ∧ c.mParent = some i ∧
            Block.IsQuadrant b c k) ∧
      (∀ j, ptr ≤ j → j < ptr + quadBelow d → ∃ b p, blocks[j]? = some b ∧
        b.mParent = some p ∧ p < j ∧ ∃ bp ch, blocks[p]? = some bp ∧
          bp.mChildren = some ch ∧ ch ≤ j ∧ j < ch + 4) := by
  induction d with
  | zero =>
    intro MinX MaxX MinZ MaxZ Parent self ptr hx hz hlt h
    obtain ⟨b, h1, h2, h3, h4, h5, h6, h7⟩ := shape_get _ _ _ _ _ _ _ _ h
    refine ⟨?_, ?_⟩
    · intro i hi
      have : i = self := by simp only [Block.InSub, quadBelow] at hi; omega
      subst this
      refine ⟨b, h1, by rw [h2, h3]; exact hx, by rw [h4, h5]; exact hz, ?_⟩
      intro ch hch; rw [h7] at hch; simp at hch
    · intro j hj1 hj2; simp only [quadBelow] at hj2; omega
  | succ d ih =>
    intro MinX MaxX MinZ MaxZ Parent self ptr hx hz hlt h
    simp only [Block.IsQuadTree] at h
    obtain ⟨h0, t0, t1, t2, t3⟩ := h
    obtain ⟨b, h1, h2, h3, h4, h5, h6, h7⟩ := shape_get _ _ _ _ _ _ _ _ h0
    have hmx1 : MinX ≤ (MinX + MaxX) / 2 := by linarith
    have hmx2 : (MinX + MaxX) / 2 ≤ MaxX := by linarith
    have hmz1 : MinZ ≤ (MinZ + MaxZ) / 2 := by linarith
    have hmz2 : (MinZ + MaxZ) / 2 ≤ MaxZ := by linarith
    obtain ⟨A0, B0⟩ := ih _ _ _ _ _ _ _ hmx1 hmz1 (by omega) t0
    obtain ⟨A1, B1⟩ := ih _ _ _ _ _ _ _ hmx1 hmz2 (by omega) t1
    obtain ⟨A2, B2⟩ := ih _ _ _ _ _ _ _ hmx2 hmz1 (by omega) t2
    obtain ⟨A3, B3⟩ := ih _ _ _ _ _ _ _ hmx2 hmz2 (by omega) t3
    obtain ⟨c0, r0, x0, y0, z0, w0, p0⟩ := isQuadTree_root _ _ _ _ _ _ _ _ _ t0
    obtain ⟨c1, r1, x1, y1, z1, w1, p1⟩ := isQuadTree_root _ _ _ _ _ _ _ _ _ t1
    obtain ⟨c2, r2, x2, y2, z2, w2, p2⟩ := isQuadTree_root _ _ _ _ _ _ _ _ _ t2
    obtain ⟨c3, r3, x3, y3, z3, w3, p3⟩ := isQuadTree_root _ _ _ _ _ _ _ _ _ t3
    refine ⟨?_, ?_⟩
    · intro i hi
      simp only [Block.InSub, quadBelow] at hi
      by_cases c : i = self
      · subst c
        refine ⟨b, h1, by rw [h2, h3]; exact hx, by rw [h4, h5]; exact hz, ?_⟩
        intro ch hch
        rw [h7] at hch
        have : ch = ptr := by simpa using hch.symm
        subst this
        refine ⟨hlt, ?_⟩
        intro k hk
        have hk4 : k = 0 ∨ k = 1 ∨ k = 2 ∨ k = 3 := by omega
        rcases hk4 with rfl | rfl | rfl | rfl
        · exact ⟨c0, r0, p0, by simp [Block.IsQuadrant, *]⟩
        · exact ⟨c1, r1, p1, by simp [Block.IsQuadrant, *]⟩
        · exact ⟨c2, r2, p2, by simp [Block.IsQuadrant, *]⟩
        · exact ⟨c3, r3, p3, by simp [Block.IsQuadrant, *]⟩
      · by_cases c0 : Block.InSub d ptr (ptr + 4) i
        · exact A0 i c0
        by_cases c1 : Block.InSub d (ptr + 1) (ptr + 4 + quadBelow d) i
        · exact A1 i c1
        by_cases c2 : Block.InSub d (ptr + 2) (ptr + 4 + 2 * quadBelow d) i
        · exact A2 i c2
        · apply A3
          simp only [Block.InSub] at c0 c1 c2 ⊢
          omega
    · intro j hj1 hj2
      simp only [quadBelow] at hj2
      by_cases e0 : j = ptr
      · subst e0; exact ⟨c0, self, r0, p0, hlt, b, j, h1, h7, by omega, by omega⟩
      by_cases e1 : j = ptr + 1
      · subst e1; exact ⟨c1, self, r1, p1, by omega, b, ptr, h1, h7, by omega, by omega⟩
      by_cases e2 : j = ptr + 2
      · subst e2; exact ⟨c2, self, r2, p2, by omega, b, ptr, h1, h7, by omega, by omega⟩
      by_cases e3 : j = ptr + 3
      · subst e3; exact ⟨c3, self, r3, p3, by omega, b, ptr, h1, h7, by omega, by omega⟩
      by_cases f0 : j < ptr + 4 + quadBelow d
      · exact B0 j (by omega) (by omega)
      by_cases f1 : j < ptr + 4 + 2 * quadBelow d
      · exact B1 j (by omega) (by omega)
      by_cases f2 : j < ptr + 4 + 3 * quadBelow d
      · exact B2 j (by omega) (by omega)
      · exact B3 j (by omega) (by omega)

/-- Every block of a well-formed array has an ordered rectangle, and its children, if any,
follow it and are its quadrants. -/
theorem wf_block (blocks : List Block) (h : Block.WellFormed blocks) (i : Nat)
    (hi : i < blocks.length) :
    ∃ b, blocks[i]? = some b ∧ b.mMinX ≤ b.mMaxX ∧ b.mMinZ ≤ b.mMaxZ ∧
      ∀ ch, b.mChildren = some ch → i < ch ∧
        ∀ k, k < 4 → ∃ c, blocks[ch + k]? = some c ∧ c.mParent = some i ∧
          Block.IsQuadrant b c k := by
  obtain ⟨D, MinX, MaxX, MinZ, MaxZ, hx, hz, hlen, hq⟩ := h
  apply (isQuadTree_facts blocks D _ _ _ _ _ _ _ hx hz (by omega) hq).1
  simp only [Block.InSub]; omega

/-- Every block of a well-formed array other than block 0 has its parent before it and is
one of the children of its parent. -/
theorem wf_parent (blocks : List Block) (h : Block.WellFormed blocks) (j : Nat)
    (hj : j < blocks.length) (h0 : 0 < j) :
    ∃ b p, blocks[j]? = some b ∧ b.mParent = some p ∧ p < j ∧ ∃ bp ch, blocks[p]? = some bp ∧
      bp.mChildren = some ch ∧ ch ≤ j ∧ j < ch + 4 := by
  obtain ⟨D, MinX, MaxX, MinZ, MaxZ, hx, hz, hlen, hq⟩ := h
  exact (isQuadTree_facts blocks D _ _ _ _ _ _ _ hx hz (by omega) hq).2 j (by omega) (by omega)

/-- Block 0 of a well-formed array has no parent. -/
theorem wf_root (blocks : List Block) (h : Block.WellFormed blocks) :
    ∃ b, blocks[0]? = some b ∧ b.mParent = none := by
  obtain ⟨D, MinX, MaxX, MinZ, MaxZ, hx, hz, hlen, hq⟩ := h
  obtain ⟨b, h1, -, -, -, -, h6⟩ := isQuadTree_root _ _ _ _ _ _ _ _ _ hq
  exact ⟨b, h1, h6⟩

/-- A well-formed array is not empty. -/
theorem wf_pos (blocks : List Block) (h : Block.WellFormed blocks) : 0 < blocks.length := by
  obtain ⟨D, MinX, MaxX, MinZ, MaxZ, hx, hz, hlen, hq⟩ := h
  omega

/-- The array that `Block::Create` builds is well formed. -/
theorem wf_sampleBlocks : Block.WellFormed sampleBlocks := by
  obtain ⟨s, e, -, l, -, -, q, -⟩ :=
    create_spec 1 0 8 0 8 none 0 ⟨List.replicate 5 Block.fresh, 1, []⟩ (by norm_num)
      (by norm_num) (by simp) (by simp [quadBelow])
  refine ⟨1, 0, 8, 0, 8, by norm_num, by norm_num, ?_, ?_⟩
  · simp only [sampleBlocks, e, l]; simp [quadBelow]
  · simp only [sampleBlocks, e]; exact q

/-- Length of the sample array. -/
theorem length_sampleBlocks : sampleBlocks.length = 5 := by
  obtain ⟨s, e, -, l, -, -, q, -⟩ :=
    create_spec 1 0 8 0 8 none 0 ⟨List.replicate 5 Block.fresh, 1, []⟩ (by norm_num)
      (by norm_num) (by simp) (by simp [quadBelow])
  simp only [sampleBlocks, e, l]; simp

/-- A box strictly inside a quadrant is strictly inside the whole rectangle. -/
theorem inside_of_quadrant (b c : Block) (k : Nat) (A : dAABB) (hx : b.mMinX ≤ b.mMaxX)
    (hz : b.mMinZ ≤ b.mMaxZ) (hq : Block.IsQuadrant b c k) (hc : c.Inside A = true) :
    b.Inside A = true := by
  obtain ⟨q1, q2, q3, q4⟩ := hq
  simp only [Block.Inside, Bool.and_eq_true, decide_eq_true_eq, q1, q2, q3, q4] at hc ⊢
  obtain ⟨⟨⟨c1, c2⟩, c3⟩, c4⟩ := hc
  refine ⟨⟨⟨?_, ?_⟩, ?_⟩, ?_⟩
  · split_ifs at c1 <;> linarith
  · split_ifs at c2 <;> linarith
  · split_ifs at c3 <;> linarith
  · split_ifs at c4 <;> linarith

/-- A box strictly inside any block is strictly inside block 0. -/
theorem inside_root (blocks : List Block) (h : Block.WellFormed blocks) (A : dAABB) :
    ∀ (i : Nat) (b root : Block), blocks[i]? = some b → blocks[0]? = some root →
      b.Inside A = true → root.Inside A = true := by
  intro i
  induction i using Nat.strong_induction_on with
  | _ i ih =>
    intro b root hb hroot hin
    have hi : i < blocks.length := (List.getElem?_eq_some_iff.1 hb).1
    by_cases h0 : i = 0
    · subst h0; rw [hb] at hroot; cases hroot; exact hin
    · obtain ⟨b2, p, e1, e2, e3, bp, ch, e4, e5, e6, e7⟩ := wf_parent blocks h i hi (by omega)
      rw [hb] at e1; cases e1
      have hp : p < blocks.length := by omega
      obtain ⟨bp2, f1, f2, f3, f4⟩ := wf_block blocks h p hp
      rw [e4] at f1; cases f1
      obtain ⟨-, f5⟩ := f4 ch e5
      obtain ⟨c, g1, g2, g3⟩ := f5 (i - ch) (by omega)
      have : ch + (i - ch) = i := by omega
      rw [this, hb] at g1; cases g1
      exact ih p e3 bp root e4 hroot (inside_of_quadrant bp b _ A f2 f3 g3 hin)

/-- With fuel for the levels below it, `Block::GetBlockChild` from a block that contains the
box returns a block that contains the box and none of whose children does. -/
theorem getBlockChild_spec (blocks : List Block) (h : Block.WellFormed blocks) (A : dAABB) :
    ∀ (fuel i : Nat) (b : Block), blocks[i]? = some b → b.Inside A = true →
      blocks.length ≤ fuel + i →
      ∃ r br, Block.GetBlockChild blocks A fuel i = some r ∧ blocks[r]? = some br ∧
        br.Inside A = true ∧ ∀ ch, br.mChildren = some ch → ∀ k, k < 4 →
          ∃ c, blocks[ch + k]? = some c ∧ c.Inside A = false := by
  intro fuel
  induction fuel with
  | zero =>
    intro i b hb _ hf
    have hi : i < blocks.length := (List.getElem?_eq_some_iff.1 hb).1
    omega
  | succ fuel ih =>
    intro i b hb hin hf
    have hi : i < blocks.length := (List.getElem?_eq_some_iff.1 hb).1
    obtain ⟨b2, f1, f2, f3, f4⟩ := wf_block blocks h i hi
    rw [hb] at f1; cases f1
    rw [Block.GetBlockChild]
    simp only [hb]
    cases hch : b.mChildren with
    | none =>
      refine ⟨i, b, rfl, hb, hin, ?_⟩
      intro ch hc; rw [hch] at hc; cases hc
    | some ch =>
      obtain ⟨hlt, f5⟩ := f4 ch hch
      obtain ⟨c0, g0, -, -⟩ := f5 0 (by omega)
      obtain ⟨c1, g1, -, -⟩ := f5 1 (by omega)
      obtain ⟨c2, g2, -, -⟩ := f5 2 (by omega)
      obtain ⟨c3, g3, -, -⟩ := f5 3 (by omega)
      simp only [Nat.add_zero] at g0
      simp only [g0, g1, g2, g3]
      by_cases i0 : c0.Inside A = true
      · rw [if_pos i0]; exact ih ch c0 g0 i0 (by omega)
      rw [if_neg i0]
      by_cases i1 : c1.Inside A = true
      · rw [if_pos i1]; exact ih (ch + 1) c1 g1 i1 (by omega)
      rw [if_neg i1]
      by_cases i2 : c2.Inside A = true
      · rw [if_pos i2]; exact ih (ch + 2) c2 g2 i2 (by omega)
      rw [if_neg i2]
      by_cases i3 : c3.Inside A = true
      · rw [if_pos i3]; exact ih (ch + 3) c3 g3 i3 (by omega)
      rw [if_neg i3]
      refine ⟨i, b, rfl, hb, hin, ?_⟩
      intro ch2 hc k hk
      rw [hch] at hc; cases hc
      have hk4 : k = 0 ∨ k = 1 ∨ k = 2 ∨ k = 3 := by omega
      rcases hk4 with rfl | rfl | rfl | rfl
      · exact ⟨c0, g0, by simpa using i0⟩
      · exact ⟨c1, g1, by simpa using i1⟩
      · exact ⟨c2, g2, by simpa using i2⟩
      · exact ⟨c3, g3, by simpa using i3⟩

/-- With enough fuel `Block::GetBlock` returns: the deepest block that contains the box when
block 0 contains it, block 0 otherwise. -/
theorem getBlock_spec (blocks : List Block) (h : Block.WellFormed blocks) (A : dAABB)
    (root : Block) (hroot : blocks[0]? = some root) :
    ∀ (fuel i : Nat), i < blocks.length → blocks.length + i ≤ fuel →
      ∃ r, Block.GetBlock blocks A fuel i = some r ∧
        (root.Inside A = true → ∃ br, blocks[r]? = some br ∧ br.Inside A = true ∧
          ∀ ch, br.mChildren = some ch → ∀ k, k < 4 →
            ∃ c, blocks[ch + k]? = some c ∧ c.Inside A = false) ∧
        (root.Inside A = false → r = 0) := by
  intro fuel
  induction fuel with
  | zero => intro i hi hf; omega
  | succ fuel ih =>
    intro i hi hf
    obtain ⟨b, hb, -, -, -⟩ := wf_block blocks h i hi
    rw [Block.GetBlock]
    simp only [hb]
    by_cases hin : b.Inside A = true
    · rw [if_pos hin]
      obtain ⟨r, br, e1, e2, e3, e4⟩ := getBlockChild_spec blocks h A (fuel + 1) i b hb hin
        (by omega)
      refine ⟨r, e1, fun _ => ⟨br, e2, e3, e4⟩, ?_⟩
      intro hr
      rw [inside_root blocks h A i b root hb hroot hin] at hr
      cases hr
    · rw [if_neg hin]
      by_cases h0 : i = 0
      · subst h0
        obtain ⟨b2, f1, f2⟩ := wf_root blocks h
        rw [hb] at f1; cases f1
        rw [hb] at hroot; cases hroot
        simp only [f2]
        exact ⟨0, rfl, fun hr => absurd hr hin, fun _ => rfl⟩
      · obtain ⟨b2, p, e1, e2, e3, -⟩ := wf_parent blocks h i hi (by omega)
        rw [hb] at e1; cases e1
        simp only [e2]
        exact ih p (by omega) (by omega)

/-- C24: on a well-formed block array `Block::GetBlock` returns from every starting block
(fuel of twice the number of blocks is enough); when the box is strictly inside the rectangle
of block 0 the block returned strictly contains the box and none of its children does, and
when the box is not strictly inside the rectangle of block 0 the block returned is block 0. -/
theorem GetBlock_deepest (blocks : List Block) (hwf : Block.WellFormed blocks) (AABB : dAABB)
    (self : Nat) (hself : self < blocks.length) (fuel : Nat)
    (hfuel : 2 * blocks.length ≤ fuel) :
    ∃ r root, Block.GetBlock blocks AABB fuel self = some r ∧ blocks[0]? = some root ∧
      (root.Inside AABB = true → ∃ br, blocks[r]? = some br ∧ br.Inside AABB = true ∧
        ∀ ch, br.mChildren = some ch → ∀ k, k < 4 →
          ∃ c, blocks[ch + k]? = some c ∧ c.Inside AABB = false) ∧
      (root.Inside AABB = false → r = 0) := by
  obtain ⟨root, hroot, -⟩ := wf_root blocks hwf
  obtain ⟨r, h1, h2, h3⟩ := getBlock_spec blocks hwf AABB root hroot fuel self hself (by omega)
  exact ⟨r, root, h1, hroot, h2, h3⟩

/-- C24 on the sample array, from block 4, for a box in the first quadrant. -/
theorem GetBlock_deepest_witness :
    Block.WellFormed sampleBlocks ∧ 4 < sampleBlocks.length ∧ 2 * sampleBlocks.length ≤ 10 ∧
    ∃ r root, Block.GetBlock sampleBlocks ⟨1, 2, 1, 2, 0, 0⟩ 10 4 = some r ∧
      sampleBlocks[0]? = some root ∧
      (root.Inside ⟨1, 2, 1, 2, 0, 0⟩ = true → ∃ br, sampleBlocks[r]? = some br ∧
        br.Inside ⟨1, 2, 1, 2, 0, 0⟩ = true ∧
        ∀ ch, br.mChildren = some ch → ∀ k, k < 4 →
          ∃ c, sampleBlocks[ch + k]? = some c ∧ c.Inside ⟨1, 2, 1, 2, 0, 0⟩ = false) ∧
      (root.Inside ⟨1, 2, 1, 2, 0, 0⟩ = false → r = 0) :=
  ⟨wf_sampleBlocks, by rw [length_sampleBlocks]; decide, by rw [length_sampleBlocks],
    GetBlock_deepest sampleBlocks wf_sampleBlocks ⟨1, 2, 1, 2, 0, 0⟩ 4
      (by rw [length_sampleBlocks]; decide) 10 (by rw [length_sampleBlocks])⟩

/-! ### Quadtree space: local lists and counts -/

/-- A chain depends only on the links of its geoms. -/
theorem chain_congr (geoms geoms2 : List dxGeom) : ∀ (l : List Nat) (first : Option Nat),
    (∀ g, g ∈ l → (geoms2[g]?).map dxGeom.next_ex = (geoms[g]?).map dxGeom.next_ex) →
    Chain geoms first l → Chain geoms2 first l := by
  intro l
  induction l with
  | nil => intro first _ h; exact h
  | cons g t ih =>
    intro first hc h
    obtain ⟨h1, G, h2, h3⟩ := h
    have e := hc g (List.mem_cons_self _ _)
    rw [h2] at e
    cases hG : geoms2[g]? with
    | none => rw [hG] at e; simp at e
    | some G2 =>
      rw [hG] at e
      simp only [Option.map_some', Option.some.injEq] at e
      refine ⟨h1, G2, hG, ?_⟩
      rw [e]
      exact ih _ (fun x hx => hc x (List.mem_cons_of_mem _ hx)) h3

/-- A chain from a given geom is unique. -/
theorem chain_unique (geoms : List dxGeom) : ∀ (l1 l2 : List Nat) (first : Option Nat),
    Chain geoms first l1 → Chain geoms first l2 → l1 = l2 := by
  intro l1
  induction l1 with
  | nil =>
    intro l2 first h1 h2
    cases l2 with
    | nil => rfl
    | cons g t => obtain ⟨e, -⟩ := h2; rw [h1] at e; cases e
  | cons g t ih =>
    intro l2 first h1 h2
    obtain ⟨e1, G, e2, e3⟩ := h1
    cases l2 with
    | nil => rw [h2] at e1; cases e1
    | cons g2 t2 =>
      obtain ⟨f1, G2, f2, f3⟩ := h2
      rw [e1] at f1; cases f1
      rw [e2] at f2; cases f2
      rw [ih t2 _ e3 f3]

/-- No geom is twice on a chain. -/
theorem chain_nodup (geoms : List dxGeom) : ∀ (l : List Nat) (first : Option Nat),
    Chain geoms first l → l.Nodup := by
  intro l
  induction l with
  | nil => intro _ _; exact List.nodup_nil
  | cons g t ih =>
    intro first h
    obtain ⟨e1, G, e2, e3⟩ := h
    refine List.nodup_cons.2 ⟨?_, ih _ e3⟩
    intro hmem
    -- the chain from the second occurrence is shorter than, and equal to, the tail
    have key : ∀ (t2 : List Nat) (f : Option Nat), Chain geoms f t2 → g ∈ t2 →
        ∃ t3, Chain geoms G.next_ex t3 ∧ t3.length < t2.length := by
      intro t2
      induction t2 with
      | nil => intro f _ hm; cases hm
      | cons x t3 ih2 =>
        intro f hc hm
        obtain ⟨c1, X, c2, c3⟩ := hc
        by_cases hx : x = g
        · subst hx
          rw [e2] at c2; cases c2
          exact ⟨t3, c3, by simp⟩
        · have : g ∈ t3 := by
            rcases List.mem_cons.1 hm with h | h
            · exact absurd h.symm hx
            · exact h
          obtain ⟨t4, d1, d2⟩ := ih2 _ c3 this
          exact ⟨t4, d1, by simp; omega⟩
    obtain ⟨t3, d1, d2⟩ := key t _ e3 hmem
    rw [chain_unique geoms t3 t _ d1 e3] at d2
    omega

/-- The geoms of a chain are geoms of the space. -/
theorem chain_get (geoms : List dxGeom) : ∀ (l : List Nat) (first : Option Nat),
    Chain geoms first l → ∀ g, g ∈ l → ∃ G, geoms[g]? = some G := by
  intro l
  induction l with
  | nil => intro _ _ g hg; cases hg
  | cons x t ih =>
    intro first h g hg
    obtain ⟨e1, G, e2, e3⟩ := h
    rcases List.mem_cons.1 hg with h1 | h1
    · subst h1; exact ⟨G, e2⟩
    · exact ih _ e3 g h1

/-- A block array with the same shapes is as well formed. -/
theorem wf_congr (blocks blocks2 : List Block)
    (h : blocks2.map Block.shape = blocks.map Block.shape) (hwf : Block.WellFormed blocks) :
    Block.WellFormed blocks2 := by
  obtain ⟨D, MinX, MaxX, MinZ, MaxZ, hx, hz, hlen, hq⟩ := hwf
  refine ⟨D, MinX, MaxX, MinZ, MaxZ, hx, hz, ?_, ?_⟩
  · have := congrArg List.length h
    simp only [List.length_map] at this
    omega
  · apply isQuadTree_congr blocks blocks2 D _ _ _ _ _ _ _ _ hq
    intro j _
    have := congrArg (fun l => l[j]?) h
    simpa only [List.getElem?_map] using this

/-- Writing a block of the same shape keeps the shapes of the array. -/
theorem shape_set (blocks : List Block) (i : Nat) (b b2 : Block) (hb : blocks[i]? = some b)
    (h : b2.shape = b.shape) : (blocks.set i b2).map Block.shape = blocks.map Block.shape := by
  apply List.ext_getElem?
  intro j
  simp only [List.getElem?_map]
  by_cases hj : i = j
  · subst hj
    have hi : i < blocks.length := (List.getElem?_eq_some_iff.1 hb).1
    rw [List.getElem?_set_self hi, hb]
    simp [h]
  · rw [List.getElem?_set_ne hj]

/-- Every array differs from itself in counts only. -/
theorem countsOnly_refl (blocks : List Block) : Block.CountsOnly blocks blocks :=
  ⟨rfl, fun _ b hb => ⟨b.mGeomCount, hb⟩⟩

/-- Differing in counts only is transitive. -/
theorem countsOnly_trans (b1 b2 b3 : List Block) (h12 : Block.CountsOnly b1 b2)
    (h23 : Block.CountsOnly b2 b3) : Block.CountsOnly b1 b3 := by
  refine ⟨h23.1.trans h12.1, ?_⟩
  intro j b hb
  obtain ⟨n, hn⟩ := h12.2 j b hb
  obtain ⟨m, hm⟩ := h23.2 j _ hn
  exact ⟨m, hm⟩

/-- Writing a count differs in counts only. -/
theorem countsOnly_set (blocks : List Block) (i : Nat) (b : Block) (n : Int)
    (hb : blocks[i]? = some b) :
    Block.CountsOnly blocks (blocks.set i { b with mGeomCount := n }) := by
  refine ⟨by simp, ?_⟩
  intro j bj hj
  by_cases e : i = j
  · subst e
    have hi : i < blocks.length := (List.getElem?_eq_some_iff.1 hb).1
    rw [hb] at hj; cases hj
    exact ⟨n, by rw [List.getElem?_set_self hi]⟩
  · exact ⟨bj.mGeomCount, by rw [List.getElem?_set_ne e]; exact hj⟩

/-- Arrays that differ in counts only have the same shapes. -/
theorem countsOnly_shape (blocks blocks2 : List Block) (h : Block.CountsOnly blocks blocks2) :
    blocks2.map Block.shape = blocks.map Block.shape := by
  apply List.ext_getElem?
  intro j
  simp only [List.getElem?_map]
  cases hb : blocks[j]? with
  | none =>
    have : blocks2[j]? = none := by
      rw [List.getElem?_eq_none_iff] at hb ⊢
      rw [h.1]; exact hb
    rw [this]
  | some b =>
    obtain ⟨n, hn⟩ := h.2 j b hb
    rw [hn]; rfl

/-- Sum of the counts of the children after a write to a block that is not a child. -/
theorem childCount_set_ne (blocks : List Block) (cur : Nat) (b2 bi : Block)
    (h : ∀ ch, bi.mChildren = some ch → cur < ch ∨ ch + 4 ≤ cur) :
    Block.childCount (blocks.set cur b2) bi = Block.childCount blocks bi := by
  unfold Block.childCount
  cases hch : bi.mChildren with
  | none => rfl
  | some ch =>
    have := h ch hch
    simp only
    rw [List.getElem?_set_ne (by omega), List.getElem?_set_ne (by omega),
      List.getElem?_set_ne (by omega), List.getElem?_set_ne (by omega)]

/-- Sum of the counts of the children after a write to one of the children. -/
theorem childCount_set_child (blocks : List Block) (cur ch : Nat) (b b2 bi : Block)
    (hch : bi.mChildren = some ch) (h1 : ch ≤ cur) (h2 : cur < ch + 4)
    (hb : blocks[cur]? = some b) :
    Block.childCount (blocks.set cur b2) bi =
      Block.childCount blocks bi + (b2.mGeomCount - b.mGeomCount) := by
  have hi : cur < blocks.length := (List.getElem?_eq_some_iff.1 hb).1
  unfold Block.childCount
  simp only [hch]
  have hk : cur = ch ∨ cur = ch + 1 ∨ cur = ch + 2 ∨ cur = ch + 3 := by omega
  rcases hk with e | e | e | e <;> subst e
  · rw [List.getElem?_set_self hi, List.getElem?_set_ne (by omega),
      List.getElem?_set_ne (by omega), List.getElem?_set_ne (by omega), hb]
    simp only [Option.map_some', Option.getD_some]; ring
  · rw [List.getElem?_set_self hi, List.getElem?_set_ne (by omega),
      List.getElem?_set_ne (by omega), List.getElem?_set_ne (by omega), hb]
    simp only [Option.map_some', Option.getD_some]; ring
  · rw [List.getElem?_set_self hi, List.getElem?_set_ne (by omega),
      List.getElem?_set_ne (by omega), List.getElem?_set_ne (by omega), hb]
    simp only [Option.map_some', Option.getD_some]; ring
  · rw [List.getElem?_set_self hi, List.getElem?_set_ne (by omega),
      List.getElem?_set_ne (by omega), List.getElem?_set_ne (by omega), hb]
    simp only [Option.map_some', Option.getD_some]; ring

/-- The children of a block of a well-formed array are not before it, and a block whose
parent is another block is not among them. -/
theorem not_child (blocks : List Block) (hwf : Block.WellFormed blocks) (i cur : Nat)
    (bi bc : Block) (hbi : blocks[i]? = some bi) (hbc : blocks[cur]? = some bc)
    (hp : bc.mParent ≠ some i) :
    ∀ ch, bi.mChildren = some ch → cur < ch ∨ ch + 4 ≤ cur := by
  intro ch hch
  have hi : i < blocks.length := (List.getElem?_eq_some_iff.1 hbi).1
  obtain ⟨b, f1, -, -, f4⟩ := wf_block blocks hwf i hi
  rw [hbi] at f1; cases f1
  obtain ⟨-, f5⟩ := f4 ch hch
  by_contra hcon
  obtain ⟨c, g1, g2, -⟩ := f5 (cur - ch) (by omega)
  have : ch + (cur - ch) = cur := by omega
  rw [this, hbc] at g1; cases g1
  exact hp g2

/-- Last step of the loop that adjusts the counts. -/
theorem countLoop_none (delta : Int) (fuel cur : Nat) (blocks : List Block) (b : Block)
    (hb : blocks[cur]? = some b) (hp : b.mParent = none) :
    Block.countLoop delta (fuel + 1) cur blocks =
      some (blocks.set cur { b with mGeomCount := b.mGeomCount + delta }) := by
  rw [Block.countLoop]; simp only [hb, hp]

/-- Step of the loop that adjusts the counts. -/
theorem countLoop_some (delta : Int) (fuel cur p : Nat) (blocks : List Block) (b : Block)
    (hb : blocks[cur]? = some b) (hp : b.mParent = some p) :
    Block.countLoop delta (fuel + 1) cur blocks =
      Block.countLoop delta fuel p
        (blocks.set cur { b with mGeomCount := b.mGeomCount + delta }) := by
  rw [Block.countLoop]; simp only [hb, hp]

/-- The loop that adjusts the counts returns with fuel above the index of the block; it
changes counts only, adds `delta` to the count of block 0, and restores the count invariant
when the invariant failed by `delta` at the starting block only. -/
theorem countLoop_spec (delta : Int) (lists : Nat → List Nat) :
    ∀ (fuel cur : Nat) (blocks : List Block), Block.WellFormed blocks →
      cur < blocks.length → cur < fuel →
      ∃ blocks2, Block.countLoop delta fuel cur blocks = some blocks2 ∧
        Block.CountsOnly blocks blocks2 ∧
        (∀ r, blocks[0]? = some r →
          ∃ r2, blocks2[0]? = some r2 ∧ r2.mGeomCount = r.mGeomCount + delta) ∧
        ((∀ i b, blocks[i]? = some b → i ≠ cur →
            b.mGeomCount = Block.childCount blocks b + (lists i).length) →
          (∀ b, blocks[cur]? = some b →
            b.mGeomCount + delta = Block.childCount blocks b + (lists cur).length) →
          CountInvariant blocks2 lists) := by
  intro fuel
  induction fuel with
  | zero => intro cur blocks _ _ h; omega
  | succ fuel ih =>
    intro cur blocks hwf hcur hfuel
    obtain ⟨b, hb, -, -, hkids⟩ := wf_block blocks hwf cur hcur
    have hco := countsOnly_set blocks cur b (b.mGeomCount + delta) hb
    have hwf1 : Block.WellFormed (blocks.set cur { b with mGeomCount := b.mGeomCount + delta }) :=
      wf_congr _ _ (countsOnly_shape _ _ hco) hwf
    have hself : Block.childCount (blocks.set cur { b with mGeomCount := b.mGeomCount + delta })
        { b with mGeomCount := b.mGeomCount + delta } = Block.childCount blocks b := by
      rw [childCount_set_ne blocks cur _ { b with mGeomCount := b.mGeomCount + delta }
        (fun ch hch => Or.inl (hkids ch hch).1)]
      rfl
    cases hp : b.mParent with
    | none =>
      rw [countLoop_none delta fuel cur blocks b hb hp]
      have h0 : cur = 0 := by
        by_contra hne
        obtain ⟨b2, p, e1, e2, -⟩ := wf_parent blocks hwf cur hcur (by omega)
        rw [hb] at e1; cases e1
        rw [hp] at e2; cases e2
      subst h0
      refine ⟨_, rfl, hco, ?_, ?_⟩
      · intro r hr
        rw [hb] at hr; cases hr
        exact ⟨_, by rw [List.getElem?_set_self hcur], rfl⟩
      · intro hA hB i bi hbi
        by_cases e : i = 0
        · subst e
          rw [List.getElem?_set_self hcur] at hbi
          cases hbi
          rw [hself]
          exact hB b hb
        · rw [List.getElem?_set_ne (Ne.symm e)] at hbi
          rw [childCount_set_ne blocks 0 _ bi (not_child blocks hwf i 0 bi b hbi hb
            (by rw [hp]; simp))]
          exact hA i bi hbi e
    | some p =>
      rw [countLoop_some delta fuel cur p blocks b hb hp]
      obtain ⟨b2, p2, e1, e2, e3, bp, ch, e4, e5, e6, e7⟩ :=
        wf_parent blocks hwf cur hcur (by
          by_contra hne
          have h0 : cur = 0 := by omega
          subst h0
          obtain ⟨r, r1, r2⟩ := wf_root blocks hwf
          rw [hb] at r1; cases r1
          rw [hp] at r2; cases r2)
      rw [hb] at e1; cases e1
      rw [hp] at e2; cases e2
      have hne : cur ≠ p := by omega
      obtain ⟨blocks2, g1, g2, g3, g4⟩ :=
        ih p (blocks.set cur { b with mGeomCount := b.mGeomCount + delta }) hwf1
          (by simp; omega) (by omega)
      refine ⟨blocks2, g1, countsOnly_trans _ _ _ hco g2, ?_, ?_⟩
      · intro r hr
        have : (blocks.set cur { b with mGeomCount := b.mGeomCount + delta })[0]? = some r := by
          rw [List.getElem?_set_ne (by omega)]; exact hr
        exact g3 r this
      · intro hA hB
        apply g4
        · intro i bi hbi hip
          by_cases e : i = cur
          · subst e
            rw [List.getElem?_set_self hcur] at hbi
            cases hbi
            rw [hself]
            exact hB b hb
          · rw [List.getElem?_set_ne (Ne.symm e)] at hbi
            rw [childCount_set_ne blocks cur _ bi (not_child blocks hwf i cur bi b hbi hb
              (by rw [hp]; intro h; cases h; exact hip rfl))]
            exact hA i bi hbi e
        · intro bp2 hbp2
          rw [List.getElem?_set_ne hne] at hbp2
          rw [e4] at hbp2; cases hbp2
          rw [childCount_set_child blocks cur ch b _ bp e5 e6 e7 hb]
          have := hA p bp e4 (Ne.symm hne)
          simp only
          rw [this]; ring

/-- Every list of geoms differs from itself in links only. -/
theorem linksOnly_refl (geoms : List dxGeom) : LinksOnly geoms geoms :=
  ⟨rfl, fun _ G hG => ⟨G, hG, rfl, rfl⟩⟩

/-- Differing in links only is transitive. -/
theorem linksOnly_trans (g1 g2 g3 : List dxGeom) (h12 : LinksOnly g1 g2)
    (h23 : LinksOnly g2 g3) : LinksOnly g1 g3 := by
  refine ⟨h23.1.trans h12.1, ?_⟩
  intro g G hG
  obtain ⟨G2, e1, e2, e3⟩ := h12.2 g G hG
  obtain ⟨G3, f1, f2, f3⟩ := h23.2 g G2 e1
  exact ⟨G3, f1, f2.trans e2, f3.trans e3⟩

/-- Writing the links of a geom differs in links only. -/
theorem linksOnly_set (geoms : List dxGeom) (g : Nat) (G G2 : dxGeom)
    (hG : geoms[g]? = some G) (h1 : G2.aabb = G.aabb) (h2 : G2.enabled = G.enabled) :
    LinksOnly geoms (geoms.set g G2) := by
  refine ⟨by simp, ?_⟩
  intro x X hX
  by_cases e : g = x
  · subst e
    have hi : g < geoms.length := (List.getElem?_eq_some_iff.1 hG).1
    rw [hG] at hX; cases hX
    exact ⟨G2, by rw [List.getElem?_set_self hi], h1, h2⟩
  · exact ⟨X, by rw [List.getElem?_set_ne e]; exact hX, rfl, rfl⟩

/-- A block of the second of two arrays that differ in counts only comes from the block of the
same index of the first. -/
theorem countsOnly_rev (blocks blocks2 : List Block) (h : Block.CountsOnly blocks blocks2)
    (j : Nat) (b2 : Block) (hb2 : blocks2[j]? = some b2) :
    ∃ b, blocks[j]? = some b ∧ b2 = { b with mGeomCount := b2.mGeomCount } := by
  have hj : j < blocks.length := by
    rw [← h.1]; exact (List.getElem?_eq_some_iff.1 hb2).1
  have hb : blocks[j]? = some blocks[j] := List.getElem?_eq_getElem hj
  obtain ⟨n, hn⟩ := h.2 j _ hb
  rw [hb2] at hn
  cases hn
  exact ⟨blocks[j], hb, rfl⟩

/-- The sum of the counts of the children depends on the counts only. -/
theorem childCount_congr (blocks blocks2 : List Block) (b b2 : Block)
    (h : ∀ j : Nat, (blocks2[j]?).map Block.mGeomCount = (blocks[j]?).map Block.mGeomCount)
    (hc : b2.mChildren = b.mChildren) :
    Block.childCount blocks2 b2 = Block.childCount blocks b := by
  unfold Block.childCount
  rw [hc]
  cases b.mChildren with
  | none => rfl
  | some ch => simp only [h]

/-- Writing `mFirst` of a block keeps every count. -/
theorem count_set_first (blocks : List Block) (i : Nat) (b : Block) (f : Option Nat)
    (hb : blocks[i]? = some b) (j : Nat) :
    ((blocks.set i { b with mFirst := f })[j]?).map Block.mGeomCount =
      (blocks[j]?).map Block.mGeomCount := by
  by_cases e : i = j
  · subst e
    have hi : i < blocks.length := (List.getElem?_eq_some_iff.1 hb).1
    rw [List.getElem?_set_self hi, hb]; rfl
  · rw [List.getElem?_set_ne e]

/-- Method `Block::AddObject` on a block of a well-formed space, for a geom that no block
hosts: it returns with fuel above the index of the block, puts the geom at the head of the
local list of the block, adds one to the count of block 0 and keeps the count invariant. -/
theorem addObject_spec (s : dxQuadTreeSpace) (lists : Nat → List Nat) (fuel self Object : Nat)
    (G : dxGeom) (hwf : Block.WellFormed s.Blocks) (hh : s.Hosts lists)
    (hself : self < s.Blocks.length) (hG : s.geoms[Object]? = some G)
    (hfresh : ∀ i, Object ∉ lists i) (hfuel : self < fuel) :
    ∃ s2, Block.AddObject s fuel self Object = some s2 ∧
      s2.Blocks.map Block.shape = s.Blocks.map Block.shape ∧
      s2.Hosts (Function.update lists self (Object :: lists self)) ∧
      s2.DirtyList = s.DirtyList ∧ LinksOnly s.geoms s2.geoms ∧
      (∀ g, g ≠ Object → s2.geoms[g]? = s.geoms[g]?) ∧
      (∀ r, s.Blocks[0]? = some r →
        ∃ r2, s2.Blocks[0]? = some r2 ∧ r2.mGeomCount = r.mGeomCount + 1) ∧
      (CountInvariant s.Blocks lists →
        CountInvariant s2.Blocks (Function.update lists self (Object :: lists self))) := by
  have hb : s.Blocks[self]? = some s.Blocks[self] := List.getElem?_eq_getElem hself
  generalize s.Blocks[self] = b at hb
  have hO : Object < s.geoms.length := (List.getElem?_eq_some_iff.1 hG).1
  have hsh1 : (s.Blocks.set self { b with mFirst := some Object }).map Block.shape =
      s.Blocks.map Block.shape := shape_set _ _ _ _ hb rfl
  have hwf1 := wf_congr _ _ hsh1 hwf
  obtain ⟨blocks2, e1, e2, e3, e4⟩ :=
    countLoop_spec 1 (Function.update lists self (Object :: lists self)) fuel self
      (s.Blocks.set self { b with mFirst := some Object }) hwf1 (by simp; exact hself) hfuel
  refine ⟨⟨blocks2, s.geoms.set Object { G with next_ex := b.mFirst, tome_ex := some self },
    s.DirtyList⟩, ?_, ?_, ?_, rfl, ?_, ?_, ?_, ?_⟩
  · simp only [Block.AddObject, hb, hG, e1, Option.map_some']
  · simp only
    rw [countsOnly_shape _ _ e2, hsh1]
  · constructor
    · intro i bi hbi
      simp only at hbi ⊢
      obtain ⟨b1, f1, f2⟩ := countsOnly_rev _ _ e2 i bi hbi
      have hfirst : bi.mFirst = b1.mFirst := by rw [f2]
      rw [hfirst]
      by_cases e : i = self
      · subst e
        rw [List.getElem?_set_self hself] at f1
        cases f1
        rw [Function.update_same]
        refine ⟨rfl, _, by rw [List.getElem?_set_self hO], ?_⟩
        apply chain_congr s.geoms _ _ _ _ (hh.1 i b hb)
        intro g hg
        rw [List.getElem?_set_ne (fun h => hfresh i (by rw [h]; exact hg))]
      · rw [List.getElem?_set_ne (Ne.symm e)] at f1
        rw [Function.update_noteq e]
        apply chain_congr s.geoms _ _ _ _ (hh.1 i b1 f1)
        intro g hg
        rw [List.getElem?_set_ne (fun h => hfresh i (by rw [h]; exact hg))]
    · intro i g hg
      simp only
      have hlen : blocks2.length = s.Blocks.length := by rw [e2.1]; simp
      by_cases e : i = self
      · subst e
        rw [Function.update_same] at hg
        refine ⟨by omega, ?_⟩
        rcases List.mem_cons.1 hg with h | h
        · subst h
          exact ⟨_, by rw [List.getElem?_set_self hO], rfl⟩
        · rw [List.getElem?_set_ne (fun h2 => hfresh i (by rw [h2]; exact h))]
          exact (hh.2 i g h).2
      · rw [Function.update_noteq e] at hg
        refine ⟨by rw [hlen]; exact (hh.2 i g hg).1, ?_⟩
        rw [List.getElem?_set_ne (fun h2 => hfresh i (by rw [h2]; exact hg))]
        exact (hh.2 i g hg).2
  · exact linksOnly_set _ _ _ _ hG rfl rfl
  · intro g hg
    simp only
    rw [List.getElem?_set_ne (Ne.symm hg)]
  · intro r hr
    simp only
    by_cases e : self = 0
    · subst e
      rw [hb] at hr; cases hr
      exact e3 { b with mFirst := some Object } (by rw [List.getElem?_set_self hself])
    · exact e3 r (by rw [List.getElem?_set_ne e]; exact hr)
  · intro hinv
    simp only
    apply e4
    · intro i bi hbi hne
      rw [List.getElem?_set_ne (Ne.symm hne)] at hbi
      rw [Function.update_noteq hne, childCount_congr s.Blocks _ bi bi
        (count_set_first _ _ _ _ hb) rfl]
      exact hinv i bi hbi
    · intro b1 hb1
      rw [List.getElem?_set_self hself] at hb1
      cases hb1
      rw [Function.update_same, childCount_congr s.Blocks _ b { b with mFirst := some Object }
        (count_set_first _ _ _ _ hb) rfl]
      have := hinv self b hb
      simp only [List.length_cons, Nat.cast_add, Nat.cast_one]
      rw [this]; ring

/-- The search of `Block::DelObject` when the geom is the first of the local list. -/
theorem delLoop_first (s : dxQuadTreeSpace) (self Object fuel : Nat) (GO : dxGeom) (b : Block)
    (hG : s.geoms[Object]? = some GO) (hb : s.Blocks[self]? = some b) :
    Block.DelObject_loop self Object (fuel + 1) (some Object) none s =
      some { s with Blocks := s.Blocks.set self { b with mFirst := GO.next_ex } } := by
  rw [Block.DelObject_loop]; simp only [hG, if_true, hb]

/-- The search of `Block::DelObject` when it stands on the geom and has a predecessor. -/
theorem delLoop_found (s : dxQuadTreeSpace) (self Object fuel l : Nat) (GO L : dxGeom)
    (hG : s.geoms[Object]? = some GO) (hL : s.geoms[l]? = some L) :
    Block.DelObject_loop self Object (fuel + 1) (some Object) (some l) s =
      some { s with geoms := s.geoms.set l { L with next_ex := GO.next_ex } } := by
  rw [Block.DelObject_loop]; simp only [hG, if_true, hL]

/-- The search of `Block::DelObject` walks to the geom and links its predecessor to its
successor. -/
theorem delLoop_walk (s : dxQuadTreeSpace) (self Object l0 : Nat) (GO L : dxGeom)
    (post : List Nat) (hG : s.geoms[Object]? = some GO) (hL : s.geoms[l0]? = some L)
    (hne : l0 ≠ Object) :
    ∀ (pre : List Nat) (cur Last : Option Nat) (fuel : Nat),
      Chain s.geoms cur (pre ++ l0 :: Object :: post) → Object ∉ pre → pre.length + 1 < fuel →
      Block.DelObject_loop self Object fuel cur Last s =
        some { s with geoms := s.geoms.set l0 { L with next_ex := GO.next_ex } } := by
  intro pre
  induction pre with
  | nil =>
    intro cur Last fuel hc _ hf
    obtain ⟨c1, X, c2, c3, Y, c4, c5⟩ := hc
    rw [hL] at c2; cases c2
    obtain ⟨f2, rfl⟩ : ∃ f2, fuel = f2 + 2 := ⟨fuel - 2, by simp at hf; omega⟩
    rw [c1, Block.DelObject_loop]
    simp only [hL, if_neg hne, c3]
    exact delLoop_found s self Object f2 l0 GO L hG hL
  | cons x pre ih =>
    intro cur Last fuel hc hn hf
    obtain ⟨c1, X, c2, c3⟩ := hc
    obtain ⟨f2, rfl⟩ : ∃ f2, fuel = f2 + 1 := ⟨fuel - 1, by omega⟩
    have hx : x ≠ Object := fun h => hn (by rw [h]; exact List.mem_cons_self _ _)
    rw [c1, Block.DelObject_loop]
    simp only [c2, if_neg hx]
    exact ih _ _ f2 c3 (fun h => hn (List.mem_cons_of_mem _ h)) (by simp at hf; omega)

/-- Linking the predecessor of a geom of a chain to its successor takes the geom off the
chain. -/
theorem chain_unlink (geoms : List dxGeom) (Object l0 : Nat) (GO L : dxGeom) (post : List Nat)
    (hG : geoms[Object]? = some GO) (hL : geoms[l0]? = some L) :
    ∀ (pre : List Nat) (first : Option Nat),
      Chain geoms first (pre ++ l0 :: Object :: post) →
      (pre ++ l0 :: Object :: post).Nodup →
      Chain (geoms.set l0 { L with next_ex := GO.next_ex }) first (pre ++ l0 :: post) := by
  have hl0 : l0 < geoms.length := (List.getElem?_eq_some_iff.1 hL).1
  intro pre
  induction pre with
  | nil =>
    intro first hc hn
    obtain ⟨c1, X, c2, c3, Y, c4, c5⟩ := hc
    rw [hG] at c4; cases c4
    refine ⟨c1, _, by rw [List.getElem?_set_self hl0], ?_⟩
    apply chain_congr geoms _ _ _ _ c5
    intro g hg
    have : l0 ≠ g := by
      intro h
      subst h
      simp only [List.nil_append, List.nodup_cons, List.mem_cons] at hn
      exact hn.1 (Or.inr hg)
    rw [List.getElem?_set_ne this]
  | cons x pre ih =>
    intro first hc hn
    obtain ⟨c1, X, c2, c3⟩ := hc
    have hx : l0 ≠ x := by
      intro h
      subst h
      rw [List.cons_append] at hn
      exact (List.nodup_cons.1 hn).1 (by simp)
    refine ⟨c1, X, by rw [List.getElem?_set_ne hx]; exact c2, ?_⟩
    exact ih _ c3 (List.nodup_cons.1 hn).2

/-- Writing `tome_ex` of a geom keeps every `next_ex`. -/
theorem next_set_tome (geoms : List dxGeom) (o : Nat) (G : dxGeom) (t : Option Nat)
    (hG : geoms[o]? = some G) (g : Nat) :
    ((geoms.set o { G with tome_ex := t })[g]?).map dxGeom.next_ex =
      (geoms[g]?).map dxGeom.next_ex := by
  by_cases e : o = g
  · subst e
    have hi : o < geoms.length := (List.getElem?_eq_some_iff.1 hG).1
    rw [List.getElem?_set_self hi, hG]; rfl
  · rw [List.getElem?_set_ne e]

/-- Two local lists of one space that share a geom are the list of the same block. -/
theorem hosts_inj (s : dxQuadTreeSpace) (lists : Nat → List Nat) (hh : s.Hosts lists)
    (i j g : Nat) (hi : g ∈ lists i) (hj : g ∈ lists j) : i = j := by
  obtain ⟨-, G, e1, e2⟩ := hh.2 i g hi
  obtain ⟨-, G2, f1, f2⟩ := hh.2 j g hj
  rw [e1] at f1; cases f1
  rw [e2] at f2; cases f2
  rfl

/-- The search of `Block::DelObject` for a geom of the local list of the block: it returns,
takes the geom off the list and leaves every other link and every count as it was. -/
theorem delLoop_spec (s : dxQuadTreeSpace) (self Object fuel : Nat) (b : Block)
    (pre post : List Nat) (hb : s.Blocks[self]? = some b)
    (hc : Chain s.geoms b.mFirst (pre ++ Object :: post)) (hfuel : pre.length + 1 < fuel) :
    ∃ s1 f1, Block.DelObject_loop self Object fuel b.mFirst none s = some s1 ∧
      s1.DirtyList = s.DirtyList ∧ s1.Blocks = s.Blocks.set self { b with mFirst := f1 } ∧
      Chain s1.geoms f1 (pre ++ post) ∧ LinksOnly s.geoms s1.geoms ∧
      (∀ g, g ∉ pre → s1.geoms[g]? = s.geoms[g]?) ∧
      (∀ g : Nat, (s1.geoms[g]?).map dxGeom.tome_ex = (s.geoms[g]?).map dxGeom.tome_ex) := by
  have hnd := chain_nodup _ _ _ hc
  have hself : self < s.Blocks.length := (List.getElem?_eq_some_iff.1 hb).1
  obtain ⟨GO, hGO⟩ := chain_get _ _ _ hc Object (by simp)
  rcases List.eq_nil_or_concat pre with h | ⟨pre2, l0, h⟩
  · subst h
    obtain ⟨c1, X, c2, c3⟩ := hc
    rw [hGO] at c2; cases c2
    obtain ⟨f2, rfl⟩ : ∃ f2, fuel = f2 + 1 := ⟨fuel - 1, by omega⟩
    refine ⟨{ s with Blocks := s.Blocks.set self { b with mFirst := GO.next_ex } }, GO.next_ex,
      by rw [c1]; exact delLoop_first s self Object f2 GO b hGO hb, rfl, rfl,
      c3, linksOnly_refl _, fun _ _ => rfl, fun _ => rfl⟩
  · subst h
    have hc2 : Chain s.geoms b.mFirst (pre2 ++ l0 :: Object :: post) := by
      simpa [List.concat_eq_append, List.append_assoc] using hc
    have hnd2 : (pre2 ++ l0 :: Object :: post).Nodup := by
      simpa [List.concat_eq_append, List.append_assoc] using hnd
    obtain ⟨L, hL⟩ := chain_get _ _ _ hc2 l0 (by simp)
    have hne : l0 ≠ Object := by
      intro h
      subst h
      have := (List.nodup_append.1 hnd2).2.1
      simp at this
    have hnpre : Object ∉ pre2 := by
      intro h
      have := (List.nodup_append.1 hnd2).2.2
      exact this h (by simp)
    have hl0 : l0 < s.geoms.length := (List.getElem?_eq_some_iff.1 hL).1
    refine ⟨{ s with geoms := s.geoms.set l0 { L with next_ex := GO.next_ex } }, b.mFirst,
      delLoop_walk s self Object l0 GO L post hGO hL hne pre2 _ none fuel hc2
      hnpre (by simp at hfuel; omega), rfl, ?_, ?_, linksOnly_set _ _ _ _ hL rfl rfl, ?_, ?_⟩
    · simp only
      apply List.ext_getElem?
      intro j
      by_cases e : self = j
      · subst e; rw [List.getElem?_set_self hself, hb]
      · rw [List.getElem?_set_ne e]
    · have := chain_unlink s.geoms Object l0 GO L post hGO hL pre2 _ hc2 hnd2
      simpa [List.concat_eq_append, List.append_assoc] using this
    · intro g hg
      simp only
      rw [List.getElem?_set_ne]
      intro h
      subst h
      simp [List.concat_eq_append] at hg
    · intro g
      simp only
      by_cases e : l0 = g
      · subst e; rw [List.getElem?_set_self hl0, hL]; rfl
      · rw [List.getElem?_set_ne e]

/-- Method `Block::DelObject` on the block of a well-formed space that hosts the geom: it
returns with enough fuel, takes the geom off the local list of the block, subtracts one from
the count of block 0 and keeps the count invariant. -/
theorem delObject_spec (s : dxQuadTreeSpace) (lists : Nat → List Nat) (fuel self Object : Nat)
    (hwf : Block.WellFormed s.Blocks) (hh : s.Hosts lists) (hmem : Object ∈ lists self)
    (hfuel1 : self < fuel) (hfuel2 : (lists self).length < fuel) :
    ∃ s2, Block.DelObject s fuel self Object = some s2 ∧
      s2.Blocks.map Block.shape = s.Blocks.map Block.shape ∧
      s2.Hosts (Function.update lists self ((lists self).erase Object)) ∧
      s2.DirtyList = s.DirtyList ∧ LinksOnly s.geoms s2.geoms ∧
      (∀ r, s.Blocks[0]? = some r →
        ∃ r2, s2.Blocks[0]? = some r2 ∧ r2.mGeomCount = r.mGeomCount + -1) ∧
      (CountInvariant s.Blocks lists →
        CountInvariant s2.Blocks (Function.update lists self ((lists self).erase Object))) := by
  have hself : self < s.Blocks.length := (hh.2 self Object hmem).1
  have hb : s.Blocks[self]? = some s.Blocks[self] := List.getElem?_eq_getElem hself
  generalize s.Blocks[self] = b at hb
  have hc := hh.1 self b hb
  obtain ⟨pre, post, hl⟩ := List.append_of_mem hmem
  rw [hl] at hc hfuel2
  have hnd := chain_nodup _ _ _ hc
  have hnpre : Object ∉ pre := by
    intro h
    exact (List.nodup_append.1 hnd).2.2 h (by simp)
  have hnpost : Object ∉ post := by
    have := (List.nodup_append.1 hnd).2.1
    exact (List.nodup_cons.1 this).1
  have herase : (lists self).erase Object = pre ++ post := by
    rw [hl, List.erase_append_right _ hnpre, List.erase_cons_head]
  rw [herase]
  obtain ⟨s1, f1, d1, d2, d3, d4, d5, d6, d7⟩ :=
    delLoop_spec s self Object fuel b pre post hb hc (by simp at hfuel2; omega)
  obtain ⟨GO, hGO⟩ := chain_get _ _ _ hc Object (by simp)
  obtain ⟨G1, hG1, -, -⟩ := d5.2 Object GO hGO
  have hsh1 : s1.Blocks.map Block.shape = s.Blocks.map Block.shape := by
    rw [d3]; exact shape_set _ _ _ _ hb rfl
  have hwf1 := wf_congr _ _ hsh1 hwf
  obtain ⟨blocks2, e1, e2, e3, e4⟩ :=
    countLoop_spec (-1) (Function.update lists self (pre ++ post)) fuel self s1.Blocks hwf1
      (by rw [d3]; simp; exact hself) hfuel1
  refine ⟨⟨blocks2, s1.geoms.set Object { G1 with tome_ex := none }, s1.DirtyList⟩,
    ?_, ?_, ?_, d2, ?_, ?_, ?_⟩
  · simp only [Block.DelObject, hb, d1, Option.bind_some, Option.some_bind, hG1, e1,
      Option.map_some']
  · simp only
    rw [countsOnly_shape _ _ e2, hsh1]
  · constructor
    · intro i bi hbi
      simp only at hbi ⊢
      obtain ⟨b1, g1, g2⟩ := countsOnly_rev _ _ e2 i bi hbi
      have hfirst : bi.mFirst = b1.mFirst := by rw [g2]
      rw [hfirst]
      apply chain_congr s1.geoms _ _ _ (fun g _ => next_set_tome s1.geoms Object G1 none hG1 g)
      rw [d3] at g1
      by_cases e : i = self
      · subst e
        rw [List.getElem?_set_self hself] at g1
        cases g1
        rw [Function.update_same]
        exact d4
      · rw [List.getElem?_set_ne (Ne.symm e)] at g1
        rw [Function.update_noteq e]
        apply chain_congr s.geoms _ _ _ _ (hh.1 i b1 g1)
        intro g hg
        rw [d6 g]
        intro hgp
        have : g ∈ lists self := by rw [hl]; simp [hgp]
        exact e (hosts_inj s lists hh i self g hg this)
    · intro i g hg
      simp only
      have hlen : blocks2.length = s.Blocks.length := by rw [e2.1, d3]; simp
      have hg2 : g ∈ lists i ∧ g ≠ Object := by
        by_cases e : i = self
        · subst e
          rw [Function.update_same] at hg
          constructor
          · rw [hl]
            rcases List.mem_append.1 hg with h | h
            · simp [h]
            · simp [h]
          · intro h
            subst h
            rcases List.mem_append.1 hg with h | h
            · exact hnpre h
            · exact hnpost h
        · rw [Function.update_noteq e] at hg
          exact ⟨hg, fun h => e (hosts_inj s lists hh i self g hg (h ▸ hmem))⟩
      obtain ⟨h1, G, h2, h3⟩ := hh.2 i g hg2.1
      refine ⟨by omega, ?_⟩
      rw [List.getElem?_set_ne (Ne.symm hg2.2)]
      have := d7 g
      rw [h2] at this
      cases hx : s1.geoms[g]? with
      | none => rw [hx] at this; simp at this
      | some X =>
        rw [hx] at this
        simp only [Option.map_some', Option.some.injEq] at this
        exact ⟨X, rfl, by rw [this, h3]⟩
  · exact linksOnly_trans _ _ _ d5 (linksOnly_set _ _ _ _ hG1 rfl rfl)
  · intro r hr
    simp only
    by_cases e : self = 0
    · subst e
      rw [hb] at hr; cases hr
      exact e3 { b with mFirst := f1 } (by rw [d3, List.getElem?_set_self hself])
    · exact e3 r (by rw [d3, List.getElem?_set_ne e]; exact hr)
  · intro hinv
    simp only
    apply e4
    · intro i bi hbi hne
      rw [d3, List.getElem?_set_ne (Ne.symm hne)] at hbi
      rw [Function.update_noteq hne, d3, childCount_congr s.Blocks _ bi bi
        (count_set_first _ _ _ _ hb) rfl]
      exact hinv i bi hbi
    · intro b1 hb1
      rw [d3, List.getElem?_set_self hself] at hb1
      cases hb1
      rw [Function.update_same, d3, childCount_congr s.Blocks _ b { b with mFirst := f1 }
        (count_set_first _ _ _ _ hb) rfl]
      have := hinv self b hb
      rw [hl] at this
      simp only [List.length_append, List.length_cons, Nat.cast_add, Nat.cast_one] at this ⊢
      rw [this]; ring

/-- A list of distinct indices below `n` has at most `n` elements. -/
theorem nodup_length_le (l : List Nat) (n : Nat) (hnd : l.Nodup) (h : ∀ x, x ∈ l → x < n) :
    l.length ≤ n := by
  have h1 : l.toFinset ⊆ Finset.range n := by
    intro x hx
    rw [List.mem_toFinset] at hx
    exact Finset.mem_range.2 (h x hx)
  have h2 := Finset.card_le_card h1
  rw [List.toFinset_card_of_nodup hnd, Finset.card_range] at h2
  exact h2

/-- A local list is not longer than the list of geoms of the space. -/
theorem hosts_length (s : dxQuadTreeSpace) (lists : Nat → List Nat) (hh : s.Hosts lists)
    (i : Nat) : (lists i).length ≤ s.geoms.length := by
  by_cases hi : i < s.Blocks.length
  · have hb : s.Blocks[i]? = some s.Blocks[i] := List.getElem?_eq_getElem hi
    apply nodup_length_le _ _ (chain_nodup _ _ _ (hh.1 i _ hb))
    intro x hx
    obtain ⟨-, G, e, -⟩ := hh.2 i x hx
    exact (List.getElem?_eq_some_iff.1 e).1
  · cases hl : lists i with
    | nil => simp
    | cons x t =>
      have := (hh.2 i x (by rw [hl]; exact List.mem_cons_self _ _)).1
      omega

/-- The block that `Block::GetBlock` returns is a block of the array. -/
theorem getBlock_lt (blocks : List Block) (h : Block.WellFormed blocks) (A : dAABB)
    (fuel i : Nat) (hi : i < blocks.length) (hf : blocks.length + i ≤ fuel) :
    ∃ r, Block.GetBlock blocks A fuel i = some r ∧ r < blocks.length := by
  obtain ⟨root, hroot, -⟩ := wf_root blocks h
  obtain ⟨r, h1, h2, h3⟩ := getBlock_spec blocks h A root hroot fuel i hi hf
  refine ⟨r, h1, ?_⟩
  cases hin : root.Inside A with
  | true =>
    obtain ⟨br, e, -⟩ := h2 hin
    exact (List.getElem?_eq_some_iff.1 e).1
  | false => rw [h3 hin]; exact wf_pos blocks h

/-- Method `Block::Traverse` on the block that hosts the geom, in a well-formed space: it
returns with enough fuel and leaves the geom in the local list of the block that
`Block::GetBlock` returns for its box, every other geom where it was, the count of block 0 as
it was and the count invariant in force; nothing changes when that block is the host. -/
theorem traverse_spec (s : dxQuadTreeSpace) (lists : Nat → List Nat) (fuel self Object : Nat)
    (G : dxGeom) (hwf : Block.WellFormed s.Blocks) (hh : s.Hosts lists)
    (hmem : Object ∈ lists self) (hG : s.geoms[Object]? = some G)
    (hfuel : 2 * s.Blocks.length + s.geoms.length < fuel) :
    ∃ s2 r lists2, Block.Traverse s fuel self Object = some s2 ∧
      Block.GetBlock s.Blocks G.aabb fuel self = some r ∧ r < s.Blocks.length ∧
      s2.Blocks.map Block.shape = s.Blocks.map Block.shape ∧ s2.Hosts lists2 ∧
      (∀ i g, g ∈ lists2 i ↔ (g ≠ Object ∧ g ∈ lists i) ∨ (g = Object ∧ i = r)) ∧
      s2.DirtyList = s.DirtyList ∧ LinksOnly s.geoms s2.geoms ∧
      (∀ r0, s.Blocks[0]? = some r0 →
        ∃ r2, s2.Blocks[0]? = some r2 ∧ r2.mGeomCount = r0.mGeomCount) ∧
      (CountInvariant s.Blocks lists → CountInvariant s2.Blocks lists2) ∧
      (r = self → s2 = s ∧ lists2 = lists) := by
  have hself : self < s.Blocks.length := (hh.2 self Object hmem).1
  obtain ⟨r, hr, hrlt⟩ := getBlock_lt s.Blocks hwf G.aabb fuel self hself (by omega)
  by_cases e : r = self
  · refine ⟨s, r, lists, ?_, hr, hrlt, rfl, hh, ?_, rfl, linksOnly_refl _,
      fun r0 h0 => ⟨r0, h0, rfl⟩, fun h => h, fun _ => ⟨rfl, rfl⟩⟩
    · simp only [Block.Traverse, hG, hr, Option.bind_some, Option.some_bind, e, ne_eq,
        not_true_eq_false, if_false]
    · intro i g
      constructor
      · intro hg
        by_cases eg : g = Object
        · subst eg
          exact Or.inr ⟨rfl, by rw [e]; exact hosts_inj s lists hh i self g hg hmem⟩
        · exact Or.inl ⟨eg, hg⟩
      · rintro (⟨-, h⟩ | ⟨h1, h2⟩)
        · exact h
        · rw [h1, h2, e]; exact hmem
  · have hlen := hosts_length s lists hh self
    obtain ⟨s1, d1, d2, d3, d4, d5, d6, d7⟩ :=
      delObject_spec s lists fuel self Object hwf hh hmem (by omega) (by omega)
    have hwf1 := wf_congr _ _ d2 hwf
    have hlen1 : s1.Blocks.length = s.Blocks.length := by
      have := congrArg List.length d2
      simpa using this
    obtain ⟨G1, hG1, hG1a, -⟩ := d5.2 Object G hG
    have hnd : (lists self).Nodup := by
      have hb : s.Blocks[self]? = some s.Blocks[self] := List.getElem?_eq_getElem hself
      exact chain_nodup _ _ _ (hh.1 self _ hb)
    have hfresh : ∀ i, Object ∉ Function.update lists self ((lists self).erase Object) i := by
      intro i
      by_cases ei : i = self
      · subst ei
        rw [Function.update_same, hnd.mem_erase_iff]
        simp
      · rw [Function.update_noteq ei]
        intro h
        exact ei (hosts_inj s lists hh i self Object h hmem)
    obtain ⟨s2, a1, a2, a3, a4, a5, a6, a7, a8⟩ :=
      addObject_spec s1 _ fuel r Object G1 hwf1 d3 (by omega) hG1 hfresh (by omega)
    refine ⟨s2, r, _, ?_, hr, hrlt, a2.trans d2, a3, ?_, a4.trans d4,
      linksOnly_trans _ _ _ d5 a5, ?_, fun h => a8 (d7 h), fun h => absurd h e⟩
    · simp only [Block.Traverse, hG, hr, Option.bind_some, Option.some_bind, ne_eq, e,
        not_false_eq_true, if_true, d1, a1]
    · intro i g
      by_cases ei : i = r
      · subst ei
        rw [Function.update_same, Function.update_noteq e, List.mem_cons]
        constructor
        · rintro (h | h)
          · exact Or.inr ⟨h, rfl⟩
          · exact Or.inl ⟨fun hgo => e (hosts_inj s lists hh i self g h (hgo ▸ hmem)), h⟩
        · rintro (⟨-, h⟩ | ⟨h, -⟩)
          · exact Or.inr h
          · exact Or.inl h
      · rw [Function.update_noteq ei]
        by_cases es : i = self
        · subst es
          rw [Function.update_same, hnd.mem_erase_iff]
          constructor
          · intro h; exact Or.inl h
          · rintro (h | ⟨-, h⟩)
            · exact h
            · exact absurd h ei
        · rw [Function.update_noteq es]
          constructor
          · intro h
            exact Or.inl ⟨fun hgo => es (hosts_inj s lists hh i self g h (hgo ▸ hmem)), h⟩
          · rintro (⟨-, h⟩ | ⟨-, h⟩)
            · exact h
            · exact absurd h ei
    · intro r0 h0
      obtain ⟨r1, f1, f2⟩ := d6 r0 h0
      obtain ⟨r2, f3, f4⟩ := a7 r1 f1
      exact ⟨r2, f3, by rw [f4, f2]; ring⟩

/-! ### Quadtree space: hosting blocks -/

/-- Strict containment reads the shape of the block and the box of the geom only. -/
theorem inside_congr (s s2 : dxQuadTreeSpace)
    (hs : s2.Blocks.map Block.shape = s.Blocks.map Block.shape)
    (hl : LinksOnly s.geoms s2.geoms) (i g : Nat) (h : s.Inside i g) : s2.Inside i g := by
  obtain ⟨b, G, h1, h2, h3⟩ := h
  obtain ⟨G2, e1, e2, -⟩ := hl.2 g G h2
  have := congrArg (fun l => l[i]?) hs
  simp only [List.getElem?_map, h1, Option.map_some'] at this
  cases hb2 : s2.Blocks[i]? with
  | none => rw [hb2] at this; simp at this
  | some b2 =>
    rw [hb2] at this
    simp only [Option.map_some', Option.some.injEq, Block.shape, Prod.mk.injEq] at this
    obtain ⟨a1, a2, a3, a4, -, -⟩ := this
    refine ⟨b2, G2, hb2, e1, ?_⟩
    rw [← h3]
    simp only [Block.Inside, a1, a2, a3, a4, e2]

/-- Writing the box of a geom keeps the local lists. -/
theorem hosts_set_aabb (s : dxQuadTreeSpace) (lists : Nat → List Nat) (hh : s.Hosts lists)
    (g : Nat) (G : dxGeom) (a : dAABB) (hG : s.geoms[g]? = some G) :
    dxQuadTreeSpace.Hosts ⟨s.Blocks, s.geoms.set g { G with aabb := a }, s.DirtyList⟩ lists := by
  have hg : g < s.geoms.length := (List.getElem?_eq_some_iff.1 hG).1
  constructor
  · intro i b hb
    apply chain_congr s.geoms _ _ _ _ (hh.1 i b hb)
    intro x _
    simp only
    by_cases e : g = x
    · subst e; rw [List.getElem?_set_self hg, hG]; rfl
    · rw [List.getElem?_set_ne e]
  · intro i x hx
    obtain ⟨h1, X, h2, h3⟩ := hh.2 i x hx
    refine ⟨h1, ?_⟩
    simp only
    by_cases e : g = x
    · subst e
      rw [hG] at h2; cases h2
      exact ⟨{ G with aabb := a }, by rw [List.getElem?_set_self hg], h3⟩
    · exact ⟨X, by rw [List.getElem?_set_ne e]; exact h2, h3⟩

/-- The block that `Block::GetBlock` returns strictly contains the box unless it is block 0. -/
theorem getBlock_inside (blocks : List Block) (h : Block.WellFormed blocks) (A : dAABB)
    (fuel i r : Nat) (hi : i < blocks.length) (hf : blocks.length + i ≤ fuel)
    (hr : Block.GetBlock blocks A fuel i = some r) (h0 : r ≠ 0) :
    ∃ br, blocks[r]? = some br ∧ br.Inside A = true := by
  obtain ⟨root, hroot, -⟩ := wf_root blocks h
  obtain ⟨r2, h1, h2, h3⟩ := getBlock_spec blocks h A root hroot fuel i hi hf
  rw [hr] at h1; cases h1
  cases hin : root.Inside A with
  | true =>
    obtain ⟨br, e1, e2, -⟩ := h2 hin
    exact ⟨br, e1, e2⟩
  | false => exact absurd (h3 hin) h0

/-- Method `dxQuadTreeSpace::add` on a well-formed space, for a geom with null links: it
returns with enough fuel, records the geom as dirty and puts it in the local list of the
block that `Block::GetBlock` returns from block 0 for its box. -/
theorem add_spec (s : dxQuadTreeSpace) (lists : Nat → List Nat) (fuel g : Nat) (G : dxGeom)
    (hwf : Block.WellFormed s.Blocks) (hh : s.Hosts lists) (hG : s.geoms[g]? = some G)
    (ht : G.tome_ex = none) (hn : G.next_ex = none)
    (hfuel : 2 * s.Blocks.length + s.geoms.length < fuel) :
    ∃ s2 best, s.add fuel g = some s2 ∧
      Block.GetBlock s.Blocks G.aabb fuel 0 = some best ∧ best < s.Blocks.length ∧
      s2.Blocks.map Block.shape = s.Blocks.map Block.shape ∧
      s2.Hosts (Function.update lists best (g :: lists best)) ∧
      s2.DirtyList = s.DirtyList ++ [g] ∧ LinksOnly s.geoms s2.geoms ∧
      (CountInvariant s.Blocks lists →
        CountInvariant s2.Blocks (Function.update lists best (g :: lists best))) := by
  have hpos := wf_pos s.Blocks hwf
  obtain ⟨best, hr, hrlt⟩ := getBlock_lt s.Blocks hwf G.aabb fuel 0 hpos (by omega)
  have hfresh : ∀ i, g ∉ lists i := by
    intro i hi
    obtain ⟨-, G2, e1, e2⟩ := hh.2 i g hi
    rw [hG] at e1; cases e1
    rw [ht] at e2; cases e2
  obtain ⟨s2, a1, a2, a3, a4, a5, a6, a7, a8⟩ :=
    addObject_spec ⟨s.Blocks, s.geoms, s.DirtyList ++ [g]⟩ lists fuel best g G hwf
      ⟨hh.1, hh.2⟩ hrlt hG hfresh (by omega)
  refine ⟨s2, best, ?_, hr, hrlt, a2, a3, a4, a5, a8⟩
  simp only [dxQuadTreeSpace.add, hG, ht, hn, and_self, if_true, hr, Option.bind_some,
    Option.some_bind, a1]

/-- Step of the loop of `dxQuadTreeSpace::cleanGeoms`. -/
theorem cleanGeoms_loop_cons (recomputeAABB : Nat → dxGeom → dAABB) (fuel g : Nat)
    (rest : List Nat) (s : dxQuadTreeSpace) (G : dxGeom) (host : Nat)
    (hG : s.geoms[g]? = some G) (ht : G.tome_ex = some host) :
    dxQuadTreeSpace.cleanGeoms_loop recomputeAABB fuel (g :: rest) s =
      (Block.Traverse ⟨s.Blocks, s.geoms.set g { G with aabb := recomputeAABB g G },
        s.DirtyList⟩ fuel host g).bind
        (dxQuadTreeSpace.cleanGeoms_loop recomputeAABB fuel rest) := by
  obtain ⟨a, n, t, e⟩ := G
  simp only at ht
  subst ht
  rw [dxQuadTreeSpace.cleanGeoms_loop]
  simp only [hG]

/-- The loop of `dxQuadTreeSpace::cleanGeoms` over dirty geoms that the space hosts: it
returns with enough fuel, keeps the geoms hosted and the count invariant, and leaves every
geom hosted in a block other than block 0 strictly inside the rectangle of that block when
this held before for the geoms that are not dirty. -/
theorem cleanGeoms_loop_spec (recomputeAABB : Nat → dxGeom → dAABB) (fuel : Nat) :
    ∀ (dirty : List Nat) (s : dxQuadTreeSpace) (lists : Nat → List Nat),
      Block.WellFormed s.Blocks → s.Hosts lists →
      2 * s.Blocks.length + s.geoms.length < fuel →
      (∀ x, x ∈ dirty → ∃ i, x ∈ lists i) →
      (∀ i x, x ∈ lists i → i ≠ 0 → x ∉ dirty → s.Inside i x) →
      ∃ s2 lists2, dxQuadTreeSpace.cleanGeoms_loop recomputeAABB fuel dirty s = some s2 ∧
        Block.WellFormed s2.Blocks ∧ s2.Hosts lists2 ∧
        s2.Blocks.map Block.shape = s.Blocks.map Block.shape ∧
        s2.geoms.length = s.geoms.length ∧ s2.DirtyList = s.DirtyList ∧
        (∀ x, (∃ i, x ∈ lists2 i) ↔ (∃ i, x ∈ lists i)) ∧
        (∀ i x, x ∈ lists2 i → i ≠ 0 → s2.Inside i x) ∧
        (CountInvariant s.Blocks lists → CountInvariant s2.Blocks lists2) := by
  intro dirty
  induction dirty with
  | nil =>
    intro s lists hwf hh _ _ hin
    exact ⟨s, lists, rfl, hwf, hh, rfl, rfl, rfl, fun _ => Iff.rfl,
      fun i x hx h0 => hin i x hx h0 (by simp), fun h => h⟩
  | cons g rest ih =>
    intro s lists hwf hh hfuel hdirty hin
    obtain ⟨i0, hi0⟩ := hdirty g (List.mem_cons_self _ _)
    obtain ⟨-, G, hG, hGt⟩ := hh.2 i0 g hi0
    have hg : g < s.geoms.length := (List.getElem?_eq_some_iff.1 hG).1
    have hh1 := hosts_set_aabb s lists hh g G (recomputeAABB g G) hG
    have hG1 : (s.geoms.set g { G with aabb := recomputeAABB g G })[g]? =
        some { G with aabb := recomputeAABB g G } := by rw [List.getElem?_set_self hg]
    obtain ⟨s2, r, lists2, t1, t2, t3, t4, t5, t6, t7, t8, -, t10, -⟩ :=
      traverse_spec ⟨s.Blocks, s.geoms.set g { G with aabb := recomputeAABB g G }, s.DirtyList⟩
        lists fuel i0 g _ hwf hh1 hi0 hG1 (by simpa using hfuel)
    simp only at t2 t3 t4 t7 t8
    have hwf2 := wf_congr _ _ t4 hwf
    have hlenB : s2.Blocks.length = s.Blocks.length := by
      have := congrArg List.length t4
      simpa using this
    have hlenG : s2.geoms.length = s.geoms.length := by
      rw [t8.1]; simp
    obtain ⟨s3, lists3, u1, u2, u3, u4, u5, u6, u7, u8, u9⟩ :=
      ih s2 lists2 hwf2 t5 (by rw [hlenB, hlenG]; exact hfuel)
        (by
          intro x hx
          obtain ⟨i, hi⟩ := hdirty x (List.mem_cons_of_mem _ hx)
          by_cases e : x = g
          · exact ⟨r, (t6 r x).2 (Or.inr ⟨e, rfl⟩)⟩
          · exact ⟨i, (t6 i x).2 (Or.inl ⟨e, hi⟩)⟩)
        (by
          intro i x hx h0 hnr
          apply inside_congr ⟨s.Blocks, s.geoms.set g { G with aabb := recomputeAABB g G },
            s.DirtyList⟩ s2 t4 t8
          rcases (t6 i x).1 hx with ⟨e1, e2⟩ | ⟨e1, e2⟩
          · obtain ⟨b, X, f1, f2, f3⟩ := hin i x e2 h0 (by
              intro hm
              rcases List.mem_cons.1 hm with h | h
              · exact e1 h
              · exact hnr h)
            exact ⟨b, X, f1, by simp only; rw [List.getElem?_set_ne (Ne.symm e1)]; exact f2, f3⟩
          · subst e1 e2
            obtain ⟨br, f1, f2⟩ := getBlock_inside s.Blocks hwf (recomputeAABB x G) fuel i0 i
              (hh.2 i0 x hi0).1 (by have := (hh.2 i0 x hi0).1; omega) t2 h0
            exact ⟨br, _, f1, hG1, f2⟩)
    refine ⟨s3, lists3, ?_, u2, u3, u4.trans t4, by rw [u5, hlenG], u6.trans t7, ?_, u8,
      fun h => u9 (t10 (by
        intro i b hb
        exact h i b hb))⟩
    · rw [cleanGeoms_loop_cons recomputeAABB fuel g rest s G i0 hG hGt, t1]
      exact u1
    · intro x
      rw [u7 x]
      constructor
      · rintro ⟨i, hi⟩
        rcases (t6 i x).1 hi with ⟨-, e2⟩ | ⟨e1, -⟩
        · exact ⟨i, e2⟩
        · exact ⟨i0, by rw [e1]; exact hi0⟩
      · rintro ⟨i, hi⟩
        by_cases e : x = g
        · exact ⟨r, (t6 r x).2 (Or.inr ⟨e, rfl⟩)⟩
        · exact ⟨i, (t6 i x).2 (Or.inl ⟨e, hi⟩)⟩

/-- Method `dxQuadTreeSpace::cleanGeoms` on a well-formed space whose dirty geoms are hosted:
it returns with enough fuel, empties the dirty list, and leaves every geom hosted in a block
other than block 0 strictly inside the rectangle of that block when this held before for the
geoms that are not dirty. -/
theorem cleanGeoms_spec (recomputeAABB : Nat → dxGeom → dAABB) (fuel : Nat)
    (s : dxQuadTreeSpace) (lists : Nat → List Nat) (hwf : Block.WellFormed s.Blocks)
    (hh : s.Hosts lists) (hfuel : 2 * s.Blocks.length + s.geoms.length < fuel)
    (hdirty : ∀ x, x ∈ s.DirtyList → ∃ i, x ∈ lists i)
    (hin : ∀ i x, x ∈ lists i → i ≠ 0 → x ∉ s.DirtyList → s.Inside i x) :
    ∃ s2 lists2, s.cleanGeoms recomputeAABB fuel = some s2 ∧
      Block.WellFormed s2.Blocks ∧ s2.Hosts lists2 ∧ s2.DirtyList = [] ∧
      (∀ x, (∃ i, x ∈ lists2 i) ↔ (∃ i, x ∈ lists i)) ∧
      (∀ i x, x ∈ lists2 i → i ≠ 0 → s2.Inside i x) ∧
      (CountInvariant s.Blocks lists → CountInvariant s2.Blocks lists2) := by
  obtain ⟨s2, lists2, u1, u2, u3, -, -, -, u7, u8, u9⟩ :=
    cleanGeoms_loop_spec recomputeAABB fuel s.DirtyList s lists hwf hh hfuel hdirty hin
  refine ⟨⟨s2.Blocks, s2.geoms, []⟩, lists2, ?_, u2, ⟨u3.1, u3.2⟩, rfl, u7, ?_, u9⟩
  · simp only [dxQuadTreeSpace.cleanGeoms, u1, Option.map_some']
  · intro i x hx h0
    obtain ⟨b, X, f1, f2, f3⟩ := u8 i x hx h0
    exact ⟨b, X, f1, f2, f3⟩

/-- The block array of the sample space is well formed. -/
theorem wf_sampleSpace : Block.WellFormed sampleSpace.Blocks := by
  refine ⟨1, 0, 8, 0, 8, by norm_num, by norm_num, rfl, ?_⟩
  simp [Block.IsQuadTree, sampleSpace, Block.shape, quadBelow]
  norm_num

/-- The local lists of the sample space. -/
theorem hosts_sampleSpace : sampleSpace.Hosts sampleLists := by
  constructor
  · intro i b hb
    rcases i with _ | _ | _ | _ | _ | i <;>
      simp [sampleSpace, sampleLists] at hb ⊢ <;> subst hb <;> simp [Chain]
  · intro i g hg
    rcases i with _ | _ | i <;> simp [sampleLists] at hg <;> subst hg <;> simp [sampleSpace]

/-- The count invariant in the sample space. -/
theorem count_sampleSpace : CountInvariant sampleSpace.Blocks sampleLists := by
  intro i b hb
  rcases i with _ | _ | _ | _ | _ | i <;>
    simp [sampleSpace, sampleLists] at hb ⊢ <;> subst hb <;> simp [Block.childCount]

/-- Every geom of the sample space is strictly inside its block. -/
theorem inside_sampleSpace : ∀ i x, x ∈ sampleLists i → sampleSpace.Inside i x := by
  intro i x hx
  rcases i with _ | _ | i <;> simp [sampleLists] at hx <;> subst hx <;>
    simp [dxQuadTreeSpace.Inside, sampleSpace, Block.Inside] <;> norm_num

/-- The array that `Block::Create` builds from block 0 hosts no geom and has the count
invariant. -/
theorem created_empty (D : Nat) (MinX MaxX MinZ MaxZ : ℚ) (blocks : List Block)
    (hx : MinX ≤ MaxX) (hz : MinZ ≤ MaxZ) (hlen : blocks.length = quadBelow D + 1) :
    ∃ c, Block.Create MinX MaxX MinZ MaxZ none D 0 ⟨blocks, 1, []⟩ = some c ∧
      Block.WellFormed c.blocks ∧
      ∀ (geoms : List dxGeom) (dirty : List Nat),
        dxQuadTreeSpace.Hosts ⟨c.blocks, geoms, dirty⟩ (fun _ => []) ∧
        CountInvariant c.blocks (fun _ => []) := by
  obtain ⟨c, e, -, l, -, -, q, z⟩ :=
    create_spec D MinX MaxX MinZ MaxZ none 0 ⟨blocks, 1, []⟩ hx hz (by simp)
      (by simp only [hlen]; omega)
  simp only at l q z
  have hz2 : ∀ (j : Nat) (b : Block), c.blocks[j]? = some b →
      b.mGeomCount = 0 ∧ b.mFirst = none := by
    intro j b hb
    have hj : j < c.blocks.length := (List.getElem?_eq_some_iff.1 hb).1
    obtain ⟨b2, h1, h2, h3⟩ := z j (by simp only [Block.InSub]; omega)
    rw [hb] at h1; cases h1
    exact ⟨h2, h3⟩
  have hz3 : ∀ j : Nat, ((c.blocks[j]?).map Block.mGeomCount).getD 0 = 0 := by
    intro j
    cases hb : c.blocks[j]? with
    | none => rfl
    | some b => simp [(hz2 j b hb).1]
  refine ⟨c, e, ⟨D, MinX, MaxX, MinZ, MaxZ, hx, hz, by rw [l, hlen], q⟩, ?_⟩
  intro geoms dirty
  constructor
  · constructor
    · intro i b hb
      exact (hz2 i b hb).2
    · intro i g hg; cases hg
  · intro i b hb
    rw [(hz2 i b hb).1]
    unfold Block.childCount
    cases b.mChildren with
    | none => simp
    | some ch => simp [hz3]

/-- C22: the count invariant (the count of every block is the sum of the counts of its
children plus the length of its local list) holds in the array that `Block::Create` builds,
with every local list empty; and in a well-formed space in which it holds, `Block::AddObject`
of a geom that no block hosts, `Block::DelObject` of a geom of the local list of the block
and `Block::Traverse` of a geom of the local list of the block return (with fuel above twice
the number of blocks plus the number of geoms) and leave it in force for the new local
lists. -/
theorem CountInvariant_preserved (s : dxQuadTreeSpace) (lists : Nat → List Nat) (fuel : Nat)
    (hwf : Block.WellFormed s.Blocks) (hh : s.Hosts lists)
    (hinv : CountInvariant s.Blocks lists)
    (hfuel : 2 * s.Blocks.length + s.geoms.length < fuel) :
    (∀ (D : Nat) (MinX MaxX MinZ MaxZ : ℚ) (blocks : List Block), MinX ≤ MaxX → MinZ ≤ MaxZ →
      blocks.length = quadBelow D + 1 →
      ∃ c, Block.Create MinX MaxX MinZ MaxZ none D 0 ⟨blocks, 1, []⟩ = some c ∧
        Block.WellFormed c.blocks ∧
        ∀ (geoms : List dxGeom) (dirty : List Nat),
          dxQuadTreeSpace.Hosts ⟨c.blocks, geoms, dirty⟩ (fun _ => []) ∧
          CountInvariant c.blocks (fun _ => [])) ∧
    (∀ (self Object : Nat) (G : dxGeom), self < s.Blocks.length → s.geoms[Object]? = some G →
      (∀ i, Object ∉ lists i) →
      ∃ s2, Block.AddObject s fuel self Object = some s2 ∧ Block.WellFormed s2.Blocks ∧
        s2.Hosts (Function.update lists self (Object :: lists self)) ∧
        CountInvariant s2.Blocks (Function.update lists self (Object :: lists self))) ∧
    (∀ (self Object : Nat), Object ∈ lists self →
      ∃ s2, Block.DelObject s fuel self Object = some s2 ∧ Block.WellFormed s2.Blocks ∧
        s2.Hosts (Function.update lists self ((lists self).erase Object)) ∧
        CountInvariant s2.Blocks (Function.update lists self ((lists self).erase Object))) ∧
    (∀ (self Object : Nat), Object ∈ lists self →
      ∃ s2 lists2, Block.Traverse s fuel self Object = some s2 ∧ Block.WellFormed s2.Blocks ∧
        s2.Hosts lists2 ∧ CountInvariant s2.Blocks lists2) := by
  refine ⟨?_, ?_, ?_, ?_⟩
  · intro D MinX MaxX MinZ MaxZ blocks hx hz hlen
    exact created_empty D MinX MaxX MinZ MaxZ blocks hx hz hlen
  · intro self Object G hself hG hfresh
    obtain ⟨s2, a1, a2, a3, -, -, -, -, a8⟩ :=
      addObject_spec s lists fuel self Object G hwf hh hself hG hfresh (by omega)
    exact ⟨s2, a1, wf_congr _ _ a2 hwf, a3, a8 hinv⟩
  · intro self Object hmem
    have := hosts_length s lists hh self
    obtain ⟨s2, d1, d2, d3, -, -, -, d7⟩ :=
      delObject_spec s lists fuel self Object hwf hh hmem
        (by have := (hh.2 self Object hmem).1; omega) (by omega)
    exact ⟨s2, d1, wf_congr _ _ d2 hwf, d3, d7 hinv⟩
  · intro self Object hmem
    obtain ⟨-, G, hG, -⟩ := hh.2 self Object hmem
    obtain ⟨s2, r, lists2, t1, -, -, t4, t5, -, -, -, -, t10, -⟩ :=
      traverse_spec s lists fuel self Object G hwf hh hmem hG hfuel
    exact ⟨s2, lists2, t1, wf_congr _ _ t4 hwf, t5, t10 hinv⟩

/-- C22 on the sample space. -/
theorem CountInvariant_preserved_witness :
    Block.WellFormed sampleSpace.Blocks ∧ sampleSpace.Hosts sampleLists ∧
    CountInvariant sampleSpace.Blocks sampleLists ∧
    2 * sampleSpace.Blocks.length + sampleSpace.geoms.length < 20 ∧
    (∃ s2, Block.DelObject sampleSpace 20 1 0 = some s2 ∧ Block.WellFormed s2.Blocks ∧
      s2.Hosts (Function.update sampleLists 1 ((sampleLists 1).erase 0)) ∧
      CountInvariant s2.Blocks (Function.update sampleLists 1 ((sampleLists 1).erase 0))) :=
  ⟨wf_sampleSpace, hosts_sampleSpace, count_sampleSpace, by decide,
    (CountInvariant_preserved sampleSpace sampleLists 20 wf_sampleSpace hosts_sampleSpace
      count_sampleSpace (by decide)).2.2.1 1 0 (by simp [sampleLists])⟩

/-- C25: `Block::Traverse` of a geom, called on the block of a well-formed space that hosts
the geom, returns (with fuel above twice the number of blocks plus the number of geoms) and
leaves the count of block 0 as it was; afterwards the geom is in the local list of the block
`NewBlock` that `Block::GetBlock` returns for its box, `tome_ex` of the geom names that
block, every other geom is in the local list it was in, and the count invariant holds if it
held before. When `NewBlock` is the block that hosted the geom the space is left as it
was. -/
theorem Traverse_rehosts (s : dxQuadTreeSpace) (lists : Nat → List Nat)
    (fuel self Object : Nat) (G : dxGeom) (hwf : Block.WellFormed s.Blocks)
    (hh : s.Hosts lists) (hmem : Object ∈ lists self) (hG : s.geoms[Object]? = some G)
    (hfuel : 2 * s.Blocks.length + s.geoms.length < fuel) :
    ∃ s2 NewBlock lists2, Block.Traverse s fuel self Object = some s2 ∧
      Block.GetBlock s.Blocks G.aabb fuel self = some NewBlock ∧
      s2.Hosts lists2 ∧ Object ∈ lists2 NewBlock ∧
      (∃ G2, s2.geoms[Object]? = some G2 ∧ G2.tome_ex = some NewBlock ∧ G2.aabb = G.aabb) ∧
      (∀ i g, g ≠ Object → (g ∈ lists2 i ↔ g ∈ lists i)) ∧
      (∃ r0 r2, s.Blocks[0]? = some r0 ∧ s2.Blocks[0]? = some r2 ∧
        r2.mGeomCount = r0.mGeomCount) ∧
      (CountInvariant s.Blocks lists → CountInvariant s2.Blocks lists2) ∧
      (NewBlock = self → s2 = s ∧ lists2 = lists) := by
  obtain ⟨s2, r, lists2, t1, t2, -, -, t5, t6, -, t8, t9, t10, t11⟩ :=
    traverse_spec s lists fuel self Object G hwf hh hmem hG hfuel
  have hO : Object ∈ lists2 r := (t6 r Object).2 (Or.inr ⟨rfl, rfl⟩)
  obtain ⟨-, G2, g1, g2⟩ := t5.2 r Object hO
  obtain ⟨G3, g3, g4, -⟩ := t8.2 Object G hG
  rw [g1] at g3; cases g3
  obtain ⟨r0, hr0, -⟩ := wf_root s.Blocks hwf
  obtain ⟨r2, hr2, hr3⟩ := t9 r0 hr0
  refine ⟨s2, r, lists2, t1, t2, t5, hO, ⟨G2, g1, g2, g4⟩, ?_, ⟨r0, r2, hr0, hr2, hr3⟩, t10,
    t11⟩
  intro i g hg
  rw [t6 i g]
  constructor
  · rintro (⟨-, h⟩ | ⟨h, -⟩)
    · exact h
    · exact absurd h hg
  · intro h; exact Or.inl ⟨hg, h⟩

/-- C25 on the sample space, for geom 0 hosted in block 1. -/
theorem Traverse_rehosts_witness :
    Block.WellFormed sampleSpace.Blocks ∧ sampleSpace.Hosts sampleLists ∧ 0 ∈ sampleLists 1 ∧
    sampleSpace.geoms[0]? = some ⟨⟨1, 3, 1, 3, 0, 1⟩, none, some 1, true⟩ ∧
    2 * sampleSpace.Blocks.length + sampleSpace.geoms.length < 20 ∧
    ∃ s2 NewBlock lists2, Block.Traverse sampleSpace 20 1 0 = some s2 ∧
      Block.GetBlock sampleSpace.Blocks
        (dxGeom.aabb ⟨⟨1, 3, 1, 3, 0, 1⟩, none, some 1, true⟩) 20 1 = some NewBlock ∧
      s2.Hosts lists2 ∧ 0 ∈ lists2 NewBlock ∧
      (∃ G2, s2.geoms[0]? = some G2 ∧ G2.tome_ex = some NewBlock ∧
        G2.aabb = dxGeom.aabb ⟨⟨1, 3, 1, 3, 0, 1⟩, none, some 1, true⟩) ∧
      (∀ i g, g ≠ 0 → (g ∈ lists2 i ↔ g ∈ sampleLists i)) ∧
      (∃ r0 r2, sampleSpace.Blocks[0]? = some r0 ∧ s2.Blocks[0]? = some r2 ∧
        r2.mGeomCount = r0.mGeomCount) ∧
      (CountInvariant sampleSpace.Blocks sampleLists → CountInvariant s2.Blocks lists2) ∧
      (NewBlock = 1 → s2 = sampleSpace ∧ lists2 = sampleLists) :=
  ⟨wf_sampleSpace, hosts_sampleSpace, by simp [sampleLists], rfl, by decide,
    Traverse_rehosts sampleSpace sampleLists 20 1 0 _ wf_sampleSpace hosts_sampleSpace
      (by simp [sampleLists]) rfl (by decide)⟩

/-- C23 as stated fails: in the sample space, where every hosted geom is strictly inside the
rectangle of its block, `dxQuadTreeSpace::add` of geom 2, whose box reaches beyond the
rectangle of block 0, hosts the geom in block 0, whose rectangle does not strictly contain the
box. -/
theorem add_hosts_outside_root :
    Block.WellFormed sampleSpace.Blocks ∧ sampleSpace.Hosts sampleLists ∧
    (∀ i x, x ∈ sampleLists i → sampleSpace.Inside i x) ∧
    ∃ s2, sampleSpace.add 20 2 = some s2 ∧
      s2.Hosts (Function.update sampleLists 0 (2 :: sampleLists 0)) ∧
      2 ∈ Function.update sampleLists 0 (2 :: sampleLists 0) 0 ∧ ¬ s2.Inside 0 2 := by
  refine ⟨wf_sampleSpace, hosts_sampleSpace, inside_sampleSpace, ?_⟩
  obtain ⟨s2, best, a1, a2, a3, a4, a5, -, a7, -⟩ :=
    add_spec sampleSpace sampleLists 20 2 ⟨⟨7, 9, 1, 2, 0, 1⟩, none, none, true⟩ wf_sampleSpace
      hosts_sampleSpace rfl rfl rfl (by decide)
  have hbest : best = 0 := by
    obtain ⟨r, h1, -, h3⟩ := getBlock_spec sampleSpace.Blocks wf_sampleSpace
      ⟨7, 9, 1, 2, 0, 1⟩ ⟨0, 8, 0, 8, some 1, 2, none, some 1⟩ rfl 20 0 (by decide) (by decide)
    rw [a2] at h1; cases h1
    apply h3
    simp [Block.Inside]
    norm_num
  subst hbest
  refine ⟨s2, a1, a5, by simp, ?_⟩
  rintro ⟨b, G, h1, h2, h3⟩
  obtain ⟨G2, e1, e2, -⟩ := a7.2 2 ⟨⟨7, 9, 1, 2, 0, 1⟩, none, none, true⟩ rfl
  rw [h2] at e1; cases e1
  have := congrArg (fun l => l[0]?) a4
  simp only [List.getElem?_map, h1, Option.map_some'] at this
  simp [sampleSpace, Block.shape] at this
  obtain ⟨b1, b2, b3, b4, -, -⟩ := this
  rw [e2] at h3
  simp [Block.Inside, b1, b2, b3, b4] at h3
  norm_num at h3

/-- C23, amended: in a well-formed space, `dxQuadTreeSpace::add` of a geom with null links
and `dxQuadTreeSpace::cleanGeoms` (when every dirty geom is hosted) return, with fuel above
twice the number of blocks plus the number of geoms, and afterwards the rectangle of every
block other than block 0 strictly contains the box of every geom of its local list, provided
this held before (for `cleanGeoms`: before, for the geoms that are not dirty); `add` puts a
geom whose box is not strictly inside the rectangle of block 0 in the local list of
block 0. -/
theorem hosted_inside_unless_root (recomputeAABB : Nat → dxGeom → dAABB)
    (s : dxQuadTreeSpace) (lists : Nat → List Nat) (fuel : Nat)
    (hwf : Block.WellFormed s.Blocks) (hh : s.Hosts lists)
    (hfuel : 2 * s.Blocks.length + s.geoms.length < fuel) :
    (∀ (g : Nat) (G : dxGeom), s.geoms[g]? = some G → G.tome_ex = none → G.next_ex = none →
      (∀ i x, x ∈ lists i → i ≠ 0 → s.Inside i x) →
      ∃ s2 best, s.add fuel g = some s2 ∧
        s2.Hosts (Function.update lists best (g :: lists best)) ∧
        (∀ i x, x ∈ Function.update lists best (g :: lists best) i → i ≠ 0 → s2.Inside i x) ∧
        (∀ root, s.Blocks[0]? = some root → root.Inside G.aabb = false → best = 0)) ∧
    ((∀ x, x ∈ s.DirtyList → ∃ i, x ∈ lists i) →
      (∀ i x, x ∈ lists i → i ≠ 0 → x ∉ s.DirtyList → s.Inside i x) →
      ∃ s2 lists2, s.cleanGeoms recomputeAABB fuel = some s2 ∧ s2.Hosts lists2 ∧
        (∀ x, (∃ i, x ∈ lists2 i) ↔ (∃ i, x ∈ lists i)) ∧
        ∀ i x, x ∈ lists2 i → i ≠ 0 → s2.Inside i x) := by
  constructor
  · intro g G hG ht hn hin
    obtain ⟨s2, best, a1, a2, a3, a4, a5, -, a7, -⟩ :=
      add_spec s lists fuel g G hwf hh hG ht hn hfuel
    refine ⟨s2, best, a1, a5, ?_, ?_⟩
    swap
    · intro root hroot hout
      obtain ⟨r, h1, -, h3⟩ := getBlock_spec s.Blocks hwf G.aabb root hroot fuel 0
        (wf_pos _ hwf) (by omega)
      rw [a2] at h1; cases h1
      exact h3 hout
    intro i x hx h0
    apply inside_congr ⟨s.Blocks, s.geoms, s.DirtyList⟩ s2 a4 a7
    by_cases e : i = best
    · subst e
      rw [Function.update_same] at hx
      rcases List.mem_cons.1 hx with h | h
      · subst h
        obtain ⟨br, f1, f2⟩ := getBlock_inside s.Blocks hwf G.aabb fuel 0 i
          (wf_pos _ hwf) (by omega) a2 h0
        exact ⟨br, G, f1, hG, f2⟩
      · exact hin i x h h0
    · rw [Function.update_noteq e] at hx
      exact hin i x hx h0
  · intro hdirty hin
    obtain ⟨s2, lists2, c1, -, c3, -, c5, c6, -⟩ :=
      cleanGeoms_spec recomputeAABB fuel s lists hwf hh hfuel hdirty hin
    exact ⟨s2, lists2, c1, c3, c5, c6⟩

/-- C23, amended, on the sample space, for `cleanGeoms` with geom 0 dirty and moved to the
box from 5 to 6 in both directions. -/
theorem hosted_inside_unless_root_witness :
    Block.WellFormed sampleSpace.Blocks ∧ sampleSpace.Hosts sampleLists ∧
    2 * sampleSpace.Blocks.length + sampleSpace.geoms.length < 20 ∧
    (∀ x, x ∈ sampleSpace.DirtyList → ∃ i, x ∈ sampleLists i) ∧
    (∀ i x, x ∈ sampleLists i → i ≠ 0 → x ∉ sampleSpace.DirtyList → sampleSpace.Inside i x) ∧
    ∃ s2 lists2, sampleSpace.cleanGeoms (fun _ _ => ⟨5, 6, 5, 6, 0, 1⟩) 20 = some s2 ∧
      s2.Hosts lists2 ∧ (∀ x, (∃ i, x ∈ lists2 i) ↔ (∃ i, x ∈ sampleLists i)) ∧
      ∀ i x, x ∈ lists2 i → i ≠ 0 → s2.Inside i x :=
  ⟨wf_sampleSpace, hosts_sampleSpace, by decide,
    fun x hx => ⟨1, by simp [sampleSpace] at hx; subst hx; simp [sampleLists]⟩,
    fun i x hx _ _ => inside_sampleSpace i x hx,
    (hosted_inside_unless_root (fun _ _ => ⟨5, 6, 5, 6, 0, 1⟩) sampleSpace sampleLists 20
      wf_sampleSpace hosts_sampleSpace (by decide)).2
      (fun x hx => ⟨1, by simp [sampleSpace] at hx; subst hx; simp [sampleLists]⟩)
      (fun i x hx _ _ => inside_sampleSpace i x hx)⟩

/-! ### Quadtree space: collide query -/

/-- Nothing submitted leaves the log as it is. -/
theorem after_nil (test : Nat → Nat → Bool) (log : CollideLog) : log.after test [] = log := by
  simp [CollideLog.after]

/-- Submitting two lists of pairs one after the other. -/
theorem after_after (test : Nat → Nat → Bool) (log : CollideLog) (T1 T2 : List (Nat × Nat)) :
    (log.after test T1).after test T2 = log.after test (T1 ++ T2) := by
  simp [CollideLog.after, List.filter_append, List.append_assoc]

/-- The loop over the local list of `Block::Collide(g1, g2, ...)` submits the enabled geoms of
the list, in order. -/
theorem collide_list_spec (test : Nat → Nat → Bool) (geoms : List dxGeom) (g1 : Nat) :
    ∀ (l : List Nat) (fuel : Nat) (g2 : Option Nat) (log : CollideLog),
      Chain geoms g2 l → l.length < fuel →
      Block.Collide_list test geoms g1 fuel g2 log =
        some (log.after test ((l.filter (enabledAt geoms)).map fun h => (g1, h))) := by
  intro l
  induction l with
  | nil =>
    intro fuel g2 log hc hf
    obtain ⟨f, rfl⟩ : ∃ f, fuel = f + 1 := ⟨fuel - 1, by omega⟩
    have : g2 = none := hc
    subst this
    rw [Block.Collide_list]
    simp [after_nil]
  | cons h t ih =>
    intro fuel g2 log hc hf
    obtain ⟨f, rfl⟩ : ∃ f, fuel = f + 1 := ⟨fuel - 1, by omega⟩
    obtain ⟨c1, H, c2, c3⟩ := hc
    subst c1
    rw [Block.Collide_list]
    simp only [c2]
    rw [ih f _ _ c3 (by simp at hf; omega)]
    have he : enabledAt geoms h = H.enabled := by simp [enabledAt, c2]
    cases hen : H.enabled with
    | false =>
      simp [List.filter_cons, he, hen]
    | true =>
      cases ht : test g1 h with
      | false =>
        simp [List.filter_cons, he, hen, ht, CollideLog.after]
      | true =>
        simp [List.filter_cons, he, hen, ht, CollideLog.after]

/-- A geom hosted below a block is in the local list of a block of the subtree. -/
theorem below_mem (lists : Nat → List Nat) (g : Nat) : ∀ (d ptr : Nat),
    g ∈ belowGeoms lists d ptr → ∃ i, ptr ≤ i ∧ i < ptr + quadBelow d ∧ g ∈ lists i := by
  intro d
  induction d with
  | zero => intro ptr h; simp [belowGeoms] at h
  | succ d ih =>
    intro ptr h
    simp only [belowGeoms, List.mem_append] at h
    simp only [quadBelow]
    rcases h with (h | h) | (h | h) | (h | h) | (h | h)
    · exact ⟨ptr, by omega, by omega, h⟩
    · obtain ⟨i, h1, h2, h3⟩ := ih _ h; exact ⟨i, by omega, by omega, h3⟩
    · exact ⟨ptr + 1, by omega, by omega, h⟩
    · obtain ⟨i, h1, h2, h3⟩ := ih _ h; exact ⟨i, by omega, by omega, h3⟩
    · exact ⟨ptr + 2, by omega, by omega, h⟩
    · obtain ⟨i, h1, h2, h3⟩ := ih _ h; exact ⟨i, by omega, by omega, h3⟩
    · exact ⟨ptr + 3, by omega, by omega, h⟩
    · obtain ⟨i, h1, h2, h3⟩ := ih _ h; exact ⟨i, by omega, by omega, h3⟩

/-- A geom of the local list of a block of the subtree is hosted below the root of the
subtree. -/
theorem mem_below (lists : Nat → List Nat) (g : Nat) : ∀ (d ptr i : Nat),
    ptr ≤ i → i < ptr + quadBelow d → g ∈ lists i → g ∈ belowGeoms lists d ptr := by
  intro d
  induction d with
  | zero => intro ptr i h1 h2 _; simp only [quadBelow] at h2; omega
  | succ d ih =>
    intro ptr i h1 h2 h3
    simp only [quadBelow] at h2
    simp only [belowGeoms, List.mem_append]
    by_cases e0 : i = ptr
    · subst e0; exact Or.inl (Or.inl h3)
    by_cases e1 : i = ptr + 1
    · subst e1; exact Or.inr (Or.inl (Or.inl h3))
    by_cases e2 : i = ptr + 2
    · subst e2; exact Or.inr (Or.inr (Or.inl (Or.inl h3)))
    by_cases e3 : i = ptr + 3
    · subst e3; exact Or.inr (Or.inr (Or.inr (Or.inl h3)))
    by_cases f0 : i < ptr + 4 + quadBelow d
    · exact Or.inl (Or.inr (ih _ i (by omega) (by omega) h3))
    by_cases f1 : i < ptr + 4 + 2 * quadBelow d
    · exact Or.inr (Or.inl (Or.inr (ih _ i (by omega) (by omega) h3)))
    by_cases f2 : i < ptr + 4 + 3 * quadBelow d
    · exact Or.inr (Or.inr (Or.inl (Or.inr (ih _ i (by omega) (by omega) h3))))
    · exact Or.inr (Or.inr (Or.inr (Or.inr (ih _ i (by omega) (by omega) h3))))

/-- A geom hosted in a subtree is in the local list of a block of the subtree. -/
theorem sub_mem (lists : Nat → List Nat) (g : Nat) (d self ptr : Nat)
    (h : g ∈ lists self ++ belowGeoms lists d ptr) :
    ∃ i, Block.InSub d self ptr i ∧ g ∈ lists i := by
  rcases List.mem_append.1 h with h | h
  · exact ⟨self, Or.inl rfl, h⟩
  · obtain ⟨i, h1, h2, h3⟩ := below_mem lists g d ptr h
    exact ⟨i, Or.inr ⟨h1, h2⟩, h3⟩

/-- No geom is twice in a local list. -/
theorem lists_nodup (s : dxQuadTreeSpace) (lists : Nat → List Nat) (hh : s.Hosts lists)
    (i : Nat) : (lists i).Nodup := by
  by_cases hi : i < s.Blocks.length
  · exact chain_nodup _ _ _ (hh.1 i _ (List.getElem?_eq_getElem hi))
  · cases hl : lists i with
    | nil => exact List.nodup_nil
    | cons x t =>
      have := (hh.2 i x (by rw [hl]; exact List.mem_cons_self _ _)).1
      omega

/-- No geom is hosted twice below a block. -/
theorem below_nodup (s : dxQuadTreeSpace) (lists : Nat → List Nat) (hh : s.Hosts lists) :
    ∀ (d ptr : Nat), (belowGeoms lists d ptr).Nodup := by
  intro d
  induction d with
  | zero => intro ptr; simp [belowGeoms]
  | succ d ih =>
    intro ptr
    have dj : ∀ (i : Nat) (p : Nat), (i < p ∨ p + quadBelow d ≤ i) →
        List.Disjoint (lists i) (belowGeoms lists d p) := by
      intro i p hi x hx1 hx2
      obtain ⟨j, j1, j2, j3⟩ := below_mem lists x d p hx2
      have := hosts_inj s lists hh i j x hx1 j3
      omega
    have dc : ∀ (p q p2 q2 : Nat),
        (∀ i j, Block.InSub d p q i → Block.InSub d p2 q2 j → i ≠ j) →
        List.Disjoint (lists p ++ belowGeoms lists d q)
          (lists p2 ++ belowGeoms lists d q2) := by
      intro p q p2 q2 hne x hx1 hx2
      obtain ⟨i, i1, i2⟩ := sub_mem lists x d p q hx1
      obtain ⟨j, j1, j2⟩ := sub_mem lists x d p2 q2 hx2
      exact hne i j i1 j1 (hosts_inj s lists hh i j x i2 j2)
    have nl := lists_nodup s lists hh
    simp only [belowGeoms]
    have n3 : (lists (ptr + 3) ++ belowGeoms lists d (ptr + 4 + 3 * quadBelow d)).Nodup :=
      List.nodup_append.2 ⟨nl _, ih _, dj _ _ (by omega)⟩
    have n2 : (lists (ptr + 2) ++ belowGeoms lists d (ptr + 4 + 2 * quadBelow d)).Nodup :=
      List.nodup_append.2 ⟨nl _, ih _, dj _ _ (by omega)⟩
    have n1 : (lists (ptr + 1) ++ belowGeoms lists d (ptr + 4 + quadBelow d)).Nodup :=
      List.nodup_append.2 ⟨nl _, ih _, dj _ _ (by omega)⟩
    have n0 : (lists ptr ++ belowGeoms lists d (ptr + 4)).Nodup :=
      List.nodup_append.2 ⟨nl _, ih _, dj _ _ (by omega)⟩
    refine List.nodup_append.2 ⟨n0, List.nodup_append.2 ⟨n1, List.nodup_append.2 ⟨n2, n3, ?_⟩,
      ?_⟩, ?_⟩
    · apply dc
      intro i j hi hj
      simp only [Block.InSub] at hi hj
      omega
    · refine List.disjoint_append_right.2 ⟨?_, ?_⟩ <;>
      · apply dc
        intro i j hi hj
        simp only [Block.InSub] at hi hj
        omega
    · refine List.disjoint_append_right.2 ⟨?_, List.disjoint_append_right.2 ⟨?_, ?_⟩⟩ <;>
      · apply dc
        intro i j hi hj
        simp only [Block.InSub] at hi hj
        omega

/-- Under the count invariant the count of the root of a subtree is the number of geoms
hosted in the subtree. -/
theorem sub_count (blocks : List Block) (lists : Nat → List Nat)
    (hcnt : CountInvariant blocks lists) : ∀ (d : Nat) (MinX MaxX MinZ MaxZ : ℚ)
      (Parent : Option Nat) (self ptr : Nat),
      Block.IsQuadTree blocks d MinX MaxX MinZ MaxZ Parent self ptr →
      ∃ b, blocks[self]? = some b ∧
        b.mGeomCount = ((lists self ++ belowGeoms lists d ptr).length : Int) := by
  intro d
  induction d with
  | zero =>
    intro MinX MaxX MinZ MaxZ Parent self ptr h
    obtain ⟨b, h1, -, -, -, -, -, h7⟩ := shape_get _ _ _ _ _ _ _ _ h
    refine ⟨b, h1, ?_⟩
    rw [hcnt self b h1]
    simp [Block.childCount, h7, belowGeoms]
  | succ d ih =>
    intro MinX MaxX MinZ MaxZ Parent self ptr h
    simp only [Block.IsQuadTree] at h
    obtain ⟨h0, t0, t1, t2, t3⟩ := h
    obtain ⟨b, h1, -, -, -, -, -, h7⟩ := shape_get _ _ _ _ _ _ _ _ h0
    obtain ⟨c0, r0, e0⟩ := ih _ _ _ _ _ _ _ t0
    obtain ⟨c1, r1, e1⟩ := ih _ _ _ _ _ _ _ t1
    obtain ⟨c2, r2, e2⟩ := ih _ _ _ _ _ _ _ t2
    obtain ⟨c3, r3, e3⟩ := ih _ _ _ _ _ _ _ t3
    refine ⟨b, h1, ?_⟩
    rw [hcnt self b h1]
    simp only [Block.childCount, h7, r0, r1, r2, r3, Option.map_some', Option.getD_some, e0, e1,
      e2, e3, belowGeoms, List.length_append, Nat.cast_add]
    ring

/-- The geoms hosted in a subtree whose root is not block 0 are strictly inside the rectangle
of the root of the subtree, when every geom hosted in a block other than block 0 is strictly
inside the rectangle of its block. -/
theorem sub_inside (s : dxQuadTreeSpace) (lists : Nat → List Nat)
    (hins : ∀ i x, x ∈ lists i → i ≠ 0 → s.Inside i x) : ∀ (d : Nat) (MinX MaxX MinZ MaxZ : ℚ)
      (Parent : Option Nat) (self ptr : Nat), MinX ≤ MaxX → MinZ ≤ MaxZ → 0 < self →
      self < ptr → Block.IsQuadTree s.Blocks d MinX MaxX MinZ MaxZ Parent self ptr →
      ∀ g, g ∈ lists self ++ belowGeoms lists d ptr → InRect s.geoms MinX MaxX MinZ MaxZ g := by
  have self_case : ∀ (d : Nat) (MinX MaxX MinZ MaxZ : ℚ) (Parent : Option Nat)
      (self ptr : Nat), 0 < self →
      Block.IsQuadTree s.Blocks d MinX MaxX MinZ MaxZ Parent self ptr →
      ∀ g, g ∈ lists self → InRect s.geoms MinX MaxX MinZ MaxZ g := by
    intro d MinX MaxX MinZ MaxZ Parent self ptr h0 h g hg
    obtain ⟨b, h1, h2, h3, h4, h5, -⟩ := isQuadTree_root _ _ _ _ _ _ _ _ _ h
    obtain ⟨b2, G, e1, e2, e3⟩ := hins self g hg (by omega)
    rw [h1] at e1; cases e1
    simp only [Block.Inside, Bool.and_eq_true, decide_eq_true_eq, h2, h3, h4, h5] at e3
    exact ⟨G, e2, e3.1.1.1, e3.1.1.2, e3.1.2, e3.2⟩
  intro d
  induction d with
  | zero =>
    intro MinX MaxX MinZ MaxZ Parent self ptr _ _ h0 _ h g hg
    simp only [belowGeoms, List.append_nil] at hg
    exact self_case 0 _ _ _ _ _ _ ptr h0 h g hg
  | succ d ih =>
    intro MinX MaxX MinZ MaxZ Parent self ptr hx hz h0 hlt h g hg
    rcases List.mem_append.1 hg with hg | hg
    · exact self_case (d + 1) _ _ _ _ _ _ ptr h0 h g hg
    simp only [Block.IsQuadTree] at h
    obtain ⟨-, t0, t1, t2, t3⟩ := h
    have hmx1 : MinX ≤ (MinX + MaxX) / 2 := by linarith
    have hmx2 : (MinX + MaxX) / 2 ≤ MaxX := by linarith
    have hmz1 : MinZ ≤ (MinZ + MaxZ) / 2 := by linarith
    have hmz2 : (MinZ + MaxZ) / 2 ≤ MaxZ := by linarith
    simp only [belowGeoms] at hg
    rcases List.mem_append.1 hg with hg | hg
    · obtain ⟨G, e1, e2, e3, e4, e5⟩ := ih _ _ _ _ _ _ _ hmx1 hmz1 (by omega) (by omega) t0 g hg
      exact ⟨G, e1, by linarith, by linarith, by linarith, by linarith⟩
    rcases List.mem_append.1 hg with hg | hg
    · obtain ⟨G, e1, e2, e3, e4, e5⟩ := ih _ _ _ _ _ _ _ hmx1 hmz2 (by omega) (by omega) t1 g hg
      exact ⟨G, e1, by linarith, by linarith, by linarith, by linarith⟩
    rcases List.mem_append.1 hg with hg | hg
    · obtain ⟨G, e1, e2, e3, e4, e5⟩ := ih _ _ _ _ _ _ _ hmx2 hmz1 (by omega) (by omega) t2 g hg
      exact ⟨G, e1, by linarith, by linarith, by linarith, by linarith⟩
    · obtain ⟨G, e1, e2, e3, e4, e5⟩ := ih _ _ _ _ _ _ _ hmx2 hmz2 (by omega) (by omega) t3 g hg
      exact ⟨G, e1, by linarith, by linarith, by linarith, by linarith⟩

/-- The loop over four children, step by step. -/
theorem foldlM_four (f : CollideLog → Nat → Option CollideLog) (log : CollideLog) :
    [0, 1, 2, 3].foldlM f log =
      (f log 0).bind fun l1 => (f l1 1).bind fun l2 => (f l2 2).bind fun l3 => f l3 3 := by
  have e : ∀ x : Option CollideLog, (x.bind fun i => pure i) = x := by
    intro x; cases x <;> rfl
  simp only [List.foldlM_cons, List.foldlM_nil, Option.bind_eq_bind, e]

/-- The enabled geoms of a list without repetition, each paired with `g1`. -/
theorem oneVsMany_list (geoms : List dxGeom) (g1 : Nat) (l : List Nat) (hn : l.Nodup) :
    OneVsMany geoms ((l.filter (enabledAt geoms)).map fun h => (g1, h)) g1 l := by
  refine ⟨?_, ?_, ?_⟩
  · intro p hp
    obtain ⟨h, h1, rfl⟩ := List.mem_map.1 hp
    obtain ⟨h2, h3⟩ := List.mem_filter.1 h1
    exact ⟨rfl, h2, h3⟩
  · apply List.Nodup.map _ (hn.filter _)
    intro a b hab
    simpa using hab
  · intro h h1 h2 _
    exact List.mem_map.2 ⟨h, List.mem_filter.2 ⟨h1, h2⟩, rfl⟩

/-- Nothing needs to be paired with `g1` when no enabled geom of `B` overlaps it. -/
theorem oneVsMany_nil (geoms : List dxGeom) (g1 : Nat) (B : List Nat)
    (h : ∀ h, h ∈ B → enabledAt geoms h = true → ¬ overlapXZ geoms g1 h) :
    OneVsMany geoms [] g1 B := by
  refine ⟨fun p hp => (by cases hp), List.nodup_nil, fun x h1 h2 h3 => absurd h3 (h x h1 h2)⟩

/-- Pairs with the geoms of two disjoint lists. -/
theorem oneVsMany_append (geoms : List dxGeom) (g1 : Nat) (T1 T2 : List (Nat × Nat))
    (B1 B2 : List Nat) (h1 : OneVsMany geoms T1 g1 B1) (h2 : OneVsMany geoms T2 g1 B2)
    (hd : List.Disjoint B1 B2) : OneVsMany geoms (T1 ++ T2) g1 (B1 ++ B2) := by
  obtain ⟨a1, a2, a3⟩ := h1
  obtain ⟨b1, b2, b3⟩ := h2
  refine ⟨?_, ?_, ?_⟩
  · intro p hp
    rcases List.mem_append.1 hp with h | h
    · obtain ⟨c1, c2, c3⟩ := a1 p h
      exact ⟨c1, List.mem_append_left _ c2, c3⟩
    · obtain ⟨c1, c2, c3⟩ := b1 p h
      exact ⟨c1, List.mem_append_right _ c2, c3⟩
  · refine List.nodup_append.2 ⟨a2, b2, ?_⟩
    intro p hp1 hp2
    exact hd (a1 p hp1).2.1 (b1 p hp2).2.1
  · intro h hh he ho
    rcases List.mem_append.1 hh with h' | h'
    · exact List.mem_append_left _ (a3 h h' he ho)
    · exact List.mem_append_right _ (b3 h h' he ho)

/-- No geom is hosted twice in a subtree. -/
theorem sub_nodup (s : dxQuadTreeSpace) (lists : Nat → List Nat) (hh : s.Hosts lists)
    (d self ptr : Nat) (hlt : self < ptr) : (lists self ++ belowGeoms lists d ptr).Nodup := by
  refine List.nodup_append.2 ⟨lists_nodup s lists hh self, below_nodup s lists hh d ptr, ?_⟩
  intro x hx1 hx2
  obtain ⟨j, j1, j2, j3⟩ := below_mem lists x d ptr hx2
  have := hosts_inj s lists hh self j x hx1 j3
  omega

/-- A geom whose box is beyond a side of a rectangle overlaps no geom strictly inside the
rectangle. -/
theorem not_overlap_of_separated (geoms : List dxGeom) (g1 h : Nat) (G1 : dxGeom)
    (MinX MaxX MinZ MaxZ : ℚ) (hG1 : geoms[g1]? = some G1)
    (hsep : G1.aabb.a0 > MaxX ∨ G1.aabb.a1 < MinX ∨ G1.aabb.a2 > MaxZ ∨ G1.aabb.a3 < MinZ)
    (hin : InRect geoms MinX MaxX MinZ MaxZ h) : ¬ overlapXZ geoms g1 h := by
  rintro ⟨G, H, e1, e2, o1, o2, o3, o4⟩
  rw [hG1] at e1; cases e1
  obtain ⟨H2, f1, f2, f3, f4, f5⟩ := hin
  rw [e2] at f1; cases f1
  rcases hsep with h | h | h | h <;> linarith

/-- Body of the loop over the children of `Block::Collide(g1, g2, ...)`: the child is skipped
only when no enabled geom of its subtree overlaps `g1`. -/
theorem collide_geom_child_spec (test : Nat → Nat → Bool) (s : dxQuadTreeSpace)
    (lists : Nat → List Nat) (hcnt : CountInvariant s.Blocks lists)
    (hins : ∀ i x, x ∈ lists i → i ≠ 0 → s.Inside i x) (g1 : Nat) (G1 : dxGeom)
    (hG1 : s.geoms[g1]? = some G1) (d : Nat) (MinX MaxX MinZ MaxZ : ℚ) (Parent : Option Nat)
    (c ptr : Nat) (hx : MinX ≤ MaxX) (hz : MinZ ≤ MaxZ) (h0 : 0 < c) (hlt : c < ptr)
    (hq : Block.IsQuadTree s.Blocks d MinX MaxX MinZ MaxZ Parent c ptr)
    (recurse : Nat → Option Nat → CollideLog → Option CollideLog)
    (hrec : ∀ (cb : Block) (log : CollideLog), s.Blocks[c]? = some cb →
      ∃ T, recurse c cb.mFirst log = some (log.after test T) ∧
        OneVsMany s.geoms T g1 (lists c ++ belowGeoms lists d ptr))
    (mChildren i : Nat) (hc : mChildren + i = c) (log : CollideLog) :
    ∃ T, Block.Collide_geom_child s G1 recurse mChildren log i = some (log.after test T) ∧
      OneVsMany s.geoms T g1 (lists c ++ belowGeoms lists d ptr) := by
  obtain ⟨cb, hcb, hcount⟩ := sub_count s.Blocks lists hcnt d _ _ _ _ _ _ _ hq
  obtain ⟨cb2, e1, e2, e3, e4, e5, -⟩ := isQuadTree_root _ _ _ _ _ _ _ _ _ hq
  rw [hcb] at e1; cases e1
  unfold Block.Collide_geom_child
  rw [hc]
  simp only [hcb]
  by_cases hz0 : cb.mGeomCount = 0
  · rw [if_pos hz0]
    have hnil : lists c ++ belowGeoms lists d ptr = [] := by
      rw [hz0] at hcount
      exact List.length_eq_zero.1 (by exact_mod_cast hcount.symm)
    rw [hnil]
    exact ⟨[], by rw [after_nil], oneVsMany_nil _ _ _ (fun h hh => by cases hh)⟩
  · rw [if_neg hz0]
    by_cases hsep : cb.mGeomCount > 1 ∧
        (G1.aabb.a0 > cb.mMaxX ∨ G1.aabb.a1 < cb.mMinX ∨
         G1.aabb.a2 > cb.mMaxZ ∨ G1.aabb.a3 < cb.mMinZ)
    · rw [if_pos hsep]
      refine ⟨[], by rw [after_nil], oneVsMany_nil _ _ _ ?_⟩
      intro h hh _
      have hin := sub_inside s lists hins d _ _ _ _ _ _ _ hx hz h0 hlt hq h hh
      apply not_overlap_of_separated s.geoms g1 h G1 MinX MaxX MinZ MaxZ hG1 _ hin
      rw [← e2, ← e3, ← e4, ← e5]
      exact hsep.2
    · rw [if_neg hsep]
      exact hrec cb log hcb

/-- Method `Block::Collide(g1, g2, ...)` on the root of a subtree, from the geom `g2` of the
local list on: with enough fuel it returns, having paired `g1` with the enabled geoms of the
rest `l` of the local list and of the blocks below, none twice, leaving out no enabled geom
whose box overlaps that of `g1` in X and Z. -/
theorem collide_geom_spec (test : Nat → Nat → Bool) (s : dxQuadTreeSpace)
    (lists : Nat → List Nat) (hh : s.Hosts lists) (hcnt : CountInvariant s.Blocks lists)
    (hins : ∀ i x, x ∈ lists i → i ≠ 0 → s.Inside i x) (g1 : Nat) (G1 : dxGeom)
    (hG1 : s.geoms[g1]? = some G1) :
    ∀ (d : Nat) (MinX MaxX MinZ MaxZ : ℚ) (Parent : Option Nat) (self ptr : Nat),
      MinX ≤ MaxX → MinZ ≤ MaxZ → self < ptr →
      Block.IsQuadTree s.Blocks d MinX MaxX MinZ MaxZ Parent self ptr →
      ∀ (l : List Nat) (fuel : Nat) (g2 : Option Nat) (log : CollideLog),
        Chain s.geoms g2 l → l.length ≤ s.geoms.length → d + s.geoms.length < fuel →
        l.Nodup → List.Disjoint l (belowGeoms lists d ptr) →
        ∃ T, Block.Collide_geom test s g1 fuel self g2 log = some (log.after test T) ∧
          OneVsMany s.geoms T g1 (l ++ belowGeoms lists d ptr) := by
  intro d
  induction d with
  | zero =>
    intro MinX MaxX MinZ MaxZ Parent self ptr hx hz hlt hq l fuel g2 log hc hl hf hn _
    obtain ⟨f, rfl⟩ : ∃ f, fuel = f + 1 := ⟨fuel - 1, by omega⟩
    obtain ⟨b, h1, -, -, -, -, -, h7⟩ := shape_get _ _ _ _ _ _ _ _ hq
    refine ⟨(l.filter (enabledAt s.geoms)).map fun h => (g1, h), ?_, ?_⟩
    · rw [Block.Collide_geom]
      simp only [h1, hG1]
      rw [collide_list_spec test s.geoms g1 l (f + 1) g2 log hc (by omega)]
      simp only [Option.some_bind, h7]
    · simp only [belowGeoms, List.append_nil]
      exact oneVsMany_list s.geoms g1 l hn
  | succ d ih =>
    intro MinX MaxX MinZ MaxZ Parent self ptr hx hz hlt hq l fuel g2 log hc hl hf hn hdj
    obtain ⟨f, rfl⟩ : ∃ f, fuel = f + 1 := ⟨fuel - 1, by omega⟩
    simp only [Block.IsQuadTree] at hq
    obtain ⟨h0, t0, t1, t2, t3⟩ := hq
    obtain ⟨b, h1, -, -, -, -, -, h7⟩ := shape_get _ _ _ _ _ _ _ _ h0
    have hmx1 : MinX ≤ (MinX + MaxX) / 2 := by linarith
    have hmx2 : (MinX + MaxX) / 2 ≤ MaxX := by linarith
    have hmz1 : MinZ ≤ (MinZ + MaxZ) / 2 := by linarith
    have hmz2 : (MinZ + MaxZ) / 2 ≤ MaxZ := by linarith
    have rec_ok : ∀ (x1 x2 z1 z2 : ℚ) (c p : Nat), x1 ≤ x2 → z1 ≤ z2 → c < p →
        Block.IsQuadTree s.Blocks d x1 x2 z1 z2 (some self) c p →
        ∀ (cb : Block) (log : CollideLog), s.Blocks[c]? = some cb →
        ∃ T, Block.Collide_geom test s g1 f c cb.mFirst log = some (log.after test T) ∧
          OneVsMany s.geoms T g1 (lists c ++ belowGeoms lists d p) := by
      intro x1 x2 z1 z2 c p hx1 hz1 hcp hq2 cb log2 hcb
      have hnd := sub_nodup s lists hh d c p hcp
      exact ih x1 x2 z1 z2 (some self) c p hx1 hz1 hcp hq2 (lists c) f cb.mFirst log2
        (hh.1 c cb hcb) (hosts_length s lists hh c) (by omega)
        (List.nodup_append.1 hnd).1 (List.nodup_append.1 hnd).2.2
    have hnb := below_nodup s lists hh (d + 1) ptr
    simp only [belowGeoms] at hnb hdj ⊢
    obtain ⟨n0, n123, d0⟩ := List.nodup_append.1 hnb
    obtain ⟨n1, n23, d1⟩ := List.nodup_append.1 n123
    obtain ⟨n2, n3, d2⟩ := List.nodup_append.1 n23
    obtain ⟨T0, a0, b0⟩ := collide_geom_child_spec test s lists hcnt hins g1 G1 hG1 d _ _ _ _ _
      ptr (ptr + 4) hmx1 hmz1 (by omega) (by omega) t0 _
      (rec_ok _ _ _ _ _ _ hmx1 hmz1 (by omega) t0) ptr 0 rfl
      (log.after test ((l.filter (enabledAt s.geoms)).map fun h => (g1, h)))
    obtain ⟨T1, a1, b1⟩ := collide_geom_child_spec test s lists hcnt hins g1 G1 hG1 d _ _ _ _ _
      (ptr + 1) (ptr + 4 + quadBelow d) hmx1 hmz2 (by omega) (by omega) t1 _
      (rec_ok _ _ _ _ _ _ hmx1 hmz2 (by omega) t1) ptr 1 rfl
      ((log.after test ((l.filter (enabledAt s.geoms)).map fun h => (g1, h))).after test T0)
    obtain ⟨T2, a2, b2⟩ := collide_geom_child_spec test s lists hcnt hins g1 G1 hG1 d _ _ _ _ _
      (ptr + 2) (ptr + 4 + 2 * quadBelow d) hmx2 hmz1 (by omega) (by omega) t2 _
      (rec_ok _ _ _ _ _ _ hmx2 hmz1 (by omega) t2) ptr 2 rfl
      (((log.after test ((l.filter (enabledAt s.geoms)).map fun h => (g1, h))).after test
        T0).after test T1)
    obtain ⟨T3, a3, b3⟩ := collide_geom_child_spec test s lists hcnt hins g1 G1 hG1 d _ _ _ _ _
      (ptr + 3) (ptr + 4 + 3 * quadBelow d) hmx2 hmz2 (by omega) (by omega) t3 _
      (rec_ok _ _ _ _ _ _ hmx2 hmz2 (by omega) t3) ptr 3 rfl
      ((((log.after test ((l.filter (enabledAt s.geoms)).map fun h => (g1, h))).after test
        T0).after test T1).after test T2)
    refine ⟨((l.filter (enabledAt s.geoms)).map fun h => (g1, h)) ++ (T0 ++ (T1 ++ (T2 ++ T3))),
      ?_, ?_⟩
    · rw [Block.Collide_geom]
      simp only [h1, hG1]
      rw [collide_list_spec test s.geoms g1 l (f + 1) g2 log hc (by omega)]
      simp only [Option.some_bind, h7]
      rw [foldlM_four, a0, Option.some_bind, a1, Option.some_bind, a2, Option.some_bind, a3]
      simp only [after_after, List.append_assoc]
    · apply oneVsMany_append _ _ _ _ _ _ (oneVsMany_list s.geoms g1 l hn) _ hdj
      apply oneVsMany_append _ _ _ _ _ _ b0 _ d0
      apply oneVsMany_append _ _ _ _ _ _ b1 _ d1
      exact oneVsMany_append _ _ _ _ _ _ b2 b3 d2

/-- Overlap of the X and Z extents is symmetric. -/
theorem overlapXZ_symm (geoms : List dxGeom) (g h : Nat) (ho : overlapXZ geoms g h) :
    overlapXZ geoms h g := by
  obtain ⟨G, H, e1, e2, o1, o2, o3, o4⟩ := ho
  exact ⟨H, G, e2, e1, o2, o1, o4, o3⟩

/-- Two lists of pairs, the pairs of the first touching a set of geoms that the pairs of the
second do not touch, have no pair in common, in either order. -/
theorem pairs_append (T1 T2 : List (Nat × Nat)) (touch : Nat → Prop)
    (n1 : T1.Nodup) (n2 : T2.Nodup) (s1 : ∀ a b, (a, b) ∈ T1 → (b, a) ∉ T1)
    (s2 : ∀ a b, (a, b) ∈ T2 → (b, a) ∉ T2)
    (t1 : ∀ a b, (a, b) ∈ T1 → touch a ∨ touch b)
    (t2 : ∀ a b, (a, b) ∈ T2 → ¬ touch a ∧ ¬ touch b) :
    (T1 ++ T2).Nodup ∧ ∀ a b, (a, b) ∈ T1 ++ T2 → (b, a) ∉ T1 ++ T2 := by
  constructor
  · refine List.nodup_append.2 ⟨n1, n2, ?_⟩
    rintro ⟨a, b⟩ h1 h2
    have := t2 a b h2
    rcases t1 a b h1 with h | h
    · exact this.1 h
    · exact this.2 h
  · intro a b hab hba
    rcases List.mem_append.1 hab with h | h <;> rcases List.mem_append.1 hba with h' | h'
    · exact s1 a b h h'
    · have := t2 b a h'
      rcases t1 a b h with k | k
      · exact this.2 k
      · exact this.1 k
    · have := t2 a b h
      rcases t1 b a h' with k | k
      · exact this.2 k
      · exact this.1 k
    · exact s2 a b h h'

/-- No pairs for no geoms. -/
theorem allPairs_nil (geoms : List dxGeom) (B : List Nat) : AllPairs geoms [] [] B := by
  refine ⟨fun a b h => (by cases h), List.nodup_nil, fun a b h => (by cases h),
    fun a b h => (by cases h)⟩

/-- No pairs for at most one geom. -/
theorem allPairs_small (geoms : List dxGeom) (S : List Nat) (h : S.length ≤ 1) :
    AllPairs geoms [] S [] := by
  refine ⟨fun a b h => (by cases h), List.nodup_nil, fun a b h => (by cases h), ?_⟩
  intro a b ha hb hne
  rw [List.append_nil] at hb
  match S, h, ha, hb with
  | [x], _, ha, hb =>
    simp only [List.mem_singleton] at ha hb
    exact absurd (ha.trans hb.symm) hne

/-- The pairs of an enabled geom followed by the pairs of the rest of the list. -/
theorem allPairs_cons (geoms : List dxGeom) (T1 T2 : List (Nat × Nat)) (g : Nat)
    (t B : List Nat) (h1 : OneVsMany geoms T1 g (t ++ B)) (h2 : AllPairs geoms T2 t B)
    (hg : g ∉ t ++ B) (he : enabledAt geoms g = true) :
    AllPairs geoms (T1 ++ T2) (g :: t) B := by
  obtain ⟨a1, a2, a3⟩ := h1
  obtain ⟨b1, b2, b3, b4⟩ := h2
  have key := pairs_append T1 T2 (fun x => x = g) a2 b2
    (by
      intro a b hab hba
      have e2 := (a1 _ hba).1
      have e3 := (a1 _ hab).2.1
      simp only at e2 e3
      rw [e2] at e3
      exact hg e3)
    b3
    (fun a b hab => Or.inl (a1 _ hab).1)
    (by
      intro a b hab
      obtain ⟨c1, c2, -⟩ := b1 a b hab
      constructor
      · intro h; subst h; exact hg (List.mem_append_left _ c1)
      · intro h; subst h; exact hg c2)
  refine ⟨?_, key.1, key.2, ?_⟩
  · intro a b hab
    rcases List.mem_append.1 hab with h | h
    · obtain ⟨c1, c2, c3⟩ := a1 _ h
      simp only at c1 c2 c3
      subst c1
      refine ⟨List.mem_cons_self _ _, List.mem_cons_of_mem _ c2, ?_, he, c3⟩
      intro hab2; subst hab2; exact hg c2
    · obtain ⟨c1, c2, c3, c4, c5⟩ := b1 a b h
      exact ⟨List.mem_cons_of_mem _ c1, List.mem_cons_of_mem _ c2, c3, c4, c5⟩
  · intro a b ha hb hne hea heb ho
    rw [List.cons_append] at hb
    rcases List.mem_cons.1 ha with ha | ha
    · subst ha
      rcases List.mem_cons.1 hb with hb | hb
      · exact absurd hb.symm hne
      · exact Or.inl (List.mem_append_left _ (a3 b hb heb ho))
    · rcases List.mem_cons.1 hb with hb | hb
      · rw [hb] at ho heb
        exact Or.inr (List.mem_append_left _
          (by rw [hb]; exact a3 a (List.mem_append_left _ ha) hea (overlapXZ_symm _ _ _ ho)))
      · rcases b4 a b ha hb hne hea heb ho with h | h
        · exact Or.inl (List.mem_append_right _ h)
        · exact Or.inr (List.mem_append_right _ h)

/-- A geom that is not enabled adds no pair. -/
theorem allPairs_skip (geoms : List dxGeom) (T : List (Nat × Nat)) (g : Nat) (t B : List Nat)
    (h2 : AllPairs geoms T t B) (he : enabledAt geoms g = false) :
    AllPairs geoms T (g :: t) B := by
  obtain ⟨b1, b2, b3, b4⟩ := h2
  refine ⟨?_, b2, b3, ?_⟩
  · intro a b hab
    obtain ⟨c1, c2, c3, c4, c5⟩ := b1 a b hab
    exact ⟨List.mem_cons_of_mem _ c1, List.mem_cons_of_mem _ c2, c3, c4, c5⟩
  · intro a b ha hb hne hea heb ho
    rw [List.cons_append] at hb
    rcases List.mem_cons.1 ha with ha | ha
    · subst ha; rw [he] at hea; cases hea
    · rcases List.mem_cons.1 hb with hb | hb
      · subst hb; rw [he] at heb; cases heb
      · exact b4 a b ha hb hne hea heb ho

/-- The pairs of a local list followed by the pairs among the geoms below. -/
theorem allPairs_merge (geoms : List dxGeom) (T1 T2 : List (Nat × Nat)) (A B : List Nat)
    (h1 : AllPairs geoms T1 A B) (h2 : AllPairs geoms T2 B []) (hd : List.Disjoint A B) :
    AllPairs geoms (T1 ++ T2) (A ++ B) [] := by
  obtain ⟨a1, a2, a3, a4⟩ := h1
  obtain ⟨b1, b2, b3, b4⟩ := h2
  have key := pairs_append T1 T2 (fun x => x ∈ A) a2 b2 a3 b3
    (fun a b hab => Or.inl (a1 a b hab).1)
    (by
      intro a b hab
      obtain ⟨c1, c2, -⟩ := b1 a b hab
      rw [List.append_nil] at c2
      exact ⟨fun h => hd h c1, fun h => hd h c2⟩)
  refine ⟨?_, key.1, key.2, ?_⟩
  · intro a b hab
    rw [List.append_nil]
    rcases List.mem_append.1 hab with h | h
    · obtain ⟨c1, c2, c3, c4, c5⟩ := a1 a b h
      exact ⟨List.mem_append_left _ c1, c2, c3, c4, c5⟩
    · obtain ⟨c1, c2, c3, c4, c5⟩ := b1 a b h
      rw [List.append_nil] at c2
      exact ⟨List.mem_append_right _ c1, List.mem_append_right _ c2, c3, c4, c5⟩
  · intro a b ha hb hne hea heb ho
    rw [List.append_nil] at hb
    rcases List.mem_append.1 ha with ha | ha
    · rcases a4 a b ha hb hne hea heb ho with h | h
      · exact Or.inl (List.mem_append_left _ h)
      · exact Or.inr (List.mem_append_left _ h)
    · rcases List.mem_append.1 hb with hb | hb
      · rcases a4 b a hb (List.mem_append_right _ ha) (Ne.symm hne) heb hea
          (overlapXZ_symm _ _ _ ho) with h | h
        · exact Or.inr (List.mem_append_left _ h)
        · exact Or.inl (List.mem_append_left _ h)
      · rcases b4 a b ha (by rw [List.append_nil]; exact hb) hne hea heb ho with h | h
        · exact Or.inl (List.mem_append_right _ h)
        · exact Or.inr (List.mem_append_right _ h)

/-- The pairs among two disjoint lists of geoms no two of which overlap. -/
theorem allPairs_union (geoms : List dxGeom) (T1 T2 : List (Nat × Nat)) (B1 B2 : List Nat)
    (h1 : AllPairs geoms T1 B1 []) (h2 : AllPairs geoms T2 B2 []) (hd : List.Disjoint B1 B2)
    (hno : ∀ a b, a ∈ B1 → b ∈ B2 → ¬ overlapXZ geoms a b) :
    AllPairs geoms (T1 ++ T2) (B1 ++ B2) [] := by
  obtain ⟨a1, a2, a3, a4⟩ := h1
  obtain ⟨b1, b2, b3, b4⟩ := h2
  have key := pairs_append T1 T2 (fun x => x ∈ B1) a2 b2 a3 b3
    (fun a b hab => Or.inl (a1 a b hab).1)
    (by
      intro a b hab
      obtain ⟨c1, c2, -⟩ := b1 a b hab
      rw [List.append_nil] at c2
      exact ⟨fun h => hd h c1, fun h => hd h c2⟩)
  refine ⟨?_, key.1, key.2, ?_⟩
  · intro a b hab
    rw [List.append_nil]
    rcases List.mem_append.1 hab with h | h
    · obtain ⟨c1, c2, c3, c4, c5⟩ := a1 a b h
      rw [List.append_nil] at c2
      exact ⟨List.mem_append_left _ c1, List.mem_append_left _ c2, c3, c4, c5⟩
    · obtain ⟨c1, c2, c3, c4, c5⟩ := b1 a b h
      rw [List.append_nil] at c2
      exact ⟨List.mem_append_right _ c1, List.mem_append_right _ c2, c3, c4, c5⟩
  · intro a b ha hb hne hea heb ho
    rw [List.append_nil] at hb
    rcases List.mem_append.1 ha with ha | ha <;> rcases List.mem_append.1 hb with hb | hb
    · rcases a4 a b ha (by rw [List.append_nil]; exact hb) hne hea heb ho with h | h
      · exact Or.inl (List.mem_append_left _ h)
      · exact Or.inr (List.mem_append_left _ h)
    · exact absurd ho (hno a b ha hb)
    · exact absurd (overlapXZ_symm _ _ _ ho) (hno b a hb ha)
    · rcases b4 a b ha (by rw [List.append_nil]; exact hb) hne hea heb ho with h | h
      · exact Or.inl (List.mem_append_right _ h)
      · exact Or.inr (List.mem_append_right _ h)

/-- Geoms strictly inside two rectangles that lie side by side do not overlap. -/
theorem not_overlap_of_rects (geoms : List dxGeom) (a b : Nat)
    (x1 X1 z1 Z1 x2 X2 z2 Z2 : ℚ) (ha : InRect geoms x1 X1 z1 Z1 a)
    (hb : InRect geoms x2 X2 z2 Z2 b) (hsep : X1 ≤ x2 ∨ X2 ≤ x1 ∨ Z1 ≤ z2 ∨ Z2 ≤ z1) :
    ¬ overlapXZ geoms a b := by
  rintro ⟨G, H, e1, e2, o1, o2, o3, o4⟩
  obtain ⟨G2, f1, f2, f3, f4, f5⟩ := ha
  obtain ⟨H2, g1, g2, g3, g4, g5⟩ := hb
  rw [e1] at f1; cases f1
  rw [e2] at g1; cases g1
  rcases hsep with h | h | h | h <;> linarith

/-- The loop over the local list of `Block::Collide(UserData, Callback)`, from the geom `g` of
the list on: with enough fuel it returns, having paired every enabled geom of the rest `l` of
the list with the enabled geoms after it in the list and in the blocks below, leaving out no
two geoms whose boxes overlap in X and Z. -/
theorem collide_local_spec (test : Nat → Nat → Bool) (s : dxQuadTreeSpace)
    (lists : Nat → List Nat) (hh : s.Hosts lists) (hcnt : CountInvariant s.Blocks lists)
    (hins : ∀ i x, x ∈ lists i → i ≠ 0 → s.Inside i x) (d : Nat) (MinX MaxX MinZ MaxZ : ℚ)
    (Parent : Option Nat) (self ptr : Nat) (hx : MinX ≤ MaxX) (hz : MinZ ≤ MaxZ)
    (hlt : self < ptr) (hq : Block.IsQuadTree s.Blocks d MinX MaxX MinZ MaxZ Parent self ptr)
    (inner : Nat) (hinner : d + s.geoms.length < inner) :
    ∀ (l : List Nat) (fuel : Nat) (g : Option Nat) (log : CollideLog),
      Chain s.geoms g l → l.length < fuel → l.length ≤ s.geoms.length → l.Nodup →
      List.Disjoint l (belowGeoms lists d ptr) →
      ∃ T, Block.Collide_local test s self inner fuel g log = some (log.after test T) ∧
        AllPairs s.geoms T l (belowGeoms lists d ptr) := by
  intro l
  induction l with
  | nil =>
    intro fuel g log hc hf _ _ _
    obtain ⟨f, rfl⟩ : ∃ f, fuel = f + 1 := ⟨fuel - 1, by omega⟩
    have : g = none := hc
    subst this
    exact ⟨[], by rw [Block.Collide_local, after_nil], allPairs_nil _ _⟩
  | cons x t ih =>
    intro fuel g log hc hf hl hn hdj
    obtain ⟨f, rfl⟩ : ∃ f, fuel = f + 1 := ⟨fuel - 1, by omega⟩
    obtain ⟨c1, X, c2, c3⟩ := hc
    subst c1
    have hnt : t.Nodup := (List.nodup_cons.1 hn).2
    have hxt : x ∉ t := (List.nodup_cons.1 hn).1
    have hdt : List.Disjoint t (belowGeoms lists d ptr) :=
      fun y hy1 hy2 => hdj (List.mem_cons_of_mem _ hy1) hy2
    have hxB : x ∉ t ++ belowGeoms lists d ptr := by
      intro h
      rcases List.mem_append.1 h with h | h
      · exact hxt h
      · exact hdj (List.mem_cons_self _ _) h
    have hlt2 : t.length ≤ s.geoms.length := by simp at hl; omega
    have he : enabledAt s.geoms x = X.enabled := by simp [enabledAt, c2]
    rw [Block.Collide_local]
    simp only [c2]
    cases hen : X.enabled with
    | true =>
      obtain ⟨T1, a1, a2⟩ := collide_geom_spec test s lists hh hcnt hins x X c2 d _ _ _ _ _ _ _
        hx hz hlt hq t inner X.next_ex log c3 hlt2 hinner hnt hdt
      obtain ⟨T2, b1, b2⟩ := ih f X.next_ex (log.after test T1) c3 (by simp at hf; omega) hlt2
        hnt hdt
      refine ⟨T1 ++ T2, ?_, allPairs_cons _ _ _ _ _ _ a2 b2 hxB (by rw [he, hen])⟩
      simp only [if_true, a1, Option.some_bind, b1, after_after]
    | false =>
      obtain ⟨T2, b1, b2⟩ := ih f X.next_ex log c3 (by simp at hf; omega) hlt2 hnt hdt
      refine ⟨T2, ?_, allPairs_skip _ _ _ _ _ b2 (by rw [he, hen])⟩
      simp only [Bool.false_eq_true, if_false, Option.some_bind, b1]

/-- Body of the loop over the children of `Block::Collide(UserData, Callback)`: a child is
skipped only when its subtree hosts at most one geom. -/
theorem collide_child_spec (test : Nat → Nat → Bool) (s : dxQuadTreeSpace)
    (lists : Nat → List Nat) (hcnt : CountInvariant s.Blocks lists) (d : Nat)
    (MinX MaxX MinZ MaxZ : ℚ) (Parent : Option Nat) (c ptr : Nat)
    (hq : Block.IsQuadTree s.Blocks d MinX MaxX MinZ MaxZ Parent c ptr)
    (recurse : Nat → CollideLog → Option CollideLog)
    (hrec : ∀ (log : CollideLog), ∃ T, recurse c log = some (log.after test T) ∧
      AllPairs s.geoms T (lists c ++ belowGeoms lists d ptr) [])
    (mChildren i : Nat) (hc : mChildren + i = c) (log : CollideLog) :
    ∃ T, Block.Collide_child s recurse mChildren log i = some (log.after test T) ∧
      AllPairs s.geoms T (lists c ++ belowGeoms lists d ptr) [] := by
  obtain ⟨cb, hcb, hcount⟩ := sub_count s.Blocks lists hcnt d _ _ _ _ _ _ _ hq
  unfold Block.Collide_child
  rw [hc]
  simp only [hcb]
  by_cases h1 : cb.mGeomCount ≤ 1
  · rw [if_pos h1]
    refine ⟨[], by rw [after_nil], allPairs_small _ _ ?_⟩
    rw [hcount] at h1
    exact_mod_cast h1
  · rw [if_neg h1]
    exact hrec log

/-- Method `Block::Collide(UserData, Callback)` on the root of a subtree: with enough fuel it
returns, having paired enabled geoms hosted in the subtree, no two twice or in both orders,
leaving out no two distinct enabled geoms whose boxes overlap in X and Z. -/
theorem collide_spec (test : Nat → Nat → Bool) (s : dxQuadTreeSpace)
    (lists : Nat → List Nat) (hh : s.Hosts lists) (hcnt : CountInvariant s.Blocks lists)
    (hins : ∀ i x, x ∈ lists i → i ≠ 0 → s.Inside i x) :
    ∀ (d : Nat) (MinX MaxX MinZ MaxZ : ℚ) (Parent : Option Nat) (self ptr : Nat),
      MinX ≤ MaxX → MinZ ≤ MaxZ → self < ptr →
      Block.IsQuadTree s.Blocks d MinX MaxX MinZ MaxZ Parent self ptr →
      ∀ (fuel : Nat) (log : CollideLog), d + s.geoms.length < fuel →
        ∃ T, Block.Collide test s fuel self log = some (log.after test T) ∧
          AllPairs s.geoms T (lists self ++ belowGeoms lists d ptr) [] := by
  intro d
  induction d with
  | zero =>
    intro MinX MaxX MinZ MaxZ Parent self ptr hx hz hlt hq fuel log hf
    obtain ⟨f, rfl⟩ : ∃ f, fuel = f + 1 := ⟨fuel - 1, by omega⟩
    obtain ⟨b, h1, -, -, -, -, -, h7⟩ := shape_get _ _ _ _ _ _ _ _ hq
    obtain ⟨T, a1, a2⟩ := collide_local_spec test s lists hh hcnt hins 0 _ _ _ _ _ _ _ hx hz hlt
      hq (f + 1) (by omega) (lists self) (f + 1) b.mFirst log (hh.1 self b h1)
      (by have := hosts_length s lists hh self; omega) (hosts_length s lists hh self)
      (lists_nodup s lists hh self) (by simp [belowGeoms])
    refine ⟨T, ?_, ?_⟩
    · rw [Block.Collide]
      simp only [h1, a1, Option.some_bind, h7]
    · have := allPairs_merge s.geoms T [] (lists self) [] (by simpa [belowGeoms] using a2)
        (allPairs_nil _ _) (by simp)
      simpa [belowGeoms] using this
  | succ d ih =>
    intro MinX MaxX MinZ MaxZ Parent self ptr hx hz hlt hq fuel log hf
    obtain ⟨f, rfl⟩ : ∃ f, fuel = f + 1 := ⟨fuel - 1, by omega⟩
    have hq0 := hq
    simp only [Block.IsQuadTree] at hq
    obtain ⟨h0, t0, t1, t2, t3⟩ := hq
    obtain ⟨b, h1, -, -, -, -, -, h7⟩ := shape_get _ _ _ _ _ _ _ _ h0
    have hmx1 : MinX ≤ (MinX + MaxX) / 2 := by linarith
    have hmx2 : (MinX + MaxX) / 2 ≤ MaxX := by linarith
    have hmz1 : MinZ ≤ (MinZ + MaxZ) / 2 := by linarith
    have hmz2 : (MinZ + MaxZ) / 2 ≤ MaxZ := by linarith
    have hnd := sub_nodup s lists hh (d + 1) self ptr hlt
    obtain ⟨TL, a1, a2⟩ := collide_local_spec test s lists hh hcnt hins (d + 1) _ _ _ _ _ _ _ hx
      hz hlt hq0 (f + 1) (by omega) (lists self) (f + 1) b.mFirst log (hh.1 self b h1)
      (by have := hosts_length s lists hh self; omega) (hosts_length s lists hh self)
      (List.nodup_append.1 hnd).1 (List.nodup_append.1 hnd).2.2
    have hnb := (List.nodup_append.1 hnd).2.1
    simp only [belowGeoms] at hnb a2 ⊢
    obtain ⟨n0, n123, d0⟩ := List.nodup_append.1 hnb
    obtain ⟨n1, n23, d1⟩ := List.nodup_append.1 n123
    obtain ⟨n2, n3, d2⟩ := List.nodup_append.1 n23
    have i0 := sub_inside s lists hins d _ _ _ _ _ _ _ hmx1 hmz1 (by omega) (by omega) t0
    have i1 := sub_inside s lists hins d _ _ _ _ _ _ _ hmx1 hmz2 (by omega) (by omega) t1
    have i2 := sub_inside s lists hins d _ _ _ _ _ _ _ hmx2 hmz1 (by omega) (by omega) t2
    have i3 := sub_inside s lists hins d _ _ _ _ _ _ _ hmx2 hmz2 (by omega) (by omega) t3
    obtain ⟨T0, b0, c0⟩ := collide_child_spec test s lists hcnt d _ _ _ _ _ ptr (ptr + 4) t0 _
      (fun lg => ih _ _ _ _ _ _ _ hmx1 hmz1 (by omega) t0 f lg (by omega)) ptr 0 rfl
      (log.after test TL)
    obtain ⟨T1, b1, c1⟩ := collide_child_spec test s lists hcnt d _ _ _ _ _ (ptr + 1)
      (ptr + 4 + quadBelow d) t1 _
      (fun lg => ih _ _ _ _ _ _ _ hmx1 hmz2 (by omega) t1 f lg (by omega)) ptr 1 rfl
      ((log.after test TL).after test T0)
    obtain ⟨T2, b2, c2⟩ := collide_child_spec test s lists hcnt d _ _ _ _ _ (ptr + 2)
      (ptr + 4 + 2 * quadBelow d) t2 _
      (fun lg => ih _ _ _ _ _ _ _ hmx2 hmz1 (by omega) t2 f lg (by omega)) ptr 2 rfl
      (((log.after test TL).after test T0).after test T1)
    obtain ⟨T3, b3, c3⟩ := collide_child_spec test s lists hcnt d _ _ _ _ _ (ptr + 3)
      (ptr + 4 + 3 * quadBelow d) t3 _
      (fun lg => ih _ _ _ _ _ _ _ hmx2 hmz2 (by omega) t3 f lg (by omega)) ptr 3 rfl
      ((((log.after test TL).after test T0).after test T1).after test T2)
    refine ⟨TL ++ (T0 ++ (T1 ++ (T2 ++ T3))), ?_, ?_⟩
    · rw [Block.Collide]
      simp only [h1, a1, Option.some_bind, h7]
      rw [foldlM_four, b0, Option.some_bind, b1, Option.some_bind, b2, Option.some_bind, b3]
      simp only [after_after, List.append_assoc]
    · apply allPairs_merge _ _ _ _ _ a2 _ (List.nodup_append.1 hnd).2.2
      apply allPairs_union _ _ _ _ _ c0 _ d0
      · intro a b ha hb
        rcases List.mem_append.1 hb with hb | hb
        · exact not_overlap_of_rects _ _ _ _ _ _ _ _ _ _ _ (i0 a ha) (i1 b hb)
            (Or.inr (Or.inr (Or.inl le_rfl)))
        rcases List.mem_append.1 hb with hb | hb
        · exact not_overlap_of_rects _ _ _ _ _ _ _ _ _ _ _ (i0 a ha) (i2 b hb) (Or.inl le_rfl)
        · exact not_overlap_of_rects _ _ _ _ _ _ _ _ _ _ _ (i0 a ha) (i3 b hb) (Or.inl le_rfl)
      apply allPairs_union _ _ _ _ _ c1 _ d1
      · intro a b ha hb
        rcases List.mem_append.1 hb with hb | hb
        · exact not_overlap_of_rects _ _ _ _ _ _ _ _ _ _ _ (i1 a ha) (i2 b hb) (Or.inl le_rfl)
        · exact not_overlap_of_rects _ _ _ _ _ _ _ _ _ _ _ (i1 a ha) (i3 b hb) (Or.inl le_rfl)
      apply allPairs_union _ _ _ _ _ c2 c3 d2
      intro a b ha hb
      exact not_overlap_of_rects _ _ _ _ _ _ _ _ _ _ _ (i2 a ha) (i3 b hb)
        (Or.inr (Or.inr (Or.inl le_rfl)))

/-- The depth of a complete tree is at most the number of blocks below its root. -/
theorem le_quadBelow (d : Nat) : d ≤ quadBelow d := by
  induction d with
  | zero => exact Nat.le_refl _
  | succ d ih => simp only [quadBelow]; omega

/-- C26: in a well-formed space with the count invariant in which every geom hosted in a
block other than block 0 is strictly inside the rectangle of its block,
`Block::Collide(UserData, Callback)` on block 0 returns (with fuel above the number of blocks
plus the number of geoms); the callback is invoked on exactly the submitted pairs that
`testCollideAABBs` accepts; every submitted pair is a pair of distinct enabled hosted geoms;
no pair is submitted twice or in both orders; no two distinct enabled hosted geoms whose
boxes overlap in X and Z are left out by the early-outs; and, when acceptance implies overlap
in X and Z, the callback is invoked exactly once, in one order, for every two distinct
enabled hosted geoms accepted in both orders. -/
theorem Collide_each_pair_once (testCollideAABBs : Nat → Nat → Bool) (s : dxQuadTreeSpace)
    (lists : Nat → List Nat) (fuel : Nat) (hwf : Block.WellFormed s.Blocks)
    (hh : s.Hosts lists) (hcnt : CountInvariant s.Blocks lists)
    (hins : ∀ i x, x ∈ lists i → i ≠ 0 → s.Inside i x)
    (hacc : ∀ g h, testCollideAABBs g h = true → overlapXZ s.geoms g h)
    (hfuel : s.Blocks.length + s.geoms.length < fuel) :
    ∃ tests calls, Block.Collide testCollideAABBs s fuel 0 ⟨[], []⟩ = some ⟨tests, calls⟩ ∧
      calls = tests.filter (fun p => testCollideAABBs p.1 p.2) ∧
      (∀ g h, (g, h) ∈ tests → g ≠ h ∧ (∃ i, g ∈ lists i) ∧ (∃ j, h ∈ lists j) ∧
        enabledAt s.geoms g = true ∧ enabledAt s.geoms h = true) ∧
      tests.Nodup ∧ (∀ g h, (g, h) ∈ tests → (h, g) ∉ tests) ∧
      (∀ g h, (∃ i, g ∈ lists i) → (∃ j, h ∈ lists j) → g ≠ h →
        enabledAt s.geoms g = true → enabledAt s.geoms h = true → overlapXZ s.geoms g h →
        (g, h) ∈ tests ∨ (h, g) ∈ tests) ∧
      calls.Nodup ∧
      (∀ g h, (∃ i, g ∈ lists i) → (∃ j, h ∈ lists j) → g ≠ h →
        enabledAt s.geoms g = true → enabledAt s.geoms h = true →
        testCollideAABBs g h = true → testCollideAABBs h g = true →
        ((g, h) ∈ calls ∧ (h, g) ∉ calls) ∨ ((h, g) ∈ calls ∧ (g, h) ∉ calls)) := by
  obtain ⟨D, MinX, MaxX, MinZ, MaxZ, hx, hz, hlen, hq⟩ := hwf
  have hD := le_quadBelow D
  obtain ⟨T, e1, a1, a2, a3, a4⟩ :=
    collide_spec testCollideAABBs s lists hh hcnt hins D _ _ _ _ _ _ _ hx hz (by omega) hq fuel
      ⟨[], []⟩ (by omega)
  have hosted : ∀ g, (∃ i, g ∈ lists i) ↔ g ∈ lists 0 ++ belowGeoms lists D 1 := by
    intro g
    constructor
    · rintro ⟨i, hi⟩
      have hlt := (hh.2 i g hi).1
      by_cases e : i = 0
      · subst e; exact List.mem_append_left _ hi
      · exact List.mem_append_right _ (mem_below lists g D 1 i (by omega) (by omega) hi)
    · intro h
      obtain ⟨i, -, hi⟩ := sub_mem lists g D 0 1 h
      exact ⟨i, hi⟩
  refine ⟨T, T.filter (fun p => testCollideAABBs p.1 p.2), ?_, rfl, ?_, a2, a3, ?_,
    a2.filter _, ?_⟩
  · rw [e1]; simp [CollideLog.after]
  · intro g h hgh
    obtain ⟨b1, b2, b3, b4, b5⟩ := a1 g h hgh
    rw [List.append_nil] at b2
    exact ⟨b3, (hosted g).2 b1, (hosted h).2 b2, b4, b5⟩
  · intro g h hg hh2 hne eg eh ho
    exact a4 g h ((hosted g).1 hg) (by rw [List.append_nil]; exact (hosted h).1 hh2) hne eg eh ho
  · intro g h hg hh2 hne eg eh tg th
    rcases a4 g h ((hosted g).1 hg) (by rw [List.append_nil]; exact (hosted h).1 hh2) hne eg eh
      (hacc g h tg) with k | k
    · exact Or.inl ⟨List.mem_filter.2 ⟨k, tg⟩, fun h2 => a3 g h k (List.mem_filter.1 h2).1⟩
    · exact Or.inr ⟨List.mem_filter.2 ⟨k, th⟩, fun h2 => a3 h g k (List.mem_filter.1 h2).1⟩

/-- The sample test accepts only geoms whose boxes overlap in X and Z. -/
theorem sampleTest_overlap :
    ∀ g h, sampleTest g h = true → overlapXZ sampleSpace.geoms g h := by
  intro g h hgh
  simp only [sampleTest, Bool.or_eq_true, Bool.and_eq_true, beq_iff_eq] at hgh
  rcases hgh with ⟨rfl, rfl⟩ | ⟨rfl, rfl⟩
  · exact ⟨⟨⟨1, 3, 1, 3, 0, 1⟩, none, some 1, true⟩, ⟨⟨2, 5, 2, 5, 0, 1⟩, none, some 0, true⟩,
      rfl, rfl, by norm_num, by norm_num, by norm_num, by norm_num⟩
  · exact ⟨⟨⟨2, 5, 2, 5, 0, 1⟩, none, some 0, true⟩, ⟨⟨1, 3, 1, 3, 0, 1⟩, none, some 1, true⟩,
      rfl, rfl, by norm_num, by norm_num, by norm_num, by norm_num⟩

/-- C26 on the sample space with the sample test. -/
theorem Collide_each_pair_once_witness :
    Block.WellFormed sampleSpace.Blocks ∧ sampleSpace.Hosts sampleLists ∧
    CountInvariant sampleSpace.Blocks sampleLists ∧
    (∀ i x, x ∈ sampleLists i → i ≠ 0 → sampleSpace.Inside i x) ∧
    (∀ g h, sampleTest g h = true → overlapXZ sampleSpace.geoms g h) ∧
    sampleSpace.Blocks.length + sampleSpace.geoms.length < 20 ∧
    ∃ tests calls, Block.Collide sampleTest sampleSpace 20 0 ⟨[], []⟩ = some ⟨tests, calls⟩ ∧
      calls = tests.filter (fun p => sampleTest p.1 p.2) ∧
      (∀ g h, (g, h) ∈ tests → g ≠ h ∧ (∃ i, g ∈ sampleLists i) ∧ (∃ j, h ∈ sampleLists j) ∧
        enabledAt sampleSpace.geoms g = true ∧ enabledAt sampleSpace.geoms h = true) ∧
      tests.Nodup ∧ (∀ g h, (g, h) ∈ tests → (h, g) ∉ tests) ∧
      (∀ g h, (∃ i, g ∈ sampleLists i) → (∃ j, h ∈ sampleLists j) → g ≠ h →
        enabledAt sampleSpace.geoms g = true → enabledAt sampleSpace.geoms h = true →
        overlapXZ sampleSpace.geoms g h → (g, h) ∈ tests ∨ (h, g) ∈ tests) ∧
      calls.Nodup ∧
      (∀ g h, (∃ i, g ∈ sampleLists i) → (∃ j, h ∈ sampleLists j) → g ≠ h →
        enabledAt sampleSpace.geoms g = true → enabledAt sampleSpace.geoms h = true →
        sampleTest g h = true → sampleTest h g = true →
        ((g, h) ∈ calls ∧ (h, g) ∉ calls) ∨ ((h, g) ∈ calls ∧ (g, h) ∉ calls)) :=
  ⟨wf_sampleSpace, hosts_sampleSpace, count_sampleSpace,
    fun i x hx _ => inside_sampleSpace i x hx, sampleTest_overlap, by decide,
    Collide_each_pair_once sampleTest sampleSpace sampleLists 20 wf_sampleSpace
      hosts_sampleSpace count_sampleSpace (fun i x hx _ => inside_sampleSpace i x hx)
      sampleTest_overlap (by decide)⟩

/-! ### Point distance: the AVX variant against the scalar one -/

/-- C40 fails in the code: the scalar variants of `dCalcPointsDistanceSquare3` and
`dCalcPointsDistance3` return the squared distance `sum (a[i] - b[i])^2` (its `dSqrt`), but
the `__AVX__` variants pass the second operand `mb`, still holding `b`, to `_mm_dp_ps` and
return `sum (a[i] - b[i]) * b[i]` (its `dSqrt`); for `a = (1, 0, 0)` and `b = (0, 0, 0)` the
scalar variant returns 1 and the `__AVX__` variant 0. -/
theorem dCalcPointsDistanceSquare3_avx_differs :
    (∀ a b : m128, dCalcPointsDistanceSquare3 a b =
      (a.f0 - b.f0) ^ 2 + (a.f1 - b.f1) ^ 2 + (a.f2 - b.f2) ^ 2) ∧
    (∀ a b : m128, dCalcPointsDistanceSquare3_avx a b =
      (a.f0 - b.f0) * b.f0 + (a.f1 - b.f1) * b.f1 + (a.f2 - b.f2) * b.f2) ∧
    (∀ (dSqrt : ℚ → ℚ) (a b : m128), dCalcPointsDistance3 dSqrt a b =
      dSqrt ((a.f0 - b.f0) ^ 2 + (a.f1 - b.f1) ^ 2 + (a.f2 - b.f2) ^ 2)) ∧
    (∀ (dSqrt : ℚ → ℚ) (a b : m128), dCalcPointsDistance3_avx dSqrt a b =
      dSqrt ((a.f0 - b.f0) * b.f0 + (a.f1 - b.f1) * b.f1 + (a.f2 - b.f2) * b.f2)) ∧
    dCalcPointsDistanceSquare3 ⟨1, 0, 0, 0⟩ ⟨0, 0, 0, 0⟩ = 1 ∧
    dCalcPointsDistanceSquare3_avx ⟨1, 0, 0, 0⟩ ⟨0, 0, 0, 0⟩ = 0 := by
  have hb : Nat.testBit 0x71 4 = true ∧ Nat.testBit 0x71 5 = true ∧ Nat.testBit 0x71 6 = true ∧
      Nat.testBit 0x71 7 = false ∧ Nat.testBit 0x71 0 = true := by decide
  obtain ⟨b4, b5, b6, b7, b0⟩ := hb
  have hs : ∀ a b : m128, dCalcPointsDistanceSquare3 a b =
      (a.f0 - b.f0) ^ 2 + (a.f1 - b.f1) ^ 2 + (a.f2 - b.f2) ^ 2 := by
    intro a b
    simp only [dCalcPointsDistanceSquare3, dSubtractVectors3, dCalcVectorLengthSquare3]
    ring
  have ha : ∀ a b : m128, dCalcPointsDistanceSquare3_avx a b =
      (a.f0 - b.f0) * b.f0 + (a.f1 - b.f1) * b.f1 + (a.f2 - b.f2) * b.f2 := by
    intro a b
    simp only [dCalcPointsDistanceSquare3_avx, _mm_loadu_ps, _mm_sub_ps, _mm_dp_ps,
      _mm_cvtss_f32, b4, b5, b6, b7, b0, if_true, Bool.false_eq_true, if_false]
    ring
  refine ⟨hs, ha, ?_, ?_, ?_, ?_⟩
  · intro dSqrt a b
    simp only [dCalcPointsDistance3, dSubtractVectors3, dCalcVectorLength3]
    congr 1; ring
  · intro dSqrt a b
    simp only [dCalcPointsDistance3_avx, _mm_loadu_ps, _mm_sub_ps, _mm_dp_ps,
      _mm_cvtss_f32, b4, b5, b6, b7, b0, if_true, Bool.false_eq_true, if_false]
    congr 1; ring
  · rw [hs]; norm_num
  · rw [ha]; norm_num

/-! ### Box collider: clipping a polygon to a plane -/

/-- The distance `dot(v, n) + offset` is affine along segments. -/
theorem affineOn_plane (n : dVector3) (off : ℚ) : AffineOn (fun v => v.dot n + off) := by
  intro a b t
  simp only [dCalcLerpVectors3r4, Point.dot]
  ring

/-- The distance `dot(v, n)` is affine along segments. -/
theorem affineOn_origin (n : dVector3) : AffineOn (fun v => v.dot n) := by
  intro a b t
  simp only [dCalcLerpVectors3r4, Point.dot]
  ring

/-- An edge contributes at most two vertices. -/
theorem clipEdge_length (g : dVector3 → ℚ) (e : dVector3 × dVector3) :
    (clipEdge g e).length ≤ 2 := by
  simp only [clipEdge, List.length_append]
  split_ifs <;> simp

/-- The edges along `l` contribute at most twice as many vertices as `l` has. -/
theorem clipEdges_length (g : dVector3 → ℚ) :
    ∀ (l : List dVector3) (v0 : dVector3), (clipEdges g v0 l).length ≤ 2 * l.length := by
  intro l
  induction l with
  | nil => intro v0; simp [clipEdges]
  | cons v1 rest ih =>
    intro v0
    simp only [clipEdges, List.length_append, List.length_cons]
    have := clipEdge_length g (v0, v1)
    have := ih v1
    omega

/-- A store succeeds exactly when the extended output fits into the array. -/
theorem clipEmit_eq (cap : Nat) (out : List dVector3) (v : dVector3) :
    clipEmit cap out v = if (out ++ [v]).length ≤ cap then some (out ++ [v]) else none := by
  simp only [clipEmit, List.length_append, List.length_singleton]
  by_cases hc : out.length < cap
  · rw [if_pos hc, if_pos (by omega)]
  · rw [if_neg hc, if_neg (by omega)]

/-- One iteration of the loop of the clip functions stores the contribution of its edge and
fails exactly when it does not fit into the output array. -/
theorem clipStep_eq (cap : Nat) (g : dVector3 → ℚ) (v0 v1 : dVector3) (out : List dVector3)
    (hout : out.length ≤ cap) :
    (if g v0 = 0 then clipEmit cap out v0
      else if g v0 > 0 then
        (clipEmit cap out v0).bind fun out0 =>
          if g v1 < 0 then clipEmitLerp cap out0 v0 v1 (g v0) (g v1)
          else some out0
      else if g v1 > 0 then clipEmitLerp cap out v0 v1 (g v0) (g v1)
      else some out) =
    if (out ++ clipEdge g (v0, v1)).length ≤ cap then some (out ++ clipEdge g (v0, v1))
    else none := by
  rcases lt_trichotomy (g v0) 0 with h0 | h0 | h0
  · have n1 : ¬ g v0 = 0 := by linarith
    have n2 : ¬ g v0 > 0 := by linarith
    rw [if_neg n1, if_neg n2]
    by_cases h1 : g v1 > 0
    · have n5 : ¬ g v0 - g v1 = 0 := by linarith
      have ce : clipEdge g (v0, v1) =
          [dCalcLerpVectors3r4 v0 v1 (g v0 / (g v0 - g v1))] := by
        have n3 : ¬ 0 ≤ g v0 := by linarith
        have p : (0 < g v0 ∧ g v1 < 0) ∨ (g v0 < 0 ∧ 0 < g v1) := Or.inr ⟨h0, h1⟩
        simp only [clipEdge, n3, p, if_true, if_false, List.nil_append]
      rw [if_pos h1, ce, clipEmitLerp, if_neg n5, clipEmit_eq]
    · have ce : clipEdge g (v0, v1) = [] := by
        have n3 : ¬ 0 ≤ g v0 := by linarith
        have p : ¬ ((0 < g v0 ∧ g v1 < 0) ∨ (g v0 < 0 ∧ 0 < g v1)) := by
          rintro (⟨a, -⟩ | ⟨-, b⟩)
          · linarith
          · exact h1 b
        simp only [clipEdge, n3, p, if_false, List.append_nil]
      rw [if_neg h1, ce, List.append_nil, if_pos hout]
  · have ce : clipEdge g (v0, v1) = [v0] := by
      have n3 : 0 ≤ g v0 := by linarith
      have p : ¬ ((0 < g v0 ∧ g v1 < 0) ∨ (g v0 < 0 ∧ 0 < g v1)) := by
        rintro (⟨a, -⟩ | ⟨a, -⟩) <;> linarith
      simp only [clipEdge, n3, p, if_true, if_false, List.append_nil]
    rw [if_pos h0, ce, clipEmit_eq]
  · have n1 : ¬ g v0 = 0 := by linarith
    have p0 : 0 ≤ g v0 := by linarith
    rw [if_neg n1, if_pos h0, clipEmit_eq]
    by_cases h1 : g v1 < 0
    · have n5 : ¬ g v0 - g v1 = 0 := by linarith
      have ce : clipEdge g (v0, v1) =
          [v0, dCalcLerpVectors3r4 v0 v1 (g v0 / (g v0 - g v1))] := by
        have p : (0 < g v0 ∧ g v1 < 0) ∨ (g v0 < 0 ∧ 0 < g v1) := Or.inl ⟨h0, h1⟩
        simp only [clipEdge, p0, p, if_true, List.singleton_append]
      rw [ce]
      by_cases hc : (out ++ [v0]).length ≤ cap
      · rw [if_pos hc, Option.some_bind, if_pos h1, clipEmitLerp, if_neg n5, clipEmit_eq]
        simp only [List.append_assoc, List.singleton_append]
      · rw [if_neg hc, Option.none_bind, if_neg]
        simp only [List.length_append, List.length_singleton, List.length_cons,
          List.length_nil] at hc ⊢
        omega
    · have ce : clipEdge g (v0, v1) = [v0] := by
        have p : ¬ ((0 < g v0 ∧ g v1 < 0) ∨ (g v0 < 0 ∧ 0 < g v1)) := by
          rintro (⟨-, b⟩ | ⟨a, -⟩)
          · exact h1 b
          · linarith
        simp only [clipEdge, p0, p, if_true, if_false, List.append_nil]
      rw [ce]
      by_cases hc : (out ++ [v0]).length ≤ cap
      · rw [if_pos hc, Option.some_bind, if_neg h1]
      · rw [if_neg hc, Option.none_bind]

/-- The loop of the clip functions stores the contributions of the edges, one edge after the
other, and fails exactly when they do not fit into the output array. -/
theorem clipPoly_loop_eq (cap : Nat) (g : dVector3 → ℚ) :
    ∀ (l : List dVector3) (v0 : dVector3) (out : List dVector3), out.length ≤ cap →
      clipPoly_loop cap g l v0 (g v0) out =
        if (out ++ clipEdges g v0 l).length ≤ cap then some (out ++ clipEdges g v0 l)
        else none := by
  intro l
  induction l with
  | nil =>
    intro v0 out hout
    simp only [clipPoly_loop, clipEdges, List.append_nil, hout, if_true]
  | cons v1 rest ih =>
    intro v0 out hout
    rw [clipPoly_loop]
    rw [clipStep_eq cap g v0 v1 out hout]
    by_cases hc : (out ++ clipEdge g (v0, v1)).length ≤ cap
    · simp only [hc, if_true, Option.some_bind]
      rw [ih v1 _ hc]
      simp only [clipEdges, List.append_assoc]
    · simp only [hc, if_false, Option.none_bind]
      have : ¬ (out ++ clipEdges g v0 (v1 :: rest)).length ≤ cap := by
        simp only [clipEdges, List.length_append] at hc ⊢
        omega
      simp only [this, if_false]

/-- The body of the clip functions on a polygon with last vertex `v0`. -/
theorem clipPoly_eq (cap : Nat) (g : dVector3 → ℚ) (l : List dVector3) (v0 : dVector3)
    (hl : l.getLast? = some v0) :
    clipPoly cap g l =
      if (clipEdges g v0 l).length ≤ cap then some (clipEdges g v0 l) else none := by
  simp only [clipPoly, hl]
  rw [clipPoly_loop_eq cap g l v0 [] (Nat.zero_le _)]
  simp

/-- The contributions of the edges along `l` are those of the pairs of the vertices with their
predecessors. -/
theorem clipEdges_zip (g : dVector3 → ℚ) :
    ∀ (l : List dVector3) (v0 : dVector3),
      clipEdges g v0 l = ((v0 :: l.dropLast).zip l).flatMap (clipEdge g) := by
  intro l
  induction l with
  | nil => intro v0; simp [clipEdges]
  | cons v1 rest ih =>
    intro v0
    cases rest with
    | nil => simp [clipEdges]
    | cons v2 rest2 =>
      rw [clipEdges, ih v1]
      simp [List.dropLast]

/-- The point stored for a crossing edge lies on the plane. -/
theorem lerp_on_plane (g : dVector3 → ℚ) (hg : AffineOn g) (v0 v1 : dVector3)
    (h : g v0 - g v1 ≠ 0) :
    g (dCalcLerpVectors3r4 v0 v1 (g v0 / (g v0 - g v1))) = 0 := by
  rw [hg]
  field_simp
  ring

/-- Every vertex that an edge contributes has a signed distance that is not negative. -/
theorem clipEdge_nonneg (g : dVector3 → ℚ) (hg : AffineOn g) (e : dVector3 × dVector3) :
    ∀ v ∈ clipEdge g e, 0 ≤ g v := by
  intro v hv
  simp only [clipEdge, List.mem_append] at hv
  rcases hv with hv | hv
  · split_ifs at hv with h
    · simp only [List.mem_singleton] at hv; rw [hv]; exact h
    · simp at hv
  · split_ifs at hv with h
    · simp only [List.mem_singleton] at hv
      rw [hv, lerp_on_plane g hg]
      rcases h with h | h <;> intro e0 <;> linarith
    · simp at hv

/-- Every vertex that the edges along `l` contribute has a signed distance that is not
negative. -/
theorem clipEdges_nonneg (g : dVector3 → ℚ) (hg : AffineOn g) :
    ∀ (l : List dVector3) (v0 : dVector3), ∀ v ∈ clipEdges g v0 l, 0 ≤ g v := by
  intro l
  induction l with
  | nil => intro v0 v hv; simp [clipEdges] at hv
  | cons v1 rest ih =>
    intro v0 v hv
    simp only [clipEdges, List.mem_append] at hv
    rcases hv with hv | hv
    · exact clipEdge_nonneg g hg _ v hv
    · exact ih v1 v hv

/-- The vertices of `v0 :: l` without the last one whose signed distance is not negative are
among the contributions of the edges, in their order. -/
theorem clipEdges_kept (g : dVector3 → ℚ) :
    ∀ (l : List dVector3) (v0 : dVector3),
      ((v0 :: l).dropLast.filter fun v => decide (0 ≤ g v)).Sublist (clipEdges g v0 l) := by
  intro l
  induction l with
  | nil => intro v0; simp [clipEdges]
  | cons v1 rest ih =>
    intro v0
    have e : (v0 :: v1 :: rest).dropLast = v0 :: (v1 :: rest).dropLast := by simp [List.dropLast]
    rw [e, clipEdges]
    have h1 := ih v1
    have h0 : ([v0].filter fun v => decide (0 ≤ g v)).Sublist (clipEdge g (v0, v1)) := by
      simp only [clipEdge]
      by_cases h : 0 ≤ g v0
      · simp only [h, if_true, List.filter_cons, decide_True, List.filter_nil]
        exact List.sublist_append_left _ _
      · simp only [h, if_false, List.filter_cons, decide_False, List.filter_nil]
        simp
    have h2 := List.Sublist.append h0 h1
    have e2 : ((v0 :: (v1 :: rest).dropLast).filter fun v => decide (0 ≤ g v)) =
        ([v0].filter fun v => decide (0 ≤ g v)) ++
          ((v1 :: rest).dropLast.filter fun v => decide (0 ≤ g v)) := by
      rw [← List.filter_append]; rfl
    rw [e2]
    exact h2

/-- C33: for a polygon that is not empty and an output array that has room for twice its
vertices, `_cldClipPolyToPlane` returns (no store outside the array, no division by zero) the
contributions of the edges `(v0, v1)` of the polygon, starting with the edge from the last
vertex to the first: `v0` when its signed distance `dot(v0, n) + offset` is not negative, then,
when the signed distances of `v0` and `v1` have strictly opposite signs, the point
`v0 + (v1 - v0) * fd`, whose divisor is not zero and whose signed distance is zero. Every
vertex of the output has a signed distance that is not negative, and the input vertices whose
signed distance is not negative are all in the output, in the cyclic order of the polygon. -/
theorem ClipPolyToPlane_inside (cap : Nat) (avArrayIn : List dVector3)
    (plPlaneNorm : dVector3) (plPlaneOffset : ℚ) (hne : avArrayIn ≠ [])
    (hcap : 2 * avArrayIn.length ≤ cap) :
    ∃ avArrayOut, _cldClipPolyToPlane cap avArrayIn plPlaneNorm plPlaneOffset =
        some avArrayOut ∧
      avArrayOut = ((avArrayIn.getLast hne :: avArrayIn.dropLast).zip avArrayIn).flatMap
        (clipEdge fun v => v.dot plPlaneNorm + plPlaneOffset) ∧
      (∀ v0 v1 : dVector3,
        (0 < v0.dot plPlaneNorm + plPlaneOffset ∧ v1.dot plPlaneNorm + plPlaneOffset < 0) ∨
          (v0.dot plPlaneNorm + plPlaneOffset < 0 ∧ 0 < v1.dot plPlaneNorm + plPlaneOffset) →
        (v0.dot plPlaneNorm + plPlaneOffset) - (v1.dot plPlaneNorm + plPlaneOffset) ≠ 0 ∧
        (dCalcLerpVectors3r4 v0 v1 ((v0.dot plPlaneNorm + plPlaneOffset) /
          ((v0.dot plPlaneNorm + plPlaneOffset) - (v1.dot plPlaneNorm + plPlaneOffset)))).dot
            plPlaneNorm + plPlaneOffset = 0) ∧
      (∀ v ∈ avArrayOut, 0 ≤ v.dot plPlaneNorm + plPlaneOffset) ∧
      ((avArrayIn.getLast hne :: avArrayIn.dropLast).filter
        fun v => decide (0 ≤ v.dot plPlaneNorm + plPlaneOffset)).Sublist avArrayOut := by
  have hl : avArrayIn.getLast? = some (avArrayIn.getLast hne) := List.getLast?_eq_getLast _ hne
  have hlen := clipEdges_length (fun v => v.dot plPlaneNorm + plPlaneOffset) avArrayIn
    (avArrayIn.getLast hne)
  have hg := affineOn_plane plPlaneNorm plPlaneOffset
  refine ⟨clipEdges (fun v => v.dot plPlaneNorm + plPlaneOffset) (avArrayIn.getLast hne)
    avArrayIn, ?_, clipEdges_zip _ _ _, ?_, clipEdges_nonneg _ hg _ _, ?_⟩
  · rw [_cldClipPolyToPlane, clipPoly_eq cap _ avArrayIn _ hl, if_pos (by omega)]
  · intro v0 v1 h
    have hd : (v0.dot plPlaneNorm + plPlaneOffset) - (v1.dot plPlaneNorm + plPlaneOffset) ≠ 0 := by
      rcases h with h | h <;> intro e0 <;> linarith
    exact ⟨hd, lerp_on_plane (fun v => v.dot plPlaneNorm + plPlaneOffset) hg v0 v1 hd⟩
  · have h := clipEdges_kept (fun v => v.dot plPlaneNorm + plPlaneOffset) avArrayIn
      (avArrayIn.getLast hne)
    have e : (avArrayIn.getLast hne :: avArrayIn).dropLast =
        avArrayIn.getLast hne :: avArrayIn.dropLast := by
      cases avArrayIn with
      | nil => exact absurd rfl hne
      | cons a t => simp [List.dropLast]
    rw [e] at h
    exact h

/-- C33 on the sample triangle, clipped by the half space `x ≥ 1`. -/
theorem ClipPolyToPlane_inside_witness :
    sampleTriangle ≠ [] ∧ 2 * sampleTriangle.length ≤ 9 ∧
    ∃ avArrayOut, _cldClipPolyToPlane 9 sampleTriangle ⟨1, 0, 0⟩ (-1) = some avArrayOut ∧
      avArrayOut = ((sampleTriangle.getLast (by simp [sampleTriangle]) ::
        sampleTriangle.dropLast).zip sampleTriangle).flatMap
        (clipEdge fun v => v.dot ⟨1, 0, 0⟩ + (-1)) ∧
      (∀ v0 v1 : dVector3,
        (0 < v0.dot ⟨1, 0, 0⟩ + (-1) ∧ v1.dot ⟨1, 0, 0⟩ + (-1) < 0) ∨
          (v0.dot ⟨1, 0, 0⟩ + (-1) < 0 ∧ 0 < v1.dot ⟨1, 0, 0⟩ + (-1)) →
        (v0.dot ⟨1, 0, 0⟩ + (-1)) - (v1.dot ⟨1, 0, 0⟩ + (-1)) ≠ 0 ∧
        (dCalcLerpVectors3r4 v0 v1 ((v0.dot ⟨1, 0, 0⟩ + (-1)) /
          ((v0.dot ⟨1, 0, 0⟩ + (-1)) - (v1.dot ⟨1, 0, 0⟩ + (-1))))).dot
            ⟨1, 0, 0⟩ + (-1) = 0) ∧
      (∀ v ∈ avArrayOut, 0 ≤ v.dot ⟨1, 0, 0⟩ + (-1)) ∧
      ((sampleTriangle.getLast (by simp [sampleTriangle]) :: sampleTriangle.dropLast).filter
        fun v => decide (0 ≤ v.dot ⟨1, 0, 0⟩ + (-1))).Sublist avArrayOut :=
  ⟨by simp [sampleTriangle], by simp [sampleTriangle],
    ClipPolyToPlane_inside 9 sampleTriangle ⟨1, 0, 0⟩ (-1) (by simp [sampleTriangle])
      (by simp [sampleTriangle])⟩

/-! ### Capsule collider: clipping an edge to a plane -/

/-- What the edge clip does, for a signed distance that is affine along segments. -/
theorem clipEdgeToPlane_spec (dEpsilon : ℚ) (hEps : 0 < dEpsilon) (g : dVector3 → ℚ)
    (hg : AffineOn g) (vEpnt0 vEpnt1 : dVector3) :
    ∃ r e0 e1, clipEdgeToPlane dEpsilon vEpnt0 vEpnt1 (g vEpnt0) (g vEpnt1) = some (r, e0, e1) ∧
      (r = false ↔ g vEpnt0 < dEpsilon ∧ g vEpnt1 < dEpsilon) ∧
      (r = false → e0 = vEpnt0 ∧ e1 = vEpnt1) ∧
      (r = true → 0 ≤ g e0 ∧ 0 ≤ g e1 ∧ (0 ≤ g vEpnt0 → e0 = vEpnt0) ∧
        (0 ≤ g vEpnt1 → e1 = vEpnt1) ∧
        ((g vEpnt0 < 0 ∨ g vEpnt1 < 0) → g vEpnt0 - g vEpnt1 ≠ 0)) := by
  unfold clipEdgeToPlane
  by_cases h1 : g vEpnt0 < dEpsilon ∧ g vEpnt1 < dEpsilon
  · rw [if_pos h1]
    exact ⟨false, vEpnt0, vEpnt1, rfl, ⟨fun _ => h1, fun _ => rfl⟩, fun _ => ⟨rfl, rfl⟩,
      fun h => (by cases h)⟩
  rw [if_neg h1]
  by_cases h2 : g vEpnt0 ≥ 0 ∧ g vEpnt1 ≥ 0
  · rw [if_pos h2]
    refine ⟨true, vEpnt0, vEpnt1, rfl, ⟨fun h => (by cases h), fun h => absurd h h1⟩,
      fun h => (by cases h), fun _ => ⟨h2.1, h2.2, fun _ => rfl, fun _ => rfl, ?_⟩⟩
    rintro (h | h)
    · exact absurd h2.1 (not_le.2 h)
    · exact absurd h2.2 (not_le.2 h)
  rw [if_neg h2]
  have hd : g vEpnt0 - g vEpnt1 ≠ 0 := by
    intro e0
    by_cases a : g vEpnt0 < dEpsilon
    · have b : ¬ g vEpnt1 < dEpsilon := fun b => h1 ⟨a, b⟩
      linarith
    · by_cases c : g vEpnt1 ≥ 0
      · exact h2 ⟨by linarith, c⟩
      · linarith
  rw [if_neg hd]
  simp only []
  by_cases h3 : g vEpnt0 < 0
  · rw [if_pos h3]
    have b : ¬ g vEpnt1 < dEpsilon := fun b => h1 ⟨by linarith, b⟩
    refine ⟨true, _, vEpnt1, rfl, ⟨fun h => (by cases h), fun h => absurd h h1⟩,
      fun h => (by cases h), fun _ => ⟨?_, by linarith, ?_, fun _ => rfl, fun _ => hd⟩⟩
    · rw [lerp_on_plane g hg _ _ hd]
    · intro h; linarith
  · rw [if_neg h3]
    have c : ¬ g vEpnt1 ≥ 0 := fun c => h2 ⟨by linarith, c⟩
    refine ⟨true, vEpnt0, _, rfl, ⟨fun h => (by cases h), fun h => absurd h h1⟩,
      fun h => (by cases h), fun _ => ⟨by linarith, ?_, fun _ => rfl, ?_, fun _ => hd⟩⟩
    · rw [lerp_on_plane g hg _ _ hd]
    · intro h; exact absurd h c

/-- C35: with `dEpsilon > 0`, `_cldClipEdgeToPlaneNorm` and `_cldClipEdgeToPlaneNormNoOffset`
return without a division by zero; the result is FALSE exactly when both signed distances are
below `dEpsilon`, and then the edge points are unchanged; when the result is TRUE both edge
points have afterwards a signed distance that is not negative, an edge point whose signed
distance was not negative is unchanged, and if an edge point had a negative signed distance
the divisor `fDistance0 - fDistance1` is not zero. -/
theorem ClipEdgeToPlaneNorm_spec (dEpsilon : ℚ) (hEps : 0 < dEpsilon)
    (vEpnt0 vEpnt1 plPlane : dVector3) (offset : ℚ) :
    (∃ r e0 e1, _cldClipEdgeToPlaneNorm dEpsilon vEpnt0 vEpnt1 plPlane offset =
        some (r, e0, e1) ∧
      (r = false ↔ vEpnt0.dot plPlane + offset < dEpsilon ∧
        vEpnt1.dot plPlane + offset < dEpsilon) ∧
      (r = false → e0 = vEpnt0 ∧ e1 = vEpnt1) ∧
      (r = true → 0 ≤ e0.dot plPlane + offset ∧ 0 ≤ e1.dot plPlane + offset ∧
        (0 ≤ vEpnt0.dot plPlane + offset → e0 = vEpnt0) ∧
        (0 ≤ vEpnt1.dot plPlane + offset → e1 = vEpnt1) ∧
        ((vEpnt0.dot plPlane + offset < 0 ∨ vEpnt1.dot plPlane + offset < 0) →
          (vEpnt0.dot plPlane + offset) - (vEpnt1.dot plPlane + offset) ≠ 0))) ∧
    (∃ r e0 e1, _cldClipEdgeToPlaneNormNoOffset dEpsilon vEpnt0 vEpnt1 plPlane =
        some (r, e0, e1) ∧
      (r = false ↔ vEpnt0.dot plPlane < dEpsilon ∧ vEpnt1.dot plPlane < dEpsilon) ∧
      (r = false → e0 = vEpnt0 ∧ e1 = vEpnt1) ∧
      (r = true → 0 ≤ e0.dot plPlane ∧ 0 ≤ e1.dot plPlane ∧
        (0 ≤ vEpnt0.dot plPlane → e0 = vEpnt0) ∧ (0 ≤ vEpnt1.dot plPlane → e1 = vEpnt1) ∧
        ((vEpnt0.dot plPlane < 0 ∨ vEpnt1.dot plPlane < 0) →
          vEpnt0.dot plPlane - vEpnt1.dot plPlane ≠ 0))) :=
  ⟨clipEdgeToPlane_spec dEpsilon hEps (fun v => v.dot plPlane + offset)
      (affineOn_plane plPlane offset) vEpnt0 vEpnt1,
    clipEdgeToPlane_spec dEpsilon hEps (fun v => v.dot plPlane) (affineOn_origin plPlane)
      vEpnt0 vEpnt1⟩

/-- C35 for the edge from `(-1, 0, 0)` to `(1, 0, 0)` and the plane `x = 0`, with
`dEpsilon = 1e-5`. -/
theorem ClipEdgeToPlaneNorm_spec_witness :
    (0 : ℚ) < 1 / 100000 ∧
    (∃ r e0 e1, _cldClipEdgeToPlaneNorm (1 / 100000) ⟨-1, 0, 0⟩ ⟨1, 0, 0⟩ ⟨1, 0, 0⟩ 0 =
        some (r, e0, e1) ∧
      (r = false ↔ (⟨-1, 0, 0⟩ : dVector3).dot ⟨1, 0, 0⟩ + 0 < 1 / 100000 ∧
        (⟨1, 0, 0⟩ : dVector3).dot ⟨1, 0, 0⟩ + 0 < 1 / 100000) ∧
      (r = false → e0 = ⟨-1, 0, 0⟩ ∧ e1 = ⟨1, 0, 0⟩) ∧
      (r = true → 0 ≤ e0.dot ⟨1, 0, 0⟩ + 0 ∧ 0 ≤ e1.dot ⟨1, 0, 0⟩ + 0 ∧
        (0 ≤ (⟨-1, 0, 0⟩ : dVector3).dot ⟨1, 0, 0⟩ + 0 → e0 = ⟨-1, 0, 0⟩) ∧
        (0 ≤ (⟨1, 0, 0⟩ : dVector3).dot ⟨1, 0, 0⟩ + 0 → e1 = ⟨1, 0, 0⟩) ∧
        (((⟨-1, 0, 0⟩ : dVector3).dot ⟨1, 0, 0⟩ + 0 < 0 ∨
            (⟨1, 0, 0⟩ : dVector3).dot ⟨1, 0, 0⟩ + 0 < 0) →
          ((⟨-1, 0, 0⟩ : dVector3).dot ⟨1, 0, 0⟩ + 0) -
            ((⟨1, 0, 0⟩ : dVector3).dot ⟨1, 0, 0⟩ + 0) ≠ 0))) ∧
    (∃ r e0 e1, _cldClipEdgeToPlaneNormNoOffset (1 / 100000) ⟨-1, 0, 0⟩ ⟨1, 0, 0⟩ ⟨1, 0, 0⟩ =
        some (r, e0, e1) ∧
      (r = false ↔ (⟨-1, 0, 0⟩ : dVector3).dot ⟨1, 0, 0⟩ < 1 / 100000 ∧
        (⟨1, 0, 0⟩ : dVector3).dot ⟨1, 0, 0⟩ < 1 / 100000) ∧
      (r = false → e0 = ⟨-1, 0, 0⟩ ∧ e1 = ⟨1, 0, 0⟩) ∧
      (r = true → 0 ≤ e0.dot ⟨1, 0, 0⟩ ∧ 0 ≤ e1.dot ⟨1, 0, 0⟩ ∧
        (0 ≤ (⟨-1, 0, 0⟩ : dVector3).dot ⟨1, 0, 0⟩ → e0 = ⟨-1, 0, 0⟩) ∧
        (0 ≤ (⟨1, 0, 0⟩ : dVector3).dot ⟨1, 0, 0⟩ → e1 = ⟨1, 0, 0⟩) ∧
        (((⟨-1, 0, 0⟩ : dVector3).dot ⟨1, 0, 0⟩ < 0 ∨
            (⟨1, 0, 0⟩ : dVector3).dot ⟨1, 0, 0⟩ < 0) →
          (⟨-1, 0, 0⟩ : dVector3).dot ⟨1, 0, 0⟩ - (⟨1, 0, 0⟩ : dVector3).dot ⟨1, 0, 0⟩ ≠ 0))) :=
  ⟨by norm_num, ClipEdgeToPlaneNorm_spec (1 / 100000) (by norm_num) ⟨-1, 0, 0⟩ ⟨1, 0, 0⟩
    ⟨1, 0, 0⟩ 0⟩

/-! ### Quadtree space: the block found by GetBlock does not depend on the start -/

/-- More fuel does not change what `Block::GetBlockChild` returns. -/
theorem getBlockChild_mono (blocks : List Block) (A : dAABB) :
    ∀ (fuel i r : Nat), Block.GetBlockChild blocks A fuel i = some r →
      Block.GetBlockChild blocks A (fuel + 1) i = some r := by
  intro fuel
  induction fuel with
  | zero => intro i r h; simp [Block.GetBlockChild] at h
  | succ fuel ih =>
    intro i r h
    rw [Block.GetBlockChild] at h ⊢
    cases hb : blocks[i]? with
    | none => simp only [hb] at h; cases h
    | some b =>
      simp only [hb] at h ⊢
      cases hch : b.mChildren with
      | none => simp only [hch] at h ⊢; exact h
      | some ch =>
        simp only [hch] at h ⊢
        cases h0 : blocks[ch]? with
        | none => simp only [h0] at h; cases h
        | some c0 =>
        cases h1 : blocks[ch + 1]? with
        | none => simp only [h0, h1] at h; cases h
        | some c1 =>
        cases h2 : blocks[ch + 2]? with
        | none => simp only [h0, h1, h2] at h; cases h
        | some c2 =>
        cases h3 : blocks[ch + 3]? with
        | none => simp only [h0, h1, h2, h3] at h; cases h
        | some c3 =>
          simp only [h0, h1, h2, h3] at h ⊢
          by_cases i0 : c0.Inside A = true
          · rw [if_pos i0] at h ⊢; exact ih _ _ h
          rw [if_neg i0] at h ⊢
          by_cases i1 : c1.Inside A = true
          · rw [if_pos i1] at h ⊢; exact ih _ _ h
          rw [if_neg i1] at h ⊢
          by_cases i2 : c2.Inside A = true
          · rw [if_pos i2] at h ⊢; exact ih _ _ h
          rw [if_neg i2] at h ⊢
          by_cases i3 : c3.Inside A = true
          · rw [if_pos i3] at h ⊢; exact ih _ _ h
          rw [if_neg i3] at h ⊢
          exact h

/-- Any larger fuel does not change what `Block::GetBlockChild` returns. -/
theorem getBlockChild_mono_le (blocks : List Block) (A : dAABB) (i r : Nat) :
    ∀ (fuel fuel2 : Nat), fuel ≤ fuel2 → Block.GetBlockChild blocks A fuel i = some r →
      Block.GetBlockChild blocks A fuel2 i = some r := by
  intro fuel fuel2 hle h
  induction fuel2 with
  | zero =>
    have : fuel = 0 := by omega
    subst this; exact h
  | succ n ih =>
    by_cases e : fuel = n + 1
    · subst e; exact h
    · exact getBlockChild_mono blocks A n i r (ih (by omega))

/-- A box with ordered bounds is strictly inside at most one quadrant of a rectangle. -/
theorem quadrant_exclusive (b c c2 : Block) (k k2 : Nat) (A : dAABB) (hx : A.a0 ≤ A.a1)
    (hz : A.a2 ≤ A.a3) (hk : k < 4) (hk2 : k2 < 4) (hq : Block.IsQuadrant b c k)
    (hq2 : Block.IsQuadrant b c2 k2) (hc : c.Inside A = true) (hc2 : c2.Inside A = true) :
    k = k2 := by
  obtain ⟨q1, q2, q3, q4⟩ := hq
  obtain ⟨r1, r2, r3, r4⟩ := hq2
  simp only [Block.Inside, Bool.and_eq_true, decide_eq_true_eq, q1, q2, q3, q4] at hc
  simp only [Block.Inside, Bool.and_eq_true, decide_eq_true_eq, r1, r2, r3, r4] at hc2
  obtain ⟨⟨⟨c1, c2'⟩, c3⟩, c4⟩ := hc
  obtain ⟨⟨⟨d1, d2⟩, d3⟩, d4⟩ := hc2
  have hk4 : k = 0 ∨ k = 1 ∨ k = 2 ∨ k = 3 := by omega
  have hk24 : k2 = 0 ∨ k2 = 1 ∨ k2 = 2 ∨ k2 = 3 := by omega
  rcases hk4 with rfl | rfl | rfl | rfl <;> rcases hk24 with rfl | rfl | rfl | rfl <;>
    first
    | rfl
    | (exfalso; norm_num at c1 c2' c3 c4 d1 d2 d3 d4; linarith)

/-- From a block with a child that strictly contains a box with ordered bounds,
`Block::GetBlockChild` goes on from that child. -/
theorem getBlockChild_step (blocks : List Block) (h : Block.WellFormed blocks) (A : dAABB)
    (hx : A.a0 ≤ A.a1) (hz : A.a2 ≤ A.a3) (p ch k fuel : Nat) (bp c : Block)
    (hp : blocks[p]? = some bp) (hch : bp.mChildren = some ch) (hk : k < 4)
    (hc : blocks[ch + k]? = some c) (hin : c.Inside A = true) :
    Block.GetBlockChild blocks A (fuel + 1) p = Block.GetBlockChild blocks A fuel (ch + k) := by
  have hplt : p < blocks.length := (List.getElem?_eq_some_iff.1 hp).1
  obtain ⟨b2, f1, f2, f3, f4⟩ := wf_block blocks h p hplt
  rw [hp] at f1; cases f1
  obtain ⟨-, f5⟩ := f4 ch hch
  obtain ⟨c0, g0, -, q0⟩ := f5 0 (by omega)
  obtain ⟨c1, g1, -, q1⟩ := f5 1 (by omega)
  obtain ⟨c2, g2, -, q2⟩ := f5 2 (by omega)
  obtain ⟨c3, g3, -, q3⟩ := f5 3 (by omega)
  obtain ⟨c', g', -, q'⟩ := f5 k hk
  rw [hc] at g'; cases g'
  rw [Block.GetBlockChild]
  simp only [Nat.add_zero] at g0
  simp only [hp, hch, g0, g1, g2, g3]
  have ex : ∀ (j : Nat) (cj : Block), j < 4 → Block.IsQuadrant bp cj j → cj.Inside A = true →
      j = k := fun j cj hj hq hi => quadrant_exclusive bp cj c j k A hx hz hj hk hq q' hi hin
  by_cases i0 : c0.Inside A = true
  · rw [if_pos i0]
    have := ex 0 c0 (by omega) q0 i0
    subst this; rfl
  rw [if_neg i0]
  by_cases i1 : c1.Inside A = true
  · rw [if_pos i1]
    have := ex 1 c1 (by omega) q1 i1
    subst this; rfl
  rw [if_neg i1]
  by_cases i2 : c2.Inside A = true
  · rw [if_pos i2]
    have := ex 2 c2 (by omega) q2 i2
    subst this; rfl
  rw [if_neg i2]
  by_cases i3 : c3.Inside A = true
  · rw [if_pos i3]
    have := ex 3 c3 (by omega) q3 i3
    subst this; rfl
  exfalso
  have hk4 : k = 0 ∨ k = 1 ∨ k = 2 ∨ k = 3 := by omega
  rcases hk4 with rfl | rfl | rfl | rfl
  · rw [Nat.add_zero, g0] at hc; cases hc; exact i0 hin
  · rw [g1] at hc; cases hc; exact i1 hin
  · rw [g2] at hc; cases hc; exact i2 hin
  · rw [g3] at hc; cases hc; exact i3 hin

/-- From every block that strictly contains a box with ordered bounds, `Block::GetBlockChild`
arrives, given fuel, at the block at which it arrives from block 0. -/
theorem getBlockChild_unique (blocks : List Block) (h : Block.WellFormed blocks) (A : dAABB)
    (hx : A.a0 ≤ A.a1) (hz : A.a2 ≤ A.a3) (D F0 : Nat)
    (hD : Block.GetBlockChild blocks A F0 0 = some D) :
    ∀ (y : Nat) (b : Block), blocks[y]? = some b → b.Inside A = true →
      ∃ F, Block.GetBlockChild blocks A F y = some D := by
  intro y
  induction y using Nat.strong_induction_on with
  | _ y ih =>
    intro b hb hin
    have hy : y < blocks.length := (List.getElem?_eq_some_iff.1 hb).1
    by_cases h0 : y = 0
    · subst h0; exact ⟨F0, hD⟩
    · obtain ⟨b2, p, e1, e2, e3, bp, ch, e4, e5, e6, e7⟩ := wf_parent blocks h y hy (by omega)
      rw [hb] at e1; cases e1
      have hp : p < blocks.length := by omega
      obtain ⟨bp2, f1, f2, f3, f4⟩ := wf_block blocks h p hp
      rw [e4] at f1; cases f1
      obtain ⟨-, f5⟩ := f4 ch e5
      obtain ⟨c, g1, g2, g3⟩ := f5 (y - ch) (by omega)
      have hyy : ch + (y - ch) = y := by omega
      rw [hyy, hb] at g1; cases g1
      obtain ⟨F, hF⟩ := ih p e3 bp e4 (inside_of_quadrant bp b _ A f2 f3 g3 hin)
      cases F with
      | zero => simp [Block.GetBlockChild] at hF
      | succ F =>
        refine ⟨F, ?_⟩
        rw [getBlockChild_step blocks h A hx hz p ch (y - ch) F bp b e4 e5 (by omega)
          (by rw [hyy]; exact hb) hin, hyy] at hF
        exact hF

/-- What `Block::GetBlock` returns is what `Block::GetBlockChild` returns from a block that
strictly contains the box, or a block without parent that does not contain it. -/
theorem getBlock_via (blocks : List Block) (A : dAABB) :
    ∀ (fuel i r : Nat), Block.GetBlock blocks A fuel i = some r →
      (∃ a ba F, blocks[a]? = some ba ∧ ba.Inside A = true ∧
        Block.GetBlockChild blocks A F a = some r) ∨
      (∃ b, blocks[r]? = some b ∧ b.Inside A = false ∧ b.mParent = none) := by
  intro fuel
  induction fuel with
  | zero => intro i r h; simp [Block.GetBlock] at h
  | succ fuel ih =>
    intro i r h
    rw [Block.GetBlock] at h
    cases hb : blocks[i]? with
    | none => simp only [hb] at h; cases h
    | some b =>
      simp only [hb] at h
      by_cases hin : b.Inside A = true
      · rw [if_pos hin] at h
        exact Or.inl ⟨i, b, fuel + 1, hb, hin, h⟩
      · rw [if_neg hin] at h
        cases hp : b.mParent with
        | none =>
          simp only [hp] at h
          cases h
          exact Or.inr ⟨b, hb, by simpa using hin, hp⟩
        | some p =>
          simp only [hp] at h
          exact ih p r h

/-- On a well-formed block array and for a box with ordered bounds, `Block::GetBlock` returns
from every block what it returns from block 0. -/
theorem getBlock_same (blocks : List Block) (h : Block.WellFormed blocks) (A : dAABB)
    (hx : A.a0 ≤ A.a1) (hz : A.a2 ≤ A.a3) (fuel i : Nat) (hi : i < blocks.length)
    (hf : 2 * blocks.length ≤ fuel) :
    ∃ r, Block.GetBlock blocks A fuel i = some r ∧ Block.GetBlock blocks A fuel 0 = some r := by
  obtain ⟨root, hroot, hrp⟩ := wf_root blocks h
  have hpos := wf_pos blocks h
  obtain ⟨r, h1, h2, h3⟩ := getBlock_spec blocks h A root hroot fuel i hi (by omega)
  obtain ⟨r0, k1, k2, k3⟩ := getBlock_spec blocks h A root hroot fuel 0 hpos (by omega)
  refine ⟨r, h1, ?_⟩
  rw [k1]
  cases hin : root.Inside A with
  | false => rw [h3 hin, k3 hin]
  | true =>
    obtain ⟨D, br, d1, -⟩ := getBlockChild_spec blocks h A blocks.length 0 root hroot hin
      (by omega)
    have key : ∀ (j x : Nat), Block.GetBlock blocks A fuel j = some x → x = D := by
      intro j x hx2
      rcases getBlock_via blocks A fuel j x hx2 with ⟨a, ba, F, a1, a2, a3⟩ | ⟨b, b1, b2, b3⟩
      · obtain ⟨F2, hF2⟩ := getBlockChild_unique blocks h A hx hz D _ d1 a ba a1 a2
        have m1 := getBlockChild_mono_le blocks A a x F (max F F2) (le_max_left _ _) a3
        have m2 := getBlockChild_mono_le blocks A a D F2 (max F F2) (le_max_right _ _) hF2
        rw [m1] at m2; cases m2; rfl
      · exfalso
        have hxl : x < blocks.length := (List.getElem?_eq_some_iff.1 b1).1
        by_cases x0 : x = 0
        · subst x0
          rw [hroot] at b1; cases b1
          rw [hin] at b2; cases b2
        · obtain ⟨b', p, e1, e2, -⟩ := wf_parent blocks h x hxl (by omega)
          rw [b1] at e1; cases e1
          rw [b3] at e2; cases e2
    rw [key i r h1, key 0 r0 k1]

/-- C36: on a well-formed block array and for a box with `aabb[0] ≤ aabb[1]` and
`aabb[2] ≤ aabb[3]`, `Block::GetBlock` returns (with fuel of twice the number of blocks) the
same block from every two starting blocks; hence `Block::Traverse`, called on the block that
hosts a geom, leaves the geom in the local list of the block that `Block::GetBlock` returns
from block 0 for its box, which is the block in whose local list `dxQuadTreeSpace::add` puts a
geom with the same box. -/
theorem GetBlock_start_independent (s : dxQuadTreeSpace) (lists : Nat → List Nat)
    (fuel : Nat) (hwf : Block.WellFormed s.Blocks) (hh : s.Hosts lists)
    (hfuel : 2 * s.Blocks.length + s.geoms.length < fuel) :
    (∀ (AABB : dAABB) (self self2 : Nat), AABB.a0 ≤ AABB.a1 → AABB.a2 ≤ AABB.a3 →
      self < s.Blocks.length → self2 < s.Blocks.length →
      ∃ r, Block.GetBlock s.Blocks AABB fuel self = some r ∧
        Block.GetBlock s.Blocks AABB fuel self2 = some r) ∧
    (∀ (self Object : Nat) (G : dxGeom), Object ∈ lists self → s.geoms[Object]? = some G →
      G.aabb.a0 ≤ G.aabb.a1 → G.aabb.a2 ≤ G.aabb.a3 →
      ∃ s2 NewBlock lists2, Block.Traverse s fuel self Object = some s2 ∧
        Block.GetBlock s.Blocks G.aabb fuel 0 = some NewBlock ∧
        s2.Hosts lists2 ∧ Object ∈ lists2 NewBlock ∧
        ∀ (g : Nat) (G2 : dxGeom), s.geoms[g]? = some G2 → G2.tome_ex = none →
          G2.next_ex = none → G2.aabb = G.aabb →
          ∃ s3, s.add fuel g = some s3 ∧
            s3.Hosts (Function.update lists NewBlock (g :: lists NewBlock))) := by
  constructor
  · intro A self self2 hx hz h1 h2
    obtain ⟨r, a1, a2⟩ := getBlock_same s.Blocks hwf A hx hz fuel self h1 (by omega)
    obtain ⟨r2, b1, b2⟩ := getBlock_same s.Blocks hwf A hx hz fuel self2 h2 (by omega)
    rw [a2] at b2; cases b2
    exact ⟨r, a1, b1⟩
  · intro self Object G hmem hG hx hz
    obtain ⟨s2, r, lists2, t1, t2, -, -, t5, t6, -⟩ :=
      traverse_spec s lists fuel self Object G hwf hh hmem hG hfuel
    have hself : self < s.Blocks.length := (hh.2 self Object hmem).1
    obtain ⟨r2, a1, a2⟩ := getBlock_same s.Blocks hwf G.aabb hx hz fuel self hself (by omega)
    rw [t2] at a1; cases a1
    refine ⟨s2, r, lists2, t1, a2, t5, (t6 r Object).2 (Or.inr ⟨rfl, rfl⟩), ?_⟩
    intro g G2 hG2 ht hn he
    obtain ⟨s3, best, c1, c2, -, -, c5, -⟩ := add_spec s lists fuel g G2 hwf hh hG2 ht hn hfuel
    rw [he, a2] at c2; cases c2
    exact ⟨s3, c1, c5⟩

/-- C36 on the sample space. -/
theorem GetBlock_start_independent_witness :
    Block.WellFormed sampleSpace.Blocks ∧ sampleSpace.Hosts sampleLists ∧
    2 * sampleSpace.Blocks.length + sampleSpace.geoms.length < 20 ∧
    (∀ (AABB : dAABB) (self self2 : Nat), AABB.a0 ≤ AABB.a1 → AABB.a2 ≤ AABB.a3 →
      self < sampleSpace.Blocks.length → self2 < sampleSpace.Blocks.length →
      ∃ r, Block.GetBlock sampleSpace.Blocks AABB 20 self = some r ∧
        Block.GetBlock sampleSpace.Blocks AABB 20 self2 = some r) ∧
    (∀ (self Object : Nat) (G : dxGeom), Object ∈ sampleLists self →
      sampleSpace.geoms[Object]? = some G →
      G.aabb.a0 ≤ G.aabb.a1 → G.aabb.a2 ≤ G.aabb.a3 →
      ∃ s2 NewBlock lists2, Block.Traverse sampleSpace 20 self Object = some s2 ∧
        Block.GetBlock sampleSpace.Blocks G.aabb 20 0 = some NewBlock ∧
        s2.Hosts lists2 ∧ Object ∈ lists2 NewBlock ∧
        ∀ (g : Nat) (G2 : dxGeom), sampleSpace.geoms[g]? = some G2 → G2.tome_ex = none →
          G2.next_ex = none → G2.aabb = G.aabb →
          ∃ s3, sampleSpace.add 20 g = some s3 ∧
            s3.Hosts (Function.update sampleLists NewBlock (g :: sampleLists NewBlock))) :=
  ⟨wf_sampleSpace, hosts_sampleSpace, by decide,
    GetBlock_start_independent sampleSpace sampleLists 20 wf_sampleSpace hosts_sampleSpace
      (by decide)⟩

/-! ### Quadtree space: the pairs of collide2 -/

/-- The loop over the local list of `Block::Collide(g1, g2, ...)` only adds pairs whose first
geom is `g1`. -/
theorem collide_list_grow (test : Nat → Nat → Bool) (geoms : List dxGeom) (g1 : Nat) :
    ∀ (fuel : Nat) (g2 : Option Nat) (log log2 : CollideLog),
      Block.Collide_list test geoms g1 fuel g2 log = some log2 →
      ∃ T, log2 = log.after test T ∧ ∀ p, p ∈ T → p.1 = g1 := by
  intro fuel
  induction fuel with
  | zero => intro g2 log log2 h; simp [Block.Collide_list] at h
  | succ fuel ih =>
    intro g2 log log2 h
    cases g2 with
    | none =>
      rw [Block.Collide_list] at h
      cases h
      exact ⟨[], by rw [after_nil], fun p hp => by cases hp⟩
    | some g2 =>
      rw [Block.Collide_list] at h
      cases hG : geoms[g2]? with
      | none => simp only [hG] at h; cases h
      | some G2 =>
        simp only [hG] at h
        obtain ⟨T, e, hT⟩ := ih _ _ _ h
        cases hen : G2.enabled with
        | false =>
          simp only [hen, Bool.false_eq_true, if_false] at e
          exact ⟨T, e, hT⟩
        | true =>
          refine ⟨(g1, g2) :: T, ?_, ?_⟩
          · rw [e]
            cases ht : test g1 g2 <;>
              simp [hen, ht, CollideLog.after, List.filter_cons]
          · intro p hp
            rcases List.mem_cons.1 hp with rfl | hp
            · rfl
            · exact hT p hp

/-- Method `Block::Collide(g1, g2, ...)` first submits what its loop over the local list
submits and only adds pairs whose first geom is `g1`. -/
theorem collide_geom_grow (test : Nat → Nat → Bool) (s : dxQuadTreeSpace) (g1 : Nat) :
    ∀ (fuel self : Nat) (g2 : Option Nat) (log log2 : CollideLog),
      Block.Collide_geom test s g1 fuel self g2 log = some log2 →
      ∃ T1 T2, Block.Collide_list test s.geoms g1 fuel g2 log = some (log.after test T1) ∧
        log2 = log.after test (T1 ++ T2) ∧ ∀ p, p ∈ T1 ++ T2 → p.1 = g1 := by
  intro fuel
  induction fuel with
  | zero => intro self g2 log log2 h; simp [Block.Collide_geom] at h
  | succ fuel ih =>
    intro self g2 log log2 h
    rw [Block.Collide_geom] at h
    cases hb : s.Blocks[self]? with
    | none => simp only [hb] at h; cases h
    | some b =>
      cases hG : s.geoms[g1]? with
      | none => simp only [hb, hG] at h; cases h
      | some G1 =>
        simp only [hb, hG] at h
        cases hl : Block.Collide_list test s.geoms g1 (fuel + 1) g2 log with
        | none => rw [hl] at h; cases h
        | some log1 =>
          rw [hl, Option.some_bind] at h
          obtain ⟨T1, e1, hT1⟩ := collide_list_grow test s.geoms g1 _ _ _ _ hl
          subst e1
          have child : ∀ (ch i : Nat) (la lb : CollideLog),
              Block.Collide_geom_child s G1 (Block.Collide_geom test s g1 fuel) ch la i =
                some lb → ∃ T, lb = la.after test T ∧ ∀ p, p ∈ T → p.1 = g1 := by
            intro ch i la lb hc
            rw [Block.Collide_geom_child] at hc
            cases hcb : s.Blocks[ch + i]? with
            | none => simp only [hcb] at hc; cases hc
            | some cb =>
              simp only [hcb] at hc
              split_ifs at hc with c1 c2
              · cases hc; exact ⟨[], by rw [after_nil], fun p hp => by cases hp⟩
              · cases hc; exact ⟨[], by rw [after_nil], fun p hp => by cases hp⟩
              · obtain ⟨U1, U2, -, u2, u3⟩ := ih _ _ _ _ hc
                exact ⟨U1 ++ U2, u2, u3⟩
          cases hch : b.mChildren with
          | none =>
            simp only [hch] at h
            cases h
            exact ⟨T1, [], rfl, by rw [List.append_nil], by simpa using hT1⟩
          | some ch =>
            simp only [hch] at h
            rw [foldlM_four] at h
            cases h0 : Block.Collide_geom_child s G1 (Block.Collide_geom test s g1 fuel) ch
                (log.after test T1) 0 with
            | none => rw [h0] at h; cases h
            | some l1 =>
            rw [h0, Option.some_bind] at h
            cases h1 : Block.Collide_geom_child s G1 (Block.Collide_geom test s g1 fuel) ch
                l1 1 with
            | none => rw [h1] at h; cases h
            | some l2 =>
            rw [h1, Option.some_bind] at h
            cases h2 : Block.Collide_geom_child s G1 (Block.Collide_geom test s g1 fuel) ch
                l2 2 with
            | none => rw [h2] at h; cases h
            | some l3 =>
            rw [h2, Option.some_bind] at h
            obtain ⟨U0, a0, b0⟩ := child _ _ _ _ h0
            obtain ⟨U1, a1, b1⟩ := child _ _ _ _ h1
            obtain ⟨U2, a2, b2⟩ := child _ _ _ _ h2
            obtain ⟨U3, a3, b3⟩ := child _ _ _ _ h
            refine ⟨T1, U0 ++ U1 ++ U2 ++ U3, rfl, ?_, ?_⟩
            · rw [a3, a2, a1, a0, after_after, after_after, after_after, after_after]
              simp only [List.append_assoc]
            · intro p hp
              simp only [List.mem_append] at hp
              rcases hp with hp | ((hp | hp) | hp) | hp
              · exact hT1 p hp
              · exact b0 p hp
              · exact b1 p hp
              · exact b2 p hp
              · exact b3 p hp

/-- Method `Block::CollideLocal(g2, ...)` only adds pairs whose second geom is `g2`. -/
theorem collideLocal_grow (test : Nat → Nat → Bool) (geoms : List dxGeom) (g2 : Nat) :
    ∀ (fuel : Nat) (g1 : Option Nat) (log log2 : CollideLog),
      Block.CollideLocal test geoms g2 fuel g1 log = some log2 →
      ∃ T, log2 = log.after test T ∧ ∀ p, p ∈ T → p.2 = g2 := by
  intro fuel
  induction fuel with
  | zero => intro g1 log log2 h; simp [Block.CollideLocal] at h
  | succ fuel ih =>
    intro g1 log log2 h
    cases g1 with
    | none =>
      rw [Block.CollideLocal] at h
      cases h
      exact ⟨[], by rw [after_nil], fun p hp => by cases hp⟩
    | some g1 =>
      rw [Block.CollideLocal] at h
      cases hG : geoms[g1]? with
      | none => simp only [hG] at h; cases h
      | some G1 =>
        simp only [hG] at h
        obtain ⟨T, e, hT⟩ := ih _ _ _ h
        cases hen : G1.enabled with
        | false =>
          simp only [hen, Bool.false_eq_true, if_false] at e
          exact ⟨T, e, hT⟩
        | true =>
          refine ⟨(g1, g2) :: T, ?_, ?_⟩
          · rw [e]
            cases ht : test g1 g2 <;>
              simp [hen, ht, CollideLog.after, List.filter_cons]
          · intro p hp
            rcases List.mem_cons.1 hp with rfl | hp
            · rfl
            · exact hT p hp

/-- The loop over the parents of `dxQuadTreeSpace::collide2` only adds pairs whose second geom
is `g2`. -/
theorem collide2_parents_grow (test : Nat → Nat → Bool) (s : dxQuadTreeSpace) (g2 : Nat) :
    ∀ (fuel : Nat) (cur : Option Nat) (log log2 : CollideLog),
      dxQuadTreeSpace.collide2_parents test s g2 fuel cur log = some log2 →
      ∃ T, log2 = log.after test T ∧ ∀ p, p ∈ T → p.2 = g2 := by
  intro fuel
  induction fuel with
  | zero => intro cur log log2 h; simp [dxQuadTreeSpace.collide2_parents] at h
  | succ fuel ih =>
    intro cur log log2 h
    cases cur with
    | none =>
      rw [dxQuadTreeSpace.collide2_parents] at h
      cases h
      exact ⟨[], by rw [after_nil], fun p hp => by cases hp⟩
    | some cur =>
      rw [dxQuadTreeSpace.collide2_parents] at h
      cases hb : s.Blocks[cur]? with
      | none => simp only [hb] at h; cases h
      | some b =>
        simp only [hb] at h
        cases hl : Block.CollideLocal test s.geoms g2 (fuel + 1) b.mFirst log with
        | none => rw [hl] at h; cases h
        | some log1 =>
          rw [hl, Option.some_bind] at h
          obtain ⟨T1, e1, hT1⟩ := collideLocal_grow test s.geoms g2 _ _ _ _ hl
          obtain ⟨T2, e2, hT2⟩ := ih _ _ _ h
          refine ⟨T1 ++ T2, by rw [e2, e1, after_after], ?_⟩
          intro p hp
          rcases List.mem_append.1 hp with hp | hp
          · exact hT1 p hp
          · exact hT2 p hp

/-- C37 fails in the code. For a probe geom `g2` with `g2->parent_space == this`, whenever
`dxQuadTreeSpace::collide2` returns, having left `g2` enabled in the local list `l` of the
block `tome_ex` names (fuel above the length of that list): the pair `(g2, g2)` has been
submitted to `testCollideAABBs`, the callback has been invoked with `(g2, g2)` if that test
accepts the pair, and in every invocation of the callback `g2` is the second geom. In the
sample space `collide2` with geom 0 as probe and a test that accepts every pair returns,
having submitted `(0, 0)` and `(1, 0)` and invoked the callback with both. -/
theorem collide2_pairs_probe_with_itself :
    (∀ (testCollideAABBs : Nat → Nat → Bool) (recomputeAABB : Nat → dxGeom → dAABB)
      (s s2 : dxQuadTreeSpace) (fuel g2 CurrentBlock : Nat) (log : CollideLog) (G2 : dxGeom)
      (b : Block) (l : List Nat),
      s.collide2 testCollideAABBs recomputeAABB true fuel g2 = some (s2, log) →
      s2.geoms[g2]? = some G2 → G2.tome_ex = some CurrentBlock → G2.enabled = true →
      s2.Blocks[CurrentBlock]? = some b → Chain s2.geoms b.mFirst l → g2 ∈ l →
      l.length < fuel →
      (g2, g2) ∈ log.tests ∧ (testCollideAABBs g2 g2 = true → (g2, g2) ∈ log.calls) ∧
      ∀ p, p ∈ log.calls → p.2 = g2) ∧
    sampleSpace.collide2 (fun _ _ => true) (fun _ G => G.aabb) true 20 0 =
      some (⟨sampleSpace.Blocks, sampleSpace.geoms, []⟩,
        ⟨[(0, 0), (1, 0)], [(0, 0), (1, 0)]⟩) := by
  refine ⟨?_, by decide⟩
  intro test recomputeAABB s s2 fuel g2 cb log G2 b l h hG2 ht hen hb hc hmem hfuel
  rw [dxQuadTreeSpace.collide2] at h
  cases hs1 : s.cleanGeoms recomputeAABB fuel with
  | none => rw [hs1] at h; cases h
  | some s1 =>
    rw [hs1, Option.some_bind] at h
    cases hG : s1.geoms[g2]? with
    | none => simp only [hG] at h; cases h
    | some G =>
      obtain ⟨ga, gn, gt, ge⟩ := G
      simp only [hG, if_true] at h
      cases gt with
      | none => simp only at h; cases h
      | some cb2 =>
        simp only at h
        cases hb2 : s1.Blocks[cb2]? with
        | none => simp only [hb2] at h; cases h
        | some b2 =>
          simp only [hb2] at h
          cases hdc : Block.Collide_geom test
              ⟨s1.Blocks, s1.geoms.set g2 ⟨recomputeAABB g2 ⟨ga, gn, some cb2, ge⟩, gn,
                some cb2, ge⟩, s1.DirtyList⟩
              g2 fuel cb2 b2.mFirst ⟨[], []⟩ with
          | none => rw [hdc] at h; cases h
          | some dc =>
            rw [hdc, Option.some_bind] at h
            cases hp : dxQuadTreeSpace.collide2_parents test
                ⟨s1.Blocks, s1.geoms.set g2 ⟨recomputeAABB g2 ⟨ga, gn, some cb2, ge⟩, gn,
                  some cb2, ge⟩, s1.DirtyList⟩ g2 fuel b2.mParent
                ⟨dc.tests, dc.calls.map swap_callback⟩ with
            | none => rw [hp] at h; cases h
            | some log2 =>
              rw [hp, Option.map_some'] at h
              simp only [Option.some.injEq, Prod.mk.injEq] at h
              obtain ⟨hs2, hlog⟩ := h
              subst hs2; subst hlog
              have hg : g2 < s1.geoms.length := (List.getElem?_eq_some_iff.1 hG).1
              simp only [List.getElem?_set_self hg, Option.some.injEq] at hG2
              subst hG2
              simp only at ht hen hb hc
              cases ht
              rw [hb2] at hb; cases hb
              obtain ⟨T1, T2, e1, e2, e3⟩ := collide_geom_grow test _ g2 _ _ _ _ _ hdc
              simp only at e1
              rw [collide_list_spec test _ g2 l fuel b.mFirst ⟨[], []⟩ hc hfuel] at e1
              have hT1 : T1 = (l.filter (enabledAt (s1.geoms.set g2
                  ⟨recomputeAABB g2 ⟨ga, gn, some cb, ge⟩, gn, some cb, ge⟩))).map
                    fun h => (g2, h) := by
                have := congrArg CollideLog.tests (Option.some.inj e1)
                simpa [CollideLog.after] using this.symm
              have hin : (g2, g2) ∈ T1 := by
                rw [hT1]
                apply List.mem_map.2
                refine ⟨g2, List.mem_filter.2 ⟨hmem, ?_⟩, rfl⟩
                simp [enabledAt, List.getElem?_set_self hg, hen]
              obtain ⟨T3, e4, e5⟩ := collide2_parents_grow test _ g2 _ _ _ _ hp
              subst e2; subst e4
              refine ⟨?_, ?_, ?_⟩
              · simp only [CollideLog.after, List.nil_append, List.mem_append]
                exact Or.inl (Or.inl hin)
              · intro hacc
                simp only [CollideLog.after, List.nil_append, List.mem_append, List.mem_map,
                  List.mem_filter]
                exact Or.inl ⟨(g2, g2), ⟨Or.inl hin, hacc⟩, rfl⟩
              · intro p hp2
                simp only [CollideLog.after, List.nil_append, List.mem_append, List.mem_map,
                  List.mem_filter] at hp2
                rcases hp2 with ⟨q, ⟨hq, -⟩, rfl⟩ | ⟨hq, -⟩
                · simp only [swap_callback]
                  exact e3 q (List.mem_append.2 hq)
                · exact e5 p hq

/-! ### Capsule collider: the deepest local contact survives the optimisation -/

/-- Clearing the flag of a contact other than the deepest one keeps the deepest one. -/
theorem deepestKept_set (n m k : Nat) (cs : List sLocalContactData) (c : sLocalContactData)
    (h : DeepestKept n m cs) (hc : cs[k]? = some c) (hk : k ≠ m) :
    DeepestKept n m (cs.set k { c with nFlags := 0 }) := by
  obtain ⟨h1, h2, cm, h3, h4, h5, h6⟩ := h
  refine ⟨h1, by simpa using h2, cm, ?_, h4, ?_, ?_⟩
  · rw [List.getElem?_set_ne hk]; exact h3
  · intro j cj hj hcj
    by_cases e : j = k
    · subst e
      have hlt : j < cs.length := (List.getElem?_eq_some_iff.1 hc).1
      rw [getElem?_set_same cs j _ hlt] at hcj
      cases hcj
      exact h5 j c hj hc
    · rw [List.getElem?_set_ne (Ne.symm e)] at hcj
      exact h5 j cj hj hcj
  · intro j cj hj hcj
    by_cases e : j = k
    · subst e
      have hlt : j < cs.length := (List.getElem?_eq_some_iff.1 hc).1
      rw [getElem?_set_same cs j _ hlt] at hcj
      cases hcj
      exact h6 j c hj hc
    · rw [List.getElem?_set_ne (Ne.symm e)] at hcj
      exact h6 j cj hj hcj

/-- The inner filtering loop returns and keeps the deepest contact flagged. -/
theorem OptimizeLocalContacts_inner_keeps (n m i : Nat) :
    ∀ (k j : Nat) (cs : List sLocalContactData), i < j → j + k ≤ n → DeepestKept n m cs →
      ∃ cs1, _OptimizeLocalContacts_inner i k j cs = some cs1 ∧ DeepestKept n m cs1 := by
  intro k
  induction k with
  | zero => intro j cs _ _ h; exact ⟨cs, rfl, h⟩
  | succ k ih =>
    intro j cs hij hjk h
    have hlen := h.2.1
    have hi : i < cs.length := by omega
    have hj : j < cs.length := by omega
    have hci := List.getElem?_eq_getElem hi
    have hcj := List.getElem?_eq_getElem hj
    simp only [_OptimizeLocalContacts_inner, hci, hcj]
    apply ih (j + 1) _ (by omega) (by omega)
    by_cases hn : _IsNearContacts cs[i] cs[j] = true
    · rw [if_pos hn]
      obtain ⟨h1, h2, cm, h3, h4, h5, h6⟩ := h
      by_cases hb : _IsBetter cs[j] cs[i] = true
      · rw [if_pos hb]
        apply deepestKept_set n m i cs _ ⟨h1, h2, cm, h3, h4, h5, h6⟩ hci
        intro e
        subst e
        rw [hci] at h3; cases h3
        have := h5 j _ (by omega) hcj
        simp only [_IsBetter, decide_eq_true_eq] at hb
        linarith
      · rw [if_neg hb]
        apply deepestKept_set n m j cs _ ⟨h1, h2, cm, h3, h4, h5, h6⟩ hcj
        intro e
        subst e
        rw [hcj] at h3; cases h3
        have := h6 i _ hij hci
        simp only [_IsBetter, decide_eq_true_eq] at hb
        exact hb this
    · rw [if_neg hn]; exact h

/-- The outer filtering loop returns and keeps the deepest contact flagged. -/
theorem OptimizeLocalContacts_outer_keeps (n m : Nat) :
    ∀ (k i : Nat) (cs : List sLocalContactData), i + k + 1 = n → DeepestKept n m cs →
      ∃ cs1, _OptimizeLocalContacts_outer n k i cs = some cs1 ∧ DeepestKept n m cs1 := by
  intro k
  induction k with
  | zero => intro i cs _ h; exact ⟨cs, rfl, h⟩
  | succ k ih =>
    intro i cs hik h
    obtain ⟨cs0, e0, d0⟩ := OptimizeLocalContacts_inner_keeps n m i (n - (i + 1)) (i + 1) cs
      (by omega) (by omega) h
    simp only [_OptimizeLocalContacts_outer, e0]
    exact ih (i + 1) cs0 (by omega) d0

/-- Among the first `n ≥ 1` contacts there is an earliest one of maximal depth. -/
theorem exists_earliest_deepest (cs : List sLocalContactData) :
    ∀ (n : Nat), 1 ≤ n → n ≤ cs.length →
      ∃ m cm, m < n ∧ cs[m]? = some cm ∧
        (∀ k c, k < n → cs[k]? = some c → c.fDepth ≤ cm.fDepth) ∧
        (∀ k c, k < m → cs[k]? = some c → c.fDepth < cm.fDepth) := by
  intro n
  induction n with
  | zero => intro h; omega
  | succ n ih =>
    intro _ hlen
    have hn : n < cs.length := by omega
    have hcn := List.getElem?_eq_getElem hn
    by_cases h0 : n = 0
    · subst h0
      refine ⟨0, cs[0], by omega, hcn, ?_, ?_⟩
      · intro k c hk hc
        have : k = 0 := by omega
        subst this
        rw [hcn] at hc; cases hc; exact le_refl _
      · intro k c hk; omega
    · obtain ⟨m, cm, h1, h2, h3, h4⟩ := ih (by omega) (by omega)
      by_cases hd : cs[n].fDepth ≤ cm.fDepth
      · refine ⟨m, cm, by omega, h2, ?_, h4⟩
        intro k c hk hc
        by_cases e : k = n
        · subst e; rw [hcn] at hc; cases hc; exact hd
        · exact h3 k c (by omega) hc
      · refine ⟨n, cs[n], by omega, hcn, ?_, ?_⟩
        · intro k c hk hc
          by_cases e : k = n
          · subst e; rw [hcn] at hc; cases hc; exact le_refl _
          · have := h3 k c (by omega) hc
            linarith
        · intro k c hk hc
          have := h3 k c hk hc
          linarith

/-- The copy loop of `_ProcessLocalContacts` emits at least one contact when a contact still
to visit is flagged 1 and the cap is not zero. -/
theorem ProcessLocalContacts_loop_emits (d : sTrimeshCapsuleColliderData)
    (TriMesh Capsule : Nat) (hcap : 1 ≤ d.m_iFlags &&& NUMC_MASK) :
    ∀ (k iContact nFinal : Nat) (contact : List dContactGeom),
      iContact + k ≤ d.m_gLocalContacts.length → nFinal ≤ d.m_iFlags &&& NUMC_MASK →
      d.m_iFlags &&& NUMC_MASK ≤ contact.length →
      (∃ i lc, iContact ≤ i ∧ i < iContact + k ∧ d.m_gLocalContacts[i]? = some lc ∧
        lc.nFlags = 1) →
      ∃ contact1 n1, _ProcessLocalContacts_loop d TriMesh Capsule k iContact nFinal contact =
          some (contact1, n1) ∧ 1 ≤ n1 := by
  intro k
  induction k with
  | zero =>
    intro i n c _ _ _ h
    obtain ⟨j, lc, h1, h2, -⟩ := h
    omega
  | succ k ih =>
    intro i n c hi hn hc h
    by_cases hge : n ≥ d.m_iFlags &&& NUMC_MASK
    · unfold _ProcessLocalContacts_loop
      simp only [hge, if_true]
      exact ⟨c, n, rfl, by omega⟩
    · have hil : i < d.m_gLocalContacts.length := by omega
      have hli := List.getElem?_eq_getElem hil
      by_cases hfl : (d.m_gLocalContacts[i]).nFlags = 1
      · obtain ⟨c1, n1, e1, a1, -⟩ := ProcessLocalContacts_loop_spec d TriMesh Capsule (k + 1)
          i n c hi hn hc
        refine ⟨c1, n1, e1, ?_⟩
        unfold _ProcessLocalContacts_loop at e1
        simp only [hge, if_false, hli, hfl, if_true, SAFECONTACT_store,
          SAFECONTACT_some d.m_iFlags c n (by omega) (by omega)] at e1
        obtain ⟨c2, n2, e2, a2, -⟩ := ProcessLocalContacts_loop_spec d TriMesh Capsule k
          (i + 1) (n + 1) (c.set n ((d.m_gLocalContacts[i]).toContact TriMesh Capsule))
          (by omega) (by omega) (by simp; exact hc)
        simp only [sLocalContactData.toContact] at e2
        rw [e2] at e1
        cases e1
        omega
      · unfold _ProcessLocalContacts_loop
        simp only [hge, if_false, hli, hfl]
        apply ih (i + 1) n c (by omega) hn hc
        obtain ⟨j, lc, h1, h2, h3, h4⟩ := h
        refine ⟨j, lc, ?_, by omega, h3, h4⟩
        by_contra hcon
        have : j = i := by omega
        subst this
        rw [hli] at h3; cases h3
        exact hfl h4

/-- C38: for capsule collider data within the cap that hold at least one local contact, each
flagged 1 as `_cldTestOneTriangleVSCapsule` stores it: `_OptimizeLocalContacts` returns and
leaves the earliest contact of maximal depth flagged 1, with its data; and
`_ProcessLocalContacts`, given an array with room for the cap, returns at least one
contact. -/
theorem OptimizeLocalContacts_keeps_deepest (d : sTrimeshCapsuleColliderData)
    (contact : List dContactGeom) (TriMesh Capsule : Nat) (hW : d.Within)
    (hpos : 1 ≤ d.m_ctContacts) (hroom : d.m_iFlags &&& NUMC_MASK ≤ contact.length)
    (hflags : ∀ k c, k < d.m_ctContacts → d.m_gLocalContacts[k]? = some c → c.nFlags = 1) :
    (∃ m cm, m < d.m_ctContacts ∧ d.m_gLocalContacts[m]? = some cm ∧
      (∀ k c, k < d.m_ctContacts → d.m_gLocalContacts[k]? = some c → c.fDepth ≤ cm.fDepth) ∧
      (∀ k c, k < m → d.m_gLocalContacts[k]? = some c → c.fDepth < cm.fDepth)) ∧
    (∀ m cm, m < d.m_ctContacts → d.m_gLocalContacts[m]? = some cm →
      (∀ k c, k < d.m_ctContacts → d.m_gLocalContacts[k]? = some c → c.fDepth ≤ cm.fDepth) →
      (∀ k c, k < m → d.m_gLocalContacts[k]? = some c → c.fDepth < cm.fDepth) →
      ∃ d1, d._OptimizeLocalContacts = some d1 ∧
        d1.m_gLocalContacts[m]? = some cm ∧ cm.nFlags = 1) ∧
    (∃ contact1 n, d._ProcessLocalContacts contact TriMesh Capsule = some (contact1, n) ∧
      1 ≤ n) := by
  obtain ⟨hlen, hct⟩ := hW
  have hex := exists_earliest_deepest d.m_gLocalContacts d.m_ctContacts hpos (by omega)
  have hopt : ∀ m cm, m < d.m_ctContacts → d.m_gLocalContacts[m]? = some cm →
      (∀ k c, k < d.m_ctContacts → d.m_gLocalContacts[k]? = some c → c.fDepth ≤ cm.fDepth) →
      (∀ k c, k < m → d.m_gLocalContacts[k]? = some c → c.fDepth < cm.fDepth) →
      ∃ d1, d._OptimizeLocalContacts = some d1 ∧ d1.m_ctContacts = d.m_ctContacts ∧
        d1.m_iFlags = d.m_iFlags ∧ d1.m_gLocalContacts.length = d.m_gLocalContacts.length ∧
        d1.m_gLocalContacts[m]? = some cm := by
    intro m cm hm hcm hmax hearly
    have hk : DeepestKept d.m_ctContacts m d.m_gLocalContacts :=
      ⟨hm, by omega, cm, hcm, hflags m cm hm hcm, hmax, hearly⟩
    obtain ⟨cs1, e1, k1⟩ := OptimizeLocalContacts_outer_keeps d.m_ctContacts m
      (d.m_ctContacts - 1) 0 d.m_gLocalContacts (by omega) hk
    obtain ⟨cs2, e2, dm, -⟩ := OptimizeLocalContacts_outer_spec d.m_ctContacts
      (d.m_ctContacts - 1) 0 d.m_gLocalContacts (by omega) (by omega)
      (fun a b ha _ _ => absurd ha (by omega))
    rw [e1] at e2; cases e2
    obtain ⟨-, -, cm1, f1, f2, -, -⟩ := k1
    obtain ⟨c1, g1, g2, g3, g4, g5, -⟩ := dm.2 m cm hcm
    rw [f1] at g1; cases g1
    refine ⟨{ d with m_gLocalContacts := cs1 }, ?_, rfl, rfl, dm.1, ?_⟩
    · simp only [sTrimeshCapsuleColliderData._OptimizeLocalContacts, e1]
    · simp only [f1]
      obtain ⟨p, q, r, t, u⟩ := cm
      obtain ⟨p1, q1, r1, t1, u1⟩ := cm1
      simp only at g2 g3 g4 g5 f2
      have hu : u = 1 := hflags m _ hm hcm
      subst g2; subst g3; subst g4; subst g5; subst f2; subst hu
      rfl
  refine ⟨hex, fun m cm a b c e => ?_, ?_⟩
  · obtain ⟨d1, x1, -, -, -, x5⟩ := hopt m cm a b c e
    exact ⟨d1, x1, x5, hflags m cm a b⟩
  · obtain ⟨m, cm, hm, hcm, hmax, hearly⟩ := hex
    have hcap : 1 ≤ d.m_iFlags &&& NUMC_MASK := by omega
    unfold sTrimeshCapsuleColliderData._ProcessLocalContacts
    by_cases hc : d.m_ctContacts > 1 ∧ d.m_iFlags &&& CONTACTS_UNIMPORTANT = 0
    · obtain ⟨d1, x1, x2, x3, x4, x5⟩ := hopt m cm hm hcm hmax hearly
      simp only [hc, and_self, if_true, x1]
      apply ProcessLocalContacts_loop_emits d1 TriMesh Capsule (by rw [x3]; exact hcap)
        d1.m_ctContacts 0 0 contact (by omega) (by omega) (by rw [x3]; exact hroom)
      exact ⟨m, cm, by omega, by omega, x5, hflags m cm hm hcm⟩
    · simp only [hc, if_false]
      apply ProcessLocalContacts_loop_emits d TriMesh Capsule hcap
        d.m_ctContacts 0 0 contact (by omega) (by omega) hroom
      exact ⟨m, cm, by omega, by omega, hcm, hflags m cm hm hcm⟩

/-- C38 on the sample data: two near contacts of depths 1 and 2, cap 2. -/
theorem OptimizeLocalContacts_keeps_deepest_witness :
    sampleLocalContacts.Within ∧ 1 ≤ sampleLocalContacts.m_ctContacts ∧
    sampleLocalContacts.m_iFlags &&& NUMC_MASK ≤
      (List.replicate 2 sampleContact).length ∧
    (∀ k c, k < sampleLocalContacts.m_ctContacts →
      sampleLocalContacts.m_gLocalContacts[k]? = some c → c.nFlags = 1) ∧
    (∃ m cm, m < sampleLocalContacts.m_ctContacts ∧
      sampleLocalContacts.m_gLocalContacts[m]? = some cm ∧
      (∀ k c, k < sampleLocalContacts.m_ctContacts →
        sampleLocalContacts.m_gLocalContacts[k]? = some c → c.fDepth ≤ cm.fDepth) ∧
      (∀ k c, k < m → sampleLocalContacts.m_gLocalContacts[k]? = some c →
        c.fDepth < cm.fDepth)) ∧
    (∀ m cm, m < sampleLocalContacts.m_ctContacts →
      sampleLocalContacts.m_gLocalContacts[m]? = some cm →
      (∀ k c, k < sampleLocalContacts.m_ctContacts →
        sampleLocalContacts.m_gLocalContacts[k]? = some c → c.fDepth ≤ cm.fDepth) →
      (∀ k c, k < m → sampleLocalContacts.m_gLocalContacts[k]? = some c →
        c.fDepth < cm.fDepth) →
      ∃ d1, sampleLocalContacts._OptimizeLocalContacts = some d1 ∧
        d1.m_gLocalContacts[m]? = some cm ∧ cm.nFlags = 1) ∧
    (∃ contact1 n, sampleLocalContacts._ProcessLocalContacts (List.replicate 2 sampleContact)
      7 8 = some (contact1, n) ∧ 1 ≤ n) := by
  have hW : sampleLocalContacts.Within := by
    constructor <;> decide
  have hf : ∀ k c, k < sampleLocalContacts.m_ctContacts →
      sampleLocalContacts.m_gLocalContacts[k]? = some c → c.nFlags = 1 := by
    intro k c hk hc
    have hk2 : k < 2 := hk
    have : k = 0 ∨ k = 1 := by omega
    rcases this with rfl | rfl <;> simp [sampleLocalContacts] at hc <;> subst hc <;> rfl
  exact ⟨hW, by decide, by decide, hf,
    OptimizeLocalContacts_keeps_deepest sampleLocalContacts (List.replicate 2 sampleContact)
      7 8 hW (by decide) (by decide) hf⟩

/-! ### Box collider: the edge-edge branch of the clipping -/

/-- The sample triangle against the sample box: `_cldTestSeparatingAxes` returns true and
leaves axis 6 as best axis, with depth one tenth and the normal `(0, 3/5, 4/5)`. -/
theorem sample_separatingAxes :
    sampleBox._cldTestSeparatingAxes (1 / 100000) 1000000 sampleRecipSqrt ⟨⟨0, 0, 0⟩, 0, 0⟩
      ⟨⟨0, 0, 0⟩, ⟨0, 0, 0⟩, ⟨0, 0, 0⟩, ⟨0, 0, 0⟩⟩ sampleEdgeTriangle.1 sampleEdgeTriangle.2.1
      sampleEdgeTriangle.2.2 =
    (true, ⟨⟨0, 3 / 5, 4 / 5⟩, 1 / 10, 6⟩,
      ⟨⟨0, 0, 3⟩, ⟨0, -4, 3⟩, ⟨0, -4, 0⟩, ⟨1, 0, 0⟩⟩) := by
  simp only [sTrimeshBoxColliderBox._cldTestSeparatingAxes, sampleBox, sampleEdgeTriangle,
    Point.sub, Point.cross, Point.dot, Point.scale, Point.at, dCalcVectorLengthSquare3]
  norm_num [sepStep, sTrimeshBoxColliderAxes._cldTestNormal,
    sTrimeshBoxColliderAxes._cldTestFace, sTrimeshBoxColliderAxes._cldTestEdge,
    sampleRecipSqrt, Point.scale, dCalcVectorLengthSquare3, abs_of_nonneg, abs_of_neg]

/-- C31 fails in the code. For every state with an edge axis as best axis, the edge-edge
branch of `_cldClipping` hands to `_cldClosestPointOnTwoLines` the box axis of index
`(m_iBestAxis - 5) % 3`, the row at `m_BoxRotTransposed + 4 * iEdge`, together with the
triangle edge of that same index; the index `(k - 5) / 3` of the box axis from which
`_cldTestSeparatingAxes` forms axis `k` is that index for the axes 5, 9 and 13 only. For the
sample triangle `_cldTestSeparatingAxes` leaves axis 6 as best axis, with the normal
`(0, 3/5, 4/5)` along the cross product of the box axis 0 and the edge `m_vE1`, and the
branch takes the box axis 1, `(0, 1, 0)`, which is not perpendicular to that normal. -/
theorem cldClipping_edge_axis_mismatch :
    (∀ (dV3E : Nat) (dNormalize3 : dVector3 → Option dVector3) (b : sTrimeshBoxColliderBox)
      (a : sTrimeshBoxColliderAxes) (e : sTrimeshBoxColliderEdges) (v0 v1 v2 : dVector3),
      4 < a.m_iBestAxis →
      b._cldClipping_lines dV3E dNormalize3 a e v0 v1 v2 =
        (dNormalize3 (if (a.m_iBestAxis - 5) % 3 = 0 then e.m_vE0
            else if (a.m_iBestAxis - 5) % 3 = 1 then e.m_vE1 else e.m_vE2)).map fun vub =>
          (b._cldClipping_vPa dV3E a.m_vBestNormal,
            b.m_BoxRotTransposed (4 * ((a.m_iBestAxis - 5) % 3).toNat),
            if (a.m_iBestAxis - 5) % 3 = 0 then v0
              else if (a.m_iBestAxis - 5) % 3 = 1 then v2 else v1,
            vub)) ∧
    (∀ k : Int, 5 ≤ k → k ≤ 13 → ((k - 5) / 3 = (k - 5) % 3 ↔ k = 5 ∨ k = 9 ∨ k = 13)) ∧
    sampleBox._cldTestSeparatingAxes (1 / 100000) 1000000 sampleRecipSqrt ⟨⟨0, 0, 0⟩, 0, 0⟩
      ⟨⟨0, 0, 0⟩, ⟨0, 0, 0⟩, ⟨0, 0, 0⟩, ⟨0, 0, 0⟩⟩ sampleEdgeTriangle.1 sampleEdgeTriangle.2.1
      sampleEdgeTriangle.2.2 =
    (true, ⟨⟨0, 3 / 5, 4 / 5⟩, 1 / 10, 6⟩,
      ⟨⟨0, 0, 3⟩, ⟨0, -4, 3⟩, ⟨0, -4, 0⟩, ⟨1, 0, 0⟩⟩) ∧
    (⟨0, 3 / 5, 4 / 5⟩ : dVector3) =
      ((sampleBox.m_BoxRotTransposed 0).cross ⟨0, -4, 3⟩).scale (-(1 / 5)) ∧
    sampleBox._cldClipping_lines 4 (fun v => some (v.scale (1 / 5))) ⟨⟨0, 3 / 5, 4 / 5⟩, 1 / 10, 6⟩
      ⟨⟨0, 0, 3⟩, ⟨0, -4, 3⟩, ⟨0, -4, 0⟩, ⟨1, 0, 0⟩⟩ sampleEdgeTriangle.1 sampleEdgeTriangle.2.1
      sampleEdgeTriangle.2.2 =
    some (sampleBox._cldClipping_vPa 4 ⟨0, 3 / 5, 4 / 5⟩, ⟨0, 1, 0⟩, sampleEdgeTriangle.2.2,
      ⟨0, -4 / 5, 3 / 5⟩) ∧
    (⟨0, 3 / 5, 4 / 5⟩ : dVector3).dot (sampleBox.m_BoxRotTransposed 0) = 0 ∧
    (⟨0, 3 / 5, 4 / 5⟩ : dVector3).dot ⟨0, 1, 0⟩ ≠ 0 := by
  refine ⟨?_, ?_, sample_separatingAxes, ?_, ?_, ?_, ?_⟩
  · intro dV3E dNormalize3 b a e v0 v1 v2 _
    simp only [sTrimeshBoxColliderBox._cldClipping_lines]
    by_cases h0 : (a.m_iBestAxis - 5) % 3 = 0
    · simp only [h0, if_true]
    · by_cases h1 : (a.m_iBestAxis - 5) % 3 = 1
      · simp [h1]
      · simp only [h0, h1, if_false]
  · intro k h5 h13
    omega
  · simp [sampleBox, Point.cross, Point.scale]
    norm_num
  · simp [sTrimeshBoxColliderBox._cldClipping_lines, sampleBox, sampleEdgeTriangle,
      Point.scale]
    norm_num
  · simp [sampleBox, Point.dot]
  · simp [Point.dot]

/-- C32 fails in the code. In the edge-edge branch of `_cldClipping` the third offset of the
point on the box edge is `+m_vBoxHalfSize[2]` along the third vector read whenever the dot
product of the best normal with that vector is not zero, so also when it is negative; for the
sample box read axis by axis and the best normal `(3/5, 0, -4/5)` the point is `(1, -1, 1)`.
Moreover the second and the third vector are read through a `dVector3*` moved on by
`rot += 4`: with four `dReal` in a `dVector3` they are the vectors at the offsets 16 and 32,
behind the matrix, and the rows at the offsets 4 and 8 do not enter the point. -/
theorem cldClipping_vPa_third_offset :
    (∀ (dV3E : Nat) (b : sTrimeshBoxColliderBox) (m_vBestNormal : dVector3),
      m_vBestNormal.dot (b.m_BoxRotTransposed (dV3E * 8)) < 0 →
      b._cldClipping_vPa dV3E m_vBestNormal =
        dAddScaledVector3r4 (b._cldClipping_vPa01 dV3E m_vBestNormal)
          (b.m_BoxRotTransposed (dV3E * 8)) (b.m_vBoxHalfSize.at 2)) ∧
    sampleBox._cldClipping_vPa 1 ⟨3 / 5, 0, -4 / 5⟩ = ⟨1, -1, 1⟩ ∧
    (∀ (b b2 : sTrimeshBoxColliderBox) (m_vBestNormal : dVector3),
      b2.m_vHullBoxPos = b.m_vHullBoxPos → b2.m_vBoxHalfSize = b.m_vBoxHalfSize →
      b2.m_BoxRotTransposed 0 = b.m_BoxRotTransposed 0 →
      b2.m_BoxRotTransposed 16 = b.m_BoxRotTransposed 16 →
      b2.m_BoxRotTransposed 32 = b.m_BoxRotTransposed 32 →
      b2._cldClipping_vPa 4 m_vBestNormal = b._cldClipping_vPa 4 m_vBestNormal) := by
  refine ⟨?_, ?_, ?_⟩
  · intro dV3E b N h
    have hne : N.dot (b.m_BoxRotTransposed (dV3E * 8)) ≠ 0 := ne_of_lt h
    simp only [sTrimeshBoxColliderBox._cldClipping_vPa]
    rw [if_pos hne]
  · simp [sTrimeshBoxColliderBox._cldClipping_vPa, sTrimeshBoxColliderBox._cldClipping_vPa01,
      sampleBox, Point.dot, Point.at, dAddScaledVector3r4]
  · intro b b2 N h1 h2 h3 h4 h5
    simp only [sTrimeshBoxColliderBox._cldClipping_vPa,
      sTrimeshBoxColliderBox._cldClipping_vPa01, h1, h2, h3, h4, h5, Nat.mul_zero,
      Nat.zero_add, Nat.reduceMul, Nat.reduceAdd]

/-! ### Convex polygons: a clip adds at most one vertex -/

/-- Method `_cldTestNormal` keeps the best depth not negative. -/
theorem cldTestNormal_depthOk (dEpsilon : ℚ) (d : sTrimeshBoxColliderAxes)
    (depth : ℚ) (vNormal : dVector3) (hd : d.DepthOk) :
    (d._cldTestNormal dEpsilon depth vNormal).2.DepthOk := by
  unfold sTrimeshBoxColliderAxes._cldTestNormal
  split_ifs with h1 h2
  · exact hd
  · left; simp only; omega
  · exact hd

/-- Method `_cldTestFace` keeps the best depth not negative. -/
theorem cldTestFace_depthOk (d : sTrimeshBoxColliderAxes) (fp0 fp1 fp2 fR : ℚ)
    (vNormal : dVector3) (iAxis : Int) (hd : d.DepthOk) :
    (d._cldTestFace fp0 fp1 fp2 fR vNormal iAxis).2.DepthOk := by
  unfold sTrimeshBoxColliderAxes._cldTestFace
  simp only
  split_ifs <;> first
    | exact hd
    | (right; simp only; linarith)

/-- Method `_cldTestEdge` keeps the best depth not negative. -/
theorem cldTestEdge_depthOk (dEpsilon : ℚ) (dRecipSqrt : ℚ → ℚ) (hR : ∀ x, 0 ≤ dRecipSqrt x)
    (d : sTrimeshBoxColliderAxes) (fp0 fp1 fR : ℚ) (vNormal : dVector3) (iAxis : Int)
    (hd : d.DepthOk) :
    (d._cldTestEdge dEpsilon dRecipSqrt fp0 fp1 fR vNormal iAxis).2.DepthOk := by
  unfold sTrimeshBoxColliderAxes._cldTestEdge
  simp only
  have hr := hR (dCalcVectorLengthSquare3 vNormal)
  split_ifs <;> first
    | exact hd
    | (right; simp only; apply mul_nonneg _ hr; linarith)

/-- One step of `_cldTestSeparatingAxes` that succeeds hands on a best depth that is not
negative. -/
theorem sepStep_depthOk (r : Bool × sTrimeshBoxColliderAxes) (k : Int)
    (e : sTrimeshBoxColliderEdges)
    (next : sTrimeshBoxColliderAxes →
      Bool × sTrimeshBoxColliderAxes × sTrimeshBoxColliderEdges)
    (h : (sepStep r k e next).1 = true) (hr : r.2.DepthOk)
    (hnext : ∀ a, a.DepthOk → (next a).1 = true → (next a).2.1.DepthOk) :
    (sepStep r k e next).2.1.DepthOk := by
  unfold sepStep at h ⊢
  by_cases h1 : r.1 = true
  · rw [if_pos h1] at h ⊢
    exact hnext _ hr h
  · rw [if_neg h1] at h
    cases h

/-- When `_cldTestSeparatingAxes` returns true with a box face or an edge axis as best axis,
the best depth is not negative. -/
theorem cldTestSeparatingAxes_depthOk (dEpsilon MAXVALUE : ℚ) (dRecipSqrt : ℚ → ℚ)
    (hR : ∀ x, 0 ≤ dRecipSqrt x) (b : sTrimeshBoxColliderBox)
    (a : sTrimeshBoxColliderAxes) (e : sTrimeshBoxColliderEdges) (v0 v1 v2 : dVector3)
    (h : (b._cldTestSeparatingAxes dEpsilon MAXVALUE dRecipSqrt a e v0 v1 v2).1 = true) :
    (b._cldTestSeparatingAxes dEpsilon MAXVALUE dRecipSqrt a e v0 v1 v2).2.1.DepthOk := by
  unfold sTrimeshBoxColliderBox._cldTestSeparatingAxes at h ⊢
  simp only at h ⊢
  split_ifs at h ⊢ with h0
  refine sepStep_depthOk _ _ _ _ h
    (cldTestNormal_depthOk dEpsilon _ _ _ (Or.inl (by simp))) (fun a ha hx => ?_)
  refine sepStep_depthOk _ _ _ _ hx (cldTestFace_depthOk _ _ _ _ _ _ _ ha) (fun a ha hx => ?_)
  refine sepStep_depthOk _ _ _ _ hx (cldTestFace_depthOk _ _ _ _ _ _ _ ha) (fun a ha hx => ?_)
  refine sepStep_depthOk _ _ _ _ hx (cldTestFace_depthOk _ _ _ _ _ _ _ ha) (fun a ha hx => ?_)
  refine sepStep_depthOk _ _ _ _ hx (cldTestEdge_depthOk dEpsilon dRecipSqrt hR _ _ _ _ _ _ ha)
    (fun a ha hx => ?_)
  refine sepStep_depthOk _ _ _ _ hx (cldTestEdge_depthOk dEpsilon dRecipSqrt hR _ _ _ _ _ _ ha)
    (fun a ha hx => ?_)
  refine sepStep_depthOk _ _ _ _ hx (cldTestEdge_depthOk dEpsilon dRecipSqrt hR _ _ _ _ _ _ ha)
    (fun a ha hx => ?_)
  refine sepStep_depthOk _ _ _ _ hx (cldTestEdge_depthOk dEpsilon dRecipSqrt hR _ _ _ _ _ _ ha)
    (fun a ha hx => ?_)
  refine sepStep_depthOk _ _ _ _ hx (cldTestEdge_depthOk dEpsilon dRecipSqrt hR _ _ _ _ _ _ ha)
    (fun a ha hx => ?_)
  refine sepStep_depthOk _ _ _ _ hx (cldTestEdge_depthOk dEpsilon dRecipSqrt hR _ _ _ _ _ _ ha)
    (fun a ha hx => ?_)
  refine sepStep_depthOk _ _ _ _ hx (cldTestEdge_depthOk dEpsilon dRecipSqrt hR _ _ _ _ _ _ ha)
    (fun a ha hx => ?_)
  refine sepStep_depthOk _ _ _ _ hx (cldTestEdge_depthOk dEpsilon dRecipSqrt hR _ _ _ _ _ _ ha)
    (fun a ha hx => ?_)
  refine sepStep_depthOk _ _ _ _ hx (cldTestEdge_depthOk dEpsilon dRecipSqrt hR _ _ _ _ _ _ ha)
    (fun a ha _ => ?_)
  exact ha

/-- Replacing a contact by one whose depth is not negative. -/
theorem nonNegDepths_set (C : List dContactGeom) (n i : Nat) (v : dContactGeom)
    (h : NonNegDepths C n) (hv : 0 ≤ v.depth) : NonNegDepths (C.set i v) n := by
  intro j c hj hc
  by_cases e : j = i
  · subst e
    have hl : j < C.length := by
      by_contra hcon
      rw [List.getElem?_eq_none (by simpa using hcon)] at hc
      cases hc
    rw [getElem?_set_same C j v hl] at hc
    cases hc
    exact hv
  · rw [List.getElem?_set_ne (Ne.symm e)] at hc
    exact h j c hj hc

/-- The duplicate scan of `GenerateContact` keeps the stored depths not negative. -/
theorem GenerateContact_scan_nonneg (dEpsilon : ℚ) (Flags : Nat) (p nrm : dVector3) (dep : ℚ)
    (hdep : 0 ≤ dep) (n : Nat) :
    ∀ (k i : Nat) (C : List dContactGeom) (dup : Bool) (C1 : List dContactGeom) (dup1 : Bool),
      GenerateContact_scan dEpsilon Flags p nrm dep k i C dup = some (C1, dup1) →
      i + k ≤ n → NonNegDepths C n → NonNegDepths C1 n := by
  intro k
  induction k with
  | zero =>
    intro i C dup C1 dup1 h _ hC
    simp only [GenerateContact_scan, Option.some.injEq, Prod.mk.injEq] at h
    rw [← h.1]; exact hC
  | succ k ih =>
    intro i C dup C1 dup1 h hik hC
    rw [GenerateContact_scan] at h
    cases hs : SAFECONTACT Flags C i with
    | none => simp only [hs] at h; cases h
    | some Contact =>
      simp only [hs] at h
      have hci : C[i]? = some Contact := by
        simp only [SAFECONTACT] at hs
        split_ifs at hs
        exact hs
      split_ifs at h with hm hd
      · exact ih _ _ _ _ _ h (by omega) (nonNegDepths_set C n i _ hC hdep)
      · exact ih _ _ _ _ _ h (by omega)
          (nonNegDepths_set C n i _ hC (hC i Contact (by omega) hci))
      · exact ih _ _ _ _ _ h (by omega) hC

/-- Function `GenerateContact` called with a depth that is not negative keeps the stored
depths not negative. -/
theorem GenerateContact_nonneg (dEpsilon : ℚ) (Flags : Nat) (C : List dContactGeom)
    (g1 g2 : Nat) (TriIndex : Int) (p nrm : dVector3) (dep : ℚ) (count : Nat)
    (C1 : List dContactGeom) (count1 : Nat) (hdep : 0 ≤ dep) (hC : NonNegDepths C count)
    (h : GenerateContact dEpsilon Flags C g1 g2 TriIndex p nrm dep count = some (C1, count1)) :
    NonNegDepths C1 count1 := by
  have hadd : ∀ (Cs : List dContactGeom), NonNegDepths Cs count →
      (match SAFECONTACT_store Flags Cs count (fun _ =>
          { pos := p, normal := nrm, depth := dep, g1 := g1, g2 := g2, side1 := TriIndex,
            side2 := -1 }) with
        | none => none
        | some Contacts1 => some (Contacts1, count + 1)) = some (C1, count1) →
      NonNegDepths C1 count1 := by
    intro Cs hCs hx
    simp only [SAFECONTACT_store] at hx
    cases hs : SAFECONTACT Flags Cs count with
    | none => simp only [hs] at hx; cases hx
    | some c =>
      simp only [hs, Option.some.injEq, Prod.mk.injEq] at hx
      obtain ⟨e1, e2⟩ := hx
      subst e1; subst e2
      intro j cj hj hcj
      by_cases e : j = count
      · subst e
        have hl : j < Cs.length := by
          by_contra hcon
          rw [List.getElem?_eq_none (by simpa using hcon)] at hcj
          cases hcj
        rw [getElem?_set_same Cs j _ hl] at hcj
        cases hcj
        exact hdep
      · rw [List.getElem?_set_ne (Ne.symm e)] at hcj
        exact hCs j cj (by omega) hcj
  unfold GenerateContact at h
  simp only at h
  by_cases hcu : Flags &&& CONTACTS_UNIMPORTANT = 0
  · rw [if_pos hcu] at h
    cases hs : GenerateContact_scan dEpsilon Flags p nrm dep count 0 C false with
    | none => simp only [hs] at h; cases h
    | some r =>
      obtain ⟨Cs, dup⟩ := r
      simp only [hs] at h
      have hCs := GenerateContact_scan_nonneg dEpsilon Flags p nrm dep hdep count count 0 C
        false Cs dup hs (by omega) hC
      split_ifs at h with hd
      · simp only [Option.some.injEq, Prod.mk.injEq] at h
        rw [← h.1, ← h.2]; exact hCs
      · exact hadd Cs hCs h
  · rw [if_neg hcu] at h
    split_ifs at h with hlt
    exact hadd C hC h

/-- The loop of `_cldClipping` over the vertices of a clipped polygon keeps the stored depths
not negative when the depths of the vertices are not negative. -/
theorem clipLoop_nonneg (dEpsilon : ℚ) (TriIndex : Int) (m_vBestNormal : dVector3) :
    ∀ (l : List (dVector3 × ℚ)) (d d1 : sTrimeshBoxColliderData),
      (∀ q, q ∈ l → 0 ≤ q.2) → NonNegDepths d.m_ContactGeoms d.m_ctContacts →
      sTrimeshBoxColliderData.clipLoop dEpsilon TriIndex m_vBestNormal l d = some d1 →
      NonNegDepths d1.m_ContactGeoms d1.m_ctContacts := by
  intro l
  induction l with
  | nil =>
    intro d d1 _ hd h
    simp only [sTrimeshBoxColliderData.clipLoop, Option.some.injEq] at h
    rw [← h]; exact hd
  | cons q rest ih =>
    intro d d1 hl hd h
    obtain ⟨vPntTmp, fTempDepth⟩ := q
    rw [sTrimeshBoxColliderData.clipLoop] at h
    cases hg : GenerateContact dEpsilon d.m_iFlags d.m_ContactGeoms d.m_Geom1 d.m_Geom2
        TriIndex vPntTmp m_vBestNormal fTempDepth d.m_ctContacts with
    | none => simp only [hg] at h; cases h
    | some r =>
      obtain ⟨Cs, count⟩ := r
      simp only [hg] at h
      have hn := GenerateContact_nonneg _ _ _ _ _ _ _ _ _ _ _ _
        (hl (vPntTmp, fTempDepth) (List.mem_cons_self _ _)) hd hg
      split_ifs at h with hc
      · simp only [Option.some.injEq] at h
        rw [← h]; exact hn
      · exact ih _ _ (fun q hq => hl q (List.mem_cons_of_mem _ hq)) hn h

/-- Method `_cldTestOneTriangle` keeps the stored depths not negative when the depths that the
geometry yields are not negative. -/
theorem cldTestOneTriangle_nonneg (dEpsilon : ℚ) (d d1 : sTrimeshBoxColliderData)
    (tri : BoxCandidate) (r : Bool)
    (h1 : tri.separatingAxes = true → 4 < tri.m_iBestAxis → 0 ≤ tri.m_fBestDepth)
    (h2 : ∀ q, q ∈ tri.clippedOnTriangle → 0 ≤ q.2)
    (h3 : ∀ q, q ∈ tri.clippedOnBox → 0 ≤ q.2)
    (hd : NonNegDepths d.m_ContactGeoms d.m_ctContacts)
    (h : d._cldTestOneTriangle dEpsilon tri = some (r, d1)) :
    NonNegDepths d1.m_ContactGeoms d1.m_ctContacts := by
  unfold sTrimeshBoxColliderData._cldTestOneTriangle at h
  by_cases hs : tri.separatingAxes = true
  · rw [if_pos hs] at h
    by_cases ha : tri.m_iBestAxis > 0
    · rw [if_pos ha] at h
      cases hc : d._cldClipping dEpsilon tri with
      | none => simp only [hc] at h; cases h
      | some d2 =>
        simp only [hc, Option.some.injEq, Prod.mk.injEq] at h
        rw [← h.2]
        unfold sTrimeshBoxColliderData._cldClipping at hc
        split_ifs at hc with c1 c2 c3
        · cases hg : GenerateContact dEpsilon d.m_iFlags d.m_ContactGeoms d.m_Geom1 d.m_Geom2
              tri.Triint tri.edgePoint tri.m_vBestNormal tri.m_fBestDepth d.m_ctContacts with
          | none => simp only [hg] at hc; cases hc
          | some x =>
            obtain ⟨Cs, count⟩ := x
            simp only [hg, Option.some.injEq] at hc
            rw [← hc]
            exact GenerateContact_nonneg _ _ _ _ _ _ _ _ _ _ _ _ (h1 hs c2) hd hg
        · exact clipLoop_nonneg _ _ _ _ _ _ h2 hd hc
        · exact clipLoop_nonneg _ _ _ _ _ _ h3 hd hc
    · rw [if_neg ha] at h
      simp only [Option.some.injEq, Prod.mk.injEq] at h
      rw [← h.2]; exact hd
  · rw [if_neg hs] at h
    simp only [Option.some.injEq, Prod.mk.injEq] at h
    rw [← h.2]; exact hd

/-- The depths that the box-face branch of `_cldClipping` passes on are not negative. -/
theorem cldClipping_box_nonneg (b : sTrimeshBoxColliderBox) (a : sTrimeshBoxColliderAxes)
    (v0 v1 v2 : dVector3) (l : List (dVector3 × ℚ))
    (hx : b._cldClipping_box a v0 v1 v2 = some l) : ∀ q, q ∈ l → 0 ≤ q.2 := by
  intro q hq
  unfold sTrimeshBoxColliderBox._cldClipping_box at hx
  simp only at hx
  by_cases hr : a.m_iBestAxis - 2 < 0 ∨ 2 < a.m_iBestAxis - 2
  · rw [if_pos hr] at hx; cases hx
  · rw [if_neg hr] at hx
    obtain ⟨c, -, hc⟩ := Option.map_eq_some'.1 hx
    rw [← hc] at hq
    obtain ⟨pt, -, rfl⟩ := List.mem_map.1 hq
    simp only
    split_ifs with hpos
    · simp
    · linarith [not_lt.1 hpos]

/-- The depths that the geometry of the box collider yields for a candidate triangle are not
negative. -/
theorem candidate_nonneg (dV3E : Nat) (dEpsilon MAXVALUE : ℚ) (dRecipSqrt : ℚ → ℚ)
    (hR : ∀ x, 0 ≤ dRecipSqrt x) (dNormalize3 : dVector3 → Option dVector3)
    (b : sTrimeshBoxColliderBox) (a : sTrimeshBoxColliderAxes) (e : sTrimeshBoxColliderEdges)
    (Triint : Int) (callbackResult indeterminate : Bool) (v0 v1 v2 : dVector3)
    (tri : BoxCandidate)
    (h : b.candidate dV3E dEpsilon MAXVALUE dRecipSqrt dNormalize3 a e Triint callbackResult
      indeterminate v0 v1 v2 = some tri) :
    (tri.separatingAxes = true → 4 < tri.m_iBestAxis → 0 ≤ tri.m_fBestDepth) ∧
    (∀ q, q ∈ tri.clippedOnTriangle → 0 ≤ q.2) ∧ (∀ q, q ∈ tri.clippedOnBox → 0 ≤ q.2) := by
  have hok := cldTestSeparatingAxes_depthOk dEpsilon MAXVALUE dRecipSqrt hR b a e v0 v1 v2
  have hdepth : (b._cldTestSeparatingAxes dEpsilon MAXVALUE dRecipSqrt a e v0 v1 v2).1 = true →
      4 < (b._cldTestSeparatingAxes dEpsilon MAXVALUE dRecipSqrt a e v0 v1 v2).2.1.m_iBestAxis →
      0 ≤ (b._cldTestSeparatingAxes dEpsilon MAXVALUE dRecipSqrt a e v0 v1
        v2).2.1.m_fBestDepth := by
    intro hs ha
    rcases hok hs with h0 | h0
    · omega
    · exact h0
  unfold sTrimeshBoxColliderBox.candidate at h
  simp only at h
  split_ifs at h with c1 c2 c3
  · cases hx : b._cldClipping_edge dV3E dEpsilon dNormalize3
        (b._cldTestSeparatingAxes dEpsilon MAXVALUE dRecipSqrt a e v0 v1 v2).2.1
        (b._cldTestSeparatingAxes dEpsilon MAXVALUE dRecipSqrt a e v0 v1 v2).2.2 v0 v1 v2 with
    | none => rw [hx] at h; cases h
    | some p =>
      rw [hx] at h
      simp only [Option.map_some', Option.some.injEq] at h
      subst h
      exact ⟨hdepth, fun q hq => (by cases hq), fun q hq => (by cases hq)⟩
  · cases hx : b._cldClipping_triangle dNormalize3
        (b._cldTestSeparatingAxes dEpsilon MAXVALUE dRecipSqrt a e v0 v1 v2).2.1
        (b._cldTestSeparatingAxes dEpsilon MAXVALUE dRecipSqrt a e v0 v1 v2).2.2 v0 v1 v2 with
    | none => rw [hx] at h; cases h
    | some l =>
      rw [hx] at h
      simp only [Option.map_some', Option.some.injEq] at h
      subst h
      refine ⟨hdepth, ?_, fun q hq => (by cases hq)⟩
      intro q hq
      simp only at hq
      simp only [sTrimeshBoxColliderBox._cldClipping_triangle] at hx
      cases hf : _cldClipping_faceClips dNormalize3 (b._cldClipping_face
          (b._cldTestSeparatingAxes dEpsilon MAXVALUE dRecipSqrt a e v0 v1 v2).2.1.m_vBestNormal
          v0) (b._cldTestSeparatingAxes dEpsilon MAXVALUE dRecipSqrt a e v0 v1
          v2).2.2.m_vNnorm v0 v1 v2 with
      | none => rw [hf] at hx; cases hx
      | some c =>
        rw [hf] at hx
        simp only [Option.map_some', Option.some.injEq] at hx
        rw [← hx] at hq
        obtain ⟨pt, -, rfl⟩ := List.mem_map.1 hq
        simp only
        split_ifs with hneg
        · exact le_refl _
        · exact not_lt.1 hneg
  · cases hx : b._cldClipping_box
        (b._cldTestSeparatingAxes dEpsilon MAXVALUE dRecipSqrt a e v0 v1 v2).2.1 v0 v1 v2 with
    | none => rw [hx] at h; cases h
    | some l =>
      rw [hx] at h
      simp only [Option.map_some', Option.some.injEq] at h
      subst h
      refine ⟨hdepth, fun q hq => (by cases hq), ?_⟩
      intro q hq
      simp only at hq
      exact cldClipping_box_nonneg b _ v0 v1 v2 l hx q hq
  · simp only [Option.some.injEq] at h
    subst h
    exact ⟨hdepth, fun q hq => (by cases hq), fun q hq => (by cases hq)⟩

/-- With `dEpsilon > 0` the edge clips of the capsule collider return. -/
theorem clipEdgeToPlaneNorm_returns (dEpsilon : ℚ) (hEps : 0 < dEpsilon)
    (vEpnt0 vEpnt1 plPlane : dVector3) (offset : ℚ) :
    (∃ r, _cldClipEdgeToPlaneNorm dEpsilon vEpnt0 vEpnt1 plPlane offset = some r) ∧
    (∃ r, _cldClipEdgeToPlaneNormNoOffset dEpsilon vEpnt0 vEpnt1 plPlane = some r) := by
  obtain ⟨r, e0, e1, h, -⟩ := clipEdgeToPlane_spec dEpsilon hEps
    (fun v => v.dot plPlane + offset) (affineOn_plane plPlane offset) vEpnt0 vEpnt1
  obtain ⟨r2, f0, f1, h2, -⟩ := clipEdgeToPlane_spec dEpsilon hEps
    (fun v => v.dot plPlane) (affineOn_origin plPlane) vEpnt0 vEpnt1
  exact ⟨⟨_, h⟩, ⟨_, h2⟩⟩

/-- The depths that the clipping part of `_cldTestOneTriangleVSCapsule` yields are not
negative, and with `dEpsilon > 0` that part returns. -/
theorem cldTestOneTriangleVSCapsule_clip_nonneg (dEpsilon : ℚ)
    (m_vCapsulePosition m_vNormal : dVector3) (m_fCapsuleRadius : ℚ) (m_vSizeOnAxis : dVector3)
    (m_fBestCenterrt : ℚ) (t : CapsuleTriangle) (Triint : Int) :
    (∀ c, _cldTestOneTriangleVSCapsule_clip dEpsilon m_vCapsulePosition m_vNormal
        m_fCapsuleRadius m_vSizeOnAxis m_fBestCenterrt t Triint = some c →
      0 ≤ c.fDepth0 ∧ 0 ≤ c.fDepth1) ∧
    (0 < dEpsilon → ∃ c, _cldTestOneTriangleVSCapsule_clip dEpsilon m_vCapsulePosition
        m_vNormal m_fCapsuleRadius m_vSizeOnAxis m_fBestCenterrt t Triint = some c) := by
  have clamp : ∀ x : ℚ, 0 ≤ (if x < 0 then 0 else x) := by
    intro x
    split_ifs with hx
    · exact le_refl _
    · exact not_lt.1 hx
  unfold _cldTestOneTriangleVSCapsule_clip
  simp only
  constructor
  · intro c h
    cases h1 : _cldClipEdgeToPlaneNormNoOffset dEpsilon
        (((dAddScaledVector3r4 m_vCapsulePosition m_vNormal m_fCapsuleRadius).add
          m_vSizeOnAxis).sub t.vPnt0)
        (((dAddScaledVector3r4 m_vCapsulePosition m_vNormal m_fCapsuleRadius).sub
          m_vSizeOnAxis).sub t.vPnt0) (t.m_vN.scale (-1)) with
    | none => rw [h1] at h; cases h
    | some r1 =>
      rw [h1] at h
      simp only [Option.some_bind] at h
      by_cases b1 : r1.1 = true
      · rw [if_neg (not_not.2 b1)] at h
        cases h2 : _cldClipEdgeToPlaneNormNoOffset dEpsilon r1.2.1 r1.2.2
            (t.m_vN.cross t.m_vE0) with
        | none => rw [h2] at h; cases h
        | some r2 =>
          rw [h2] at h
          simp only [Option.some_bind] at h
          by_cases b2 : r2.1 = true
          · rw [if_neg (not_not.2 b2)] at h
            cases h3 : _cldClipEdgeToPlaneNorm dEpsilon r2.2.1 r2.2.2 (t.m_vN.cross t.m_vE1)
                (-(t.m_vE0.dot (t.m_vN.cross t.m_vE1))) with
            | none => rw [h3] at h; cases h
            | some r3 =>
              rw [h3] at h
              simp only [Option.some_bind] at h
              by_cases b3 : r3.1 = true
              · rw [if_neg (not_not.2 b3)] at h
                cases h4 : _cldClipEdgeToPlaneNormNoOffset dEpsilon r3.2.1 r3.2.2
                    (t.m_vN.cross t.m_vE2) with
                | none => rw [h4] at h; cases h
                | some r4 =>
                  rw [h4] at h
                  simp only [Option.some_bind] at h
                  by_cases b4 : r4.1 = true
                  · rw [if_neg (not_not.2 b4)] at h
                    cases h
                    exact ⟨clamp _, clamp _⟩
                  · rw [if_pos b4] at h
                    cases h
                    exact ⟨le_refl _, le_refl _⟩
              · rw [if_pos b3] at h
                cases h
                exact ⟨le_refl _, le_refl _⟩
          · rw [if_pos b2] at h
            cases h
            exact ⟨le_refl _, le_refl _⟩
      · rw [if_pos b1] at h
        cases h
        exact ⟨le_refl _, le_refl _⟩
  · intro hEps
    obtain ⟨r1, h1⟩ := (clipEdgeToPlaneNorm_returns dEpsilon hEps
        (((dAddScaledVector3r4 m_vCapsulePosition m_vNormal m_fCapsuleRadius).add
          m_vSizeOnAxis).sub t.vPnt0)
        (((dAddScaledVector3r4 m_vCapsulePosition m_vNormal m_fCapsuleRadius).sub
          m_vSizeOnAxis).sub t.vPnt0) (t.m_vN.scale (-1)) 0).2
    rw [h1]
    simp only [Option.some_bind]
    by_cases b1 : r1.1 = true
    · rw [if_neg (not_not.2 b1)]
      obtain ⟨r2, h2⟩ := (clipEdgeToPlaneNorm_returns dEpsilon hEps r1.2.1 r1.2.2
        (t.m_vN.cross t.m_vE0) 0).2
      rw [h2]
      simp only [Option.some_bind]
      by_cases b2 : r2.1 = true
      · rw [if_neg (not_not.2 b2)]
        obtain ⟨r3, h3⟩ := (clipEdgeToPlaneNorm_returns dEpsilon hEps r2.2.1 r2.2.2
          (t.m_vN.cross t.m_vE1) (-(t.m_vE0.dot (t.m_vN.cross t.m_vE1)))).1
        rw [h3]
        simp only [Option.some_bind]
        by_cases b3 : r3.1 = true
        · rw [if_neg (not_not.2 b3)]
          obtain ⟨r4, h4⟩ := (clipEdgeToPlaneNorm_returns dEpsilon hEps r3.2.1 r3.2.2
            (t.m_vN.cross t.m_vE2) 0).2
          rw [h4]
          simp only [Option.some_bind]
          by_cases b4 : r4.1 = true
          · rw [if_neg (not_not.2 b4)]
            exact ⟨_, rfl⟩
          · rw [if_pos b4]
            exact ⟨_, rfl⟩
        · rw [if_pos b3]
          exact ⟨_, rfl⟩
      · rw [if_pos b2]
        exact ⟨_, rfl⟩
    · rw [if_pos b1]
      exact ⟨_, rfl⟩

/-- Storing a local contact whose depth is not negative at the end of the buffer. -/
theorem nonNegLocalDepths_push (cs : List sLocalContactData) (n m : Nat)
    (v : sLocalContactData) (h : NonNegLocalDepths cs n) (hv : 0 ≤ v.fDepth)
    (hm : m ≤ n + 1) : NonNegLocalDepths (cs.set n v) m := by
  intro j c hj hc
  by_cases e : j = n
  · subst e
    have hl : j < cs.length := by
      by_contra hcon
      rw [List.getElem?_eq_none (by simpa using hcon)] at hc
      cases hc
    rw [getElem?_set_same cs j v hl] at hc
    cases hc
    exact hv
  · rw [List.getElem?_set_ne (Ne.symm e)] at hc
    exact h j c (by omega) hc

/-- The contact creation of `_cldTestOneTriangleVSCapsule` keeps the depths of the local
contacts not negative when the two clamped depths are not negative. -/
theorem cldTestOneTriangleVSCapsule_nonneg (d d1 : sTrimeshCapsuleColliderData)
    (tri : CapsuleCandidate) (h0 : 0 ≤ tri.fDepth0) (h1 : 0 ≤ tri.fDepth1)
    (hd : NonNegLocalDepths d.m_gLocalContacts d.m_ctContacts)
    (h : d._cldTestOneTriangleVSCapsule tri = some d1) :
    NonNegLocalDepths d1.m_gLocalContacts d1.m_ctContacts := by
  unfold sTrimeshCapsuleColliderData._cldTestOneTriangleVSCapsule at h
  by_cases hr : tri.reachesContacts = true
  · rw [if_neg (not_not.2 hr)] at h
    simp only [sTrimeshCapsuleColliderData.storeLocal] at h
    cases hc : d.m_gLocalContacts[d.m_ctContacts]? with
    | none => simp only [hc] at h; cases h
    | some c =>
      simp only [hc] at h
      have step1 : NonNegLocalDepths (d.m_gLocalContacts.set d.m_ctContacts
          ⟨tri.vCEdgePoint0, tri.m_vNormal, tri.fDepth0, c.triIndex, 1⟩)
          ((d.m_ctContacts + 1) % 2 ^ 32) :=
        nonNegLocalDepths_push _ _ _ _ hd h0 (Nat.mod_le _ _)
      split_ifs at h with hlt
      · cases hc2 : (d.m_gLocalContacts.set d.m_ctContacts
            ⟨tri.vCEdgePoint0, tri.m_vNormal, tri.fDepth0, c.triIndex, 1⟩)[(d.m_ctContacts + 1)
              % 2 ^ 32]? with
        | none => simp only [hc2] at h; cases h
        | some c2 =>
          simp only [hc2, Option.some.injEq] at h
          rw [← h]
          exact nonNegLocalDepths_push _ _ _ _ step1 h1 (Nat.mod_le _ _)
      · simp only [Option.some.injEq] at h
        rw [← h]
        exact step1
  · rw [if_pos hr] at h
    simp only [Option.some.injEq] at h
    rw [← h]; exact hd

/-- C39: every contact depth of the box and capsule mesh colliders is not negative, given a
reciprocal square root `dRecipSqrt` that is never negative. For a candidate triangle of the
box collider the depth `m_fBestDepth` that the edge-edge branch of `_cldClipping` passes to
`GenerateContact` and the clamped depths of the triangle-normal and box-face branches are
not negative; `GenerateContact` called with such a depth keeps the stored depths not
negative, also where it replaces the depth of a duplicate; so `_cldTestOneTriangle` keeps
them not negative. The clamped depths of `_cldTestOneTriangleVSCapsule` are not negative, that
part returns when `dEpsilon > 0`, and the local contacts stored keep depths that are not
negative. -/
theorem contact_depths_nonneg (dRecipSqrt : ℚ → ℚ) (hR : ∀ x, 0 ≤ dRecipSqrt x) :
    (∀ (dV3E : Nat) (dEpsilon MAXVALUE : ℚ) (dNormalize3 : dVector3 → Option dVector3)
      (b : sTrimeshBoxColliderBox) (a : sTrimeshBoxColliderAxes) (e : sTrimeshBoxColliderEdges)
      (Triint : Int) (callbackResult indeterminate : Bool) (v0 v1 v2 : dVector3)
      (tri : BoxCandidate),
      b.candidate dV3E dEpsilon MAXVALUE dRecipSqrt dNormalize3 a e Triint callbackResult
        indeterminate v0 v1 v2 = some tri →
      (tri.separatingAxes = true → 4 < tri.m_iBestAxis → 0 ≤ tri.m_fBestDepth) ∧
      (∀ q, q ∈ tri.clippedOnTriangle → 0 ≤ q.2) ∧ (∀ q, q ∈ tri.clippedOnBox → 0 ≤ q.2) ∧
      ∀ (d d1 : sTrimeshBoxColliderData) (r : Bool),
        NonNegDepths d.m_ContactGeoms d.m_ctContacts →
        d._cldTestOneTriangle dEpsilon tri = some (r, d1) →
        NonNegDepths d1.m_ContactGeoms d1.m_ctContacts) ∧
    (∀ (dEpsilon : ℚ) (Flags : Nat) (C : List dContactGeom) (g1 g2 : Nat) (TriIndex : Int)
      (p nrm : dVector3) (dep : ℚ) (count : Nat) (C1 : List dContactGeom) (count1 : Nat),
      0 ≤ dep → NonNegDepths C count →
      GenerateContact dEpsilon Flags C g1 g2 TriIndex p nrm dep count = some (C1, count1) →
      NonNegDepths C1 count1) ∧
    (∀ (dEpsilon : ℚ) (m_vCapsulePosition m_vNormal : dVector3) (m_fCapsuleRadius : ℚ)
      (m_vSizeOnAxis : dVector3) (m_fBestCenterrt : ℚ) (t : CapsuleTriangle) (Triint : Int),
      (0 < dEpsilon → ∃ c, _cldTestOneTriangleVSCapsule_clip dEpsilon m_vCapsulePosition
        m_vNormal m_fCapsuleRadius m_vSizeOnAxis m_fBestCenterrt t Triint = some c) ∧
      ∀ c, _cldTestOneTriangleVSCapsule_clip dEpsilon m_vCapsulePosition m_vNormal
          m_fCapsuleRadius m_vSizeOnAxis m_fBestCenterrt t Triint = some c →
        0 ≤ c.fDepth0 ∧ 0 ≤ c.fDepth1 ∧
        ∀ (d d1 : sTrimeshCapsuleColliderData),
          NonNegLocalDepths d.m_gLocalContacts d.m_ctContacts →
          d._cldTestOneTriangleVSCapsule c = some d1 →
          NonNegLocalDepths d1.m_gLocalContacts d1.m_ctContacts) := by
  refine ⟨?_, ?_, ?_⟩
  · intro dV3E dEpsilon MAXVALUE dNormalize3 b a e Triint callbackResult indeterminate v0 v1 v2
      tri h
    obtain ⟨k1, k2, k3⟩ := candidate_nonneg dV3E dEpsilon MAXVALUE dRecipSqrt hR dNormalize3 b a
      e Triint callbackResult indeterminate v0 v1 v2 tri h
    exact ⟨k1, k2, k3, fun d d1 r hd hh =>
      cldTestOneTriangle_nonneg dEpsilon d d1 tri r k1 k2 k3 hd hh⟩
  · intro dEpsilon Flags C g1 g2 TriIndex p nrm dep count C1 count1 hdep hC h
    exact GenerateContact_nonneg dEpsilon Flags C g1 g2 TriIndex p nrm dep count C1 count1 hdep
      hC h
  · intro dEpsilon m_vCapsulePosition m_vNormal m_fCapsuleRadius m_vSizeOnAxis m_fBestCenterrt
      t Triint
    obtain ⟨k1, k2⟩ := cldTestOneTriangleVSCapsule_clip_nonneg dEpsilon m_vCapsulePosition
      m_vNormal m_fCapsuleRadius m_vSizeOnAxis m_fBestCenterrt t Triint
    refine ⟨k2, ?_⟩
    intro c hc
    obtain ⟨x0, x1⟩ := k1 c hc
    exact ⟨x0, x1, fun d d1 hd hh => cldTestOneTriangleVSCapsule_nonneg d d1 c x0 x1 hd hh⟩

/-- The sample reciprocal square root is never negative. -/
theorem sampleRecipSqrt_nonneg : ∀ x, 0 ≤ sampleRecipSqrt x := by
  intro x
  unfold sampleRecipSqrt
  split_ifs <;> norm_num

/-- The sample triangle yields a candidate with the edge axis 6 as best axis and the depth
one tenth. -/
theorem sample_candidate :
    ∃ tri, sampleBox.candidate 4 (1 / 100000) 1000000 sampleRecipSqrt
      (fun v => some (v.scale (1 / 5))) ⟨⟨0, 0, 0⟩, 0, 0⟩
      ⟨⟨0, 0, 0⟩, ⟨0, 0, 0⟩, ⟨0, 0, 0⟩, ⟨0, 0, 0⟩⟩ 0 true false sampleEdgeTriangle.1
      sampleEdgeTriangle.2.1 sampleEdgeTriangle.2.2 = some tri ∧
      tri.separatingAxes = true ∧ tri.m_iBestAxis = 6 ∧ tri.m_fBestDepth = 1 / 10 := by
  unfold sTrimeshBoxColliderBox.candidate
  simp only [sample_separatingAxes]
  simp [sTrimeshBoxColliderBox._cldClipping_edge, sTrimeshBoxColliderBox._cldClipping_lines]

/-- C39 with the sample reciprocal square root, on the sample box and the sample triangle
whose best axis is an edge axis with the depth one tenth. -/
theorem contact_depths_nonneg_witness :
    (∀ x, 0 ≤ sampleRecipSqrt x) ∧
    ∀ tri, sampleBox.candidate 4 (1 / 100000) 1000000 sampleRecipSqrt
        (fun v => some (v.scale (1 / 5))) ⟨⟨0, 0, 0⟩, 0, 0⟩
        ⟨⟨0, 0, 0⟩, ⟨0, 0, 0⟩, ⟨0, 0, 0⟩, ⟨0, 0, 0⟩⟩ 0 true false sampleEdgeTriangle.1
        sampleEdgeTriangle.2.1 sampleEdgeTriangle.2.2 = some tri →
      (tri.separatingAxes = true → 4 < tri.m_iBestAxis → 0 ≤ tri.m_fBestDepth) ∧
      (∀ q, q ∈ tri.clippedOnTriangle → 0 ≤ q.2) ∧ (∀ q, q ∈ tri.clippedOnBox → 0 ≤ q.2) ∧
      ∀ (d d1 : sTrimeshBoxColliderData) (r : Bool),
        NonNegDepths d.m_ContactGeoms d.m_ctContacts →
        d._cldTestOneTriangle (1 / 100000) tri = some (r, d1) →
        NonNegDepths d1.m_ContactGeoms d1.m_ctContacts :=
  ⟨sampleRecipSqrt_nonneg, fun tri h =>
    (contact_depths_nonneg sampleRecipSqrt sampleRecipSqrt_nonneg).1 4 (1 / 100000) 1000000
      (fun v => some (v.scale (1 / 5))) sampleBox ⟨⟨0, 0, 0⟩, 0, 0⟩
      ⟨⟨0, 0, 0⟩, ⟨0, 0, 0⟩, ⟨0, 0, 0⟩, ⟨0, 0, 0⟩⟩ 0 true false sampleEdgeTriangle.1
      sampleEdgeTriangle.2.1 sampleEdgeTriangle.2.2 tri h⟩

/-! ### Ray / triangle overlap in binary32 arithmetic, and `GenerateContact` with a small `dEpsilon` -/

/-- Values of the binary32 rounding at ties, at the ends of the range and for a quotient:
2^24 + 1 and 2^24 + 3 go to the even neighbours, 2^128 overflows, the largest finite value
is kept, half of the least subnormal goes to zero, three halves of it to twice it, and
`1.0f / 3.0f` is `0x3EAAAAAB`; the difference of two infinities is a NaN. -/
theorem F32_round_values :
    F32.ofInt 16777217 = F32.ofInt 16777216 ∧ F32.ofInt 16777219 = F32.ofInt 16777220 ∧
    F32.ofScaled 1 128 = F32.inf false ∧
    F32.ofScaled 16777215 104 = F32.fin false 16777215 104 ∧
    F32.ofScaled 1 (-150) = F32.fin false 0 (-149) ∧
    F32.ofScaled 3 (-150) = F32.fin false 2 (-149) ∧
    (F32.ofInt 1).div (F32.ofInt 3) = F32.fin false 11184811 (-25) ∧
    (F32.inf false).sub (F32.inf false) = F32.nan := by
  decide

/-- The constant `LOCAL_EPSILON_F` is within half a unit of its last digit of 1e-6. -/
theorem LOCAL_EPSILON_F_nearest :
    LOCAL_EPSILON_F.toRat = some (8796093 / 2 ^ 43) ∧
    |(8796093 : ℚ) / 2 ^ 43 - 1 / 1000000| < 1 / 2 ^ 44 := by
  constructor
  · simp only [LOCAL_EPSILON_F, F32.toRat]
    norm_num
  · rw [abs_lt]
    constructor <;> norm_num

/-- The exact values of the sample points in binary32. -/
theorem samplePointsF_exact :
    (PointF.ofInts 0 0 0).toPoint = some ⟨0, 0, 0⟩ ∧
    (PointF.ofInts 1 0 0).toPoint = some ⟨1, 0, 0⟩ ∧
    (PointF.ofInts 3 5 0).toPoint = some ⟨3, 5, 0⟩ ∧
    (PointF.ofInts 3 5 1).toPoint = some ⟨3, 5, 1⟩ ∧
    (PointF.ofInts 0 0 16777215).toPoint = some ⟨0, 0, 16777215⟩ ∧
    samplePointHugeF.toPoint = some ⟨0, 2 ^ 100, 2 ^ 100⟩ := by
  have h0 : F32.ofInt 0 = F32.fin false 0 (-149) := by decide
  have h1 : F32.ofInt 1 = F32.fin false 8388608 (-23) := by decide
  have h3 : F32.ofInt 3 = F32.fin false 12582912 (-22) := by decide
  have h5 : F32.ofInt 5 = F32.fin false 10485760 (-21) := by decide
  have hm : F32.ofInt 16777215 = F32.fin false 16777215 0 := by decide
  have hh : F32.ofScaled 1 100 = F32.fin false 8388608 77 := by decide
  simp only [PointF.toPoint, PointF.ofInts, samplePointHugeF, h0, h1, h3, h5, hm, hh,
    F32.toRat, Option.some_bind]
  norm_num

set_option maxRecDepth 100000 in
/-- C6 does not hold in binary32 arithmetic. For the triangle (0,0,0), (3,5,0), (3,5,1) and
the ray from (0,0,0) along (0,0,16777215), which lies in the plane of the triangle, the exact
determinant is 0 and the conditions of the specification fail; with every operation rounded to
`float` the products 3 * 16777215 and 5 * 16777215 are rounded, `det` comes out as 16, above
the bound, and `RayTriOverlap` returns TRUE. For the triangle (0,0,0), (1,0,0),
`(0, 2^100, 2^100)` and the ray from (0,0,0) along `(0, 2^100, 2^100)` the exact determinant
is 0 as well; in `float` the cross product holds the difference of two infinities, `det` is a
NaN, every comparison with it is false, and `RayTriOverlap` returns TRUE with NaN in the
stabbed face. -/
theorem RayTriOverlap_float_not_spec :
    ((PointF.ofInts 3 5 0).sub (PointF.ofInts 0 0 0)).dot
        ((PointF.ofInts 0 0 16777215).cross ((PointF.ofInts 3 5 1).sub (PointF.ofInts 0 0 0))) =
      F32.ofInt 16 ∧
    (sampleRayF.RayTriOverlap (PointF.ofInts 0 0 0) (PointF.ofInts 3 5 0)
      (PointF.ofInts 3 5 1)).1 = true ∧
    specDet ⟨0, 0, 16777215⟩ ⟨0, 0, 0⟩ ⟨3, 5, 0⟩ ⟨3, 5, 1⟩ = 0 ∧
    ¬ specAccepts true ⟨0, 0, 0⟩ ⟨0, 0, 16777215⟩ ⟨0, 0, 0⟩ ⟨3, 5, 0⟩ ⟨3, 5, 1⟩ ∧
    ((PointF.ofInts 1 0 0).sub (PointF.ofInts 0 0 0)).dot
        (samplePointHugeF.cross (samplePointHugeF.sub (PointF.ofInts 0 0 0))) = F32.nan ∧
    ((sampleRayHugeF.RayTriOverlap (PointF.ofInts 0 0 0) (PointF.ofInts 1 0 0)
      samplePointHugeF).1 = true ∧
     (sampleRayHugeF.RayTriOverlap (PointF.ofInts 0 0 0) (PointF.ofInts 1 0 0)
      samplePointHugeF).2.mStabbedFace = ⟨7, F32.nan, F32.nan, F32.nan⟩) ∧
    ¬ specAccepts true ⟨0, 0, 0⟩ ⟨0, 2 ^ 100, 2 ^ 100⟩ ⟨0, 0, 0⟩ ⟨1, 0, 0⟩
      ⟨0, 2 ^ 100, 2 ^ 100⟩ := by
  refine ⟨by decide, by decide, ?_, ?_, by decide, ⟨by decide, by decide⟩, ?_⟩
  · simp only [specDet, Point.sub, Point.dot, Point.cross]
    norm_num
  · intro h
    have hd := h.1
    simp only [specDet, Point.sub, Point.dot, Point.cross, Point.SquareMagnitude, if_true] at hd
    norm_num at hd
  · intro h
    have hd := h.1
    simp only [specDet, Point.sub, Point.dot, Point.cross, Point.SquareMagnitude, if_true] at hd
    norm_num at hd

/-- C11 does not hold for a small `dEpsilon`. With `dEpsilon` = 1e-7, cap 2 and the
contacts-unimportant flag clear, two calls of `GenerateContact` at the same position with the
unit normals (0, 0, 1) and (2000/1000001, 0, 999999/1000001) store two contacts: for the
second call `1 - |n.n'|` is 2/1000001, not below `dEpsilon`, so the scan finds no duplicate.
The two stored contacts have positions closer than 1e-4 and normals within 1e-4 of
parallel. -/
theorem GenerateContact_near_pair_stored :
    (2 : Nat) &&& CONTACTS_UNIMPORTANT = 0 ∧
    GenerateContact_calls (1 / 10000000) 2
        [⟨0, 1, 3, ⟨0, 0, 0⟩, ⟨0, 0, 1⟩, 1⟩,
         ⟨0, 1, 4, ⟨0, 0, 0⟩, ⟨2000 / 1000001, 0, 999999 / 1000001⟩, 1⟩]
        [sampleContact, sampleContact] 0 =
      some ([⟨⟨0, 0, 0⟩, ⟨0, 0, 1⟩, 1, 0, 1, 3, -1⟩,
        ⟨⟨0, 0, 0⟩, ⟨2000 / 1000001, 0, 999999 / 1000001⟩, 1, 0, 1, 4, -1⟩], 2) ∧
    ((⟨0, 0, 0⟩ : dVector3).sub ⟨0, 0, 0⟩).SquareMagnitude < (1 / 10000) ^ 2 ∧
    1 - |(⟨0, 0, 1⟩ : dVector3).dot ⟨2000 / 1000001, 0, 999999 / 1000001⟩| < 1 / 10000 ∧
    (⟨2000 / 1000001, 0, 999999 / 1000001⟩ : dVector3).SquareMagnitude = 1 := by
  have hm : (2 : Nat) &&& 65535 = 2 := by decide
  have hf : (2 : Nat) &&& 2147483648 = 0 := by decide
  have e1 : GenerateContact (1 / 10000000) 2 [sampleContact, sampleContact] 0 1 3 ⟨0, 0, 0⟩
      ⟨0, 0, 1⟩ 1 0 = some ([⟨⟨0, 0, 0⟩, ⟨0, 0, 1⟩, 1, 0, 1, 3, -1⟩, sampleContact], 1) := by
    simp [GenerateContact, GenerateContact_scan, SAFECONTACT, SAFECONTACT_store, sampleContact,
      NUMC_MASK, CONTACTS_UNIMPORTANT, hm, hf]
  have e2 : GenerateContact (1 / 10000000) 2
      [⟨⟨0, 0, 0⟩, ⟨0, 0, 1⟩, 1, 0, 1, 3, -1⟩, sampleContact] 0 1 4 ⟨0, 0, 0⟩
      ⟨2000 / 1000001, 0, 999999 / 1000001⟩ 1 1 =
      some ([⟨⟨0, 0, 0⟩, ⟨0, 0, 1⟩, 1, 0, 1, 3, -1⟩,
        ⟨⟨0, 0, 0⟩, ⟨2000 / 1000001, 0, 999999 / 1000001⟩, 1, 0, 1, 4, -1⟩], 2) := by
    have hn : ¬ (1 - |(999999 : ℚ) / 1000001| < 10000000⁻¹) := by
      rw [abs_of_nonneg (by norm_num)]
      norm_num
    simp [GenerateContact, GenerateContact_scan, SAFECONTACT, SAFECONTACT_store, sampleContact,
      NUMC_MASK, CONTACTS_UNIMPORTANT, hm, hf, Point.sub, Point.dot, Point.SquareMagnitude]
    rw [if_neg hn]
    simp
  refine ⟨by decide, ?_, ?_, ?_, ?_⟩
  · simp only [GenerateContact_calls, e1, e2]
  · simp only [Point.sub, Point.SquareMagnitude]; norm_num
  · simp only [Point.dot]
    norm_num [abs_of_nonneg]
  · simp only [Point.SquareMagnitude]; norm_num

end Opcode
